import Mathlib

/-!
# OMGrit_RIPS_fork: the KKT block kernels of the advection-diffusion examples

Shallow embedding of `examples/advec-diff-upwind-rms.c` (namespace `Upwind`), of the
operator library and the driver of `examples/block_gs.c` (namespace `BlockGS`) and of
`examples/deliverables/visc-burgers-serial.c` (namespace `Burgers`).

Conventions of the embedding.

* A C `double` is an element of a linearly ordered field `K` (exact arithmetic); every
  definition is computable and can be run at `K = ℚ`.
* A C array `double *` is a `List K`.  A read `x[i]` is `x.getD i 0`, a write `x[i] = v` is
  `x.set i v`.  The source never reads or writes outside its blocks when the blocks have
  the length it is told (`M`, resp. `mspace`); the theorems assume these lengths.
* `int` sizes and indices are `Nat`; `M - 1`, `M - 2` are only used where the source
  needs `M ≥ 2`.
* A C `for` loop is a left fold of its body over the list of the indices it visits, in the
  order in which it visits them.
* The function-like macros `g(dt,dx)` and `b(dt,dx,nu)` are expanded textually, as the
  preprocessor does.
* A `braid_Vector` that may be `NULL` is an `Option`.
* Where a property is about array bounds, the routines are embedded a second time with
  checked accesses (results in `Option`, `none` for an index outside its array); where it
  is about the arrays a kernel writes, the kernels are embedded on an explicit memory
  (namespace `Mem`).
* The loop test and the report of `main` of `block_gs.c` tell non-finite doubles apart:
  there a `double` is a `c_double` (finite value, infinity or NaN).
-/

namespace OMGrit

/-! ## Loops -/

/-- The loop `for (i = lo; i < hi; i++) s = body i s`. -/
def forUp {σ : Type} (lo hi : Nat) (body : Nat → σ → σ) (s : σ) : σ :=
  (List.range' lo (hi - lo)).foldl (fun acc i => body i acc) s

/-- The loop `for (i = n - 1; i >= 0; i--) s = body i s`. -/
def forDown {σ : Type} (n : Nat) (body : Nat → σ → σ) (s : σ) : σ :=
  (List.range n).reverse.foldl (fun acc i => body i acc) s

section VectorUtilities

variable {K : Type} [LinearOrderedField K]

/-! ## Vector utility routines (shared verbatim by both example files) -/

/-- `vec_create`: a fresh block of `size` doubles.  `malloc` leaves the contents
unspecified; every caller overwrites an entry before reading it, the model fills with `0`. -/
def vec_create (size : Nat) : List K :=
  List.replicate size 0

/-- `vec_copy`: `outvec[i] = invec[i]` for `0 ≤ i < size`. -/
def vec_copy (size : Nat) (invec outvec : List K) : List K :=
  forUp 0 size (fun i out => out.set i (invec.getD i 0)) outvec

/-- `vec_axpy`: `y[i] = y[i] + alpha*x[i]` for `0 ≤ i < size`. -/
def vec_axpy (size : Nat) (alpha : K) (x y : List K) : List K :=
  forUp 0 size (fun i y => y.set i (y.getD i 0 + alpha * x.getD i 0)) y

/-- `vec_scale`: `x[i] = alpha*x[i]` for `0 ≤ i < size`. -/
def vec_scale (size : Nat) (alpha : K) (x : List K) : List K :=
  forUp 0 size (fun i x => x.set i (alpha * x.getD i 0)) x

end VectorUtilities


/-! ## The common shape of the tridiagonal routines

Both example files contain the same four routines up to the values of the three stencil
coefficients.  The definitions below are those routines with the coefficients as
parameters; `apply_A`, `apply_Aadjoint`, `apply_Phi`, `apply_PhiAdjoint` and the LU
recurrence of `main` of either file unfold to them (`rfl`), and the algebra of the
factorization is proved once, on them. -/

section Tridiagonal

variable {K : Type} [LinearOrderedField K]

/-- Body of `apply_A` / `apply_Aadjoint` for sub-diagonal `A`, diagonal `B`,
super-diagonal `C`. -/
def tridiag_apply (A B C : K) (M : Nat) (u : List K) : List K :=
  let uold : List K := vec_copy M u (vec_create M)
  let u := u.set 0 (B * uold.getD 0 0 + C * uold.getD 1 0)
  let u := u.set (M - 1) (A * uold.getD (M - 2) 0 + B * uold.getD (M - 1) 0)
  forUp 1 (M - 1)
    (fun i u => u.set i (A * uold.getD (i - 1) 0 + B * uold.getD i 0 + C * uold.getD (i + 1) 0)) u

/-- Body of `apply_Phi` for super-diagonal `b` of the upper factor. -/
def lu_solve (b : K) (M : Nat) (u l a : List K) : List K :=
  let w : List K := vec_create M
  let f : List K := vec_copy M u (vec_create M)
  let w := w.set 0 (f.getD 0 0)
  let w := forUp 1 M (fun i w => w.set i (f.getD i 0 - l.getD (i - 1) 0 * w.getD (i - 1) 0)) w
  let u := u.set (M - 1) (w.getD (M - 1) 0 / a.getD (M - 1) 0)
  forDown (M - 1) (fun i u => u.set i ((w.getD i 0 - b * u.getD (i + 1) 0) / a.getD i 0)) u

/-- Body of `apply_PhiAdjoint` for super-diagonal `b` of the upper factor. -/
def lu_solve_adjoint (b : K) (M : Nat) (u l a : List K) : List K :=
  let w : List K := vec_create M
  let f : List K := vec_copy M u (vec_create M)
  let w := w.set 0 (f.getD 0 0 / a.getD 0 0)
  let w := forUp 1 M (fun i w => w.set i ((f.getD i 0 - w.getD (i - 1) 0 * b) / a.getD i 0)) w
  let u := u.set (M - 1) (w.getD (M - 1) 0)
  forDown (M - 1) (fun i u => u.set i (w.getD i 0 - l.getD i 0 * u.getD (i + 1) 0)) u

/-- Body of the LU recurrence of `main`: `ai[0] = d`, `li[i-1] = s/ai[i-1]`,
`ai[i] = ai[0] + k*li[i-1]`. -/
def lu_build (d s k : K) (mspace : Nat) : List K × List K :=
  let ai : List K := vec_create mspace
  let li : List K := vec_create (mspace - 1)
  let ai := ai.set 0 d
  forUp 1 mspace
    (fun i st =>
      let ai := st.1
      let li := st.2
      let li := li.set (i - 1) (s / ai.getD (i - 1) 0)
      let ai := ai.set i (ai.getD 0 0 + k * li.getD (i - 1) 0)
      (ai, li))
    (ai, li)

/-- The lists `l`, `a` hold the multipliers and the (non-zero) pivots of an LU
factorization of the tridiagonal matrix of order `M` with sub-diagonal `A`, diagonal `B`
and super-diagonal `C`. -/
def IsLU (A B C : K) (M : Nat) (l a : List K) : Prop :=
  (∀ i, i < M → a.getD i 0 ≠ 0) ∧ a.getD 0 0 = B ∧
    ∀ i, 1 ≤ i → i < M →
      l.getD (i - 1) 0 * a.getD (i - 1) 0 = A ∧ a.getD i 0 + C * l.getD (i - 1) 0 = B

/-- The sum `Σ_{i < M} x[i]*y[i]`, the dot product of two blocks of length `M`. -/
def dot (M : Nat) (x y : List K) : K :=
  ∑ i in Finset.range M, x.getD i 0 * y.getD i 0

end Tridiagonal

/-! ## `examples/advec-diff-upwind-rms.c` -/

namespace Upwind

section Operators

variable {K : Type} [LinearOrderedField K]

/-- `apply_Phi` (application of `A` inverse): solve `L w = u`, then `U x = w`; the result
is the new content of `u`.  Macro `b(dt,dx,nu)` is `nu*dt/(dx*dx)`. -/
def apply_Phi (dt dx nu : K) (M : Nat) (u l a : List K) : List K :=
  let w : List K := vec_create M
  let f : List K := vec_copy M u (vec_create M)
  let w := w.set 0 (f.getD 0 0)
  let w := forUp 1 M (fun i w => w.set i (f.getD i 0 - l.getD (i - 1) 0 * w.getD (i - 1) 0)) w
  let b : K := -nu * dt / (dx * dx)
  let u := u.set (M - 1) (w.getD (M - 1) 0 / a.getD (M - 1) 0)
  forDown (M - 1) (fun i u => u.set i ((w.getD i 0 - b * u.getD (i + 1) 0) / a.getD i 0)) u

/-- `apply_PhiAdjoint` (application of `A` inverse transpose): solve `Uᵀ w = u`, then
`Lᵀ x = w`; the result is the new content of `u`. -/
def apply_PhiAdjoint (dt dx nu : K) (M : Nat) (u l a : List K) : List K :=
  let w : List K := vec_create M
  let f : List K := vec_copy M u (vec_create M)
  let b : K := -nu * dt / (dx * dx)
  let w := w.set 0 (f.getD 0 0 / a.getD 0 0)
  let w := forUp 1 M (fun i w => w.set i ((f.getD i 0 - w.getD (i - 1) 0 * b) / a.getD i 0)) w
  let u := u.set (M - 1) (w.getD (M - 1) 0)
  forDown (M - 1) (fun i u => u.set i (w.getD i 0 - l.getD i 0 * u.getD (i + 1) 0)) u

/-- `apply_A`: multiply the block by the tridiagonal matrix with sub-diagonal `A`,
diagonal `B` and super-diagonal `C`; the result is the new content of `u`.
Macro `g(dt,dx)` is `dt/dx`. -/
def apply_A (dt dx nu : K) (M : Nat) (u : List K) : List K :=
  let A : K := -dt / dx - nu * dt / (dx * dx)
  let B : K := 1 + dt / dx + 2 * nu * dt / (dx * dx)
  let C : K := -nu * dt / (dx * dx)
  let uold : List K := vec_copy M u (vec_create M)
  let u := u.set 0 (B * uold.getD 0 0 + C * uold.getD 1 0)
  let u := u.set (M - 1) (A * uold.getD (M - 2) 0 + B * uold.getD (M - 1) 0)
  forUp 1 (M - 1)
    (fun i u => u.set i (A * uold.getD (i - 1) 0 + B * uold.getD i 0 + C * uold.getD (i + 1) 0)) u

/-- `apply_Aadjoint`: multiply the block by the transpose of the matrix of `apply_A`. -/
def apply_Aadjoint (dt dx nu : K) (M : Nat) (u : List K) : List K :=
  let A : K := -dt / dx - nu * dt / (dx * dx)
  let B : K := 1 + dt / dx + 2 * nu * dt / (dx * dx)
  let C : K := -nu * dt / (dx * dx)
  let uold : List K := vec_copy M u (vec_create M)
  let u := u.set 0 (B * uold.getD 0 0 + A * uold.getD 1 0)
  let u := u.set (M - 1) (C * uold.getD (M - 2) 0 + B * uold.getD (M - 1) 0)
  forUp 1 (M - 1)
    (fun i u => u.set i (C * uold.getD (i - 1) 0 + B * uold.getD i 0 + A * uold.getD (i + 1) 0)) u

/-- `apply_Uinv`: `u[i] /= dx*dt`. -/
def apply_Uinv (dt dx : K) (M : Nat) (u : List K) : List K :=
  forUp 0 M (fun i u => u.set i (u.getD i 0 / (dx * dt))) u

/-- `apply_Vinv`: `v[i] /= alpha*dx*dt`. -/
def apply_Vinv (dt dx alpha : K) (M : Nat) (v : List K) : List K :=
  forUp 0 M (fun i v => v.set i (v.getD i 0 / (alpha * dx * dt))) v

/-- `apply_D`: `v[i] *= dt` (`dx` and `nu` are not used by the source). -/
def apply_D (dt _dx _nu : K) (M : Nat) (v : List K) : List K :=
  forUp 0 M (fun i v => v.set i (v.getD i 0 * dt)) v

/-- `apply_DAdjoint`: `v[i] *= dt` (`dx` and `nu` are not used by the source). -/
def apply_DAdjoint (dt _dx _nu : K) (M : Nat) (v : List K) : List K :=
  forUp 0 M (fun i v => v.set i (v.getD i 0 * dt)) v

/-- The LU decomposition of `A` computed in `main`: returns `(ai, li)`, the pivots
`ai[0..mspace-1]` and the multipliers `li[0..mspace-2]`. -/
def build_LU (dt dx nu : K) (mspace : Nat) : List K × List K :=
  let ai : List K := vec_create mspace
  let li : List K := vec_create (mspace - 1)
  let ai := ai.set 0 (1 + dt / dx + 2 * nu * dt / (dx * dx))
  forUp 1 mspace
    (fun i s =>
      let ai := s.1
      let li := s.2
      let li := li.set (i - 1) (-(nu * dt / (dx * dx) + dt / dx) / ai.getD (i - 1) 0)
      let ai := ai.set i (ai.getD 0 0 + nu * dt / (dx * dx) * li.getD (i - 1) 0)
      (ai, li))
    (ai, li)

end Operators

section Kernel

variable {K : Type} [LinearOrderedField K]

/-- The struct `my_App` without its output bookkeeping (`w`, `ilower`, `iupper`, `npoints`),
which the local kernels do not touch: rank, control weight `alpha`, diffusion coefficient
`nu`, number of time steps, number of space points, target `U0`, and the pivots `ai` and
multipliers `li` built in `main`. -/
structure my_App (K : Type) where
  myid : Int
  alpha : K
  nu : K
  ntime : Nat
  mspace : Nat
  U0 : List K
  ai : List K
  li : List K

/-- `my_Vector`: `values[0]`, `values[1]`, `values[2]` are the state, control and adjoint
blocks, `values[3]` is the extra block. -/
structure my_Vector (K : Type) where
  values : List (List K)

/-- The part of `braid_TriStatus` the kernels use: the times returned by
`braid_TriStatusGetTriT`, the level, the time index, and the refinement factor written
by `braid_TriStatusSetRFactor`. -/
structure braid_TriStatus (K : Type) where
  t : K
  tprev : K
  tnext : K
  level : Int
  tindex : Int
  rfactor : Int

/-- `my_TriResidual` ("Compute A(u) - f"): the result is the new content of `r`. -/
def my_TriResidual (app : my_App K) (uleft uright f : Option (my_Vector K))
    (r : my_Vector K) (_homogeneous : Int) (status : braid_TriStatus K) : my_Vector K :=
  let mspace := app.mspace
  let alpha := app.alpha
  let u0 := app.U0
  let nu := app.nu
  let t := status.t
  let tprev := status.tprev
  let tnext := status.tnext
  -- Get the time-step size
  let dt : K := if t < tnext then tnext - t else t - tprev
  -- Get the space-step size
  let dx : K := 1 / (((mspace + 1 : Nat) : K))
  -- Compute residual on second row
  let utmp : List K := vec_copy mspace (r.values.getD 0 []) (vec_create mspace)
  let utmp2 : List K := vec_copy mspace (r.values.getD 2 []) (vec_create mspace)
  let utmp := vec_scale mspace (dx * dt) utmp
  let utmp2 := apply_Aadjoint dt dx nu mspace utmp2
  let utmp := vec_axpy mspace 1 utmp2 utmp
  let utmp := vec_axpy mspace (-dx * dt) u0 utmp
  let (utmp, utmp2) :=
    match uright with
    | some ur =>
      let utmp2 := vec_copy mspace (ur.values.getD 2 []) utmp2
      let utmp := vec_axpy mspace (-1) utmp2 utmp
      (utmp, utmp2)
    | none => (utmp, utmp2)
  let rtmp : List K := vec_copy mspace utmp (vec_create mspace)
  -- Compute residual on third row
  let utmp := vec_copy mspace (r.values.getD 1 []) utmp
  let utmp2 := vec_copy mspace (r.values.getD 2 []) utmp2
  let utmp := vec_scale mspace (alpha * dx * dt) utmp
  let utmp2 := apply_D dt dx nu mspace utmp2
  let utmp := vec_axpy mspace (-1) utmp2 utmp
  let rtmp2 : List K := vec_copy mspace utmp (vec_create mspace)
  -- Compute residual on fourth row
  let utmp := vec_copy mspace (r.values.getD 0 []) utmp
  let utmp2 := vec_copy mspace (r.values.getD 1 []) utmp2
  let utmp := apply_A dt dx nu mspace utmp
  let utmp2 := apply_D dt dx nu mspace utmp2
  let utmp := vec_axpy mspace (-1) utmp2 utmp
  let (utmp, utmp2) :=
    match uleft with
    | some ul =>
      let utmp2 := vec_copy mspace (ul.values.getD 0 []) utmp2
      let utmp := vec_axpy mspace (-1) utmp2 utmp
      (utmp, utmp2)
    | none =>
      let utmp := vec_axpy mspace (-1) u0 utmp
      (utmp, utmp2)
  let rtmp3 : List K := vec_copy mspace utmp (vec_create mspace)
  -- Compute residual on first row
  let utmp :=
    match uleft with
    | some ul =>
      let utmp := vec_copy mspace (ul.values.getD 0 []) utmp
      let utmp2 := vec_copy mspace (r.values.getD 2 []) utmp2
      let utmp := vec_scale mspace (dx * dt) utmp
      let utmp := vec_axpy mspace (-1) utmp2 utmp
      let utmp := vec_axpy mspace (-dx * dt) u0 utmp
      let utmp2 := vec_copy mspace (ul.values.getD 2 []) utmp2
      let utmp2 := apply_Aadjoint dt dx nu mspace utmp2
      vec_axpy mspace 1 utmp2 utmp
    | none => vec_scale mspace 0 utmp
  let rtmp4 : List K := vec_copy mspace utmp (vec_create mspace)
  let (rtmp, rtmp2, rtmp3, rtmp4) :=
    match f with
    | some fv =>
      (vec_axpy mspace (-1) (fv.values.getD 0 []) rtmp,
       vec_axpy mspace (-1) (fv.values.getD 1 []) rtmp2,
       vec_axpy mspace (-1) (fv.values.getD 2 []) rtmp3,
       vec_axpy mspace (-1) (fv.values.getD 3 []) rtmp4)
    | none => (rtmp, rtmp2, rtmp3, rtmp4)
  -- Copy temporary residual vector into residual
  let values := r.values
  let values := values.set 0 (vec_copy mspace rtmp (values.getD 0 []))
  let values := values.set 1 (vec_copy mspace rtmp2 (values.getD 1 []))
  let values := values.set 2 (vec_copy mspace rtmp3 (values.getD 2 []))
  let values := values.set 3 (vec_copy mspace rtmp4 (values.getD 3 []))
  { values := values }

/-- `my_TriSolve` ("Solve A(u) = f"): the result is the new content of `u` and the status
after `braid_TriStatusSetRFactor(status, 1)`. -/
def my_TriSolve (app : my_App K) (uleft uright f : Option (my_Vector K))
    (u : my_Vector K) (homogeneous : Int) (status : braid_TriStatus K) :
    my_Vector K × braid_TriStatus K :=
  let mspace := app.mspace
  let nu := app.nu
  let li := app.li
  let ai := app.ai
  let alpha := app.alpha
  let dW : List K := forUp 0 mspace (fun i dW => dW.set i 0) (vec_create mspace)
  let dV : List K := forUp 0 mspace (fun i dV => dV.set i 0) (vec_create mspace)
  let dU : List K := forUp 0 mspace (fun i dU => dU.set i 0) (vec_create mspace)
  -- Get the time-step size
  let t := status.t
  let tprev := status.tprev
  let tnext := status.tnext
  let dt : K := if t < tnext then tnext - t else t - tprev
  -- Get the space-step size
  let dx : K := 1 / (((mspace + 1 : Nat) : K))
  let storage1 : List K := vec_copy mspace (u.values.getD 0 []) (vec_create mspace)
  let storage2 : List K := vec_copy mspace (u.values.getD 1 []) (vec_create mspace)
  let storage3 : List K := vec_copy mspace (u.values.getD 2 []) (vec_create mspace)
  -- call our residual routine
  let u := my_TriResidual app uleft uright f u homogeneous status
  -- copy residual vectors into temp vectors
  let r1 : List K := vec_copy mspace (u.values.getD 0 []) (vec_create mspace)
  let r2 : List K := vec_copy mspace (u.values.getD 1 []) (vec_create mspace)
  let r3 : List K := vec_copy mspace (u.values.getD 2 []) (vec_create mspace)
  let r4 : List K := vec_copy mspace (u.values.getD 3 []) (vec_create mspace)
  -- solve for deltaW
  let dW := vec_axpy mspace (-1 / (dx * dt)) r4 dW
  let r1 := apply_A dt dx nu mspace r1
  let dW := vec_axpy mspace (1 / (dx * dt)) r1 dW
  let dW := vec_axpy mspace (-1 / (dx * alpha)) r2 dW
  let dW := vec_axpy mspace (-1) r3 dW
  -- apply c_tilde inverse
  let dW := vec_scale mspace (dx * dt * (1 / 2)) dW
  let dW := apply_Phi dt dx nu mspace dW li ai
  let dW := apply_PhiAdjoint dt dx nu mspace dW li ai
  -- update dU and dV based on dW
  let dV := vec_axpy mspace (1 / (alpha * dx * dt)) (u.values.getD 1 []) dV
  let dV := vec_axpy mspace (1 / (alpha * dx)) dW dV
  let dU := vec_axpy mspace (1 / (dx * dt)) (u.values.getD 0 []) dU
  let utmp : List K := vec_copy mspace dW (vec_create mspace)
  let utmp := apply_Aadjoint dt dx nu mspace utmp
  let dU := vec_axpy mspace (-1 / (dx * dt)) utmp dU
  -- Complete update of solution
  let storage1 := vec_axpy mspace (-1) dU storage1
  let storage2 := vec_axpy mspace (-1) dV storage2
  let storage3 := vec_axpy mspace (-1) dW storage3
  let values := u.values
  let values := values.set 0 (vec_copy mspace storage1 (values.getD 0 []))
  let values := values.set 1 (vec_copy mspace storage2 (values.getD 1 []))
  let values := values.set 2 (vec_copy mspace storage3 (values.getD 2 []))
  ({ values := values }, { status with rfactor := 1 })

/-- The time-step size both kernels derive from the status:
`if (t < tnext) dt = tnext - t; else dt = t - tprev;`. -/
def time_step (status : braid_TriStatus K) : K :=
  if status.t < status.tnext then status.tnext - status.t else status.t - status.tprev

/-- The space-step size both kernels derive from the app: `dx = 1/((double)(mspace+1))`. -/
def space_step (mspace : Nat) : K :=
  1 / (((mspace + 1 : Nat) : K))

/-- A vector as `my_Init` / `my_Clone` / `my_BufUnpack` allocate it: four blocks of
`mspace` doubles. -/
def well_formed (mspace : Nat) (v : my_Vector K) : Prop :=
  v.values.length = 4 ∧ ∀ k, k < 4 → (v.values.getD k []).length = mspace

/-- The value of `sizeof(double)`: 8 bytes (IEEE-754 binary64). Byte counts are natural
numbers. -/
def sizeof_double : Nat := 8

/-- `my_BufSize`: the value stored in `*size_ptr`, `mspace*4*sizeof(double)`. -/
def my_BufSize (app : my_App K) : Nat :=
  let mspace := app.mspace
  mspace * 4 * sizeof_double

/-- `my_BufPack`: the new content of `buffer` (seen as `double *dbuffer`) and the size
handed to `braid_BufferStatusSetSize`. -/
def my_BufPack (app : my_App K) (u : my_Vector K) (buffer : List K) : List K × Nat :=
  let dbuffer := buffer
  let mspace := app.mspace
  let dbuffer := forUp 0 mspace
    (fun i dbuffer =>
      let dbuffer := dbuffer.set i ((u.values.getD 0 []).getD i 0)
      let dbuffer := dbuffer.set (mspace + i) ((u.values.getD 1 []).getD i 0)
      let dbuffer := dbuffer.set (2 * mspace + i) ((u.values.getD 2 []).getD i 0)
      let dbuffer := dbuffer.set (3 * mspace + i) ((u.values.getD 3 []).getD i 0)
      dbuffer)
    dbuffer
  (dbuffer, mspace * 4 * sizeof_double)

/-- `my_BufUnpack`: the vector stored in `*u_ptr`: four freshly allocated blocks of
`mspace` doubles filled from the buffer. -/
def my_BufUnpack (app : my_App K) (buffer : List K) : my_Vector K :=
  let dbuffer := buffer
  let mspace := app.mspace
  let values : List (List K) := List.replicate 4 []
  let values := forUp 0 4 (fun i values => values.set i (vec_create mspace)) values
  let values := forUp 0 mspace
    (fun i values =>
      let values := values.set 0 ((values.getD 0 []).set i (dbuffer.getD i 0))
      let values := values.set 1 ((values.getD 1 []).set i (dbuffer.getD (mspace + i) 0))
      let values := values.set 2 ((values.getD 2 []).set i (dbuffer.getD (2 * mspace + i) 0))
      let values := values.set 3 ((values.getD 3 []).set i (dbuffer.getD (3 * mspace + i) 0))
      values)
    values
  { values := values }

end Kernel

end Upwind

/-! ## `examples/block_gs.c`: the operator library -/

namespace BlockGS

section Operators

variable {K : Type} [LinearOrderedField K]

/-- `apply_Phi` of `block_gs.c`: solve `L w = u`, then `U x = w`.
Macro `g(dt,dx)` is `dt/(2*dx)`, macro `b(dt,dx,nu)` is `nu*dt/(dx*dx)`. -/
def apply_Phi (dt dx nu : K) (M : Nat) (u l a : List K) : List K :=
  let w : List K := vec_create M
  let f : List K := vec_copy M u (vec_create M)
  let w := w.set 0 (f.getD 0 0)
  let w := forUp 1 M (fun i w => w.set i (f.getD i 0 - l.getD (i - 1) 0 * w.getD (i - 1) 0)) w
  let b : K := dt / (2 * dx) - nu * dt / (dx * dx)
  let u := u.set (M - 1) (w.getD (M - 1) 0 / a.getD (M - 1) 0)
  forDown (M - 1) (fun i u => u.set i ((w.getD i 0 - b * u.getD (i + 1) 0) / a.getD i 0)) u

/-- `apply_PhiAdjoint` of `block_gs.c`: solve `Uᵀ w = u`, then `Lᵀ x = w`. -/
def apply_PhiAdjoint (dt dx nu : K) (M : Nat) (u l a : List K) : List K :=
  let w : List K := vec_create M
  let f : List K := vec_copy M u (vec_create M)
  let b : K := dt / (2 * dx) - nu * dt / (dx * dx)
  let w := w.set 0 (f.getD 0 0 / a.getD 0 0)
  let w := forUp 1 M (fun i w => w.set i ((f.getD i 0 - w.getD (i - 1) 0 * b) / a.getD i 0)) w
  let u := u.set (M - 1) (w.getD (M - 1) 0)
  forDown (M - 1) (fun i u => u.set i (w.getD i 0 - l.getD i 0 * u.getD (i + 1) 0)) u

/-- `apply_A` of `block_gs.c` (central differences for the advection term). -/
def apply_A (dt dx nu : K) (M : Nat) (u : List K) : List K :=
  let A : K := -dt / (2 * dx) - nu * dt / (dx * dx)
  let B : K := 1 + 2 * nu * dt / (dx * dx)
  let C : K := dt / (2 * dx) - nu * dt / (dx * dx)
  let uold : List K := vec_copy M u (vec_create M)
  let u := u.set 0 (B * uold.getD 0 0 + C * uold.getD 1 0)
  let u := u.set (M - 1) (A * uold.getD (M - 2) 0 + B * uold.getD (M - 1) 0)
  forUp 1 (M - 1)
    (fun i u => u.set i (A * uold.getD (i - 1) 0 + B * uold.getD i 0 + C * uold.getD (i + 1) 0)) u

/-- `apply_Aadjoint` of `block_gs.c`. -/
def apply_Aadjoint (dt dx nu : K) (M : Nat) (u : List K) : List K :=
  let A : K := -dt / (2 * dx) - nu * dt / (dx * dx)
  let B : K := 1 + 2 * nu * dt / (dx * dx)
  let C : K := dt / (2 * dx) - nu * dt / (dx * dx)
  let uold : List K := vec_copy M u (vec_create M)
  let u := u.set 0 (B * uold.getD 0 0 + A * uold.getD 1 0)
  let u := u.set (M - 1) (C * uold.getD (M - 2) 0 + B * uold.getD (M - 1) 0)
  forUp 1 (M - 1)
    (fun i u => u.set i (C * uold.getD (i - 1) 0 + B * uold.getD i 0 + A * uold.getD (i + 1) 0)) u

/-- The LU decomposition of `A` computed in `main` of `block_gs.c`: `(ai, li)`. -/
def build_LU (dt dx nu : K) (mspace : Nat) : List K × List K :=
  let ai : List K := vec_create mspace
  let li : List K := vec_create (mspace - 1)
  let ai := ai.set 0 (1 + 2 * nu * dt / (dx * dx))
  forUp 1 mspace
    (fun i s =>
      let ai := s.1
      let li := s.2
      let li := li.set (i - 1) (-(nu * dt / (dx * dx) + dt / (2 * dx)) / ai.getD (i - 1) 0)
      let ai := ai.set i (ai.getD 0 0 + (nu * dt / (dx * dx) - dt / (2 * dx)) * li.getD (i - 1) 0)
      (ai, li))
    (ai, li)

/-- `apply_Vinv` of `block_gs.c`: `v[i] /= alpha*dx*dt`. -/
def apply_Vinv (dt dx alpha : K) (M : Nat) (v : List K) : List K :=
  forUp 0 M (fun i v => v.set i (v.getD i 0 / (alpha * dx * dt))) v

/-- `apply_D` of `block_gs.c`: `v[i] *= dt` (`dx`, `nu`, `l`, `a` are not used by the
source). -/
def apply_D (dt _dx _nu : K) (M : Nat) (v _l _a : List K) : List K :=
  forUp 0 M (fun i v => v.set i (v.getD i 0 * dt)) v

/-- `apply_DAdjoint` of `block_gs.c`: `v[i] *= dt` (`dx`, `nu`, `l`, `a` are not used by the
source). -/
def apply_DAdjoint (dt _dx _nu : K) (M : Nat) (v _l _a : List K) : List K :=
  forUp 0 M (fun i v => v.set i (v.getD i 0 * dt)) v

end Operators

section Driver

variable {K : Type} [LinearOrderedField K]

/-- The "FORWARD SOLVE" section of the loop body of `main`: the new state history `u`.
A row `u[i]` is read, transformed and written back. -/
def main_forward_solve (dt dx nu : K) (ntime mspace : Nat) (U0 li ai : List K)
    (v u : List (List K)) : List (List K) :=
  let u0 := vec_copy mspace (v.getD 0 []) (u.getD 0 [])
  let u0 := apply_D dt dx nu mspace u0 li ai
  let u0 := vec_axpy mspace 1 U0 u0
  let u0 := apply_Phi dt dx nu mspace u0 li ai
  let u := u.set 0 u0
  forUp 1 ntime
    (fun i u =>
      let ui := vec_copy mspace (v.getD i []) (u.getD i [])
      let ui := apply_D dt dx nu mspace ui li ai
      let ui := vec_axpy mspace 1 (u.getD (i - 1) []) ui
      let ui := apply_Phi dt dx nu mspace ui li ai
      u.set i ui)
    u

/-- The backward solve ("Solve L*w^(k+1)=k-Uu^(k+1)") of the loop body of `main`: the
new adjoint history `w`. -/
def main_backward_solve (dt dx nu : K) (ntime mspace : Nat) (U0 li ai : List K)
    (u w : List (List K)) : List (List K) :=
  let wl := vec_copy mspace (u.getD (ntime - 1) []) (w.getD (ntime - 1) [])
  let wl := vec_scale mspace (-1) wl
  let wl := vec_axpy mspace 1 U0 wl
  let wl := vec_scale mspace (dx * dt) wl
  let wl := apply_PhiAdjoint dt dx nu mspace wl li ai
  let w := w.set (ntime - 1) wl
  forDown (ntime - 1)
    (fun i w =>
      let wi := vec_copy mspace (u.getD i []) (w.getD i [])
      let wi := vec_scale mspace (-1) wi
      let wi := vec_axpy mspace 1 U0 wi
      let wi := vec_scale mspace (dx * dt) wi
      let wi := vec_axpy mspace 1 (w.getD (i + 1) []) wi
      let wi := apply_PhiAdjoint dt dx nu mspace wi li ai
      w.set i wi)
    w

/-- The control update ("Solve Vv^(k+1)=h-Dw^(k+1)") of the loop body of `main`: the new
control history `v`. -/
def main_control_update (dt dx nu alpha : K) (ntime mspace : Nat) (li ai : List K)
    (w v : List (List K)) : List (List K) :=
  forUp 0 ntime
    (fun i v =>
      let vi := vec_copy mspace (w.getD i []) (v.getD i [])
      let vi := apply_D dt dx nu mspace vi li ai
      let vi := apply_Vinv dt dx alpha mspace vi
      v.set i vi)
    v

/-- The accumulation `norm = norm + res[i][j]*res[i][j]` over `i < ntime`, `j < mspace`. -/
def main_accumulate (ntime mspace : Nat) (res : List (List K)) (norm : K) : K :=
  forUp 0 ntime
    (fun i norm =>
      forUp 0 mspace
        (fun j norm => norm + (res.getD i []).getD j 0 * (res.getD i []).getD j 0) norm)
    norm

/-- The "RESIDUAL" section of the loop body of `main`, entered with `norm = 0`: the new
scratch histories `res`, `res1` and the value of `norm` after `norm = sqrt(norm)`.  The
library function `sqrt` is a parameter. -/
def main_residual (sqrt : K → K) (dt dx nu alpha : K) (ntime mspace : Nat) (U0 : List K)
    (u v w res res1 : List (List K)) (norm : K) : List (List K) × List (List K) × K :=
  -- Compute residual for block Lu^(k+1)+Dv^(k+1)-g
  let r0 := vec_copy mspace (u.getD 0 []) (res.getD 0 [])
  let r0 := apply_A dt dx nu mspace r0
  let r0 := vec_axpy mspace (-1) U0 r0
  let s0 := vec_copy mspace (v.getD 0 []) (res1.getD 0 [])
  let s0 := vec_scale mspace (-1 * dt) s0
  let r0 := vec_axpy mspace 1 s0 r0
  let res := res.set 0 r0
  let res1 := res1.set 0 s0
  let (res, res1) := forUp 1 ntime
    (fun i (st : List (List K) × List (List K)) =>
      let res := st.1
      let res1 := st.2
      let ri := vec_copy mspace (u.getD i []) (res.getD i [])
      let ri := apply_A dt dx nu mspace ri
      let ri := vec_axpy mspace (-1) (u.getD (i - 1) []) ri
      let si := vec_copy mspace (v.getD i []) (res1.getD i [])
      let si := vec_scale mspace (-1 * dt) si
      let ri := vec_axpy mspace 1 si ri
      (res.set i ri, res1.set i si))
    (res, res1)
  let norm := main_accumulate ntime mspace res norm
  -- Compute residual for block Uu^(k+1)+L*w^(k+1)-k
  let (res, res1) := forUp 0 (ntime - 1)
    (fun i (st : List (List K) × List (List K)) =>
      let res := st.1
      let res1 := st.2
      let ri := vec_copy mspace (u.getD i []) (res.getD i [])
      let ri := vec_scale mspace (dx * dt) ri
      let si := vec_copy mspace (w.getD i []) (res1.getD i [])
      let si := apply_Aadjoint dt dx nu mspace si
      let ri := vec_axpy mspace 1 si ri
      let si := vec_copy mspace (w.getD (i + 1) []) si
      let ri := vec_axpy mspace (-1) si ri
      let si := vec_copy mspace U0 si
      let si := vec_scale mspace (dx * dt) si
      let ri := vec_axpy mspace (-1) si ri
      (res.set i ri, res1.set i si))
    (res, res1)
  let rl := vec_copy mspace (u.getD (ntime - 1) []) (res.getD (ntime - 1) [])
  let rl := vec_scale mspace (dx * dt) rl
  let sl := vec_copy mspace (w.getD (ntime - 1) []) (res1.getD (ntime - 1) [])
  let sl := apply_Aadjoint dt dx nu mspace sl
  let rl := vec_axpy mspace 1 sl rl
  let sl := vec_copy mspace U0 sl
  let sl := vec_scale mspace (dx * dt) sl
  let rl := vec_axpy mspace (-1) sl rl
  let res := res.set (ntime - 1) rl
  let res1 := res1.set (ntime - 1) sl
  let norm := main_accumulate ntime mspace res norm
  -- Compute residual for block D*w^(k+1)+Vv^(k+1)-0
  let (res, res1) := forUp 0 (ntime - 1)
    (fun i (st : List (List K) × List (List K)) =>
      let res := st.1
      let res1 := st.2
      let ri := vec_copy mspace (v.getD i []) (res.getD i [])
      let si := vec_copy mspace (w.getD i []) (res1.getD i [])
      let ri := vec_scale mspace (alpha * dx * dt) ri
      let si := vec_scale mspace (-1 * dt) si
      let ri := vec_axpy mspace 1 si ri
      (res.set i ri, res1.set i si))
    (res, res1)
  let norm := main_accumulate ntime mspace res norm
  let norm := sqrt norm
  (res, res1, norm)

/-- The norm the residual section is meant to compute, in the words of the
specification: the square root of the sum, over the whole history `i = 0 .. N-1` and all
entries, of the squares of the state residual `A u[i] - (U0 or u[i-1]) - dt v[i]`, the
adjoint residual `dx dt (u[i] - U0) + Aᵀ w[i] - w[i+1]` (`w[N] = 0`) and the control
residual `alpha dx dt v[i] - dt w[i]`. -/
def residual_norm_spec (sqrt : K → K) (dt dx nu alpha : K) (N M : Nat) (U0 : List K)
    (u v w : List (List K)) : K :=
  sqrt (∑ i in Finset.range N, ∑ j in Finset.range M,
    (((apply_A dt dx nu M (u.getD i [])).getD j 0
        - (if i = 0 then U0.getD j 0 else (u.getD (i - 1) []).getD j 0)
        - dt * (v.getD i []).getD j 0) ^ 2
      + (dx * dt * ((u.getD i []).getD j 0 - U0.getD j 0)
        + (apply_Aadjoint dt dx nu M (w.getD i [])).getD j 0
        - (if i + 1 < N then (w.getD (i + 1) []).getD j 0 else 0)) ^ 2
      + (alpha * dx * dt * (v.getD i []).getD j 0 - dt * (w.getD i []).getD j 0) ^ 2))

end Driver

end BlockGS


/-! ## Concrete inputs

Inputs at `K = ℚ` on which the theorems below are instantiated. -/

/-! ## Checked array accesses -/

section Checked

/-- A checked read `x[i]`: `none` when `i` is not an index of the array. -/
def checked_read {α : Type} (x : List α) (i : Nat) : Option α :=
  if h : i < x.length then some (x.get ⟨i, h⟩) else none

/-- A checked write `x[i] = v`: `none` when `i` is not an index of the array. -/
def checked_write {α : Type} (x : List α) (i : Nat) (v : α) : Option (List α) :=
  if i < x.length then some (x.set i v) else none

/-- Sequencing of two steps that may fail: the second step runs on the result of the first,
and the whole is `none` as soon as one step is. -/
def and_then {α β : Type} (x : Option α) (f : α → Option β) : Option β :=
  match x with
  | none => none
  | some a => f a

/-- The loop `for (i = lo; i < hi; i++)` with a body that may fail. -/
def forUpM {σ : Type} (lo hi : Nat) (body : Nat → σ → Option σ) (s : σ) : Option σ :=
  (List.range' lo (hi - lo)).foldlM (fun acc i => body i acc) s

/-- The loop `for (i = n - 1; i >= 0; i--)` with a body that may fail. -/
def forDownM {σ : Type} (n : Nat) (body : Nat → σ → Option σ) (s : σ) : Option σ :=
  (List.range n).reverse.foldlM (fun acc i => body i acc) s

end Checked

namespace Upwind

/-! ## The operator library of `advec-diff-upwind-rms.c` with checked array accesses

The same routines as above, every `x[i]` replaced by a checked read or write: the result is
`none` as soon as an index leaves its array. -/

namespace Checked

variable {K : Type} [LinearOrderedField K]

/-- `vec_copy` with checked accesses. -/
def vec_copy (size : Nat) (invec outvec : List K) : Option (List K) :=
  forUpM 0 size
    (fun i out =>
      and_then (checked_read invec i) fun x =>
      checked_write out i x)
    outvec

/-- `apply_Phi` with checked accesses to `u`, `w`, `f`, `l` and `a`. -/
def apply_Phi (dt dx nu : K) (M : Nat) (u l a : List K) : Option (List K) :=
  let w : List K := vec_create M
  and_then (vec_copy M u (vec_create M)) fun f =>
  and_then (checked_read f 0) fun f0 =>
  and_then (checked_write w 0 f0) fun w =>
  and_then (forUpM 1 M
    (fun i w =>
      and_then (checked_read f i) fun fi =>
      and_then (checked_read l (i - 1)) fun lp =>
      and_then (checked_read w (i - 1)) fun wp =>
      checked_write w i (fi - lp * wp))
    w) fun w =>
  let b : K := -nu * dt / (dx * dx)
  and_then (checked_read w (M - 1)) fun wl =>
  and_then (checked_read a (M - 1)) fun al =>
  and_then (checked_write u (M - 1) (wl / al)) fun u =>
  forDownM (M - 1)
    (fun i u =>
      and_then (checked_read w i) fun wi =>
      and_then (checked_read u (i + 1)) fun un =>
      and_then (checked_read a i) fun ai =>
      checked_write u i ((wi - b * un) / ai))
    u

/-- `apply_PhiAdjoint` with checked accesses to `u`, `w`, `f`, `l` and `a`. -/
def apply_PhiAdjoint (dt dx nu : K) (M : Nat) (u l a : List K) : Option (List K) :=
  let w : List K := vec_create M
  and_then (vec_copy M u (vec_create M)) fun f =>
  let b : K := -nu * dt / (dx * dx)
  and_then (checked_read f 0) fun f0 =>
  and_then (checked_read a 0) fun a0 =>
  and_then (checked_write w 0 (f0 / a0)) fun w =>
  and_then (forUpM 1 M
    (fun i w =>
      and_then (checked_read f i) fun fi =>
      and_then (checked_read w (i - 1)) fun wp =>
      and_then (checked_read a i) fun ai =>
      checked_write w i ((fi - wp * b) / ai))
    w) fun w =>
  and_then (checked_read w (M - 1)) fun wl =>
  and_then (checked_write u (M - 1) wl) fun u =>
  forDownM (M - 1)
    (fun i u =>
      and_then (checked_read w i) fun wi =>
      and_then (checked_read l i) fun li =>
      and_then (checked_read u (i + 1)) fun un =>
      checked_write u i (wi - li * un))
    u

/-- `apply_A` with checked accesses to `u` and `uold`. -/
def apply_A (dt dx nu : K) (M : Nat) (u : List K) : Option (List K) :=
  let A : K := -dt / dx - nu * dt / (dx * dx)
  let B : K := 1 + dt / dx + 2 * nu * dt / (dx * dx)
  let C : K := -nu * dt / (dx * dx)
  and_then (vec_copy M u (vec_create M)) fun uold =>
  and_then (checked_read uold 0) fun x0 =>
  and_then (checked_read uold 1) fun x1 =>
  and_then (checked_write u 0 (B * x0 + C * x1)) fun u =>
  and_then (checked_read uold (M - 2)) fun y0 =>
  and_then (checked_read uold (M - 1)) fun y1 =>
  and_then (checked_write u (M - 1) (A * y0 + B * y1)) fun u =>
  forUpM 1 (M - 1)
    (fun i u =>
      and_then (checked_read uold (i - 1)) fun p =>
      and_then (checked_read uold i) fun c =>
      and_then (checked_read uold (i + 1)) fun n =>
      checked_write u i (A * p + B * c + C * n))
    u

/-- `apply_Aadjoint` with checked accesses to `u` and `uold`. -/
def apply_Aadjoint (dt dx nu : K) (M : Nat) (u : List K) : Option (List K) :=
  let A : K := -dt / dx - nu * dt / (dx * dx)
  let B : K := 1 + dt / dx + 2 * nu * dt / (dx * dx)
  let C : K := -nu * dt / (dx * dx)
  and_then (vec_copy M u (vec_create M)) fun uold =>
  and_then (checked_read uold 0) fun x0 =>
  and_then (checked_read uold 1) fun x1 =>
  and_then (checked_write u 0 (B * x0 + A * x1)) fun u =>
  and_then (checked_read uold (M - 2)) fun y0 =>
  and_then (checked_read uold (M - 1)) fun y1 =>
  and_then (checked_write u (M - 1) (C * y0 + B * y1)) fun u =>
  forUpM 1 (M - 1)
    (fun i u =>
      and_then (checked_read uold (i - 1)) fun p =>
      and_then (checked_read uold i) fun c =>
      and_then (checked_read uold (i + 1)) fun n =>
      checked_write u i (C * p + B * c + A * n))
    u

end Checked

end Upwind

namespace BlockGS

/-! ## `examples/block_gs.c`: the loop of `main` and its report

The test `norm > tol` of the loop and the test `isinf(norm)||isnan(norm)` of the report are
the only places where the source tells non-finite doubles apart.  For them a `double` is a
finite value of `K`, one of the two infinities, or NaN, compared as IEEE 754 compares. -/

section Loop

variable {K : Type} [LinearOrderedField K]

/-- The values of a C `double`: a finite value, `+inf`, `-inf` or NaN. -/
inductive c_double (K : Type) where
  | finite (x : K)
  | inf
  | neg_inf
  | nan

/-- The C comparison `x > y`: false as soon as one operand is NaN. -/
def c_double.gt : c_double K → c_double K → Bool
  | .finite x, .finite y => decide (y < x)
  | .finite _, .neg_inf => true
  | .inf, .finite _ => true
  | .inf, .neg_inf => true
  | _, _ => false

/-- The C comparison `x <= y`: false as soon as one operand is NaN. -/
def c_double.le : c_double K → c_double K → Bool
  | .finite x, .finite y => decide (x ≤ y)
  | .finite _, .inf => true
  | .neg_inf, .finite _ => true
  | .neg_inf, .inf => true
  | .neg_inf, .neg_inf => true
  | .inf, .inf => true
  | _, _ => false

/-- The macro `isinf` of `math.h`. -/
def isinf : c_double K → Bool
  | .inf => true
  | .neg_inf => true
  | _ => false

/-- The macro `isnan` of `math.h`. -/
def isnan : c_double K → Bool
  | .nan => true
  | _ => false

/-- The loop `do { body; niters = niters + 1; } while(norm > tol && niters < maxiter);` of
`main`.  `body` is one pass over the loop body: from the histories it returns the new
histories and the value of `norm`; `niters` is the counter on entry (`0` in `main`).  The
result is the final state, the final `norm` and the final `niters`. -/
def main_do_while {S : Type} (body : S → S × c_double K) (tol : c_double K) (maxiter : Int)
    (s : S) (niters : Nat) : S × c_double K × Nat :=
  let r := body s
  let niters := niters + 1
  if c_double.gt r.2 tol = true ∧ (niters : Int) < maxiter then
    main_do_while body tol maxiter r.1 niters
  else
    (r.1, r.2, niters)
termination_by (maxiter - niters).toNat
decreasing_by
  simp_wf
  omega

/-- The number written to `out/block_gs.conv.<ntime>.<nu>`: `0.0` when
`isinf(norm)||isnan(norm)`, else `1.0`. -/
def main_convergence_indicator (norm : c_double K) : K :=
  if isinf norm || isnan norm then 0 else 1

/-- The histories `main` iterates on: state `u`, control `v`, adjoint `w` and the two
scratch histories `res`, `res1`. -/
structure main_state (K : Type) where
  u : List (List K)
  v : List (List K)
  w : List (List K)
  res : List (List K)
  res1 : List (List K)

/-- One pass over the body of the loop of `main`, in exact arithmetic: forward solve,
backward solve, control update and residual (entered with `norm = 0`). -/
def main_iteration (sqrt : K → K) (dt dx nu alpha : K) (ntime mspace : Nat) (U0 li ai : List K)
    (s : main_state K) : main_state K × c_double K :=
  let u := main_forward_solve dt dx nu ntime mspace U0 li ai s.v s.u
  let w := main_backward_solve dt dx nu ntime mspace U0 li ai u s.w
  let v := main_control_update dt dx nu alpha ntime mspace li ai w s.v
  let r := main_residual sqrt dt dx nu alpha ntime mspace U0 u v w s.res s.res1 0
  ({ u := u, v := v, w := w, res := r.1, res1 := r.2.1 }, c_double.finite r.2.2)

/-- The histories after `k` passes over the loop body. -/
def pass_state {S : Type} (body : S → S × c_double K) (s : S) : Nat → S
  | 0 => s
  | k + 1 => (body (pass_state body s k)).1

/-- The value of `norm` computed by pass `k` (`k = 1, 2, ...`). -/
def pass_norm {S : Type} (body : S → S × c_double K) (s : S) (k : Nat) : c_double K :=
  (body (pass_state body s (k - 1))).2

end Loop

end BlockGS

namespace Upwind

/-! ## The local kernels of `advec-diff-upwind-rms.c` on an explicit memory

To state which arrays a kernel writes, the kernels are embedded a second time as functions
on the memory: the list `h` of the arrays of doubles allocated so far.  A `double *` is the
position of its array in `h`; `vec_create` appends a new array; `vec_destroy` leaves the
memory as it is (a freed array is never used again).  The routines of the operator library
act on the array their pointer argument designates. Every call below has an argument that is
a scratch array created in the same kernel, so that no two arguments of a call overlap. -/

namespace Mem

variable {K : Type} [LinearOrderedField K]

/-- The struct `my_App` with its arrays as pointers. -/
structure my_App (K : Type) where
  myid : Int
  alpha : K
  nu : K
  ntime : Nat
  mspace : Nat
  U0 : Nat
  ai : Nat
  li : Nat

/-- The struct `my_Vector`: `values[0..3]` are pointers to the four blocks. -/
structure my_Vector where
  values : List Nat

/-- `vec_create(size, &p)`: the new array is appended; `p` is its position, the length of
the memory before the call. -/
def vec_create (size : Nat) (h : List (List K)) : List (List K) :=
  h ++ [OMGrit.vec_create size]

/-- `vec_copy(size, invec, outvec)`. -/
def vec_copy (size : Nat) (invec outvec : Nat) (h : List (List K)) : List (List K) :=
  h.set outvec (OMGrit.vec_copy size (h.getD invec []) (h.getD outvec []))

/-- `vec_axpy(size, alpha, x, y)`. -/
def vec_axpy (size : Nat) (alpha : K) (x y : Nat) (h : List (List K)) : List (List K) :=
  h.set y (OMGrit.vec_axpy size alpha (h.getD x []) (h.getD y []))

/-- `vec_scale(size, alpha, x)`. -/
def vec_scale (size : Nat) (alpha : K) (x : Nat) (h : List (List K)) : List (List K) :=
  h.set x (OMGrit.vec_scale size alpha (h.getD x []))

/-- `apply_Phi(dt, dx, nu, M, u, l, a)`. -/
def apply_Phi (dt dx nu : K) (M : Nat) (u l a : Nat) (h : List (List K)) : List (List K) :=
  h.set u (Upwind.apply_Phi dt dx nu M (h.getD u []) (h.getD l []) (h.getD a []))

/-- `apply_PhiAdjoint(dt, dx, nu, M, u, l, a)`. -/
def apply_PhiAdjoint (dt dx nu : K) (M : Nat) (u l a : Nat) (h : List (List K)) :
    List (List K) :=
  h.set u (Upwind.apply_PhiAdjoint dt dx nu M (h.getD u []) (h.getD l []) (h.getD a []))

/-- `apply_A(dt, dx, nu, M, u)`. -/
def apply_A (dt dx nu : K) (M : Nat) (u : Nat) (h : List (List K)) : List (List K) :=
  h.set u (Upwind.apply_A dt dx nu M (h.getD u []))

/-- `apply_Aadjoint(dt, dx, nu, M, u)`. -/
def apply_Aadjoint (dt dx nu : K) (M : Nat) (u : Nat) (h : List (List K)) : List (List K) :=
  h.set u (Upwind.apply_Aadjoint dt dx nu M (h.getD u []))

/-- `apply_D(dt, dx, nu, M, v)`. -/
def apply_D (dt dx nu : K) (M : Nat) (v : Nat) (h : List (List K)) : List (List K) :=
  h.set v (Upwind.apply_D dt dx nu M (h.getD v []))

/-- The loop `for(int i=0; i<mspace; i++) x[i]=0.0;` of `my_TriSolve`. -/
def zero_fill (mspace : Nat) (x : Nat) (h : List (List K)) : List (List K) :=
  h.set x (forUp 0 mspace (fun i x => x.set i 0) (h.getD x []))

/-- `my_TriResidual` on the memory: the result is the memory after the call. -/
def my_TriResidual (app : my_App K) (uleft uright f : Option my_Vector) (r : my_Vector)
    (_homogeneous : Int) (status : braid_TriStatus K) (h : List (List K)) : List (List K) :=
  let mspace := app.mspace
  let alpha := app.alpha
  let u0 := app.U0
  let nu := app.nu
  let t := status.t
  let tprev := status.tprev
  let tnext := status.tnext
  -- Get the time-step size
  let dt : K := if t < tnext then tnext - t else t - tprev
  -- Get the space-step size
  let dx : K := 1 / (((mspace + 1 : Nat) : K))
  -- Create temporary vectors
  let rtmp := h.length
  let h := vec_create mspace h
  let rtmp2 := h.length
  let h := vec_create mspace h
  let rtmp3 := h.length
  let h := vec_create mspace h
  let rtmp4 := h.length
  let h := vec_create mspace h
  let utmp := h.length
  let h := vec_create mspace h
  let utmp2 := h.length
  let h := vec_create mspace h
  -- Compute residual on second row
  let h := vec_copy mspace (r.values.getD 0 0) utmp h
  let h := vec_copy mspace (r.values.getD 2 0) utmp2 h
  let h := vec_scale mspace (dx * dt) utmp h
  let h := apply_Aadjoint dt dx nu mspace utmp2 h
  let h := vec_axpy mspace 1 utmp2 utmp h
  let h := vec_axpy mspace (-dx * dt) u0 utmp h
  let h :=
    match uright with
    | some ur =>
      let h := vec_copy mspace (ur.values.getD 2 0) utmp2 h
      vec_axpy mspace (-1) utmp2 utmp h
    | none => h
  let h := vec_copy mspace utmp rtmp h
  -- Compute residual on third row
  let h := vec_copy mspace (r.values.getD 1 0) utmp h
  let h := vec_copy mspace (r.values.getD 2 0) utmp2 h
  let h := vec_scale mspace (alpha * dx * dt) utmp h
  let h := apply_D dt dx nu mspace utmp2 h
  let h := vec_axpy mspace (-1) utmp2 utmp h
  let h := vec_copy mspace utmp rtmp2 h
  -- Compute residual on fourth row
  let h := vec_copy mspace (r.values.getD 0 0) utmp h
  let h := vec_copy mspace (r.values.getD 1 0) utmp2 h
  let h := apply_A dt dx nu mspace utmp h
  let h := apply_D dt dx nu mspace utmp2 h
  let h := vec_axpy mspace (-1) utmp2 utmp h
  let h :=
    match uleft with
    | some ul =>
      let h := vec_copy mspace (ul.values.getD 0 0) utmp2 h
      vec_axpy mspace (-1) utmp2 utmp h
    | none => vec_axpy mspace (-1) u0 utmp h
  let h := vec_copy mspace utmp rtmp3 h
  -- Compute residual on first row
  let h :=
    match uleft with
    | some ul =>
      let h := vec_copy mspace (ul.values.getD 0 0) utmp h
      let h := vec_copy mspace (r.values.getD 2 0) utmp2 h
      let h := vec_scale mspace (dx * dt) utmp h
      let h := vec_axpy mspace (-1) utmp2 utmp h
      let h := vec_axpy mspace (-dx * dt) u0 utmp h
      let h := vec_copy mspace (ul.values.getD 2 0) utmp2 h
      let h := apply_Aadjoint dt dx nu mspace utmp2 h
      vec_axpy mspace 1 utmp2 utmp h
    | none => vec_scale mspace 0 utmp h
  let h := vec_copy mspace utmp rtmp4 h
  let h :=
    match f with
    | some fv =>
      let h := vec_axpy mspace (-1) (fv.values.getD 0 0) rtmp h
      let h := vec_axpy mspace (-1) (fv.values.getD 1 0) rtmp2 h
      let h := vec_axpy mspace (-1) (fv.values.getD 2 0) rtmp3 h
      vec_axpy mspace (-1) (fv.values.getD 3 0) rtmp4 h
    | none => h
  -- Copy temporary residual vector into residual
  let h := vec_copy mspace rtmp (r.values.getD 0 0) h
  let h := vec_copy mspace rtmp2 (r.values.getD 1 0) h
  let h := vec_copy mspace rtmp3 (r.values.getD 2 0) h
  let h := vec_copy mspace rtmp4 (r.values.getD 3 0) h
  h

/-- `my_TriSolve` on the memory: the memory and the status after the call. -/
def my_TriSolve (app : my_App K) (uleft uright f : Option my_Vector) (u : my_Vector)
    (homogeneous : Int) (status : braid_TriStatus K) (h : List (List K)) :
    List (List K) × braid_TriStatus K :=
  let mspace := app.mspace
  let nu := app.nu
  let li := app.li
  let ai := app.ai
  let alpha := app.alpha
  let dW := h.length
  let h := vec_create mspace h
  let dU := h.length
  let h := vec_create mspace h
  let dV := h.length
  let h := vec_create mspace h
  let h := zero_fill mspace dW h
  let h := zero_fill mspace dV h
  let h := zero_fill mspace dU h
  -- Get the time-step size
  let t := status.t
  let tprev := status.tprev
  let tnext := status.tnext
  let dt : K := if t < tnext then tnext - t else t - tprev
  -- Get the space-step size
  let dx : K := 1 / (((mspace + 1 : Nat) : K))
  let storage1 := h.length
  let h := vec_create mspace h
  let storage2 := h.length
  let h := vec_create mspace h
  let storage3 := h.length
  let h := vec_create mspace h
  let h := vec_copy mspace (u.values.getD 0 0) storage1 h
  let h := vec_copy mspace (u.values.getD 1 0) storage2 h
  let h := vec_copy mspace (u.values.getD 2 0) storage3 h
  -- Create temporary vector
  let utmp := h.length
  let h := vec_create mspace h
  let r1 := h.length
  let h := vec_create mspace h
  let r2 := h.length
  let h := vec_create mspace h
  let r3 := h.length
  let h := vec_create mspace h
  let r4 := h.length
  let h := vec_create mspace h
  -- call our residual routine
  let h := my_TriResidual app uleft uright f u homogeneous status h
  -- copy residual vectors into temp vectors
  let h := vec_copy mspace (u.values.getD 0 0) r1 h
  let h := vec_copy mspace (u.values.getD 1 0) r2 h
  let h := vec_copy mspace (u.values.getD 2 0) r3 h
  let h := vec_copy mspace (u.values.getD 3 0) r4 h
  -- solve for deltaW
  let h := vec_axpy mspace (-1 / (dx * dt)) r4 dW h
  let h := apply_A dt dx nu mspace r1 h
  let h := vec_axpy mspace (1 / (dx * dt)) r1 dW h
  let h := vec_axpy mspace (-1 / (dx * alpha)) r2 dW h
  let h := vec_axpy mspace (-1) r3 dW h
  -- apply c_tilde inverse
  let h := vec_scale mspace (dx * dt * (1 / 2)) dW h
  let h := apply_Phi dt dx nu mspace dW li ai h
  let h := apply_PhiAdjoint dt dx nu mspace dW li ai h
  -- update dU and dV based on dW
  let h := vec_axpy mspace (1 / (alpha * dx * dt)) (u.values.getD 1 0) dV h
  let h := vec_axpy mspace (1 / (alpha * dx)) dW dV h
  let h := vec_axpy mspace (1 / (dx * dt)) (u.values.getD 0 0) dU h
  let h := vec_copy mspace dW utmp h
  let h := apply_Aadjoint dt dx nu mspace utmp h
  let h := vec_axpy mspace (-1 / (dx * dt)) utmp dU h
  -- Complete update of solution
  let h := vec_axpy mspace (-1) dU storage1 h
  let h := vec_axpy mspace (-1) dV storage2 h
  let h := vec_axpy mspace (-1) dW storage3 h
  let h := vec_copy mspace storage1 (u.values.getD 0 0) h
  let h := vec_copy mspace storage2 (u.values.getD 1 0) h
  let h := vec_copy mspace storage3 (u.values.getD 2 0) h
  (h, { status with rfactor := 1 })

/-- The arrays of `h'` at the positions below `n` that are not in `W` are those of `h`,
and `h'` has at least `n` arrays. -/
def unchanged_outside (W : List Nat) (n : Nat) (h h' : List (List K)) : Prop :=
  n ≤ h'.length ∧ ∀ p, p < n → p ∉ W → h'.getD p [] = h.getD p []

end Mem

end Upwind

namespace BlockGS

/-! ## `examples/block_gs.c`: the buffer routines, with checked array accesses -/

section Buffers

variable {K : Type} [LinearOrderedField K]

/-- The struct `my_App` of `block_gs.c` (without the output array `w`). -/
structure my_App (K : Type) where
  myid : Int
  alpha : K
  nu : K
  ntime : Nat
  mspace : Nat
  U0 : List K
  ai : List K
  li : List K

/-- The struct `my_Vector` of `block_gs.c`: one block `values`. -/
structure my_Vector (K : Type) where
  values : List K

/-- The value of `sizeof(double)`: 8 bytes. -/
def sizeof_double : Nat := 8

/-- `my_BufSize` of `block_gs.c`: the value stored in `*size_ptr`, `2*sizeof(double)`. -/
def my_BufSize (_app : my_App K) : Nat :=
  2 * sizeof_double

/-- `my_BufPack` of `block_gs.c` with checked accesses: the new content of the buffer and
the size handed to `braid_BufferStatusSetSize`, or `none` when an index leaves its array. -/
def my_BufPack (app : my_App K) (u : my_Vector K) (buffer : List K) : Option (List K × Nat) :=
  let dbuffer := buffer
  let mspace := app.mspace
  and_then (forUpM 0 mspace
    (fun i dbuffer =>
      and_then (checked_read u.values i) fun x =>
      checked_write dbuffer i x)
    dbuffer) fun dbuffer =>
  some (dbuffer, 2 * sizeof_double)

/-- `my_BufUnpack` of `block_gs.c` with checked accesses: the vector stored in `*u_ptr`, or
`none` when an index leaves its array.  `u->values` is allocated with
`malloc( 2*sizeof(double) )`: room for two doubles. -/
def my_BufUnpack (app : my_App K) (buffer : List K) : Option (my_Vector K) :=
  let dbuffer := buffer
  let mspace := app.mspace
  let values : List K := List.replicate (2 * sizeof_double / sizeof_double) 0
  and_then (forUpM 0 mspace
    (fun i values =>
      and_then (checked_read dbuffer i) fun x =>
      checked_write values i x)
    values) fun values =>
  some { values := values }

end Buffers

end BlockGS

section SpecSide

variable {K : Type} [LinearOrderedField K]

/-- Modelled from the spec (sections 4.1 and 7): a factorization build that treats a
non-positive step size or `M < 3` as a fatal configuration error, and otherwise returns what
`build` returns. -/
def buildFactorization_spec (build : K → K → K → Nat → List K × List K) (dt dx nu : K)
    (M : Nat) : Option (List K × List K) :=
  if dt ≤ 0 ∨ dx ≤ 0 ∨ M < 3 then none else some (build dt dx nu M)

end SpecSide

namespace Upwind

section VectorRoutines

variable {K : Type} [LinearOrderedField K]

/-- `my_SpatialNorm`: the value stored in `*norm_ptr`.  The library function `sqrt` is a
parameter. -/
def my_SpatialNorm (sqrt : K → K) (app : my_App K) (u : my_Vector K) : K :=
  let dot : K := 0
  let mspace := app.mspace
  let dot := forUp 0 mspace
    (fun i dot => dot + (u.values.getD 2 []).getD i 0 * (u.values.getD 2 []).getD i 0) dot
  sqrt dot

end VectorRoutines

namespace Mem

variable {K : Type} [LinearOrderedField K]

/-- `my_Sum` on the memory: the result is the memory after the call.  The loop
`for (int i = 0; i <= mspace-1; i++)` visits `i = 0 .. mspace-1`. -/
def my_Sum (app : my_App K) (alpha : K) (x : my_Vector) (beta : K) (y : my_Vector)
    (h : List (List K)) : List (List K) :=
  let mspace := app.mspace
  forUp 0 mspace
    (fun i h =>
      let h := h.set (y.values.getD 0 0) ((h.getD (y.values.getD 0 0) []).set i
        (alpha * (h.getD (x.values.getD 0 0) []).getD i 0
          + beta * (h.getD (y.values.getD 0 0) []).getD i 0))
      let h := h.set (y.values.getD 1 0) ((h.getD (y.values.getD 1 0) []).set i
        (alpha * (h.getD (x.values.getD 1 0) []).getD i 0
          + beta * (h.getD (y.values.getD 1 0) []).getD i 0))
      let h := h.set (y.values.getD 2 0) ((h.getD (y.values.getD 2 0) []).set i
        (alpha * (h.getD (x.values.getD 2 0) []).getD i 0
          + beta * (h.getD (y.values.getD 2 0) []).getD i 0))
      h)
    h

end Mem

end Upwind

namespace BlockGS

section Shapes

variable {K : Type}

/-- A history as `main` of `block_gs.c` allocates it: `ntime` rows of `mspace` doubles. -/
def history_shape (ntime mspace : Nat) (x : List (List K)) : Prop :=
  x.length = ntime ∧ ∀ i, i < ntime → (x.getD i []).length = mspace

/-- The five histories of a state of the loop of `main` as `main` allocates them. -/
def main_state_shape (ntime mspace : Nat) (s : main_state K) : Prop :=
  history_shape ntime mspace s.u ∧ history_shape ntime mspace s.v ∧
    history_shape ntime mspace s.w ∧ history_shape ntime mspace s.res ∧
    history_shape ntime mspace s.res1

end Shapes

end BlockGS

/-! ## `examples/deliverables/visc-burgers-serial.c`

The file has its own copies of `vec_create` and `vec_copy`, with the same text as those of
the other two files. -/

namespace Burgers

variable {K : Type} [LinearOrderedField K]

/-- `my_Step`: the block `utmp` the function returns.  The sizes `ntime`, `mspace` are `int`
in the source; `mspace-1` in `dx = 1.0/(mspace-1)` is an integer subtraction. -/
def my_Step (ntime mspace : Nat) (nu : K) (u : List K) : List K :=
  let dx : K := 1 / ((((mspace : Int) - 1 : Int)) : K)
  let dt : K := 1 / (ntime : K)
  let utmp : List K := vec_create mspace
  let utmp := vec_copy mspace u utmp
  let A : K := nu * dt / (dx * dx)
  let B : K := 1 - 2 * nu * dt / (dx * dx)
  let utmp := utmp.set 0 (B * u.getD 0 0 + A * u.getD 1 0
    - dt * (u.getD 1 0 * u.getD 1 0 / (4 * dx)))
  forUp 1 (mspace - 1)
    (fun i utmp => utmp.set i (B * u.getD i 0 + A * u.getD (i + 1) 0 + A * u.getD (i - 1) 0
      - dt * (u.getD (i + 1) 0 * u.getD (i + 1) 0 / (4 * dx))
      + dt * (u.getD (i - 1) 0 * u.getD (i - 1) 0 / (4 * dx))))
    utmp

/-- The part of `main` that fills the history `w`: allocation of `ntime` rows of `mspace`
doubles, initial condition in `w[0]` (the loop `for (int i = 0; i <= mspace-1; i++)`, with
the integer division `mspace/2`), and the time loop `w[i] = my_Step(ntime, mspace, nu,
w[i-1])` for `i = 1 .. ntime-1`.  The result is `w` as it is written to the output file. -/
def main_history (ntime mspace : Nat) (nu : K) : List (List K) :=
  let w : List (List K) := List.replicate ntime (vec_create mspace)
  let w := forUp 0 mspace
    (fun i w =>
      if i = 0 then w.set 0 ((w.getD 0 []).set i 0)
      else if (i : Int) ≤ (mspace : Int) / 2 - 1 then w.set 0 ((w.getD 0 []).set i 1)
      else w.set 0 ((w.getD 0 []).set i 0))
    w
  forUp 1 ntime (fun i w => w.set i (my_Step ntime mspace nu (w.getD (i - 1) []))) w

end Burgers

section Examples

/-- Three space points, `alpha = 1`, `nu = 0`, target `[1, 0, 0]`, and the pivots and
multipliers that the recurrence of `main` builds for `dt = 1`, `dx = 1/4`. -/
def app3 : Upwind.my_App ℚ :=
  { myid := 0, alpha := 1, nu := 0, ntime := 1, mspace := 3, U0 := [1, 0, 0],
    ai := (Upwind.build_LU (1 : ℚ) (1 / 4) 0 3).1,
    li := (Upwind.build_LU (1 : ℚ) (1 / 4) 0 3).2 }

/-- A status with `t = 0 < tnext = 1`, hence `dt = 1`. -/
def status3 : Upwind.braid_TriStatus ℚ :=
  { t := 0, tprev := 0, tnext := 1, level := 0, tindex := 0, rfactor := 0 }

/-- The vector of four zero blocks of length 3. -/
def zero3 : Upwind.my_Vector ℚ :=
  { values := [[0, 0, 0], [0, 0, 0], [0, 0, 0], [0, 0, 0]] }

/-- A vector with four different blocks of length 3. -/
def vector3 : Upwind.my_Vector ℚ :=
  { values := [[1, 2, 3], [4, 5, 6], [7, 8, 9], [10, 11, 12]] }

/-- A neighbour whose adjoint block is `[1, 0, 0]`. -/
def neighbour3 : Upwind.my_Vector ℚ :=
  { values := [[0, 0, 0], [0, 0, 0], [1, 0, 0], [0, 0, 0]] }

/-- The end-to-end scenario: `M = 8`, `N = 256`, `nu = 2`, `alpha = 0.005`,
`U0 = [1,1,1,1,0,0,0,0]`, pivots and multipliers built for `dt = 1/256`, `dx = 1/9`. -/
def app8 : Upwind.my_App ℚ :=
  { myid := 0, alpha := 5 / 1000, nu := 2, ntime := 256, mspace := 8,
    U0 := [1, 1, 1, 1, 0, 0, 0, 0],
    ai := (Upwind.build_LU (1 / 256 : ℚ) (1 / 9) 2 8).1,
    li := (Upwind.build_LU (1 / 256 : ℚ) (1 / 9) 2 8).2 }

/-- The first time index of the scenario: `t = 0`, `tnext = 1/256`. -/
def status8 : Upwind.braid_TriStatus ℚ :=
  { t := 0, tprev := 0, tnext := 1 / 256, level := 0, tindex := 0, rfactor := 0 }

/-- The vector of four zero blocks of length 8. -/
def zero8 : Upwind.my_Vector ℚ :=
  { values := [[0, 0, 0, 0, 0, 0, 0, 0], [0, 0, 0, 0, 0, 0, 0, 0],
               [0, 0, 0, 0, 0, 0, 0, 0], [0, 0, 0, 0, 0, 0, 0, 0]] }

/-- The target of the two-step history used for the driver of `block_gs.c`. -/
def gsU0 : List ℚ := [1, 0, 0]

/-- The pivots `main` of `block_gs.c` builds for `dt = 1/2`, `dx = 1/4`, `nu = 1`, `M = 3`. -/
def gs_ai : List ℚ := (BlockGS.build_LU (1 / 2 : ℚ) (1 / 4) 1 3).1

/-- The multipliers `main` of `block_gs.c` builds for the same parameters. -/
def gs_li : List ℚ := (BlockGS.build_LU (1 / 2 : ℚ) (1 / 4) 1 3).2

/-- A state history of two time steps on three space points. -/
def gs_state : List (List ℚ) := [[1, 2, 3], [4, 5, 6]]

/-- A control history of two time steps on three space points. -/
def gs_control : List (List ℚ) := [[2, 4, 6], [0, 2, 4]]

/-- An adjoint history of two time steps on three space points. -/
def gs_adjoint : List (List ℚ) := [[1, 0, 2], [0, 3, 1]]

/-- An app as `main` sets it up for four time steps on three space points with `nu = 1`:
pivots and multipliers built for `dt = 1/4`, `dx = 1/4`. -/
def app_four_steps : Upwind.my_App ℚ :=
  { myid := 0, alpha := 1, nu := 1, ntime := 4, mspace := 3, U0 := [1, 0, 0],
    ai := (Upwind.build_LU (1 / 4 : ℚ) (1 / 4) 1 3).1,
    li := (Upwind.build_LU (1 / 4 : ℚ) (1 / 4) 1 3).2 }

/-- The status of a call on the first coarse level (coarsening factor 2) of that grid:
`t = 1/4`, `tnext = 3/4`. -/
def status_coarse : Upwind.braid_TriStatus ℚ :=
  { t := 1 / 4, tprev := 1 / 4, tnext := 3 / 4, level := 1, tindex := 0, rfactor := 0 }

/-- An app of `block_gs.c` with three space points. -/
def gs_app3 : BlockGS.my_App ℚ :=
  { myid := 0, alpha := 1, nu := 1, ntime := 2, mspace := 3, U0 := gsU0, ai := gs_ai,
    li := gs_li }

/-- A memory of eleven arrays: `U0`, pivots, multipliers, the four blocks of a left
neighbour and the four blocks of the current vector. -/
def mem11 : List (List ℚ) :=
  [[1, 0, 0], (Upwind.build_LU (1 : ℚ) (1 / 4) 0 3).1, (Upwind.build_LU (1 : ℚ) (1 / 4) 0 3).2,
   [0, 0, 0], [0, 0, 0], [1, 0, 0], [0, 0, 0],
   [1, 2, 3], [4, 5, 6], [7, 8, 9], [10, 11, 12]]

/-- The app whose arrays are the first three arrays of `mem11`. -/
def mem_app : Upwind.Mem.my_App ℚ :=
  { myid := 0, alpha := 1, nu := 0, ntime := 1, mspace := 3, U0 := 0, ai := 1, li := 2 }

/-- The left neighbour stored in `mem11`. -/
def mem_left : Upwind.Mem.my_Vector := { values := [3, 4, 5, 6] }

/-- The current vector stored in `mem11`. -/
def mem_current : Upwind.Mem.my_Vector := { values := [7, 8, 9, 10] }

/-- A loop body whose pass `k` computes the norm `1/k`: the state counts the passes. -/
def countdown_body (s : Nat) : Nat × BlockGS.c_double ℚ :=
  (s + 1, BlockGS.c_double.finite (1 / ((s : ℚ) + 1)))

/-- A loop body whose norm is NaN at every pass. -/
def nan_body (s : Unit) : Unit × BlockGS.c_double ℚ :=
  (s, BlockGS.c_double.nan)

/-- An app whose pivots and multipliers are not an LU factorization of anything in
particular, with a negative control weight. -/
def app_arbitrary_factors : Upwind.my_App ℚ :=
  { myid := 0, alpha := -2, nu := 1, ntime := 1, mspace := 3, U0 := [1, 0, 0],
    ai := [1, 2, 3], li := [5, 7] }

/-- A status of the last time index with `t = tnext`, hence `dt = t - tprev = 1/2`. -/
def status_last : Upwind.braid_TriStatus ℚ :=
  { t := 1, tprev := 1 / 2, tnext := 1, level := 0, tindex := 3, rfactor := 0 }

/-- The status `status3` as reported on level `2` for the time index `5`. -/
def status3_coarse : Upwind.braid_TriStatus ℚ :=
  { t := 0, tprev := 0, tnext := 1, level := 2, tindex := 5, rfactor := 0 }

/-- A state of the loop of `main` of `block_gs.c` with two time steps and three space
points. -/
def gs_pass_a : BlockGS.main_state ℚ :=
  { u := gs_state, v := gs_control, w := gs_adjoint, res := gs_state, res1 := gs_adjoint }

/-- A state with the control history of `gs_pass_a` and other contents in the four other
histories. -/
def gs_pass_b : BlockGS.main_state ℚ :=
  { u := gs_adjoint, v := gs_control, w := gs_state, res := gs_control, res1 := gs_control }

end Examples

/-! # Theorems -/

/-! ## Lists and loops -/

section Lemmas

theorem getD_set_eq {α : Type} (l : List α) (i j : Nat) (a d : α) :
    (l.set i a).getD j d = if i = j ∧ i < l.length then a else l.getD j d := by
  simp only [List.getD_eq_getElem?_getD, List.getElem?_set]
  by_cases hij : i = j
  · by_cases hi : i < l.length
    · subst hij
      simp [hi]
    · subst hij
      have : l[i]? = none := List.getElem?_eq_none (by omega)
      simp [hi, this]
  · simp [hij]

theorem getD_of_length_le {α : Type} (l : List α) (j : Nat) (d : α) (h : l.length ≤ j) :
    l.getD j d = d := by
  simp [List.getD_eq_getElem?_getD, List.getElem?_eq_none h]

theorem list_eq_of_getD {α : Type} (d : α) (l₁ l₂ : List α) (hlen : l₁.length = l₂.length)
    (h : ∀ j, j < l₁.length → l₁.getD j d = l₂.getD j d) : l₁ = l₂ := by
  apply List.ext_getElem hlen
  intro j h₁ h₂
  have := h j h₁
  simpa [List.getD_eq_getElem?_getD, List.getElem?_eq_getElem h₁,
    List.getElem?_eq_getElem h₂] using this

theorem forUp_of_le {σ : Type} (lo hi : Nat) (body : Nat → σ → σ) (s : σ) (h : hi ≤ lo) :
    forUp lo hi body s = s := by
  simp [forUp, Nat.sub_eq_zero_of_le h]

theorem forUp_succ {σ : Type} (lo hi : Nat) (body : Nat → σ → σ) (s : σ) (h : lo ≤ hi) :
    forUp lo (hi + 1) body s = body hi (forUp lo hi body s) := by
  unfold forUp
  have e : hi + 1 - lo = (hi - lo) + 1 := by omega
  rw [e, List.range'_concat, List.foldl_append]
  have e2 : lo + 1 * (hi - lo) = hi := by omega
  rw [e2]
  simp

theorem forDown_zero {σ : Type} (body : Nat → σ → σ) (s : σ) : forDown 0 body s = s := by
  simp [forDown]

theorem forDown_succ {σ : Type} (n : Nat) (body : Nat → σ → σ) (s : σ) :
    forDown (n + 1) body s = forDown n body (body n s) := by
  simp [forDown, List.range_succ]

/-- A loop that only performs `acc[i] = ...` keeps the length of the array. -/
theorem forUp_set_length {α : Type} (lo hi : Nat) (h : Nat → List α → α) (y : List α) :
    (forUp lo hi (fun i acc => acc.set i (h i acc)) y).length = y.length := by
  by_cases hle : lo ≤ hi
  · induction hi, hle using Nat.le_induction with
    | base => simp [forUp_of_le]
    | succ n hn ih => rw [forUp_succ _ _ _ _ hn]; simp [ih]
  · rw [forUp_of_le _ _ _ _ (by omega)]

/-- Entries outside `[lo, hi)` are not touched by a loop `acc[i] = ...` over `[lo, hi)`. -/
theorem forUp_set_getD_outside {α : Type} (lo hi : Nat) (h : Nat → List α → α) (y : List α)
    (j : Nat) (d : α) (hj : j < lo ∨ hi ≤ j) :
    (forUp lo hi (fun i acc => acc.set i (h i acc)) y).getD j d = y.getD j d := by
  by_cases hle : lo ≤ hi
  · induction hi, hle using Nat.le_induction with
    | base => simp [forUp_of_le]
    | succ n hn ih =>
      rw [forUp_succ _ _ _ _ hn, getD_set_eq]
      have hne : ¬ (n = j ∧ n < (forUp lo n (fun i acc => acc.set i (h i acc)) y).length) := by
        rintro ⟨rfl, -⟩; omega
      rw [if_neg hne]
      exact ih (by omega)
  · rw [forUp_of_le _ _ _ _ (by omega)]

/-- A loop `acc[i] = φ i acc[i]` computes `φ j y[j]` at every index `j` it visits. -/
theorem forUp_set_getD_inside {α : Type} (lo hi : Nat) (φ : Nat → α → α) (y : List α)
    (j : Nat) (d : α) (hlo : lo ≤ j) (hhi : j < hi) (hlen : j < y.length) :
    (forUp lo hi (fun i acc => acc.set i (φ i (acc.getD i d))) y).getD j d = φ j (y.getD j d) := by
  have hle : lo ≤ hi := by omega
  induction hi, hle using Nat.le_induction with
  | base => omega
  | succ n hn ih =>
    rw [forUp_succ _ _ _ _ hn, getD_set_eq]
    by_cases hjn : n = j
    · subst hjn
      have hl := forUp_set_length lo n (fun i acc => φ i (acc.getD i d)) y
      rw [if_pos ⟨rfl, by rw [hl]; exact hlen⟩]
      rw [forUp_set_getD_outside lo n (fun i acc => φ i (acc.getD i d)) y n d (Or.inr le_rfl)]
    · rw [if_neg (by rintro ⟨h1, -⟩; exact hjn h1)]
      exact ih (by omega)

end Lemmas

theorem forUp_rec_getD_zero {α : Type} (hi : Nat) (h : Nat → List α → α) (w : List α) (d : α) :
    (forUp 1 hi (fun i acc => acc.set i (h i acc)) w).getD 0 d = w.getD 0 d :=
  forUp_set_getD_outside 1 hi h w 0 d (Or.inl Nat.one_pos)

/-- A forward recurrence `acc[i] = ψ i acc[i-1]`, `i = 1 .. hi-1`: every visited entry
satisfies the recurrence in the final array. -/
theorem forUp_rec_getD {α : Type} (hi : Nat) (ψ : Nat → α → α) (w : List α) (d : α)
    (j : Nat) (h1 : 1 ≤ j) (hj : j < hi) (hlen : j < w.length) :
    (forUp 1 hi (fun i acc => acc.set i (ψ i (acc.getD (i - 1) d))) w).getD j d
      = ψ j ((forUp 1 hi (fun i acc => acc.set i (ψ i (acc.getD (i - 1) d))) w).getD (j - 1) d) := by
  have hle : 1 ≤ hi := by omega
  induction hi, hle using Nat.le_induction with
  | base => omega
  | succ n hn ih =>
    rw [forUp_succ _ _ _ _ hn]
    have hl := forUp_set_length 1 n (fun i acc => ψ i (acc.getD (i - 1) d)) w
    rw [getD_set_eq, getD_set_eq]
    rw [if_neg (by rintro ⟨h2, -⟩; omega :
      ¬ (n = j - 1 ∧ n < (forUp 1 n (fun i acc => acc.set i (ψ i (acc.getD (i - 1) d))) w).length))]
    by_cases hjn : n = j
    · subst hjn
      rw [if_pos ⟨rfl, by rw [hl]; exact hlen⟩]
    · rw [if_neg (by rintro ⟨h2, -⟩; exact hjn h2)]
      exact ih (by omega)

theorem forDown_set_length {α : Type} (n : Nat) (h : Nat → List α → α) (u : List α) :
    (forDown n (fun i acc => acc.set i (h i acc)) u).length = u.length := by
  induction n generalizing u with
  | zero => simp [forDown_zero]
  | succ n ih => rw [forDown_succ, ih]; simp

theorem forDown_set_getD_outside {α : Type} (n : Nat) (h : Nat → List α → α) (u : List α)
    (j : Nat) (d : α) (hj : n ≤ j) :
    (forDown n (fun i acc => acc.set i (h i acc)) u).getD j d = u.getD j d := by
  induction n generalizing u with
  | zero => simp [forDown_zero]
  | succ n ih =>
    rw [forDown_succ, ih _ (by omega), getD_set_eq, if_neg (by rintro ⟨h2, -⟩; omega)]

/-- A backward recurrence `acc[i] = ψ i acc[i+1]`, `i = n-1 .. 0`: every visited entry
satisfies the recurrence in the final array. -/
theorem forDown_rec_getD {α : Type} (n : Nat) (ψ : Nat → α → α) (u : List α) (d : α)
    (j : Nat) (hj : j < n) (hlen : n ≤ u.length) :
    (forDown n (fun i acc => acc.set i (ψ i (acc.getD (i + 1) d))) u).getD j d
      = ψ j ((forDown n (fun i acc => acc.set i (ψ i (acc.getD (i + 1) d))) u).getD (j + 1) d) := by
  induction n generalizing u with
  | zero => omega
  | succ n ih =>
    rw [forDown_succ]
    by_cases hjn : j = n
    · subst hjn
      rw [forDown_set_getD_outside j (fun i acc => ψ i (acc.getD (i + 1) d)) _ j d le_rfl,
        forDown_set_getD_outside j (fun i acc => ψ i (acc.getD (i + 1) d)) _ (j + 1) d (by omega),
        getD_set_eq, getD_set_eq, if_pos ⟨rfl, by omega⟩, if_neg (by rintro ⟨h2, -⟩; omega)]
    · exact ih _ (by omega) (by simp; omega)

/-! ## Vector utilities -/

section VecLemmas

variable {K : Type} [LinearOrderedField K]

@[simp] theorem vec_create_length (n : Nat) : (vec_create n : List K).length = n := by
  simp [vec_create]

@[simp] theorem vec_copy_length (n : Nat) (x y : List K) : (vec_copy n x y).length = y.length :=
  forUp_set_length 0 n (fun i _ => x.getD i 0) y

@[simp] theorem vec_axpy_length (n : Nat) (c : K) (x y : List K) :
    (vec_axpy n c x y).length = y.length :=
  forUp_set_length 0 n (fun i acc => acc.getD i 0 + c * x.getD i 0) y

@[simp] theorem vec_scale_length (n : Nat) (c : K) (x : List K) :
    (vec_scale n c x).length = x.length :=
  forUp_set_length 0 n (fun i acc => c * acc.getD i 0) x

theorem vec_copy_getD (n : Nat) (x y : List K) (j : Nat) (hj : j < n) (hy : j < y.length) :
    (vec_copy n x y).getD j 0 = x.getD j 0 :=
  forUp_set_getD_inside 0 n (fun i _ => x.getD i 0) y j 0 (Nat.zero_le _) hj hy

theorem vec_axpy_getD (n : Nat) (c : K) (x y : List K) (j : Nat) (hj : j < n)
    (hy : j < y.length) : (vec_axpy n c x y).getD j 0 = y.getD j 0 + c * x.getD j 0 :=
  forUp_set_getD_inside 0 n (fun i v => v + c * x.getD i 0) y j 0 (Nat.zero_le _) hj hy

theorem vec_scale_getD (n : Nat) (c : K) (x : List K) (j : Nat) (hj : j < n)
    (hx : j < x.length) : (vec_scale n c x).getD j 0 = c * x.getD j 0 :=
  forUp_set_getD_inside 0 n (fun _ v => c * v) x j 0 (Nat.zero_le _) hj hx

/-- Copying a block of length `n` into a fresh block of length `n` yields the block. -/
theorem vec_copy_fresh (n : Nat) (x : List K) (hx : x.length = n) :
    vec_copy n x (vec_create n) = x := by
  apply list_eq_of_getD 0
  · simp [hx]
  · intro j hj
    simp only [vec_copy_length, vec_create_length] at hj
    exact vec_copy_getD n x _ j hj (by simpa using hj)

/-- Copying a block of length `n` over a block of length `n` yields the source block. -/
theorem vec_copy_full (n : Nat) (x y : List K) (hx : x.length = n) (hy : y.length = n) :
    vec_copy n x y = x := by
  apply list_eq_of_getD 0
  · simp [hx, hy]
  · intro j hj
    simp only [vec_copy_length, hy] at hj
    exact vec_copy_getD n x _ j hj (by omega)

end VecLemmas

/-! ## The tridiagonal product -/

section TridiagLemmas

variable {K : Type} [LinearOrderedField K]

@[simp] theorem tridiag_apply_length (A B C : K) (M : Nat) (u : List K) :
    (tridiag_apply A B C M u).length = u.length := by
  unfold tridiag_apply
  simp only []
  rw [forUp_set_length 1 (M - 1) (fun i _ =>
    A * (vec_copy M u (vec_create M)).getD (i - 1) 0 + B * (vec_copy M u (vec_create M)).getD i 0
      + C * (vec_copy M u (vec_create M)).getD (i + 1) 0)]
  simp

/-- Row `j` of the tridiagonal product (entries outside the block count as `0`). -/
theorem tridiag_apply_getD (A B C : K) (M : Nat) (u : List K) (hM : 2 ≤ M)
    (hu : u.length = M) (j : Nat) (hj : j < M) :
    (tridiag_apply A B C M u).getD j 0
      = (if j = 0 then 0 else A * u.getD (j - 1) 0) + B * u.getD j 0 + C * u.getD (j + 1) 0 := by
  unfold tridiag_apply
  simp only []
  rw [vec_copy_fresh M u hu]
  by_cases h0 : j = 0
  · subst h0
    rw [forUp_set_getD_outside 1 (M - 1) (fun i _ =>
      A * u.getD (i - 1) 0 + B * u.getD i 0 + C * u.getD (i + 1) 0) _ 0 0 (Or.inl Nat.one_pos),
      getD_set_eq, if_neg (by rintro ⟨h2, -⟩; omega), getD_set_eq, if_pos ⟨rfl, by omega⟩]
    simp
  · by_cases hl : j = M - 1
    · rw [forUp_set_getD_outside 1 (M - 1) (fun i _ =>
        A * u.getD (i - 1) 0 + B * u.getD i 0 + C * u.getD (i + 1) 0) _ j 0 (Or.inr (by omega)),
        getD_set_eq, if_pos ⟨hl.symm, by simp; omega⟩, if_neg h0,
        getD_of_length_le u (j + 1) 0 (by omega)]
      have e1 : M - 2 = j - 1 := by omega
      rw [e1, ← hl]
      ring
    · rw [forUp_set_getD_inside 1 (M - 1) (fun i _ =>
        A * u.getD (i - 1) 0 + B * u.getD i 0 + C * u.getD (i + 1) 0) _ j 0 (by omega) (by omega)
        (by simp; omega), if_neg h0]

/-- The forward-elimination / back-substitution routine: the intermediate array `w`
solves `L w = u` and the result solves `U x = w`. -/
theorem lu_solve_spec (b : K) (M : Nat) (u l a : List K) (hM : 1 ≤ M) (hu : u.length = M) :
    ∃ w : List K, w.getD 0 0 = u.getD 0 0 ∧
      (∀ i, 1 ≤ i → i < M → w.getD i 0 = u.getD i 0 - l.getD (i - 1) 0 * w.getD (i - 1) 0) ∧
      (lu_solve b M u l a).length = M ∧
      (lu_solve b M u l a).getD (M - 1) 0 = w.getD (M - 1) 0 / a.getD (M - 1) 0 ∧
      ∀ i, i + 1 < M → (lu_solve b M u l a).getD i 0
        = (w.getD i 0 - b * (lu_solve b M u l a).getD (i + 1) 0) / a.getD i 0 := by
  unfold lu_solve
  simp only []
  rw [vec_copy_fresh M u hu]
  refine ⟨forUp 1 M (fun i w => w.set i (u.getD i 0 - l.getD (i - 1) 0 * w.getD (i - 1) 0))
    ((vec_create M).set 0 (u.getD 0 0)), ?_, ?_, ?_, ?_, ?_⟩
  · rw [forUp_rec_getD_zero M (fun i w => u.getD i 0 - l.getD (i - 1) 0 * w.getD (i - 1) 0),
      getD_set_eq, if_pos ⟨rfl, by simp; omega⟩]
  · intro i h1 hi
    exact forUp_rec_getD M (fun i v => u.getD i 0 - l.getD (i - 1) 0 * v) _ 0 i h1 hi
      (by simp; omega)
  · rw [forDown_set_length (M - 1) (fun i acc => (_ - b * acc.getD (i + 1) 0) / a.getD i 0)]
    simp [hu]
  · rw [forDown_set_getD_outside (M - 1) (fun i acc => (_ - b * acc.getD (i + 1) 0) / a.getD i 0)
      _ (M - 1) 0 le_rfl, getD_set_eq, if_pos ⟨rfl, by omega⟩]
  · intro i hi
    exact forDown_rec_getD (M - 1) (fun i v => (_ - b * v) / a.getD i 0) _ 0 i (by omega)
      (by simp; omega)

/-- The transposed routine: the intermediate array `w` solves `Uᵀ w = u` and the result
solves `Lᵀ x = w`. -/
theorem lu_solve_adjoint_spec (b : K) (M : Nat) (u l a : List K) (hM : 1 ≤ M)
    (hu : u.length = M) :
    ∃ w : List K, w.getD 0 0 = u.getD 0 0 / a.getD 0 0 ∧
      (∀ i, 1 ≤ i → i < M → w.getD i 0 = (u.getD i 0 - w.getD (i - 1) 0 * b) / a.getD i 0) ∧
      (lu_solve_adjoint b M u l a).length = M ∧
      (lu_solve_adjoint b M u l a).getD (M - 1) 0 = w.getD (M - 1) 0 ∧
      ∀ i, i + 1 < M → (lu_solve_adjoint b M u l a).getD i 0
        = w.getD i 0 - l.getD i 0 * (lu_solve_adjoint b M u l a).getD (i + 1) 0 := by
  unfold lu_solve_adjoint
  simp only []
  rw [vec_copy_fresh M u hu]
  refine ⟨forUp 1 M (fun i w => w.set i ((u.getD i 0 - w.getD (i - 1) 0 * b) / a.getD i 0))
    ((vec_create M).set 0 (u.getD 0 0 / a.getD 0 0)), ?_, ?_, ?_, ?_, ?_⟩
  · rw [forUp_rec_getD_zero M (fun i w => (u.getD i 0 - w.getD (i - 1) 0 * b) / a.getD i 0),
      getD_set_eq, if_pos ⟨rfl, by simp; omega⟩]
  · intro i h1 hi
    exact forUp_rec_getD M (fun i v => (u.getD i 0 - v * b) / a.getD i 0) _ 0 i h1 hi
      (by simp; omega)
  · rw [forDown_set_length (M - 1) (fun i acc => _ - l.getD i 0 * acc.getD (i + 1) 0)]
    simp [hu]
  · rw [forDown_set_getD_outside (M - 1) (fun i acc => _ - l.getD i 0 * acc.getD (i + 1) 0)
      _ (M - 1) 0 le_rfl, getD_set_eq, if_pos ⟨rfl, by omega⟩]
  · intro i hi
    exact forDown_rec_getD (M - 1) (fun i v => _ - l.getD i 0 * v) _ 0 i (by omega)
      (by simp; omega)

end TridiagLemmas

/-! ## Algebra of the factorization -/

section Factorization

variable {K : Type} [LinearOrderedField K]

theorem div_pivot_last (a x c : K) (h : a ≠ 0) : (a * x + c * 0) / a = x := by
  field_simp

theorem div_pivot_row (a x c y : K) (h : a ≠ 0) : (a * x + c * y - c * y) / a = x := by
  field_simp

theorem mul_pivot_row (a w c y : K) (h : a ≠ 0) : a * ((w - c * y) / a) + c * y = w := by
  field_simp

theorem mul_pivot_last (a w c : K) (h : a ≠ 0) : a * (w / a) + c * 0 = w := by
  field_simp

theorem mul_pivot_first (a f : K) (h : a ≠ 0) : a * (f / a) = f := by
  field_simp

theorem mul_pivot_adjoint (a f c v : K) (h : a ≠ 0) : c * v + a * ((f - v * c) / a) = f := by
  field_simp
  ring

/-- Forward elimination of `A x` yields `U x`. -/
theorem forward_of_product (A B C : K) (M : Nat) (l a x w : List K)
    (hLU : IsLU A B C M l a) (hM : 2 ≤ M) (hx : x.length = M)
    (hw0 : w.getD 0 0 = (tridiag_apply A B C M x).getD 0 0)
    (hwi : ∀ i, 1 ≤ i → i < M →
      w.getD i 0 = (tridiag_apply A B C M x).getD i 0 - l.getD (i - 1) 0 * w.getD (i - 1) 0)
    (i : Nat) (hi : i < M) :
    w.getD i 0 = a.getD i 0 * x.getD i 0 + C * x.getD (i + 1) 0 := by
  obtain ⟨-, ha0, hrel⟩ := hLU
  induction i with
  | zero =>
    rw [hw0, tridiag_apply_getD A B C M x hM hx 0 hi, ha0]
    simp
  | succ n ih =>
    have ihn := ih (by omega)
    obtain ⟨hA, hB⟩ := hrel (n + 1) (by omega) hi
    rw [hwi (n + 1) (by omega) hi, tridiag_apply_getD A B C M x hM hx (n + 1) hi]
    simp only [Nat.add_sub_cancel, Nat.succ_ne_zero, if_false] at hA hB ⊢
    rw [ihn]
    linear_combination (-(x.getD n 0)) * hA + (-(x.getD (n + 1) 0)) * hB

/-- The solver undoes the product: `lu_solve (A x) = x`. -/
theorem lu_solve_tridiag_apply (A B C : K) (M : Nat) (l a x : List K)
    (hLU : IsLU A B C M l a) (hM : 2 ≤ M) (hx : x.length = M) :
    lu_solve C M (tridiag_apply A B C M x) l a = x := by
  obtain ⟨w, hw0, hwi, hlen, hlast, hrec⟩ :=
    lu_solve_spec C M (tridiag_apply A B C M x) l a (by omega) (by simp [hx])
  have hW := forward_of_product A B C M l a x w hLU hM hx hw0 hwi
  have hne := hLU.1
  have key : ∀ k, k < M → (lu_solve C M (tridiag_apply A B C M x) l a).getD (M - 1 - k) 0
      = x.getD (M - 1 - k) 0 := by
    intro k
    induction k with
    | zero =>
      intro _
      have h1 := hne (M - 1) (by omega)
      have e : M - 1 + 1 = M := by omega
      rw [Nat.sub_zero, hlast, hW (M - 1) (by omega), e, getD_of_length_le x M 0 (by omega)]
      exact div_pivot_last _ _ _ h1
    | succ n ih =>
      intro hn
      have h1 := hne (M - 1 - (n + 1)) (by omega)
      have e : M - 1 - (n + 1) + 1 = M - 1 - n := by omega
      rw [hrec (M - 1 - (n + 1)) (by omega), e, ih (by omega), hW (M - 1 - (n + 1)) (by omega), e]
      exact div_pivot_row _ _ _ _ h1
  apply list_eq_of_getD 0
  · rw [hlen, hx]
  · intro j hj
    rw [hlen] at hj
    have := key (M - 1 - j) (by omega)
    have e : M - 1 - (M - 1 - j) = j := by omega
    rwa [e] at this

/-- The solver produces a solution: `A (lu_solve f) = f`. -/
theorem tridiag_apply_lu_solve (A B C : K) (M : Nat) (l a f : List K)
    (hLU : IsLU A B C M l a) (hM : 2 ≤ M) (hf : f.length = M) :
    tridiag_apply A B C M (lu_solve C M f l a) = f := by
  obtain ⟨w, hw0, hwi, hlen, hlast, hrec⟩ := lu_solve_spec C M f l a (by omega) hf
  obtain ⟨hne, ha0, hrel⟩ := hLU
  -- every row of `U x = w`, the last one included
  have hU : ∀ i, i < M → a.getD i 0 * (lu_solve C M f l a).getD i 0
      + C * (lu_solve C M f l a).getD (i + 1) 0 = w.getD i 0 := by
    intro i hi
    have h1 := hne i hi
    by_cases hl : i + 1 < M
    · rw [hrec i hl]
      exact mul_pivot_row _ _ _ _ h1
    · have e : i = M - 1 := by omega
      rw [getD_of_length_le _ (i + 1) 0 (by omega), e, hlast]
      rw [e] at h1
      exact mul_pivot_last _ _ _ h1
  apply list_eq_of_getD 0
  · simp [hlen, hf]
  · intro j hj
    simp only [tridiag_apply_length, hlen] at hj
    rw [tridiag_apply_getD A B C M _ hM hlen j hj]
    by_cases h0 : j = 0
    · subst h0
      have := hU 0 hj
      rw [ha0] at this
      simp only [if_true, zero_add]
      rw [this, hw0]
    · obtain ⟨hA, hB⟩ := hrel j (by omega) hj
      have h1 := hU (j - 1) (by omega)
      have h2 := hU j hj
      have h3 := hwi j (by omega) hj
      have e : j - 1 + 1 = j := by omega
      rw [e] at h1
      rw [if_neg h0]
      linear_combination (-((lu_solve C M f l a).getD (j - 1) 0)) * hA
        + (-((lu_solve C M f l a).getD j 0)) * hB + (l.getD (j - 1) 0) * h1 + h2 + h3

/-- The transposed solver produces a solution of the transposed system:
`Aᵀ (lu_solve_adjoint f) = f`. -/
theorem tridiag_apply_lu_solve_adjoint (A B C : K) (M : Nat) (l a f : List K)
    (hLU : IsLU A B C M l a) (hM : 2 ≤ M) (hf : f.length = M) :
    tridiag_apply C B A M (lu_solve_adjoint C M f l a) = f := by
  obtain ⟨w, hw0, hwi, hlen, hlast, hrec⟩ := lu_solve_adjoint_spec C M f l a (by omega) hf
  obtain ⟨hne, ha0, hrel⟩ := hLU
  -- every row of `Uᵀ w = f`
  have hUt0 : a.getD 0 0 * w.getD 0 0 = f.getD 0 0 := by
    have h1 := hne 0 (by omega)
    rw [hw0]
    exact mul_pivot_first _ _ h1
  have hUt : ∀ i, 1 ≤ i → i < M →
      C * w.getD (i - 1) 0 + a.getD i 0 * w.getD i 0 = f.getD i 0 := by
    intro i h1 hi
    have h2 := hne i hi
    rw [hwi i h1 hi]
    exact mul_pivot_adjoint _ _ _ _ h2
  -- every row of `Lᵀ x = w`, the last one included
  have hLt : ∀ i, i < M → (lu_solve_adjoint C M f l a).getD i 0
      + l.getD i 0 * (lu_solve_adjoint C M f l a).getD (i + 1) 0 = w.getD i 0 := by
    intro i hi
    by_cases hl : i + 1 < M
    · rw [hrec i hl]
      ring
    · have e : i = M - 1 := by omega
      rw [getD_of_length_le _ (i + 1) 0 (by omega), e, hlast]
      ring
  apply list_eq_of_getD 0
  · simp [hlen, hf]
  · intro j hj
    simp only [tridiag_apply_length, hlen] at hj
    rw [tridiag_apply_getD C B A M _ hM hlen j hj]
    by_cases h0 : j = 0
    · subst h0
      obtain ⟨hA, -⟩ := hrel 1 le_rfl (by omega)
      have h2 := hLt 0 hj
      simp only [if_true, zero_add, Nat.sub_self] at hA ⊢
      rw [← ha0, ← hUt0, ← h2]
      linear_combination (-((lu_solve_adjoint C M f l a).getD 1 0)) * hA
    · obtain ⟨hA, hB⟩ := hrel j (by omega) hj
      have h1 := hLt (j - 1) (by omega)
      have h2 := hLt j hj
      have h3 := hUt j (by omega) hj
      have e : j - 1 + 1 = j := by omega
      rw [e] at h1
      rw [if_neg h0]
      by_cases hl : j + 1 < M
      · obtain ⟨hA', -⟩ := hrel (j + 1) (by omega) hl
        simp only [Nat.add_sub_cancel] at hA'
        linear_combination (-((lu_solve_adjoint C M f l a).getD j 0)) * hB
          + (-((lu_solve_adjoint C M f l a).getD (j + 1) 0)) * hA' + C * h1
          + (a.getD j 0) * h2 + h3
      · rw [getD_of_length_le _ (j + 1) 0 (by omega)] at h2 ⊢
        linear_combination (-((lu_solve_adjoint C M f l a).getD j 0)) * hB + C * h1
          + (a.getD j 0) * h2 + h3

end Factorization

/-! ## The LU recurrence of `main` -/

section Build

variable {K : Type} [LinearOrderedField K]

/-- One round of the recurrence extends the relations by one row. -/
theorem lu_build_step (d s k : K) (M n : Nat) (hn1 : 1 ≤ n) (hnM : n < M) (ai li : List K)
    (hl1 : ai.length = M) (hl2 : li.length = M - 1) (h0 : ai.getD 0 0 = d)
    (hrel : ∀ i, 1 ≤ i → i < n →
      li.getD (i - 1) 0 = s / ai.getD (i - 1) 0 ∧ ai.getD i 0 = d + k * li.getD (i - 1) 0) :
    (ai.set n (ai.getD 0 0 + k * (li.set (n - 1) (s / ai.getD (n - 1) 0)).getD (n - 1) 0)).length = M ∧
    (li.set (n - 1) (s / ai.getD (n - 1) 0)).length = M - 1 ∧
    (ai.set n (ai.getD 0 0 + k * (li.set (n - 1) (s / ai.getD (n - 1) 0)).getD (n - 1) 0)).getD 0 0 = d ∧
    ∀ i, 1 ≤ i → i < n + 1 →
      (li.set (n - 1) (s / ai.getD (n - 1) 0)).getD (i - 1) 0
        = s / (ai.set n (ai.getD 0 0
            + k * (li.set (n - 1) (s / ai.getD (n - 1) 0)).getD (n - 1) 0)).getD (i - 1) 0 ∧
      (ai.set n (ai.getD 0 0 + k * (li.set (n - 1) (s / ai.getD (n - 1) 0)).getD (n - 1) 0)).getD i 0
        = d + k * (li.set (n - 1) (s / ai.getD (n - 1) 0)).getD (i - 1) 0 := by
  refine ⟨by rw [List.length_set]; exact hl1, by rw [List.length_set]; exact hl2, ?_, ?_⟩
  · rw [getD_set_eq, if_neg (by rintro ⟨h2, -⟩; omega), h0]
  · intro i h1 h2
    by_cases hin : i = n
    · subst hin
      rw [getD_set_eq, if_pos ⟨rfl, by omega⟩, getD_set_eq, if_neg (by rintro ⟨h3, -⟩; omega),
        getD_set_eq, if_pos ⟨rfl, by omega⟩, h0]
      exact ⟨rfl, rfl⟩
    · obtain ⟨r1, r2⟩ := hrel i h1 (by omega)
      rw [getD_set_eq, if_neg (by rintro ⟨h3, -⟩; omega), getD_set_eq,
        if_neg (by rintro ⟨h3, -⟩; omega), getD_set_eq, if_neg (by rintro ⟨h3, -⟩; omega)]
      exact ⟨r1, r2⟩

/-- What the rounds `i = 1 .. n-1` of the recurrence have established. -/
theorem lu_build_loop (d s k : K) (M n : Nat) (hn1 : 1 ≤ n) (hnM : n ≤ M)
    (st : List K × List K)
    (hst : st = forUp 1 n
      (fun i (st : List K × List K) =>
        ((st.1).set i ((st.1).getD 0 0
            + k * ((st.2).set (i - 1) (s / (st.1).getD (i - 1) 0)).getD (i - 1) 0),
         (st.2).set (i - 1) (s / (st.1).getD (i - 1) 0)))
      ((vec_create M).set 0 d, vec_create (M - 1))) :
    st.1.length = M ∧ st.2.length = M - 1 ∧ st.1.getD 0 0 = d ∧
      ∀ i, 1 ≤ i → i < n →
        st.2.getD (i - 1) 0 = s / st.1.getD (i - 1) 0 ∧ st.1.getD i 0 = d + k * st.2.getD (i - 1) 0 := by
  induction n, hn1 using Nat.le_induction generalizing st with
  | base =>
    rw [forUp_of_le _ _ _ _ le_rfl] at hst
    subst hst
    refine ⟨by simp, by simp, ?_, ?_⟩
    · rw [getD_set_eq, if_pos ⟨rfl, by simp; omega⟩]
    · intro i h1 h2; omega
  | succ n hn ih =>
    obtain ⟨hl1, hl2, h0, hrel⟩ := ih (by omega) _ rfl
    rw [forUp_succ _ _ _ _ hn] at hst
    subst hst
    exact lu_build_step d s k M n hn (by omega) _ _ hl1 hl2 h0 hrel

/-- The arrays built by the recurrence: lengths, first pivot, and the two relations
`li[i-1] = s/ai[i-1]`, `ai[i] = d + k*li[i-1]`. -/
theorem lu_build_spec (d s k : K) (M : Nat) (hM : 1 ≤ M) :
    (lu_build d s k M).1.length = M ∧ (lu_build d s k M).2.length = M - 1 ∧
      (lu_build d s k M).1.getD 0 0 = d ∧
      ∀ i, 1 ≤ i → i < M →
        (lu_build d s k M).2.getD (i - 1) 0 = s / (lu_build d s k M).1.getD (i - 1) 0 ∧
        (lu_build d s k M).1.getD i 0 = d + k * (lu_build d s k M).2.getD (i - 1) 0 :=
  lu_build_loop d s k M M hM le_rfl _ rfl

/-- A lower bound `m` that the first pivot satisfies and the recurrence preserves holds
for every pivot. -/
theorem lu_build_pivot_ge (d s k m : K) (M : Nat) (hd : m ≤ d)
    (hstep : ∀ x, m ≤ x → m ≤ d + k * (s / x)) (i : Nat) (hi : i < M) :
    m ≤ (lu_build d s k M).1.getD i 0 := by
  obtain ⟨-, -, h0, hrel⟩ := lu_build_spec d s k M (by omega)
  induction i with
  | zero => rw [h0]; exact hd
  | succ n ih =>
    obtain ⟨r1, r2⟩ := hrel (n + 1) (by omega) hi
    simp only [Nat.add_sub_cancel] at r1 r2
    rw [r2, r1]
    exact hstep _ (ih (by omega))

/-- The recurrence builds an LU factorization as soon as its pivots stay above a
positive bound. -/
theorem lu_build_isLU (A B C d s k m : K) (M : Nat) (hA : s = A) (hB : d = B) (hC : k = -C)
    (hm : 0 < m) (hd : m ≤ d) (hstep : ∀ x, m ≤ x → m ≤ d + k * (s / x)) (hM : 1 ≤ M) :
    IsLU A B C M (lu_build d s k M).2 (lu_build d s k M).1 := by
  have hpos : ∀ i, i < M → (lu_build d s k M).1.getD i 0 ≠ 0 := fun i hi =>
    ne_of_gt (lt_of_lt_of_le hm (lu_build_pivot_ge d s k m M hd hstep i hi))
  obtain ⟨-, -, h0, hrel⟩ := lu_build_spec d s k M hM
  refine ⟨hpos, by rw [h0, hB], ?_⟩
  intro i h1 hi
  obtain ⟨r1, r2⟩ := hrel i h1 hi
  have hne := hpos (i - 1) (by omega)
  refine ⟨?_, ?_⟩
  · rw [r1, ← hA]
    exact div_mul_cancel₀ _ hne
  · rw [r2, hC, ← hB]
    ring

end Build

/-! ## The two stencils -/

section Stencils

variable {K : Type} [LinearOrderedField K]

/-- The recurrence of `advec-diff-upwind-rms.c` factors the matrix of its `apply_A`. -/
theorem upwind_isLU (dt dx nu : K) (M : Nat) (hM : 1 ≤ M) (hdt : 0 < dt) (hdx : 0 < dx)
    (hnu : 0 ≤ nu) :
    IsLU (-dt / dx - nu * dt / (dx * dx)) (1 + dt / dx + 2 * nu * dt / (dx * dx))
      (-nu * dt / (dx * dx)) M (Upwind.build_LU dt dx nu M).2 (Upwind.build_LU dt dx nu M).1 := by
  have hg : 0 < dt / dx := div_pos hdt hdx
  have hb : 0 ≤ nu * dt / (dx * dx) :=
    div_nonneg (mul_nonneg hnu hdt.le) (mul_pos hdx hdx).le
  have e2 : 2 * nu * dt / (dx * dx) = 2 * (nu * dt / (dx * dx)) := by ring
  refine lu_build_isLU _ _ _ (1 + dt / dx + 2 * nu * dt / (dx * dx))
    (-(nu * dt / (dx * dx) + dt / dx)) (nu * dt / (dx * dx))
    (1 + dt / dx + nu * dt / (dx * dx)) M (by ring) rfl (by ring) (by linarith)
    (by rw [e2]; linarith) ?_ hM
  intro x hx
  have hxpos : 0 < x := by linarith
  have h1 : (nu * dt / (dx * dx) + dt / dx) / x ≤ 1 := by
    rw [div_le_one hxpos]; linarith
  have h2 : nu * dt / (dx * dx) * ((nu * dt / (dx * dx) + dt / dx) / x)
      ≤ nu * dt / (dx * dx) * 1 := mul_le_mul_of_nonneg_left h1 hb
  have h3 : nu * dt / (dx * dx) * (-(nu * dt / (dx * dx) + dt / dx) / x)
      = -(nu * dt / (dx * dx) * ((nu * dt / (dx * dx) + dt / dx) / x)) := by ring
  rw [h3, e2]
  linarith

/-- The recurrence of `block_gs.c` factors the matrix of its `apply_A`. -/
theorem blockgs_isLU (dt dx nu : K) (M : Nat) (hM : 1 ≤ M) (hdt : 0 < dt) (hdx : 0 < dx)
    (hnu : 0 ≤ nu) :
    IsLU (-dt / (2 * dx) - nu * dt / (dx * dx)) (1 + 2 * nu * dt / (dx * dx))
      (dt / (2 * dx) - nu * dt / (dx * dx)) M
      (BlockGS.build_LU dt dx nu M).2 (BlockGS.build_LU dt dx nu M).1 := by
  have hb : 0 ≤ nu * dt / (dx * dx) :=
    div_nonneg (mul_nonneg hnu hdt.le) (mul_pos hdx hdx).le
  have e2 : 2 * nu * dt / (dx * dx) = 2 * (nu * dt / (dx * dx)) := by ring
  refine lu_build_isLU _ _ _ (1 + 2 * nu * dt / (dx * dx))
    (-(nu * dt / (dx * dx) + dt / (2 * dx))) (nu * dt / (dx * dx) - dt / (2 * dx))
    (1 + nu * dt / (dx * dx)) M (by ring) rfl (by ring) (by linarith)
    (by rw [e2]; linarith) ?_ hM
  intro x hx
  have hxpos : 0 < x := by linarith
  have h3 : (nu * dt / (dx * dx) - dt / (2 * dx)) * (-(nu * dt / (dx * dx) + dt / (2 * dx)) / x)
      = ((dt / (2 * dx)) ^ 2 - (nu * dt / (dx * dx)) ^ 2) / x := by ring
  have h4 : -(nu * dt / (dx * dx)) ≤ ((dt / (2 * dx)) ^ 2 - (nu * dt / (dx * dx)) ^ 2) / x := by
    rw [le_div_iff₀ hxpos]
    nlinarith [sq_nonneg (dt / (2 * dx)), mul_nonneg hb hb, mul_nonneg hb (sub_nonneg.2 hx)]
  rw [h3, e2]
  linarith

end Stencils

/-! ## The operator library: inverse, adjoint inverse, adjoint -/

section OperatorClaims

variable {K : Type} [LinearOrderedField K]

/-- C1. Upwind variant: for `M ≥ 3`, `dt > 0`, `dx > 0`, `nu ≥ 0` and every block `x` of
length `M`, with the pivots and multipliers produced by the LU recurrence of `main`,
`apply_Phi` applied to `apply_A x` returns `x`. -/
theorem upwind_apply_Phi_apply_A (dt dx nu : K) (M : Nat) (x : List K) (hM : 3 ≤ M)
    (hdt : 0 < dt) (hdx : 0 < dx) (hnu : 0 ≤ nu) (hx : x.length = M) :
    Upwind.apply_Phi dt dx nu M (Upwind.apply_A dt dx nu M x)
      (Upwind.build_LU dt dx nu M).2 (Upwind.build_LU dt dx nu M).1 = x :=
  lu_solve_tridiag_apply _ _ _ M _ _ x (upwind_isLU dt dx nu M (by omega) hdt hdx hnu)
    (by omega) hx

theorem upwind_apply_Phi_apply_A_witness :
    3 ≤ 3 ∧ (0 : ℚ) < 1 ∧ (0 : ℚ) < 1 / 4 ∧ (0 : ℚ) ≤ 2 ∧ ([1, 2, 3] : List ℚ).length = 3 ∧
    Upwind.apply_Phi (1 : ℚ) (1 / 4) 2 3 (Upwind.apply_A (1 : ℚ) (1 / 4) 2 3 [1, 2, 3])
      (Upwind.build_LU (1 : ℚ) (1 / 4) 2 3).2 (Upwind.build_LU (1 : ℚ) (1 / 4) 2 3).1
      = [1, 2, 3] :=
  ⟨le_refl 3, by norm_num, by norm_num, by norm_num, rfl,
    upwind_apply_Phi_apply_A (1 : ℚ) (1 / 4) 2 3 [1, 2, 3] (le_refl 3) (by norm_num)
      (by norm_num) (by norm_num) rfl⟩

/-- C2. Central-difference variant (`block_gs.c`): for `M ≥ 3`, `dt > 0`, `dx > 0`,
`nu ≥ 0` and every block `f` of length `M`, with the pivots and multipliers produced by
the LU recurrence of `main`, `x = apply_Phi f` solves `A x = f`:
`apply_A (apply_Phi f) = f`. -/
theorem blockgs_apply_A_apply_Phi (dt dx nu : K) (M : Nat) (f : List K) (hM : 3 ≤ M)
    (hdt : 0 < dt) (hdx : 0 < dx) (hnu : 0 ≤ nu) (hf : f.length = M) :
    BlockGS.apply_A dt dx nu M
      (BlockGS.apply_Phi dt dx nu M f (BlockGS.build_LU dt dx nu M).2
        (BlockGS.build_LU dt dx nu M).1) = f :=
  tridiag_apply_lu_solve _ _ _ M _ _ f (blockgs_isLU dt dx nu M (by omega) hdt hdx hnu)
    (by omega) hf

theorem blockgs_apply_A_apply_Phi_witness :
    3 ≤ 3 ∧ (0 : ℚ) < 1 ∧ (0 : ℚ) < 1 / 4 ∧ (0 : ℚ) ≤ 2 ∧ ([1, 2, 3] : List ℚ).length = 3 ∧
    BlockGS.apply_A (1 : ℚ) (1 / 4) 2 3
      (BlockGS.apply_Phi (1 : ℚ) (1 / 4) 2 3 [1, 2, 3]
        (BlockGS.build_LU (1 : ℚ) (1 / 4) 2 3).2 (BlockGS.build_LU (1 : ℚ) (1 / 4) 2 3).1)
      = [1, 2, 3] :=
  ⟨le_refl 3, by norm_num, by norm_num, by norm_num, rfl,
    blockgs_apply_A_apply_Phi (1 : ℚ) (1 / 4) 2 3 [1, 2, 3] (le_refl 3) (by norm_num)
      (by norm_num) (by norm_num) rfl⟩

/-- C3. Upwind variant: for `M ≥ 3`, `dt > 0`, `dx > 0`, `nu ≥ 0` and every block `f` of
length `M`, with the pivots and multipliers built by `main`, `apply_PhiAdjoint` solves the
transposed system: `apply_Aadjoint (apply_PhiAdjoint f) = f`. -/
theorem upwind_apply_Aadjoint_apply_PhiAdjoint (dt dx nu : K) (M : Nat) (f : List K)
    (hM : 3 ≤ M) (hdt : 0 < dt) (hdx : 0 < dx) (hnu : 0 ≤ nu) (hf : f.length = M) :
    Upwind.apply_Aadjoint dt dx nu M
      (Upwind.apply_PhiAdjoint dt dx nu M f (Upwind.build_LU dt dx nu M).2
        (Upwind.build_LU dt dx nu M).1) = f :=
  tridiag_apply_lu_solve_adjoint _ _ _ M _ _ f (upwind_isLU dt dx nu M (by omega) hdt hdx hnu)
    (by omega) hf

theorem upwind_apply_Aadjoint_apply_PhiAdjoint_witness :
    3 ≤ 3 ∧ (0 : ℚ) < 1 ∧ (0 : ℚ) < 1 / 4 ∧ (0 : ℚ) ≤ 2 ∧ ([1, 2, 3] : List ℚ).length = 3 ∧
    Upwind.apply_Aadjoint (1 : ℚ) (1 / 4) 2 3
      (Upwind.apply_PhiAdjoint (1 : ℚ) (1 / 4) 2 3 [1, 2, 3]
        (Upwind.build_LU (1 : ℚ) (1 / 4) 2 3).2 (Upwind.build_LU (1 : ℚ) (1 / 4) 2 3).1)
      = [1, 2, 3] :=
  ⟨le_refl 3, by norm_num, by norm_num, by norm_num, rfl,
    upwind_apply_Aadjoint_apply_PhiAdjoint (1 : ℚ) (1 / 4) 2 3 [1, 2, 3] (le_refl 3)
      (by norm_num) (by norm_num) (by norm_num) rfl⟩

end OperatorClaims

/-! ## The local residual -/

/-- A vector with four blocks is the list of its four blocks. -/
theorem well_formed_cases {K : Type} (M : Nat) (v : Upwind.my_Vector K) (h : Upwind.well_formed M v) :
    ∃ b0 b1 b2 b3 : List K, v.values = [b0, b1, b2, b3] ∧
      b0.length = M ∧ b1.length = M ∧ b2.length = M ∧ b3.length = M := by
  obtain ⟨h4, hb⟩ := h
  match hv : v.values, h4 with
  | [b0, b1, b2, b3], _ =>
    refine ⟨b0, b1, b2, b3, rfl, ?_, ?_, ?_, ?_⟩
    · simpa [hv] using hb 0 (by omega)
    · simpa [hv] using hb 1 (by omega)
    · simpa [hv] using hb 2 (by omega)
    · simpa [hv] using hb 3 (by omega)

section Residual

variable {K : Type} [LinearOrderedField K]

@[simp] theorem upwind_apply_A_length (dt dx nu : K) (M : Nat) (u : List K) :
    (Upwind.apply_A dt dx nu M u).length = u.length :=
  tridiag_apply_length _ _ _ M u

@[simp] theorem upwind_apply_Aadjoint_length (dt dx nu : K) (M : Nat) (u : List K) :
    (Upwind.apply_Aadjoint dt dx nu M u).length = u.length :=
  tridiag_apply_length _ _ _ M u

@[simp] theorem upwind_apply_D_length (dt dx nu : K) (M : Nat) (v : List K) :
    (Upwind.apply_D dt dx nu M v).length = v.length :=
  forUp_set_length 0 M (fun i acc => acc.getD i 0 * dt) v

theorem upwind_apply_D_getD (dt dx nu : K) (M : Nat) (v : List K) (j : Nat) (hj : j < M)
    (hv : j < v.length) : (Upwind.apply_D dt dx nu M v).getD j 0 = v.getD j 0 * dt :=
  forUp_set_getD_inside 0 M (fun _ x => x * dt) v j 0 (Nat.zero_le _) hj hv

/-- Overwriting a whole block: the previous content of the target does not matter. -/
theorem vec_copy_congr (n : Nat) (x y y' : List K) (hy : y.length = n) (hy' : y'.length = n) :
    vec_copy n x y = vec_copy n x y' := by
  apply list_eq_of_getD 0
  · simp [hy, hy']
  · intro j hj
    simp only [vec_copy_length, hy] at hj
    rw [vec_copy_getD n x y j hj (by omega), vec_copy_getD n x y' j hj (by omega)]

theorem vec_copy_canon (n : Nat) (x y : List K) (hy : y.length = n) :
    vec_copy n x y = vec_copy n x (vec_create n) :=
  vec_copy_congr n x y _ hy (by simp)

/-- The four blocks written by `my_TriResidual` on a vector with four blocks of length
`mspace`, entry by entry (`dt = time_step status`, `dx = space_step mspace`). -/
theorem my_TriResidual_spec (app : Upwind.my_App K) (uleft uright f : Option (Upwind.my_Vector K))
    (r : Upwind.my_Vector K) (hom : Int) (status : Upwind.braid_TriStatus K)
    (b0 b1 b2 b3 : List K)
    (hr : r.values = [b0, b1, b2, b3]) (h0 : b0.length = app.mspace)
    (h1 : b1.length = app.mspace) (h2 : b2.length = app.mspace) (h3 : b3.length = app.mspace) :
    ∃ R0 R1 R2 R3 : List K,
      (Upwind.my_TriResidual app uleft uright f r hom status).values = [R0, R1, R2, R3] ∧
      R0.length = app.mspace ∧ R1.length = app.mspace ∧ R2.length = app.mspace ∧
      R3.length = app.mspace ∧
      (∀ j, j < app.mspace → R0.getD j 0 =
        Upwind.space_step app.mspace * Upwind.time_step status * b0.getD j 0
          + (Upwind.apply_Aadjoint (Upwind.time_step status) (Upwind.space_step app.mspace)
              app.nu app.mspace b2).getD j 0
          - Upwind.space_step app.mspace * Upwind.time_step status * app.U0.getD j 0
          - (match uright with
              | some ur => (ur.values.getD 2 []).getD j 0
              | none => 0)
          - (match f with
              | some fv => (fv.values.getD 0 []).getD j 0
              | none => 0)) ∧
      (∀ j, j < app.mspace → R1.getD j 0 =
        app.alpha * Upwind.space_step app.mspace * Upwind.time_step status * b1.getD j 0
          - Upwind.time_step status * b2.getD j 0
          - (match f with
              | some fv => (fv.values.getD 1 []).getD j 0
              | none => 0)) ∧
      (∀ j, j < app.mspace → R2.getD j 0 =
        (Upwind.apply_A (Upwind.time_step status) (Upwind.space_step app.mspace)
            app.nu app.mspace b0).getD j 0
          - Upwind.time_step status * b1.getD j 0
          - (match uleft with
              | some ul => (ul.values.getD 0 []).getD j 0
              | none => app.U0.getD j 0)
          - (match f with
              | some fv => (fv.values.getD 2 []).getD j 0
              | none => 0)) ∧
      (∀ j, j < app.mspace → R3.getD j 0 =
        (match uleft with
          | some ul =>
            Upwind.space_step app.mspace * Upwind.time_step status * (ul.values.getD 0 []).getD j 0
              - b2.getD j 0
              - Upwind.space_step app.mspace * Upwind.time_step status * app.U0.getD j 0
              + (Upwind.apply_Aadjoint (Upwind.time_step status) (Upwind.space_step app.mspace)
                  app.nu app.mspace
                  (vec_copy app.mspace (ul.values.getD 2 []) (vec_create app.mspace))).getD j 0
          | none => 0)
          - (match f with
              | some fv => (fv.values.getD 3 []).getD j 0
              | none => 0)) := by
  have hdt : (if status.t < status.tnext then status.tnext - status.t
      else status.t - status.tprev) = Upwind.time_step status := rfl
  have hdx : (1 : K) / (((app.mspace + 1 : Nat) : K)) = Upwind.space_step app.mspace := rfl
  cases uright <;> cases uleft <;> cases f
  all_goals
    simp only [Upwind.my_TriResidual, hr, hdt, hdx]
    simp only [List.getD_cons_zero, List.getD_cons_succ, List.set_cons_zero, List.set_cons_succ]
    refine ⟨_, _, _, _, rfl, ?_, ?_, ?_, ?_, ?_, ?_, ?_, ?_⟩
  all_goals first
    | simp only [vec_copy_length, vec_axpy_length, vec_scale_length, vec_create_length,
        upwind_apply_A_length, upwind_apply_Aadjoint_length, upwind_apply_D_length, h0, h1, h2, h3]
    | (intro j hj
       simp only [vec_copy_getD, vec_axpy_getD, vec_scale_getD, upwind_apply_D_getD,
         vec_copy_length, vec_axpy_length, vec_scale_length, vec_create_length,
         upwind_apply_A_length, upwind_apply_Aadjoint_length, upwind_apply_D_length,
         vec_copy_fresh _ _ h0, vec_copy_fresh _ _ h1, vec_copy_fresh _ _ h2, vec_copy_full,
         vec_copy_canon, h0, h1, h2, h3, hj]
       ring)

end Residual

/-! ## The local block solve -/

section Solve

variable {K : Type} [LinearOrderedField K]

@[simp] theorem lu_solve_length (b : K) (M : Nat) (u l a : List K) :
    (lu_solve b M u l a).length = u.length := by
  unfold lu_solve
  simp only []
  rw [forDown_set_length (M - 1) (fun i acc => (_ - b * acc.getD (i + 1) 0) / a.getD i 0)]
  simp

@[simp] theorem lu_solve_adjoint_length (b : K) (M : Nat) (u l a : List K) :
    (lu_solve_adjoint b M u l a).length = u.length := by
  unfold lu_solve_adjoint
  simp only []
  rw [forDown_set_length (M - 1) (fun i acc => _ - l.getD i 0 * acc.getD (i + 1) 0)]
  simp

@[simp] theorem upwind_apply_Phi_length (dt dx nu : K) (M : Nat) (u l a : List K) :
    (Upwind.apply_Phi dt dx nu M u l a).length = u.length :=
  lu_solve_length _ M u l a

@[simp] theorem upwind_apply_PhiAdjoint_length (dt dx nu : K) (M : Nat) (u l a : List K) :
    (Upwind.apply_PhiAdjoint dt dx nu M u l a).length = u.length :=
  lu_solve_adjoint_length _ M u l a

@[simp] theorem zero_fill_length (n : Nat) (y : List K) :
    (forUp 0 n (fun i (acc : List K) => acc.set i 0) y).length = y.length :=
  forUp_set_length 0 n (fun _ _ => 0) y

theorem zero_fill_getD (n : Nat) (y : List K) (j : Nat) (hj : j < n) (hy : j < y.length) :
    (forUp 0 n (fun i (acc : List K) => acc.set i 0) y).getD j 0 = 0 :=
  forUp_set_getD_inside 0 n (fun _ _ => 0) y j 0 (Nat.zero_le _) hj hy

/-- The four blocks left by `my_TriSolve`, entry by entry, in terms of the residual blocks
`R0 .. R3` of the incoming vector: `dW0` is the right-hand side handed to the two
tridiagonal solves. -/
theorem my_TriSolve_spec (app : Upwind.my_App K) (uleft uright f : Option (Upwind.my_Vector K))
    (u : Upwind.my_Vector K) (hom : Int) (status : Upwind.braid_TriStatus K)
    (b0 b1 b2 b3 R0 R1 R2 R3 : List K)
    (hu : u.values = [b0, b1, b2, b3]) (h0 : b0.length = app.mspace)
    (h1 : b1.length = app.mspace) (h2 : b2.length = app.mspace)
    (hR : (Upwind.my_TriResidual app uleft uright f u hom status).values = [R0, R1, R2, R3])
    (hR0 : R0.length = app.mspace) (hR1 : R1.length = app.mspace)
    (hR2 : R2.length = app.mspace) (hR3 : R3.length = app.mspace) :
    ∃ dW0 U V W : List K,
      dW0.length = app.mspace ∧
      (∀ j, j < app.mspace → dW0.getD j 0 =
        Upwind.space_step app.mspace * Upwind.time_step status * (1 / 2)
          * (-1 / (Upwind.space_step app.mspace * Upwind.time_step status) * R3.getD j 0
            + 1 / (Upwind.space_step app.mspace * Upwind.time_step status)
              * (Upwind.apply_A (Upwind.time_step status) (Upwind.space_step app.mspace)
                  app.nu app.mspace R0).getD j 0
            + -1 / (Upwind.space_step app.mspace * app.alpha) * R1.getD j 0
            + -1 * R2.getD j 0)) ∧
      (Upwind.my_TriSolve app uleft uright f u hom status).1.values = [U, V, W, R3] ∧
      U.length = app.mspace ∧ V.length = app.mspace ∧ W.length = app.mspace ∧
      (∀ j, j < app.mspace → W.getD j 0 = b2.getD j 0
        - (Upwind.apply_PhiAdjoint (Upwind.time_step status) (Upwind.space_step app.mspace)
            app.nu app.mspace
            (Upwind.apply_Phi (Upwind.time_step status) (Upwind.space_step app.mspace)
              app.nu app.mspace dW0 app.li app.ai) app.li app.ai).getD j 0) ∧
      (∀ j, j < app.mspace → V.getD j 0 = b1.getD j 0
        - (1 / (app.alpha * Upwind.space_step app.mspace * Upwind.time_step status) * R1.getD j 0
          + 1 / (app.alpha * Upwind.space_step app.mspace)
            * (Upwind.apply_PhiAdjoint (Upwind.time_step status) (Upwind.space_step app.mspace)
                app.nu app.mspace
                (Upwind.apply_Phi (Upwind.time_step status) (Upwind.space_step app.mspace)
                  app.nu app.mspace dW0 app.li app.ai) app.li app.ai).getD j 0)) ∧
      (∀ j, j < app.mspace → U.getD j 0 = b0.getD j 0
        - (1 / (Upwind.space_step app.mspace * Upwind.time_step status) * R0.getD j 0
          + -1 / (Upwind.space_step app.mspace * Upwind.time_step status)
            * (Upwind.apply_Aadjoint (Upwind.time_step status) (Upwind.space_step app.mspace)
                app.nu app.mspace
                (Upwind.apply_PhiAdjoint (Upwind.time_step status) (Upwind.space_step app.mspace)
                  app.nu app.mspace
                  (Upwind.apply_Phi (Upwind.time_step status) (Upwind.space_step app.mspace)
                    app.nu app.mspace dW0 app.li app.ai) app.li app.ai)).getD j 0)) := by
  have hdt : (if status.t < status.tnext then status.tnext - status.t
      else status.t - status.tprev) = Upwind.time_step status := rfl
  have hdx : (1 : K) / (((app.mspace + 1 : Nat) : K)) = Upwind.space_step app.mspace := rfl
  simp only [Upwind.my_TriSolve, hR, hu, hdt, hdx]
  simp only [List.getD_cons_zero, List.getD_cons_succ, List.set_cons_zero, List.set_cons_succ]
  simp only [vec_copy_fresh _ _ h0, vec_copy_fresh _ _ h1, vec_copy_fresh _ _ h2,
    vec_copy_fresh _ _ hR0, vec_copy_fresh _ _ hR1, vec_copy_fresh _ _ hR2, vec_copy_fresh _ _ hR3]
  refine ⟨vec_scale app.mspace (Upwind.space_step app.mspace * Upwind.time_step status * (1 / 2))
    (vec_axpy app.mspace (-1) R2
      (vec_axpy app.mspace (-1 / (Upwind.space_step app.mspace * app.alpha)) R1
        (vec_axpy app.mspace (1 / (Upwind.space_step app.mspace * Upwind.time_step status))
          (Upwind.apply_A (Upwind.time_step status) (Upwind.space_step app.mspace) app.nu app.mspace R0)
          (vec_axpy app.mspace (-1 / (Upwind.space_step app.mspace * Upwind.time_step status)) R3
            (forUp 0 app.mspace (fun i dW => dW.set i 0) (vec_create app.mspace)))))),
    _, _, _, ?_, ?_, rfl, ?_, ?_, ?_, ?_, ?_, ?_⟩
  all_goals first
    | simp only [vec_copy_length, vec_axpy_length, vec_scale_length, vec_create_length,
        zero_fill_length, hR0, hR1, hR2, hR3, h0, h1, h2]
    | (intro j hj
       simp only [vec_copy_getD, vec_axpy_getD, vec_scale_getD, zero_fill_getD,
         vec_copy_length, vec_axpy_length, vec_scale_length, vec_create_length, zero_fill_length,
         upwind_apply_A_length, upwind_apply_Aadjoint_length,
         upwind_apply_Phi_length, upwind_apply_PhiAdjoint_length,
         vec_copy_full, hR0, hR1, hR2, hR3, h0, h1, h2, hj]
       ring)

/-- The tridiagonal product is additive: rows of `T (x - y)`. -/
theorem tridiag_apply_sub (A B C : K) (M : Nat) (x y z : List K) (hM : 2 ≤ M)
    (hx : x.length = M) (hy : y.length = M) (hz : z.length = M)
    (h : ∀ j, j < M → z.getD j 0 = x.getD j 0 - y.getD j 0) (j : Nat) (hj : j < M) :
    (tridiag_apply A B C M z).getD j 0
      = (tridiag_apply A B C M x).getD j 0 - (tridiag_apply A B C M y).getD j 0 := by
  rw [tridiag_apply_getD A B C M z hM hz j hj, tridiag_apply_getD A B C M x hM hx j hj,
    tridiag_apply_getD A B C M y hM hy j hj, h j hj]
  have hnext : z.getD (j + 1) 0 = x.getD (j + 1) 0 - y.getD (j + 1) 0 := by
    by_cases hl : j + 1 < M
    · exact h (j + 1) hl
    · rw [getD_of_length_le z _ 0 (by omega), getD_of_length_le x _ 0 (by omega),
        getD_of_length_le y _ 0 (by omega), sub_zero]
  rw [hnext]
  by_cases h0 : j = 0
  · simp only [h0, if_true]
    ring
  · rw [if_neg h0, if_neg h0, if_neg h0, h (j - 1) (by omega)]
    ring

/-- Rows of `apply_Aadjoint (x - y)`. -/
theorem upwind_apply_Aadjoint_sub (dt dx nu : K) (M : Nat) (x y z : List K) (hM : 2 ≤ M)
    (hx : x.length = M) (hy : y.length = M) (hz : z.length = M)
    (h : ∀ j, j < M → z.getD j 0 = x.getD j 0 - y.getD j 0) (j : Nat) (hj : j < M) :
    (Upwind.apply_Aadjoint dt dx nu M z).getD j 0
      = (Upwind.apply_Aadjoint dt dx nu M x).getD j 0
        - (Upwind.apply_Aadjoint dt dx nu M y).getD j 0 :=
  tridiag_apply_sub _ _ _ M x y z hM hx hy hz h j hj

theorem space_step_ne_zero (M : Nat) : (Upwind.space_step M : K) ≠ 0 := by
  unfold Upwind.space_step
  have : (((M + 1 : Nat) : K)) ≠ 0 := Nat.cast_ne_zero.mpr (Nat.succ_ne_zero M)
  exact one_div_ne_zero this

theorem adjoint_row_cancel (s x u w o p r atw atx atd d : K) (hs : s ≠ 0)
    (e' : r = s * x + atx - s * u - o - p)
    (ex : x = w - (1 / s * d + -1 / s * atd))
    (el : atx = atw - atd)
    (e : d = s * w + atw - s * u - o - p) : r = 0 := by
  subst e' ex el e
  field_simp
  ring

theorem control_row_cancel (al dx dt v w b1 b2 p r d dw : K) (hal : al ≠ 0) (hdx : dx ≠ 0)
    (hdt : dt ≠ 0)
    (e' : r = al * dx * dt * v - dt * w - p)
    (ev : v = b1 - (1 / (al * dx * dt) * d + 1 / (al * dx) * dw))
    (ew : w = b2 - dw)
    (e : d = al * dx * dt * b1 - dt * b2 - p) : r = 0 := by
  subst e' ev ew e
  field_simp
  ring

/-- After `my_TriSolve` the vector is again made of four blocks of length `mspace`, and
the adjoint-equation and control-equation residuals, re-evaluated with the same
neighbours and forcing, vanish entry by entry.  Only `dt ≠ 0`, `alpha ≠ 0` are used. -/
theorem solve_then_residual (app : Upwind.my_App K)
    (uleft uright f : Option (Upwind.my_Vector K)) (u : Upwind.my_Vector K) (hom : Int)
    (status : Upwind.braid_TriStatus K) (hM : 2 ≤ app.mspace)
    (hdt : Upwind.time_step status ≠ 0) (hal : app.alpha ≠ 0)
    (hu : Upwind.well_formed app.mspace u) :
    Upwind.well_formed app.mspace (Upwind.my_TriSolve app uleft uright f u hom status).1 ∧
    ∃ R0 R1 R2 R3 : List K,
      (Upwind.my_TriResidual app uleft uright f
        (Upwind.my_TriSolve app uleft uright f u hom status).1 hom status).values
        = [R0, R1, R2, R3] ∧
      R0.length = app.mspace ∧ R1.length = app.mspace ∧
      (∀ j, j < app.mspace → R0.getD j 0 = 0) ∧ (∀ j, j < app.mspace → R1.getD j 0 = 0) := by
  obtain ⟨b0, b1, b2, b3, hb, h0, h1, h2, h3⟩ := well_formed_cases app.mspace u hu
  obtain ⟨R0, R1, R2, R3, hR, l0, l1, l2, l3, e0, e1, -, -⟩ :=
    my_TriResidual_spec app uleft uright f u hom status b0 b1 b2 b3 hb h0 h1 h2 h3
  obtain ⟨dW0, U, V, W, ldW0, -, hS, lU, lV, lW, eW, eV, eU⟩ :=
    my_TriSolve_spec app uleft uright f u hom status b0 b1 b2 b3 R0 R1 R2 R3 hb h0 h1 h2 hR
      l0 l1 l2 l3
  obtain ⟨R0', R1', R2', R3', hR', l0', l1', -, -, e0', e1', -, -⟩ :=
    my_TriResidual_spec app uleft uright f _ hom status U V W R3 hS lU lV lW l3
  have hwf : Upwind.well_formed app.mspace
      (Upwind.my_TriSolve app uleft uright f u hom status).1 := by
    refine ⟨by rw [hS]; rfl, ?_⟩
    intro k hk
    rw [hS]
    interval_cases k
    · exact lU
    · exact lV
    · exact lW
    · exact l3
  refine ⟨hwf, R0', R1', R2', R3', hR', l0', l1', ?_, ?_⟩
  · intro j hj
    have hlin := upwind_apply_Aadjoint_sub (Upwind.time_step status)
      (Upwind.space_step app.mspace) app.nu app.mspace b2
      (Upwind.apply_PhiAdjoint (Upwind.time_step status) (Upwind.space_step app.mspace)
        app.nu app.mspace
        (Upwind.apply_Phi (Upwind.time_step status) (Upwind.space_step app.mspace)
          app.nu app.mspace dW0 app.li app.ai) app.li app.ai) W hM h2
      (by simp [ldW0]) lW eW j hj
    exact adjoint_row_cancel _ _ _ _ _ _ _ _ _ _ _
      (mul_ne_zero (space_step_ne_zero app.mspace) hdt) (e0' j hj) (eU j hj) hlin (e0 j hj)
  · intro j hj
    exact control_row_cancel _ _ _ _ _ _ _ _ _ _ _ hal (space_step_ne_zero app.mspace) hdt
      (e1' j hj) (eV j hj) (eW j hj) (e1 j hj)

end Solve

/-! ## Operator/adjoint consistency -/

section Adjoint

variable {K : Type} [LinearOrderedField K]

/-- Moving a one-step shift from one factor of a sum of products to the other. -/
theorem sum_shift (M : Nat) (f g : Nat → K) (hg : g M = 0) :
    ∑ j in Finset.range M, (if j = 0 then 0 else f (j - 1) * g j)
      = ∑ j in Finset.range M, f j * g (j + 1) := by
  cases M with
  | zero => simp
  | succ n =>
    rw [Finset.sum_range_succ', Finset.sum_range_succ]
    simp [hg]

/-- The matrix of `tridiag_apply C B A` is the transpose of that of `tridiag_apply A B C`. -/
theorem tridiag_apply_dot (A B C : K) (M : Nat) (x y : List K) (hM : 2 ≤ M)
    (hx : x.length = M) (hy : y.length = M) :
    dot M (tridiag_apply A B C M x) y = dot M x (tridiag_apply C B A M y) := by
  unfold dot
  have hL : ∀ j ∈ Finset.range M, (tridiag_apply A B C M x).getD j 0 * y.getD j 0
      = (if j = 0 then 0 else (A * x.getD (j - 1) 0) * y.getD j 0)
        + B * (x.getD j 0 * y.getD j 0) + C * (y.getD j 0 * x.getD (j + 1) 0) := by
    intro j hj
    rw [tridiag_apply_getD A B C M x hM hx j (Finset.mem_range.1 hj)]
    by_cases h0 : j = 0
    · simp only [h0, if_true]; ring
    · simp only [h0, if_false]; ring
  have hR : ∀ j ∈ Finset.range M, x.getD j 0 * (tridiag_apply C B A M y).getD j 0
      = C * (if j = 0 then 0 else y.getD (j - 1) 0 * x.getD j 0)
        + B * (x.getD j 0 * y.getD j 0) + (A * x.getD j 0) * y.getD (j + 1) 0 := by
    intro j hj
    rw [tridiag_apply_getD C B A M y hM hy j (Finset.mem_range.1 hj)]
    by_cases h0 : j = 0
    · simp only [h0, if_true]; ring
    · simp only [h0, if_false]; ring
  rw [Finset.sum_congr rfl hL, Finset.sum_congr rfl hR]
  simp only [Finset.sum_add_distrib, ← Finset.mul_sum]
  rw [sum_shift M (fun j => A * x.getD j 0) (fun j => y.getD j 0)
      (getD_of_length_le y M 0 (by omega)),
    sum_shift M (fun j => y.getD j 0) (fun j => x.getD j 0)
      (getD_of_length_le x M 0 (by omega))]
  ring

/-- C4. Operator/adjoint consistency: for `M ≥ 3`, every `dt`, `dx ≠ 0`, `nu` and all blocks
`x`, `y` of length `M`, the dot product of `apply_A x` with `y` equals the dot product of
`x` with `apply_Aadjoint y`. -/
theorem upwind_apply_A_dot_apply_Aadjoint (dt dx nu : K) (M : Nat) (x y : List K)
    (hM : 3 ≤ M) (_hdx : dx ≠ 0) (hx : x.length = M) (hy : y.length = M) :
    dot M (Upwind.apply_A dt dx nu M x) y = dot M x (Upwind.apply_Aadjoint dt dx nu M y) :=
  tridiag_apply_dot _ _ _ M x y (by omega) hx hy

theorem upwind_apply_A_dot_apply_Aadjoint_witness :
    3 ≤ 3 ∧ (1 / 4 : ℚ) ≠ 0 ∧ ([1, 2, 3] : List ℚ).length = 3 ∧
    ([4, 5, 6] : List ℚ).length = 3 ∧
    dot 3 (Upwind.apply_A (1 : ℚ) (1 / 4) 2 3 [1, 2, 3]) [4, 5, 6]
      = dot 3 [1, 2, 3] (Upwind.apply_Aadjoint (1 : ℚ) (1 / 4) 2 3 [4, 5, 6]) :=
  ⟨le_refl 3, by norm_num, rfl, rfl,
    upwind_apply_A_dot_apply_Aadjoint (1 : ℚ) (1 / 4) 2 3 [1, 2, 3] [4, 5, 6] (le_refl 3)
      (by norm_num) rfl rfl⟩

end Adjoint

/-! ## The residual rows -/

section ResidualClaims

variable {K : Type} [LinearOrderedField K]

set_option maxRecDepth 100000

/-- C7 (amended). Adjoint-equation residual: for every input with a right neighbour present
and no forcing, the first residual block written by `my_TriResidual` equals
`dx*dt*(u - U0) + Aᵀ w - w_right` entrywise (`Aᵀ` is `apply_Aadjoint`, `w_right` the right
neighbour's adjoint block). -/
theorem residual_adjoint_row (app : Upwind.my_App K)
    (uleft : Option (Upwind.my_Vector K)) (ur r : Upwind.my_Vector K) (hom : Int)
    (status : Upwind.braid_TriStatus K) (hr : Upwind.well_formed app.mspace r)
    (j : Nat) (hj : j < app.mspace) :
    ((Upwind.my_TriResidual app uleft (some ur) none r hom status).values.getD 0 []).getD j 0
      = Upwind.space_step app.mspace * Upwind.time_step status
          * ((r.values.getD 0 []).getD j 0 - app.U0.getD j 0)
        + (Upwind.apply_Aadjoint (Upwind.time_step status) (Upwind.space_step app.mspace) app.nu
            app.mspace (r.values.getD 2 [])).getD j 0
        - (ur.values.getD 2 []).getD j 0 := by
  obtain ⟨b0, b1, b2, b3, hb, h0, h1, h2, h3⟩ := well_formed_cases app.mspace r hr
  obtain ⟨R0, R1, R2, R3, hR, -, -, -, -, e0, -, -, -⟩ :=
    my_TriResidual_spec app uleft (some ur) none r hom status b0 b1 b2 b3 hb h0 h1 h2 h3
  rw [hR, hb]
  simp only [List.getD_cons_zero, List.getD_cons_succ]
  rw [e0 j hj]
  ring

theorem residual_adjoint_row_witness :
    Upwind.well_formed app3.mspace vector3 ∧ 0 < app3.mspace ∧
    ((Upwind.my_TriResidual app3 none (some neighbour3) none vector3 0
        status3).values.getD 0 []).getD 0 0
      = Upwind.space_step app3.mspace * Upwind.time_step status3
          * ((vector3.values.getD 0 []).getD 0 0 - app3.U0.getD 0 0)
        + (Upwind.apply_Aadjoint (Upwind.time_step status3) (Upwind.space_step app3.mspace)
            app3.nu app3.mspace (vector3.values.getD 2 [])).getD 0 0
        - (neighbour3.values.getD 2 []).getD 0 0 :=
  ⟨by unfold Upwind.well_formed; decide, by decide,
    residual_adjoint_row app3 none neighbour3 vector3 0 status3
      (by unfold Upwind.well_formed; decide) 0 (by decide)⟩

/-- C7 (as stated) fails: on `vector3` with right neighbour `neighbour3` the first entry of
the first residual block is not `dx*dt*(u - U0) - Aᵀ w + w_right` (the block is `2`, the
formula gives `-2`). -/
theorem adjoint_row_claimed_signs_fail :
    ((Upwind.my_TriResidual app3 none (some neighbour3) none vector3 0
        status3).values.getD 0 []).getD 0 0
      ≠ Upwind.space_step app3.mspace * Upwind.time_step status3
          * ((vector3.values.getD 0 []).getD 0 0 - app3.U0.getD 0 0)
        - (Upwind.apply_Aadjoint (Upwind.time_step status3) (Upwind.space_step app3.mspace)
            app3.nu app3.mspace (vector3.values.getD 2 [])).getD 0 0
        + (neighbour3.values.getD 2 []).getD 0 0 := by
  norm_num [Upwind.my_TriResidual, app3, status3, vector3, neighbour3, Upwind.space_step,
    Upwind.time_step, forUp, vec_create, vec_copy, vec_axpy, vec_scale, Upwind.apply_A,
    Upwind.apply_Aadjoint, Upwind.apply_D, List.range', List.replicate]

/-- C8. Control-equation residual: for every input with no forcing, the second residual
block written by `my_TriResidual` equals `alpha*dx*dt*v - dt*w` entrywise, whatever the
neighbours are. -/
theorem residual_control_row (app : Upwind.my_App K)
    (uleft uright : Option (Upwind.my_Vector K)) (r : Upwind.my_Vector K) (hom : Int)
    (status : Upwind.braid_TriStatus K) (hr : Upwind.well_formed app.mspace r)
    (j : Nat) (hj : j < app.mspace) :
    ((Upwind.my_TriResidual app uleft uright none r hom status).values.getD 1 []).getD j 0
      = app.alpha * Upwind.space_step app.mspace * Upwind.time_step status
          * (r.values.getD 1 []).getD j 0
        - Upwind.time_step status * (r.values.getD 2 []).getD j 0 := by
  obtain ⟨b0, b1, b2, b3, hb, h0, h1, h2, h3⟩ := well_formed_cases app.mspace r hr
  obtain ⟨R0, R1, R2, R3, hR, -, -, -, -, -, e1, -, -⟩ :=
    my_TriResidual_spec app uleft uright none r hom status b0 b1 b2 b3 hb h0 h1 h2 h3
  rw [hR, hb]
  simp only [List.getD_cons_zero, List.getD_cons_succ]
  rw [e1 j hj]
  ring

theorem residual_control_row_witness :
    Upwind.well_formed app3.mspace vector3 ∧ 1 < app3.mspace ∧
    ((Upwind.my_TriResidual app3 (some zero3) (some neighbour3) none vector3 0
        status3).values.getD 1 []).getD 1 0
      = app3.alpha * Upwind.space_step app3.mspace * Upwind.time_step status3
          * (vector3.values.getD 1 []).getD 1 0
        - Upwind.time_step status3 * (vector3.values.getD 2 []).getD 1 0 :=
  ⟨by unfold Upwind.well_formed; decide, by decide,
    residual_control_row app3 (some zero3) (some neighbour3) vector3 0 status3
      (by unfold Upwind.well_formed; decide) 1 (by decide)⟩

/-- C9. State-equation residual: for every input with no forcing, the third residual block
written by `my_TriResidual` equals `A u - dt*v - u_left` when a left neighbour is present
and `A u - dt*v - U0` when it is absent. -/
theorem residual_state_row (app : Upwind.my_App K)
    (uright : Option (Upwind.my_Vector K)) (r : Upwind.my_Vector K) (hom : Int)
    (status : Upwind.braid_TriStatus K) (hr : Upwind.well_formed app.mspace r)
    (j : Nat) (hj : j < app.mspace) :
    (∀ ul : Upwind.my_Vector K,
      ((Upwind.my_TriResidual app (some ul) uright none r hom status).values.getD 2 []).getD j 0
        = (Upwind.apply_A (Upwind.time_step status) (Upwind.space_step app.mspace) app.nu
            app.mspace (r.values.getD 0 [])).getD j 0
          - Upwind.time_step status * (r.values.getD 1 []).getD j 0
          - (ul.values.getD 0 []).getD j 0) ∧
    ((Upwind.my_TriResidual app none uright none r hom status).values.getD 2 []).getD j 0
      = (Upwind.apply_A (Upwind.time_step status) (Upwind.space_step app.mspace) app.nu
          app.mspace (r.values.getD 0 [])).getD j 0
        - Upwind.time_step status * (r.values.getD 1 []).getD j 0
        - app.U0.getD j 0 := by
  obtain ⟨b0, b1, b2, b3, hb, h0, h1, h2, h3⟩ := well_formed_cases app.mspace r hr
  constructor
  · intro ul
    obtain ⟨R0, R1, R2, R3, hR, -, -, -, -, -, -, e2, -⟩ :=
      my_TriResidual_spec app (some ul) uright none r hom status b0 b1 b2 b3 hb h0 h1 h2 h3
    rw [hR, hb]
    simp only [List.getD_cons_zero, List.getD_cons_succ]
    rw [e2 j hj]
    ring
  · obtain ⟨R0, R1, R2, R3, hR, -, -, -, -, -, -, e2, -⟩ :=
      my_TriResidual_spec app none uright none r hom status b0 b1 b2 b3 hb h0 h1 h2 h3
    rw [hR, hb]
    simp only [List.getD_cons_zero, List.getD_cons_succ]
    rw [e2 j hj]
    ring

theorem residual_state_row_witness :
    Upwind.well_formed app3.mspace vector3 ∧ 2 < app3.mspace ∧
    ((∀ ul : Upwind.my_Vector ℚ,
      ((Upwind.my_TriResidual app3 (some ul) (some neighbour3) none vector3 0
          status3).values.getD 2 []).getD 2 0
        = (Upwind.apply_A (Upwind.time_step status3) (Upwind.space_step app3.mspace) app3.nu
            app3.mspace (vector3.values.getD 0 [])).getD 2 0
          - Upwind.time_step status3 * (vector3.values.getD 1 []).getD 2 0
          - (ul.values.getD 0 []).getD 2 0) ∧
    ((Upwind.my_TriResidual app3 none (some neighbour3) none vector3 0
        status3).values.getD 2 []).getD 2 0
      = (Upwind.apply_A (Upwind.time_step status3) (Upwind.space_step app3.mspace) app3.nu
          app3.mspace (vector3.values.getD 0 [])).getD 2 0
        - Upwind.time_step status3 * (vector3.values.getD 1 []).getD 2 0
        - app3.U0.getD 2 0) :=
  ⟨by unfold Upwind.well_formed; decide, by decide,
    residual_state_row app3 (some neighbour3) vector3 0 status3
      (by unfold Upwind.well_formed; decide) 2 (by decide)⟩

/-- Subtracting a block whose first `n` entries vanish changes nothing. -/
theorem vec_axpy_zero_block (n : Nat) (c : K) (x y : List K)
    (hx : ∀ j, j < n → x.getD j 0 = 0) : vec_axpy n c x y = y := by
  apply list_eq_of_getD 0
  · simp
  · intro j hj
    simp only [vec_axpy_length] at hj
    by_cases hjn : j < n
    · rw [vec_axpy_getD n c x y j hjn hj, hx j hjn]
      ring
    · exact forUp_set_getD_outside 0 n (fun i acc => acc.getD i 0 + c * x.getD i 0) y j 0
        (Or.inr (by omega))

theorem vec_axpy_copy_zero (n : Nat) (c : K) (x t y : List K) (ht : t.length = n)
    (hx : ∀ j, j < n → x.getD j 0 = 0) : vec_axpy n c (vec_copy n x t) y = y := by
  apply vec_axpy_zero_block
  intro j hj
  rw [vec_copy_getD n x t j hj (by omega), hx j hj]

/-- C10. Terminal-boundary handling: for every input, `my_TriResidual` called with the
right neighbour absent writes the same four residual blocks as when called with a right
neighbour whose adjoint block is all zeros. -/
theorem residual_right_absent (app : Upwind.my_App K)
    (uleft f : Option (Upwind.my_Vector K)) (ur r : Upwind.my_Vector K) (hom : Int)
    (status : Upwind.braid_TriStatus K)
    (hz : ∀ j, j < app.mspace → (ur.values.getD 2 []).getD j 0 = 0) :
    Upwind.my_TriResidual app uleft none f r hom status
      = Upwind.my_TriResidual app uleft (some ur) f r hom status := by
  have hax : ∀ (c : K) (t y : List K), t.length = app.mspace →
      vec_axpy app.mspace c (vec_copy app.mspace (ur.values.getD 2 []) t) y = y :=
    fun c t y ht => vec_axpy_copy_zero app.mspace c _ t y ht hz
  cases uleft <;> cases f <;>
    simp only [Upwind.my_TriResidual, hax, vec_copy_canon, vec_copy_length, vec_axpy_length,
      vec_scale_length, vec_create_length, upwind_apply_A_length, upwind_apply_Aadjoint_length,
      upwind_apply_D_length]

theorem residual_right_absent_witness :
    (∀ j, j < app3.mspace → (zero3.values.getD 2 []).getD j 0 = 0) ∧
    Upwind.my_TriResidual app3 none none (some neighbour3) vector3 0 status3
      = Upwind.my_TriResidual app3 none (some zero3) (some neighbour3) vector3 0 status3 :=
  ⟨by intro j hj; have : j < 3 := hj; interval_cases j <;> rfl,
    residual_right_absent app3 none (some neighbour3) zero3 vector3 0 status3
      (by intro j hj; have : j < 3 := hj; interval_cases j <;> rfl)⟩

end ResidualClaims

/-! ## Local exactness of the block solve -/

section SolveClaims

variable {K : Type} [LinearOrderedField K]

set_option maxRecDepth 100000

set_option maxHeartbeats 4000000

theorem eq_replicate_zero (n : Nat) (l : List K) (hl : l.length = n)
    (h : ∀ j, j < n → l.getD j 0 = 0) : l = List.replicate n 0 := by
  apply list_eq_of_getD 0
  · simp [hl]
  · intro j hj
    have hjn : j < n := by omega
    rw [h j hjn]
    simp [List.getD_eq_getElem?_getD, List.getElem?_replicate, hjn]

/-- C5 (amended). Local exactness of the block-solve kernel: for `M ≥ 3`, `dt > 0`,
`dx = 1/(M+1)`, `nu ≥ 0`, `alpha > 0`, every target, neighbours, forcing and starting
blocks, with the factorization built for the same `dt`: after `my_TriSolve`, `my_TriResidual`
on the updated blocks with the same neighbours and forcing returns the zero block for the
adjoint-equation and the control-equation residuals. -/
theorem solve_local_residual (app : Upwind.my_App K)
    (uleft uright f : Option (Upwind.my_Vector K)) (u : Upwind.my_Vector K) (hom : Int)
    (status : Upwind.braid_TriStatus K) (hM : 3 ≤ app.mspace)
    (hdt : 0 < Upwind.time_step status) (_hnu : 0 ≤ app.nu) (hal : 0 < app.alpha)
    (_hai : app.ai = (Upwind.build_LU (Upwind.time_step status) (Upwind.space_step app.mspace)
      app.nu app.mspace).1)
    (_hli : app.li = (Upwind.build_LU (Upwind.time_step status) (Upwind.space_step app.mspace)
      app.nu app.mspace).2)
    (hu : Upwind.well_formed app.mspace u) :
    (Upwind.my_TriResidual app uleft uright f
        (Upwind.my_TriSolve app uleft uright f u hom status).1 hom status).values.getD 0 []
      = List.replicate app.mspace 0 ∧
    (Upwind.my_TriResidual app uleft uright f
        (Upwind.my_TriSolve app uleft uright f u hom status).1 hom status).values.getD 1 []
      = List.replicate app.mspace 0 := by
  obtain ⟨-, R0, R1, R2, R3, hR, l0, l1, z0, z1⟩ :=
    solve_then_residual app uleft uright f u hom status (by omega) (ne_of_gt hdt)
      (ne_of_gt hal) hu
  rw [hR]
  exact ⟨eq_replicate_zero _ _ l0 z0, eq_replicate_zero _ _ l1 z1⟩

theorem solve_local_residual_witness :
    3 ≤ app3.mspace ∧ 0 < Upwind.time_step status3 ∧ 0 ≤ app3.nu ∧ 0 < app3.alpha ∧
    app3.ai = (Upwind.build_LU (Upwind.time_step status3) (Upwind.space_step app3.mspace)
      app3.nu app3.mspace).1 ∧
    app3.li = (Upwind.build_LU (Upwind.time_step status3) (Upwind.space_step app3.mspace)
      app3.nu app3.mspace).2 ∧
    Upwind.well_formed app3.mspace vector3 ∧
    (Upwind.my_TriResidual app3 (some zero3) (some neighbour3) (some vector3)
        (Upwind.my_TriSolve app3 (some zero3) (some neighbour3) (some vector3) vector3 0
          status3).1 0 status3).values.getD 0 []
      = List.replicate app3.mspace 0 ∧
    (Upwind.my_TriResidual app3 (some zero3) (some neighbour3) (some vector3)
        (Upwind.my_TriSolve app3 (some zero3) (some neighbour3) (some vector3) vector3 0
          status3).1 0 status3).values.getD 1 []
      = List.replicate app3.mspace 0 :=
  have h1 : (3 : Nat) ≤ app3.mspace := by decide
  have h2 : 0 < Upwind.time_step status3 := by norm_num [Upwind.time_step, status3]
  have h3 : 0 ≤ app3.nu := by norm_num [app3]
  have h4 : 0 < app3.alpha := by norm_num [app3]
  have h5 : app3.ai = (Upwind.build_LU (Upwind.time_step status3)
      (Upwind.space_step app3.mspace) app3.nu app3.mspace).1 := by
    norm_num [app3, Upwind.time_step, status3, Upwind.space_step]
  have h6 : app3.li = (Upwind.build_LU (Upwind.time_step status3)
      (Upwind.space_step app3.mspace) app3.nu app3.mspace).2 := by
    norm_num [app3, Upwind.time_step, status3, Upwind.space_step]
  have h7 : Upwind.well_formed app3.mspace vector3 := by unfold Upwind.well_formed; decide
  ⟨h1, h2, h3, h4, h5, h6, h7,
    solve_local_residual app3 (some zero3) (some neighbour3) (some vector3) vector3 0 status3
      h1 h2 h3 h4 h5 h6 h7⟩

/-- C5 (as stated) fails: on `app3` (factorization built for the `dt = 1` of `status3`), no
neighbours, no forcing, start `zero3`, the state-equation residual re-evaluated after
`my_TriSolve` is not the zero block. -/
theorem solve_state_residual_nonzero :
    3 ≤ app3.mspace ∧ 0 < Upwind.time_step status3 ∧ 0 ≤ app3.nu ∧ 0 < app3.alpha ∧
    app3.ai = (Upwind.build_LU (Upwind.time_step status3) (Upwind.space_step app3.mspace)
      app3.nu app3.mspace).1 ∧
    app3.li = (Upwind.build_LU (Upwind.time_step status3) (Upwind.space_step app3.mspace)
      app3.nu app3.mspace).2 ∧
    Upwind.well_formed app3.mspace zero3 ∧
    (Upwind.my_TriResidual app3 none none none
        (Upwind.my_TriSolve app3 none none none zero3 0 status3).1 0 status3).values.getD 2 []
      ≠ List.replicate app3.mspace 0 := by
  refine ⟨by decide, by norm_num [Upwind.time_step, status3], by norm_num [app3],
    by norm_num [app3], by norm_num [app3, Upwind.time_step, status3, Upwind.space_step],
    by norm_num [app3, Upwind.time_step, status3, Upwind.space_step],
    by unfold Upwind.well_formed; decide, ?_⟩
  norm_num [Upwind.my_TriResidual, Upwind.my_TriSolve, app3, status3, zero3, Upwind.build_LU,
    forUp, forDown, vec_create, vec_copy, vec_axpy, vec_scale, Upwind.apply_A,
    Upwind.apply_Aadjoint, Upwind.apply_Phi, Upwind.apply_PhiAdjoint, Upwind.apply_D,
    List.range', List.range, List.range.loop, List.replicate]

/-- C6 (amended). End-to-end scenario (`M = 8`, `dt = 1/256`, `dx = 1/9`, `nu = 2`,
`alpha = 0.005`, `U0 = [1,1,1,1,0,0,0,0]`, factorization of `main`): one `my_TriSolve` call
at the first time index (no left neighbour, an all-zero right neighbour, no forcing), from
any blocks with entries in `[0,1]`, leaves a local residual whose adjoint-equation block,
control-equation block and fourth block have every entry of absolute value below `1e-9`. -/
theorem scenario_residual (u : Upwind.my_Vector ℚ) (hu : Upwind.well_formed 8 u)
    (_hrange : ∀ k, k < 3 → ∀ j, j < 8 →
      0 ≤ (u.values.getD k []).getD j 0 ∧ (u.values.getD k []).getD j 0 ≤ 1)
    (k : Nat) (hk : k = 0 ∨ k = 1 ∨ k = 3) (j : Nat) (hj : j < 8) :
    |((Upwind.my_TriResidual app8 none (some zero8) none
        (Upwind.my_TriSolve app8 none (some zero8) none u 0 status8).1 0
          status8).values.getD k []).getD j 0| < 1 / 10 ^ 9 := by
  have hdt : Upwind.time_step status8 ≠ 0 := by norm_num [Upwind.time_step, status8]
  have hal : app8.alpha ≠ 0 := by norm_num [app8]
  obtain ⟨hwf, R0, R1, R2, R3, hR, l0, l1, z0, z1⟩ :=
    solve_then_residual app8 none (some zero8) none u 0 status8 (by decide) hdt hal hu
  obtain ⟨c0, c1, c2, c3, hc, g0, g1, g2, g3⟩ := well_formed_cases 8 _ hwf
  obtain ⟨S0, S1, S2, S3, hS, -, -, -, -, -, -, -, e3⟩ :=
    my_TriResidual_spec app8 none (some zero8) none _ 0 status8 c0 c1 c2 c3 hc g0 g1 g2 g3
  have hS3 : S3 = R3 := by
    have := hS.symm.trans hR
    simp only [List.cons.injEq] at this
    exact this.2.2.2.1
  rw [hR]
  rcases hk with rfl | rfl | rfl
  · simp only [List.getD_cons_zero]
    rw [z0 j hj]; norm_num
  · simp only [List.getD_cons_zero, List.getD_cons_succ]
    rw [z1 j hj]; norm_num
  · simp only [List.getD_cons_zero, List.getD_cons_succ]
    rw [← hS3, e3 j hj]; norm_num

theorem scenario_residual_witness :
    Upwind.well_formed 8 zero8 ∧
    (∀ k, k < 3 → ∀ j, j < 8 →
      0 ≤ (zero8.values.getD k []).getD j 0 ∧ (zero8.values.getD k []).getD j 0 ≤ 1) ∧
    |((Upwind.my_TriResidual app8 none (some zero8) none
        (Upwind.my_TriSolve app8 none (some zero8) none zero8 0 status8).1 0
          status8).values.getD 0 []).getD 0 0| < 1 / 10 ^ 9 :=
  have h1 : Upwind.well_formed 8 zero8 := by unfold Upwind.well_formed; decide
  have h2 : ∀ k, k < 3 → ∀ j, j < 8 →
      0 ≤ (zero8.values.getD k []).getD j 0 ∧ (zero8.values.getD k []).getD j 0 ≤ 1 := by
    intro k hk j hj
    interval_cases k <;> interval_cases j <;> norm_num [zero8]
  ⟨h1, h2, scenario_residual zero8 h1 h2 0 (Or.inl rfl) 0 (by decide)⟩

/-- C6 (as stated) fails: from the all-zero start the state-equation block of the
re-evaluated residual has first entry `215371881503233980073727974814286885339 /
645386468684908668246474550282678788608` (about `0.33`), not below `1e-9`. -/
theorem scenario_state_residual_large :
    ¬ (∀ k, k < 4 → ∀ j, j < 8 →
      |((Upwind.my_TriResidual app8 none (some zero8) none
          (Upwind.my_TriSolve app8 none (some zero8) none zero8 0 status8).1 0
            status8).values.getD k []).getD j 0| < 1 / 10 ^ 9) := by
  intro h
  have h20 := h 2 (by decide) 0 (by decide)
  have hval : ((Upwind.my_TriResidual app8 none (some zero8) none
      (Upwind.my_TriSolve app8 none (some zero8) none zero8 0 status8).1 0
        status8).values.getD 2 []).getD 0 0
      = (215371881503233980073727974814286885339 : ℚ) / 645386468684908668246474550282678788608 := by
    norm_num [Upwind.my_TriResidual, Upwind.my_TriSolve, app8, status8, zero8, Upwind.build_LU,
      forUp, forDown, vec_create, vec_copy, vec_axpy, vec_scale, Upwind.apply_A,
      Upwind.apply_Aadjoint, Upwind.apply_Phi, Upwind.apply_PhiAdjoint, Upwind.apply_D,
      List.range', List.range, List.range.loop, List.replicate]
  rw [hval] at h20
  norm_num [abs_lt] at h20

end SolveClaims

/-! ## Forcing and the closure row of the residual -/

section ForcingClaims

variable {K : Type} [LinearOrderedField K]

set_option maxRecDepth 100000

set_option maxHeartbeats 4000000

/-- C11. Forcing: for every well-formed input and every forcing vector `fv` with four
blocks, each entry of each of the four residual blocks written by `my_TriResidual` with
forcing `fv` equals the entry written without forcing minus the matching entry of `fv`
(block `k` minus `fv.values[k]`, `k = 0..3`). -/
theorem residual_forcing (app : Upwind.my_App K)
    (uleft uright : Option (Upwind.my_Vector K)) (fv r : Upwind.my_Vector K) (hom : Int)
    (status : Upwind.braid_TriStatus K) (hr : Upwind.well_formed app.mspace r)
    (k : Nat) (hk : k < 4) (j : Nat) (hj : j < app.mspace) :
    ((Upwind.my_TriResidual app uleft uright (some fv) r hom status).values.getD k []).getD j 0
      = ((Upwind.my_TriResidual app uleft uright none r hom status).values.getD k []).getD j 0
        - (fv.values.getD k []).getD j 0 := by
  obtain ⟨b0, b1, b2, b3, hb, h0, h1, h2, h3⟩ := well_formed_cases app.mspace r hr
  obtain ⟨R0, R1, R2, R3, hR, -, -, -, -, e0, e1, e2, e3⟩ :=
    my_TriResidual_spec app uleft uright (some fv) r hom status b0 b1 b2 b3 hb h0 h1 h2 h3
  obtain ⟨S0, S1, S2, S3, hS, -, -, -, -, g0, g1, g2, g3⟩ :=
    my_TriResidual_spec app uleft uright none r hom status b0 b1 b2 b3 hb h0 h1 h2 h3
  rw [hR, hS]
  interval_cases k
  · simp only [List.getD_cons_zero]
    rw [e0 j hj, g0 j hj]; ring
  · simp only [List.getD_cons_zero, List.getD_cons_succ]
    rw [e1 j hj, g1 j hj]; ring
  · simp only [List.getD_cons_zero, List.getD_cons_succ]
    rw [e2 j hj, g2 j hj]; ring
  · simp only [List.getD_cons_zero, List.getD_cons_succ]
    rw [e3 j hj, g3 j hj]; ring

/-- The forcing relation at the fourth block, entry `1`, of a run with both neighbours. -/
theorem residual_forcing_witness :
    Upwind.well_formed app3.mspace vector3 ∧ 3 < 4 ∧ 1 < app3.mspace ∧
    ((Upwind.my_TriResidual app3 (some neighbour3) (some zero3) (some vector3) vector3 0
        status3).values.getD 3 []).getD 1 0
      = ((Upwind.my_TriResidual app3 (some neighbour3) (some zero3) none vector3 0
          status3).values.getD 3 []).getD 1 0
        - (vector3.values.getD 3 []).getD 1 0 :=
  ⟨by unfold Upwind.well_formed; decide, by decide, by decide,
    residual_forcing app3 (some neighbour3) (some zero3) vector3 vector3 0 status3
      (by unfold Upwind.well_formed; decide) 3 (by decide) 1 (by decide)⟩

/-- C12 (amended). Closure row of the residual: with no forcing, the fourth block written
by `my_TriResidual` is the all-zero block when no left neighbour is present (the earliest
time index); when a left neighbour `ul` is present it is the combination
`dx dt ul[0] - r[2] - dx dt U0 + Aᵀ ul[2]` of the neighbour's state and adjoint blocks, the
current adjoint block and the target. -/
theorem residual_closure_row (app : Upwind.my_App K)
    (uright : Option (Upwind.my_Vector K)) (r : Upwind.my_Vector K) (hom : Int)
    (status : Upwind.braid_TriStatus K) (hr : Upwind.well_formed app.mspace r) :
    (Upwind.my_TriResidual app none uright none r hom status).values.getD 3 []
      = List.replicate app.mspace 0 ∧
    (∀ (ul : Upwind.my_Vector K) (j : Nat), j < app.mspace →
      ((Upwind.my_TriResidual app (some ul) uright none r hom status).values.getD 3 []).getD j 0
        = Upwind.space_step app.mspace * Upwind.time_step status * (ul.values.getD 0 []).getD j 0
          - (r.values.getD 2 []).getD j 0
          - Upwind.space_step app.mspace * Upwind.time_step status * app.U0.getD j 0
          + (Upwind.apply_Aadjoint (Upwind.time_step status) (Upwind.space_step app.mspace)
              app.nu app.mspace
              (vec_copy app.mspace (ul.values.getD 2 []) (vec_create app.mspace))).getD j 0) := by
  obtain ⟨b0, b1, b2, b3, hb, h0, h1, h2, h3⟩ := well_formed_cases app.mspace r hr
  constructor
  · obtain ⟨R0, R1, R2, R3, hR, -, -, -, l3, -, -, -, e3⟩ :=
      my_TriResidual_spec app none uright none r hom status b0 b1 b2 b3 hb h0 h1 h2 h3
    rw [hR]
    simp only [List.getD_cons_zero, List.getD_cons_succ]
    apply eq_replicate_zero _ _ l3
    intro j hj
    rw [e3 j hj]
    ring
  · intro ul j hj
    obtain ⟨R0, R1, R2, R3, hR, -, -, -, -, -, -, -, e3⟩ :=
      my_TriResidual_spec app (some ul) uright none r hom status b0 b1 b2 b3 hb h0 h1 h2 h3
    rw [hR, hb]
    simp only [List.getD_cons_zero, List.getD_cons_succ]
    rw [e3 j hj]
    ring

/-- Both halves of the closure row on three space points. -/
theorem residual_closure_row_witness :
    Upwind.well_formed app3.mspace vector3 ∧
    (Upwind.my_TriResidual app3 none (some neighbour3) none vector3 0 status3).values.getD 3 []
      = List.replicate app3.mspace 0 ∧
    ((Upwind.my_TriResidual app3 (some neighbour3) (some neighbour3) none vector3 0
        status3).values.getD 3 []).getD 1 0
      = Upwind.space_step app3.mspace * Upwind.time_step status3
            * (neighbour3.values.getD 0 []).getD 1 0
          - (vector3.values.getD 2 []).getD 1 0
          - Upwind.space_step app3.mspace * Upwind.time_step status3 * app3.U0.getD 1 0
          + (Upwind.apply_Aadjoint (Upwind.time_step status3) (Upwind.space_step app3.mspace)
              app3.nu app3.mspace
              (vec_copy app3.mspace (neighbour3.values.getD 2 [])
                (vec_create app3.mspace))).getD 1 0 :=
  have h := residual_closure_row app3 (some neighbour3) vector3 0 status3
    (by unfold Upwind.well_formed; decide)
  ⟨by unfold Upwind.well_formed; decide, h.1, h.2 neighbour3 1 (by decide)⟩

/-- C12 (as stated) fails: with a left neighbour present and no forcing the fourth residual
block is `[-9/4, -8, -9]`, not the all-zero block. -/
theorem closure_row_left_present_nonzero :
    Upwind.well_formed app3.mspace vector3 ∧
    (Upwind.my_TriResidual app3 (some neighbour3) none none vector3 0 status3).values.getD 3 []
      = [-9 / 4, -8, -9] ∧
    (Upwind.my_TriResidual app3 (some neighbour3) none none vector3 0 status3).values.getD 3 []
      ≠ List.replicate app3.mspace 0 := by
  have hv : (Upwind.my_TriResidual app3 (some neighbour3) none none vector3 0
      status3).values.getD 3 [] = [-9 / 4, -8, -9] := by
    norm_num [Upwind.my_TriResidual, app3, status3, vector3, neighbour3, forUp, vec_create,
      vec_copy, vec_axpy, vec_scale, Upwind.apply_A, Upwind.apply_Aadjoint, Upwind.apply_D,
      List.range', List.replicate]
  refine ⟨by unfold Upwind.well_formed; decide, hv, ?_⟩
  rw [hv]
  norm_num [app3, List.replicate]

end ForcingClaims

/-! ## The increments of the block solve -/

section IncrementClaims

variable {K : Type} [LinearOrderedField K]

set_option maxRecDepth 100000

set_option maxHeartbeats 4000000

/-- C13. Adjoint increment of the block solve: with `r1..r4` the four blocks
`my_TriResidual` returns for the incoming blocks and `c` the vector
`(dx dt / 2) (A r1 / (dx dt) - r4 / (dx dt) - r2 / (dx alpha) - r3)`, `my_TriSolve` replaces
the adjoint block `w` by `w - apply_PhiAdjoint (apply_Phi c)`: the forward solve first, the
adjoint solve second. -/
theorem solve_adjoint_increment (app : Upwind.my_App K)
    (uleft uright f : Option (Upwind.my_Vector K)) (u : Upwind.my_Vector K) (hom : Int)
    (status : Upwind.braid_TriStatus K) (hu : Upwind.well_formed app.mspace u)
    (c : List K) (hc : c.length = app.mspace)
    (hcj : ∀ j, j < app.mspace → c.getD j 0 =
      Upwind.space_step app.mspace * Upwind.time_step status / 2
        * ((Upwind.apply_A (Upwind.time_step status) (Upwind.space_step app.mspace) app.nu
              app.mspace ((Upwind.my_TriResidual app uleft uright f u hom
                status).values.getD 0 [])).getD j 0
            / (Upwind.space_step app.mspace * Upwind.time_step status)
          - ((Upwind.my_TriResidual app uleft uright f u hom status).values.getD 3 []).getD j 0
            / (Upwind.space_step app.mspace * Upwind.time_step status)
          - ((Upwind.my_TriResidual app uleft uright f u hom status).values.getD 1 []).getD j 0
            / (Upwind.space_step app.mspace * app.alpha)
          - ((Upwind.my_TriResidual app uleft uright f u hom status).values.getD 2 []).getD j 0))
    (j : Nat) (hj : j < app.mspace) :
    ((Upwind.my_TriSolve app uleft uright f u hom status).1.values.getD 2 []).getD j 0
      = (u.values.getD 2 []).getD j 0
        - (Upwind.apply_PhiAdjoint (Upwind.time_step status) (Upwind.space_step app.mspace)
            app.nu app.mspace
            (Upwind.apply_Phi (Upwind.time_step status) (Upwind.space_step app.mspace)
              app.nu app.mspace c app.li app.ai) app.li app.ai).getD j 0 := by
  obtain ⟨b0, b1, b2, b3, hb, h0, h1, h2, h3⟩ := well_formed_cases app.mspace u hu
  obtain ⟨R0, R1, R2, R3, hR, l0, l1, l2, l3, -, -, -, -⟩ :=
    my_TriResidual_spec app uleft uright f u hom status b0 b1 b2 b3 hb h0 h1 h2 h3
  obtain ⟨dW0, U, V, W, ldW0, edW0, hS, -, -, -, eW, -, -⟩ :=
    my_TriSolve_spec app uleft uright f u hom status b0 b1 b2 b3 R0 R1 R2 R3 hb h0 h1 h2 hR
      l0 l1 l2 l3
  have hcd : c = dW0 := by
    apply list_eq_of_getD 0 _ _ (by rw [hc, ldW0])
    intro i hi
    rw [hc] at hi
    rw [hcj i hi, edW0 i hi, hR]
    simp only [List.getD_cons_zero, List.getD_cons_succ]
    ring
  rw [hS, hb, hcd]
  simp only [List.getD_cons_zero, List.getD_cons_succ]
  exact eW j hj

/-- C14. Back-substitution and update of the block solve: with `r1`, `r2` the first two
residual blocks and `dW` the adjoint increment (old adjoint block minus new adjoint block),
`my_TriSolve` replaces the control block `v` by `v - (r2 / (alpha dx dt) + dW / (alpha dx))`
and the state block `u` by `u - (r1 - Aᵀ dW) / (dx dt)`, `Aᵀ` being `apply_Aadjoint`. -/
theorem solve_back_substitution (app : Upwind.my_App K)
    (uleft uright f : Option (Upwind.my_Vector K)) (u : Upwind.my_Vector K) (hom : Int)
    (status : Upwind.braid_TriStatus K) (hu : Upwind.well_formed app.mspace u)
    (dW : List K) (hd : dW.length = app.mspace)
    (hdj : ∀ j, j < app.mspace → dW.getD j 0 = (u.values.getD 2 []).getD j 0
      - ((Upwind.my_TriSolve app uleft uright f u hom status).1.values.getD 2 []).getD j 0)
    (j : Nat) (hj : j < app.mspace) :
    ((Upwind.my_TriSolve app uleft uright f u hom status).1.values.getD 1 []).getD j 0
      = (u.values.getD 1 []).getD j 0
        - (((Upwind.my_TriResidual app uleft uright f u hom status).values.getD 1 []).getD j 0
            / (app.alpha * Upwind.space_step app.mspace * Upwind.time_step status)
          + dW.getD j 0 / (app.alpha * Upwind.space_step app.mspace)) ∧
    ((Upwind.my_TriSolve app uleft uright f u hom status).1.values.getD 0 []).getD j 0
      = (u.values.getD 0 []).getD j 0
        - (((Upwind.my_TriResidual app uleft uright f u hom status).values.getD 0 []).getD j 0
            - (Upwind.apply_Aadjoint (Upwind.time_step status) (Upwind.space_step app.mspace)
                app.nu app.mspace dW).getD j 0)
          / (Upwind.space_step app.mspace * Upwind.time_step status) := by
  obtain ⟨b0, b1, b2, b3, hb, h0, h1, h2, h3⟩ := well_formed_cases app.mspace u hu
  obtain ⟨R0, R1, R2, R3, hR, l0, l1, l2, l3, -, -, -, -⟩ :=
    my_TriResidual_spec app uleft uright f u hom status b0 b1 b2 b3 hb h0 h1 h2 h3
  obtain ⟨dW0, U, V, W, ldW0, -, hS, -, -, -, eW, eV, eU⟩ :=
    my_TriSolve_spec app uleft uright f u hom status b0 b1 b2 b3 R0 R1 R2 R3 hb h0 h1 h2 hR
      l0 l1 l2 l3
  have hdd : dW = Upwind.apply_PhiAdjoint (Upwind.time_step status)
      (Upwind.space_step app.mspace) app.nu app.mspace
      (Upwind.apply_Phi (Upwind.time_step status) (Upwind.space_step app.mspace)
        app.nu app.mspace dW0 app.li app.ai) app.li app.ai := by
    apply list_eq_of_getD 0 _ _ (by simp [hd, ldW0])
    intro i hi
    rw [hd] at hi
    have h := hdj i hi
    rw [hS, hb] at h
    simp only [List.getD_cons_zero, List.getD_cons_succ] at h
    rw [h, eW i hi]
    ring
  rw [hS, hR, hb, hdd]
  simp only [List.getD_cons_zero, List.getD_cons_succ]
  rw [eV j hj, eU j hj]
  constructor <;> ring


/-- The adjoint increment at entry `1` of a solve at the first time index. -/
theorem solve_adjoint_increment_witness :
    Upwind.well_formed app3.mspace vector3 ∧ ([8, 21 / 2, 109] : List ℚ).length = app3.mspace ∧
    1 < app3.mspace ∧
    ((Upwind.my_TriSolve app3 none (some neighbour3) none vector3 0
        status3).1.values.getD 2 []).getD 1 0
      = (vector3.values.getD 2 []).getD 1 0
        - (Upwind.apply_PhiAdjoint (Upwind.time_step status3) (Upwind.space_step app3.mspace)
            app3.nu app3.mspace
            (Upwind.apply_Phi (Upwind.time_step status3) (Upwind.space_step app3.mspace)
              app3.nu app3.mspace [8, 21 / 2, 109] app3.li app3.ai) app3.li app3.ai).getD 1 0 :=
  ⟨by unfold Upwind.well_formed; decide, rfl, by decide,
    solve_adjoint_increment app3 none (some neighbour3) none vector3 0 status3
      (by unfold Upwind.well_formed; decide) [8, 21 / 2, 109] rfl
      (by
        intro j hj
        have hj3 : j < 3 := hj
        interval_cases j <;>
          norm_num [Upwind.my_TriResidual, app3, status3, vector3, neighbour3,
            Upwind.space_step, Upwind.time_step, forUp, vec_create, vec_copy, vec_axpy,
            vec_scale, Upwind.apply_A, Upwind.apply_Aadjoint, Upwind.apply_D, List.range',
            List.replicate])
      1 (by decide)⟩

/-- The back-substitution at entry `1` of a solve at the first time index. -/
theorem solve_back_substitution_witness :
    Upwind.well_formed app3.mspace vector3 ∧
    ([62458 / 15625, 28729 / 6250, 3063 / 625] : List ℚ).length = app3.mspace ∧
    1 < app3.mspace ∧
    (((Upwind.my_TriSolve app3 none (some neighbour3) none vector3 0
        status3).1.values.getD 1 []).getD 1 0
      = (vector3.values.getD 1 []).getD 1 0
        - (((Upwind.my_TriResidual app3 none (some neighbour3) none vector3 0
              status3).values.getD 1 []).getD 1 0
            / (app3.alpha * Upwind.space_step app3.mspace * Upwind.time_step status3)
          + ([62458 / 15625, 28729 / 6250, 3063 / 625] : List ℚ).getD 1 0
            / (app3.alpha * Upwind.space_step app3.mspace)) ∧
    ((Upwind.my_TriSolve app3 none (some neighbour3) none vector3 0
        status3).1.values.getD 0 []).getD 1 0
      = (vector3.values.getD 0 []).getD 1 0
        - (((Upwind.my_TriResidual app3 none (some neighbour3) none vector3 0
              status3).values.getD 0 []).getD 1 0
            - (Upwind.apply_Aadjoint (Upwind.time_step status3) (Upwind.space_step app3.mspace)
                app3.nu app3.mspace [62458 / 15625, 28729 / 6250, 3063 / 625]).getD 1 0)
          / (Upwind.space_step app3.mspace * Upwind.time_step status3)) :=
  ⟨by unfold Upwind.well_formed; decide, rfl, by decide,
    solve_back_substitution app3 none (some neighbour3) none vector3 0 status3
      (by unfold Upwind.well_formed; decide) [62458 / 15625, 28729 / 6250, 3063 / 625] rfl
      (by
        have hw : (Upwind.my_TriSolve app3 none (some neighbour3) none vector3 0
            status3).1.values.getD 2 [] = [46917 / 15625, 21271 / 6250, 2562 / 625] := by
          norm_num [Upwind.my_TriResidual, Upwind.my_TriSolve, app3, status3, vector3,
            neighbour3, Upwind.build_LU, forUp, forDown, vec_create, vec_copy, vec_axpy,
            vec_scale, Upwind.apply_A, Upwind.apply_Aadjoint, Upwind.apply_Phi,
            Upwind.apply_PhiAdjoint, Upwind.apply_D, List.range', List.range,
            List.range.loop, List.replicate]
        intro j hj
        have hj3 : j < 3 := hj
        rw [hw]
        interval_cases j <;> norm_num [vector3])
      1 (by decide)⟩

end IncrementClaims

/-! ## Buffers -/

section Buffers

variable {K : Type} [LinearOrderedField K]

/-- What `n` rounds of the loop of `my_BufPack` have written. -/
theorem pack_loop (M n : Nat) (u0 u1 u2 u3 buffer : List K) (hn : n ≤ M)
    (hlen : 4 * M ≤ buffer.length) :
    (forUp 0 n
      (fun i (b : List K) =>
        (((b.set i (u0.getD i 0)).set (M + i) (u1.getD i 0)).set (2 * M + i)
          (u2.getD i 0)).set (3 * M + i) (u3.getD i 0)) buffer).length = buffer.length ∧
    (∀ i, i < n →
      (forUp 0 n
        (fun i (b : List K) =>
          (((b.set i (u0.getD i 0)).set (M + i) (u1.getD i 0)).set (2 * M + i)
            (u2.getD i 0)).set (3 * M + i) (u3.getD i 0)) buffer).getD i 0 = u0.getD i 0 ∧
      (forUp 0 n
        (fun i (b : List K) =>
          (((b.set i (u0.getD i 0)).set (M + i) (u1.getD i 0)).set (2 * M + i)
            (u2.getD i 0)).set (3 * M + i) (u3.getD i 0)) buffer).getD (M + i) 0
          = u1.getD i 0 ∧
      (forUp 0 n
        (fun i (b : List K) =>
          (((b.set i (u0.getD i 0)).set (M + i) (u1.getD i 0)).set (2 * M + i)
            (u2.getD i 0)).set (3 * M + i) (u3.getD i 0)) buffer).getD (2 * M + i) 0
          = u2.getD i 0 ∧
      (forUp 0 n
        (fun i (b : List K) =>
          (((b.set i (u0.getD i 0)).set (M + i) (u1.getD i 0)).set (2 * M + i)
            (u2.getD i 0)).set (3 * M + i) (u3.getD i 0)) buffer).getD (3 * M + i) 0
          = u3.getD i 0) ∧
    (∀ idx, 4 * M ≤ idx →
      (forUp 0 n
        (fun i (b : List K) =>
          (((b.set i (u0.getD i 0)).set (M + i) (u1.getD i 0)).set (2 * M + i)
            (u2.getD i 0)).set (3 * M + i) (u3.getD i 0)) buffer).getD idx 0
          = buffer.getD idx 0) := by
  induction n with
  | zero =>
    rw [forUp_of_le _ _ _ _ le_rfl]
    exact ⟨rfl, fun i hi => absurd hi (Nat.not_lt_zero i), fun _ _ => rfl⟩
  | succ n ih =>
    obtain ⟨hl, hw, hu⟩ := ih (by omega)
    rw [forUp_succ _ _ _ _ (Nat.zero_le n)]
    generalize forUp 0 n
      (fun i (b : List K) =>
        (((b.set i (u0.getD i 0)).set (M + i) (u1.getD i 0)).set (2 * M + i)
          (u2.getD i 0)).set (3 * M + i) (u3.getD i 0)) buffer = B at hl hw hu ⊢
    refine ⟨by simp [hl], ?_, ?_⟩
    · intro i hi
      simp only [getD_set_eq, List.length_set]
      by_cases hin : i = n
      · subst hin
        refine ⟨?_, ?_, ?_, ?_⟩
        · rw [if_neg (by omega), if_neg (by omega), if_neg (by omega), if_pos (by omega)]
        · rw [if_neg (by omega), if_neg (by omega), if_pos (by omega)]
        · rw [if_neg (by omega), if_pos (by omega)]
        · rw [if_pos (by omega)]
      · obtain ⟨w0, w1, w2, w3⟩ := hw i (by omega)
        refine ⟨?_, ?_, ?_, ?_⟩
        · rw [if_neg (by omega), if_neg (by omega), if_neg (by omega), if_neg (by omega), w0]
        · rw [if_neg (by omega), if_neg (by omega), if_neg (by omega), if_neg (by omega), w1]
        · rw [if_neg (by omega), if_neg (by omega), if_neg (by omega), if_neg (by omega), w2]
        · rw [if_neg (by omega), if_neg (by omega), if_neg (by omega), if_neg (by omega), w3]
    · intro idx hidx
      simp only [getD_set_eq, List.length_set]
      rw [if_neg (by omega), if_neg (by omega), if_neg (by omega), if_neg (by omega)]
      exact hu idx hidx

/-- The loop of `my_BufUnpack` fills the four blocks independently. -/
theorem unpack_loop (M n : Nat) (buffer c0 c1 c2 c3 : List K) :
    forUp 0 n
      (fun i (values : List (List K)) =>
        (((values.set 0 ((values.getD 0 []).set i (buffer.getD i 0))).set 1
          (((values.set 0 ((values.getD 0 []).set i (buffer.getD i 0))).getD 1 []).set i
            (buffer.getD (M + i) 0))).set 2
          ((((values.set 0 ((values.getD 0 []).set i (buffer.getD i 0))).set 1
            (((values.set 0 ((values.getD 0 []).set i (buffer.getD i 0))).getD 1 []).set i
              (buffer.getD (M + i) 0))).getD 2 []).set i (buffer.getD (2 * M + i) 0))).set 3
          (((((values.set 0 ((values.getD 0 []).set i (buffer.getD i 0))).set 1
            (((values.set 0 ((values.getD 0 []).set i (buffer.getD i 0))).getD 1 []).set i
              (buffer.getD (M + i) 0))).set 2
            ((((values.set 0 ((values.getD 0 []).set i (buffer.getD i 0))).set 1
              (((values.set 0 ((values.getD 0 []).set i (buffer.getD i 0))).getD 1 []).set i
                (buffer.getD (M + i) 0))).getD 2 []).set i
                  (buffer.getD (2 * M + i) 0))).getD 3 []).set i (buffer.getD (3 * M + i) 0)))
      [c0, c1, c2, c3]
    = [forUp 0 n (fun i (c : List K) => c.set i (buffer.getD i 0)) c0,
       forUp 0 n (fun i (c : List K) => c.set i (buffer.getD (M + i) 0)) c1,
       forUp 0 n (fun i (c : List K) => c.set i (buffer.getD (2 * M + i) 0)) c2,
       forUp 0 n (fun i (c : List K) => c.set i (buffer.getD (3 * M + i) 0)) c3] := by
  induction n with
  | zero => simp [forUp_of_le]
  | succ n ih =>
    rw [forUp_succ _ _ _ _ (Nat.zero_le n), ih, forUp_succ _ _ _ _ (Nat.zero_le n),
      forUp_succ _ _ _ _ (Nat.zero_le n), forUp_succ _ _ _ _ (Nat.zero_le n),
      forUp_succ _ _ _ _ (Nat.zero_le n)]
    simp only [List.getD_cons_zero, List.getD_cons_succ, List.set_cons_zero, List.set_cons_succ]

/-- The blocks produced by `my_BufUnpack`. -/
theorem my_BufUnpack_values (app : Upwind.my_App K) (buffer : List K) :
    (Upwind.my_BufUnpack app buffer).values
      = [forUp 0 app.mspace (fun i (c : List K) => c.set i (buffer.getD i 0))
          (vec_create app.mspace),
         forUp 0 app.mspace (fun i (c : List K) => c.set i (buffer.getD (app.mspace + i) 0))
          (vec_create app.mspace),
         forUp 0 app.mspace
          (fun i (c : List K) => c.set i (buffer.getD (2 * app.mspace + i) 0))
          (vec_create app.mspace),
         forUp 0 app.mspace
          (fun i (c : List K) => c.set i (buffer.getD (3 * app.mspace + i) 0))
          (vec_create app.mspace)] := by
  have h4 : forUp 0 4 (fun i (values : List (List K)) => values.set i (vec_create app.mspace))
      (List.replicate 4 [])
      = [vec_create app.mspace, vec_create app.mspace, vec_create app.mspace,
         vec_create app.mspace] := by
    simp [forUp, List.range', List.replicate]
  simp only [Upwind.my_BufUnpack, h4]
  exact unpack_loop app.mspace app.mspace buffer _ _ _ _

/-- C15. Pack/unpack round trip (upwind variant): for `M >= 1`, a vector `u` of four
blocks of `M` reals and a buffer of the size `my_BufSize` reports, `my_BufUnpack` applied to
the buffer written by `my_BufPack` yields `u` again, entry for entry. -/
theorem buf_pack_unpack (app : Upwind.my_App K) (u : Upwind.my_Vector K) (buffer : List K)
    (_hM : 1 ≤ app.mspace) (hu : Upwind.well_formed app.mspace u)
    (hbuf : buffer.length * Upwind.sizeof_double = Upwind.my_BufSize app) :
    Upwind.my_BufUnpack app (Upwind.my_BufPack app u buffer).1 = u := by
  obtain ⟨b0, b1, b2, b3, hb, h0, h1, h2, h3⟩ := well_formed_cases app.mspace u hu
  have hlen : 4 * app.mspace ≤ buffer.length := by
    simp only [Upwind.my_BufSize, Upwind.sizeof_double] at hbuf
    omega
  obtain ⟨hl, hw, -⟩ := pack_loop app.mspace app.mspace b0 b1 b2 b3 buffer le_rfl hlen
  have hv : (Upwind.my_BufUnpack app (Upwind.my_BufPack app u buffer).1).values = u.values := by
    rw [my_BufUnpack_values, hb]
    simp only [Upwind.my_BufPack, hb, List.getD_cons_zero, List.getD_cons_succ]
    congr 1
    · apply list_eq_of_getD 0 _ _ (by rw [forUp_set_length 0 _ (fun i _ => _)]; simp [h0])
      intro j hj
      rw [forUp_set_length 0 _ (fun i _ => _)] at hj
      simp only [vec_create_length] at hj
      rw [forUp_set_getD_inside 0 app.mspace (fun i _ => _) _ j 0 (Nat.zero_le _) hj
        (by simpa using hj)]
      exact (hw j hj).1
    congr 1
    · apply list_eq_of_getD 0 _ _ (by rw [forUp_set_length 0 _ (fun i _ => _)]; simp [h1])
      intro j hj
      rw [forUp_set_length 0 _ (fun i _ => _)] at hj
      simp only [vec_create_length] at hj
      rw [forUp_set_getD_inside 0 app.mspace (fun i _ => _) _ j 0 (Nat.zero_le _) hj
        (by simpa using hj)]
      exact (hw j hj).2.1
    congr 1
    · apply list_eq_of_getD 0 _ _ (by rw [forUp_set_length 0 _ (fun i _ => _)]; simp [h2])
      intro j hj
      rw [forUp_set_length 0 _ (fun i _ => _)] at hj
      simp only [vec_create_length] at hj
      rw [forUp_set_getD_inside 0 app.mspace (fun i _ => _) _ j 0 (Nat.zero_le _) hj
        (by simpa using hj)]
      exact (hw j hj).2.2.1
    congr 1
    · apply list_eq_of_getD 0 _ _ (by rw [forUp_set_length 0 _ (fun i _ => _)]; simp [h3])
      intro j hj
      rw [forUp_set_length 0 _ (fun i _ => _)] at hj
      simp only [vec_create_length] at hj
      rw [forUp_set_getD_inside 0 app.mspace (fun i _ => _) _ j 0 (Nat.zero_le _) hj
        (by simpa using hj)]
      exact (hw j hj).2.2.2
  cases u
  cases h : Upwind.my_BufUnpack app (Upwind.my_BufPack app _ buffer).1
  rw [h] at hv
  simpa using hv

/-- C16. Pack layout and size (upwind variant): for `M >= 1`, `my_BufPack` writes
`buffer[k*M + i] = u.values[k][i]` for `k = 0..3`, `i < M` (state, control, adjoint, extra
residual block), keeps the length of the buffer and every entry from position `4*M` on,
and the size reported by `my_BufSize` and the size set by `my_BufPack` are both
`4*M*sizeof(double)` bytes: exactly the `4*M` reals written. -/
theorem buf_pack_layout (app : Upwind.my_App K) (u : Upwind.my_Vector K) (buffer : List K)
    (_hM : 1 ≤ app.mspace) (hbuf : 4 * app.mspace ≤ buffer.length) :
    (∀ k, k < 4 → ∀ i, i < app.mspace →
      (Upwind.my_BufPack app u buffer).1.getD (k * app.mspace + i) 0
        = (u.values.getD k []).getD i 0) ∧
    (Upwind.my_BufPack app u buffer).1.length = buffer.length ∧
    (∀ idx, 4 * app.mspace ≤ idx →
      (Upwind.my_BufPack app u buffer).1.getD idx 0 = buffer.getD idx 0) ∧
    Upwind.my_BufSize app = 4 * app.mspace * Upwind.sizeof_double ∧
    (Upwind.my_BufPack app u buffer).2 = 4 * app.mspace * Upwind.sizeof_double := by
  obtain ⟨hl, hw, hu⟩ := pack_loop app.mspace app.mspace (u.values.getD 0 [])
    (u.values.getD 1 []) (u.values.getD 2 []) (u.values.getD 3 []) buffer le_rfl hbuf
  refine ⟨?_, hl, hu, ?_, ?_⟩
  · intro k hk i hi
    obtain ⟨w0, w1, w2, w3⟩ := hw i hi
    interval_cases k
    · rw [Nat.zero_mul, Nat.zero_add]; exact w0
    · rw [Nat.one_mul]; exact w1
    · exact w2
    · exact w3
  · simp only [Upwind.my_BufSize]; ring
  · simp only [Upwind.my_BufPack]; ring

/-- The round trip through a buffer of twelve reals. -/
theorem buf_pack_unpack_witness :
    1 ≤ app3.mspace ∧ Upwind.well_formed app3.mspace vector3 ∧
    ([0, 0, 0, 0, 0, 0, 0, 0, 0, 0, 0, 0] : List ℚ).length * Upwind.sizeof_double
      = Upwind.my_BufSize app3 ∧
    Upwind.my_BufUnpack app3
      (Upwind.my_BufPack app3 vector3 [0, 0, 0, 0, 0, 0, 0, 0, 0, 0, 0, 0]).1 = vector3 :=
  ⟨by decide, by unfold Upwind.well_formed; decide, by decide,
    buf_pack_unpack app3 vector3 [0, 0, 0, 0, 0, 0, 0, 0, 0, 0, 0, 0] (by decide)
      (by unfold Upwind.well_formed; decide) (by decide)⟩

/-- The layout in a buffer of thirteen reals: the thirteenth keeps its value. -/
theorem buf_pack_layout_witness :
    1 ≤ app3.mspace ∧
    4 * app3.mspace ≤ ([0, 0, 0, 0, 0, 0, 0, 0, 0, 0, 0, 0, 5] : List ℚ).length ∧
    ((∀ k, k < 4 → ∀ i, i < app3.mspace →
      (Upwind.my_BufPack app3 vector3 [0, 0, 0, 0, 0, 0, 0, 0, 0, 0, 0, 0, 5]).1.getD
          (k * app3.mspace + i) 0
        = (vector3.values.getD k []).getD i 0) ∧
    (Upwind.my_BufPack app3 vector3 [0, 0, 0, 0, 0, 0, 0, 0, 0, 0, 0, 0, 5]).1.length
      = ([0, 0, 0, 0, 0, 0, 0, 0, 0, 0, 0, 0, 5] : List ℚ).length ∧
    (∀ idx, 4 * app3.mspace ≤ idx →
      (Upwind.my_BufPack app3 vector3 [0, 0, 0, 0, 0, 0, 0, 0, 0, 0, 0, 0, 5]).1.getD idx 0
        = ([0, 0, 0, 0, 0, 0, 0, 0, 0, 0, 0, 0, 5] : List ℚ).getD idx 0) ∧
    Upwind.my_BufSize app3 = 4 * app3.mspace * Upwind.sizeof_double ∧
    (Upwind.my_BufPack app3 vector3 [0, 0, 0, 0, 0, 0, 0, 0, 0, 0, 0, 0, 5]).2
      = 4 * app3.mspace * Upwind.sizeof_double) :=
  ⟨by decide, by decide,
    buf_pack_layout app3 vector3 [0, 0, 0, 0, 0, 0, 0, 0, 0, 0, 0, 0, 5] (by decide)
      (by decide)⟩

end Buffers

/-! ## The Gauss-Seidel driver of `block_gs.c` -/

section DriverSweeps

variable {K : Type} [LinearOrderedField K]

set_option maxRecDepth 100000

set_option maxHeartbeats 4000000

/-- A forward recurrence `acc[i] = ψ i acc[i-1] acc[i]`, `i = 1 .. hi-1`: row `j` of the
final array is `ψ j` of the final row `j-1` and the initial row `j`. -/
theorem forUp_rec2_getD {α : Type} (hi : Nat) (ψ : Nat → α → α → α) (w : List α) (d : α)
    (j : Nat) (h1 : 1 ≤ j) (hj : j < hi) (hlen : j < w.length) :
    (forUp 1 hi (fun i acc => acc.set i (ψ i (acc.getD (i - 1) d) (acc.getD i d))) w).getD j d
      = ψ j ((forUp 1 hi (fun i acc => acc.set i (ψ i (acc.getD (i - 1) d) (acc.getD i d)))
          w).getD (j - 1) d) (w.getD j d) := by
  have hle : 1 ≤ hi := by omega
  induction hi, hle using Nat.le_induction with
  | base => omega
  | succ n hn ih =>
    rw [forUp_succ _ _ _ _ hn]
    have hl := forUp_set_length 1 n (fun i acc => ψ i (acc.getD (i - 1) d) (acc.getD i d)) w
    rw [getD_set_eq, getD_set_eq]
    rw [if_neg (by rintro ⟨h2, -⟩; omega : ¬ (n = j - 1 ∧ n < (forUp 1 n
      (fun i acc => acc.set i (ψ i (acc.getD (i - 1) d) (acc.getD i d))) w).length))]
    by_cases hjn : n = j
    · subst hjn
      rw [if_pos ⟨rfl, by rw [hl]; exact hlen⟩]
      rw [forUp_set_getD_outside 1 n (fun i acc => ψ i (acc.getD (i - 1) d) (acc.getD i d)) w
        n d (Or.inr le_rfl)]
    · rw [if_neg (by rintro ⟨h2, -⟩; exact hjn h2)]
      exact ih (by omega)

/-- A backward recurrence `acc[i] = ψ i acc[i+1] acc[i]`, `i = n-1 .. 0`: row `j` of the
final array is `ψ j` of the final row `j+1` and the initial row `j`. -/
theorem forDown_rec2_getD {α : Type} (n : Nat) (ψ : Nat → α → α → α) (u : List α) (d : α)
    (j : Nat) (hj : j < n) (hlen : n ≤ u.length) :
    (forDown n (fun i acc => acc.set i (ψ i (acc.getD (i + 1) d) (acc.getD i d))) u).getD j d
      = ψ j ((forDown n (fun i acc => acc.set i (ψ i (acc.getD (i + 1) d) (acc.getD i d)))
          u).getD (j + 1) d) (u.getD j d) := by
  induction n generalizing u with
  | zero => omega
  | succ n ih =>
    rw [forDown_succ]
    by_cases hjn : j = n
    · subst hjn
      rw [forDown_set_getD_outside j (fun i acc => ψ i (acc.getD (i + 1) d) (acc.getD i d))
          _ j d le_rfl,
        forDown_set_getD_outside j (fun i acc => ψ i (acc.getD (i + 1) d) (acc.getD i d))
          _ (j + 1) d (by omega),
        getD_set_eq, getD_set_eq, if_pos ⟨rfl, by omega⟩, if_neg (by rintro ⟨h2, -⟩; omega)]
    · rw [ih _ (by omega) (by simp; omega), getD_set_eq, if_neg (by rintro ⟨h2, -⟩; omega)]

/-- The forward-elimination / back-substitution routine is linear in its right-hand
side (entry by entry; pivots and multipliers are arbitrary). -/
theorem lu_solve_linear (b c1 c2 : K) (M : Nat) (x y z l a : List K) (hM : 1 ≤ M)
    (hx : x.length = M) (hy : y.length = M) (hz : z.length = M)
    (h : ∀ j, j < M → z.getD j 0 = c1 * x.getD j 0 + c2 * y.getD j 0) (j : Nat) (hj : j < M) :
    (lu_solve b M z l a).getD j 0
      = c1 * (lu_solve b M x l a).getD j 0 + c2 * (lu_solve b M y l a).getD j 0 := by
  obtain ⟨wx, wx0, wxi, -, xlast, xrec⟩ := lu_solve_spec b M x l a hM hx
  obtain ⟨wy, wy0, wyi, -, ylast, yrec⟩ := lu_solve_spec b M y l a hM hy
  obtain ⟨wz, wz0, wzi, -, zlast, zrec⟩ := lu_solve_spec b M z l a hM hz
  have hw : ∀ i, i < M → wz.getD i 0 = c1 * wx.getD i 0 + c2 * wy.getD i 0 := by
    intro i
    induction i with
    | zero => intro h0; rw [wz0, wx0, wy0, h 0 h0]
    | succ n ih =>
      intro hn
      have e : n + 1 - 1 = n := rfl
      rw [wzi (n + 1) (by omega) hn, wxi (n + 1) (by omega) hn, wyi (n + 1) (by omega) hn,
        h (n + 1) hn, e, ih (by omega)]
      ring
  have key : ∀ k, k < M → (lu_solve b M z l a).getD (M - 1 - k) 0
      = c1 * (lu_solve b M x l a).getD (M - 1 - k) 0
        + c2 * (lu_solve b M y l a).getD (M - 1 - k) 0 := by
    intro k
    induction k with
    | zero =>
      intro _
      rw [Nat.sub_zero, zlast, xlast, ylast, hw (M - 1) (by omega)]
      ring
    | succ n ih =>
      intro hn
      have e : M - 1 - (n + 1) + 1 = M - 1 - n := by omega
      rw [zrec (M - 1 - (n + 1)) (by omega), xrec (M - 1 - (n + 1)) (by omega),
        yrec (M - 1 - (n + 1)) (by omega), e, ih (by omega), hw (M - 1 - (n + 1)) (by omega)]
      ring
  have := key (M - 1 - j) (by omega)
  have e : M - 1 - (M - 1 - j) = j := by omega
  rwa [e] at this

@[simp] theorem blockgs_apply_Phi_length (dt dx nu : K) (M : Nat) (u l a : List K) :
    (BlockGS.apply_Phi dt dx nu M u l a).length = u.length :=
  lu_solve_length _ M u l a

@[simp] theorem blockgs_apply_PhiAdjoint_length (dt dx nu : K) (M : Nat) (u l a : List K) :
    (BlockGS.apply_PhiAdjoint dt dx nu M u l a).length = u.length :=
  lu_solve_adjoint_length _ M u l a

@[simp] theorem blockgs_apply_D_length (dt dx nu : K) (M : Nat) (v l a : List K) :
    (BlockGS.apply_D dt dx nu M v l a).length = v.length :=
  forUp_set_length 0 M (fun i acc => acc.getD i 0 * dt) v

theorem blockgs_apply_D_getD (dt dx nu : K) (M : Nat) (v l a : List K) (j : Nat) (hj : j < M)
    (hv : j < v.length) : (BlockGS.apply_D dt dx nu M v l a).getD j 0 = v.getD j 0 * dt :=
  forUp_set_getD_inside 0 M (fun _ x => x * dt) v j 0 (Nat.zero_le _) hj hv

@[simp] theorem blockgs_apply_Vinv_length (dt dx alpha : K) (M : Nat) (v : List K) :
    (BlockGS.apply_Vinv dt dx alpha M v).length = v.length :=
  forUp_set_length 0 M (fun i acc => acc.getD i 0 / (alpha * dx * dt)) v

theorem blockgs_apply_Vinv_getD (dt dx alpha : K) (M : Nat) (v : List K) (j : Nat)
    (hj : j < M) (hv : j < v.length) :
    (BlockGS.apply_Vinv dt dx alpha M v).getD j 0 = v.getD j 0 / (alpha * dx * dt) :=
  forUp_set_getD_inside 0 M (fun _ x => x / (alpha * dx * dt)) v j 0 (Nat.zero_le _) hj hv

/-- `apply_Phi` of `block_gs.c` is additive. -/
theorem blockgs_apply_Phi_add (dt dx nu : K) (M : Nat) (x y z l a : List K) (hM : 1 ≤ M)
    (hx : x.length = M) (hy : y.length = M) (hz : z.length = M)
    (h : ∀ j, j < M → z.getD j 0 = x.getD j 0 + y.getD j 0) (j : Nat) (hj : j < M) :
    (BlockGS.apply_Phi dt dx nu M z l a).getD j 0
      = (BlockGS.apply_Phi dt dx nu M x l a).getD j 0
        + (BlockGS.apply_Phi dt dx nu M y l a).getD j 0 := by
  have := lu_solve_linear (dt / (2 * dx) - nu * dt / (dx * dx)) 1 1 M x y z l a hM hx hy hz
    (by intro i hi; rw [h i hi]; ring) j hj
  rw [one_mul, one_mul] at this
  exact this

/-- The state history after the forward sweep: row `0` and the recurrence for the rows
`1 .. N-1`, and the length of every row. -/
theorem main_forward_solve_rows (dt dx nu : K) (N M : Nat) (U0 li ai : List K)
    (v u : List (List K)) (hN : 1 ≤ N) (hu : u.length = N)
    (hur : ∀ i, i < N → (u.getD i []).length = M)
    (hvr : ∀ i, i < N → (v.getD i []).length = M) :
    (BlockGS.main_forward_solve dt dx nu N M U0 li ai v u).getD 0 []
      = BlockGS.apply_Phi dt dx nu M
          (vec_axpy M 1 U0 (BlockGS.apply_D dt dx nu M (v.getD 0 []) li ai)) li ai ∧
    (∀ i, 1 ≤ i → i < N →
      (BlockGS.main_forward_solve dt dx nu N M U0 li ai v u).getD i []
        = BlockGS.apply_Phi dt dx nu M
            (vec_axpy M 1 ((BlockGS.main_forward_solve dt dx nu N M U0 li ai v u).getD (i - 1) [])
              (BlockGS.apply_D dt dx nu M (v.getD i []) li ai)) li ai) ∧
    (∀ i, i < N →
      ((BlockGS.main_forward_solve dt dx nu N M U0 li ai v u).getD i []).length = M) := by
  have h0 : (BlockGS.main_forward_solve dt dx nu N M U0 li ai v u).getD 0 []
      = BlockGS.apply_Phi dt dx nu M
          (vec_axpy M 1 U0 (BlockGS.apply_D dt dx nu M (v.getD 0 []) li ai)) li ai := by
    unfold BlockGS.main_forward_solve
    simp only []
    rw [forUp_rec_getD_zero N (fun i (acc : List (List K)) => _), getD_set_eq,
      if_pos ⟨rfl, by omega⟩, vec_copy_full M _ _ (hvr 0 (by omega)) (hur 0 (by omega))]
  have hi : ∀ i, 1 ≤ i → i < N →
      (BlockGS.main_forward_solve dt dx nu N M U0 li ai v u).getD i []
        = BlockGS.apply_Phi dt dx nu M
            (vec_axpy M 1 ((BlockGS.main_forward_solve dt dx nu N M U0 li ai v u).getD (i - 1) [])
              (BlockGS.apply_D dt dx nu M (v.getD i []) li ai)) li ai := by
    intro i h1 hi
    unfold BlockGS.main_forward_solve
    simp only []
    rw [forUp_rec2_getD N (fun i prev old => BlockGS.apply_Phi dt dx nu M
        (vec_axpy M 1 prev (BlockGS.apply_D dt dx nu M (vec_copy M (v.getD i []) old) li ai))
        li ai) _ [] i h1 hi (by simp; omega),
      getD_set_eq, if_neg (by rintro ⟨h2, -⟩; omega),
      vec_copy_full M _ _ (hvr i hi) (hur i hi)]
  refine ⟨h0, hi, ?_⟩
  intro i hiN
  by_cases hz : i = 0
  · subst hz
    rw [h0]
    simp only [blockgs_apply_Phi_length, vec_axpy_length, blockgs_apply_D_length]
    exact hvr 0 hiN
  · rw [hi i (by omega) hiN]
    simp only [blockgs_apply_Phi_length, vec_axpy_length, blockgs_apply_D_length]
    exact hvr i hiN

/-- C17. Forward sweep of the driver of `block_gs.c`: for `N >= 1`, `M >= 3`, after the
forward sweep `u[0] = Phi(U0) + Phi(dt v[0])` and `u[i] = Phi(u[i-1]) + Phi(dt v[i])` for
`1 <= i < N`, entry for entry, where `Phi` is `apply_Phi`, `v` is the control history at the
start of the sweep and `u[i-1]` is the row just computed in the same sweep. -/
theorem forward_sweep (dt dx nu : K) (N M : Nat) (U0 li ai : List K)
    (v u : List (List K)) (hN : 1 ≤ N) (hM : 3 ≤ M) (hU0 : U0.length = M)
    (hu : u.length = N) (hur : ∀ i, i < N → (u.getD i []).length = M)
    (hvr : ∀ i, i < N → (v.getD i []).length = M) :
    (∀ c : List K, c.length = M → (∀ j, j < M → c.getD j 0 = dt * (v.getD 0 []).getD j 0) →
      ∀ j, j < M →
        ((BlockGS.main_forward_solve dt dx nu N M U0 li ai v u).getD 0 []).getD j 0
          = (BlockGS.apply_Phi dt dx nu M U0 li ai).getD j 0
            + (BlockGS.apply_Phi dt dx nu M c li ai).getD j 0) ∧
    (∀ i, 1 ≤ i → i < N →
      ∀ c : List K, c.length = M → (∀ j, j < M → c.getD j 0 = dt * (v.getD i []).getD j 0) →
      ∀ j, j < M →
        ((BlockGS.main_forward_solve dt dx nu N M U0 li ai v u).getD i []).getD j 0
          = (BlockGS.apply_Phi dt dx nu M
              ((BlockGS.main_forward_solve dt dx nu N M U0 li ai v u).getD (i - 1) [])
              li ai).getD j 0
            + (BlockGS.apply_Phi dt dx nu M c li ai).getD j 0) := by
  obtain ⟨h0, hi, hlen⟩ := main_forward_solve_rows dt dx nu N M U0 li ai v u hN hu hur hvr
  constructor
  · intro c hc hcj j hj
    rw [h0]
    apply blockgs_apply_Phi_add dt dx nu M U0 c _ li ai (by omega) hU0 hc
      (by simp only [vec_axpy_length, blockgs_apply_D_length]; exact hvr 0 (by omega)) _ j hj
    intro k hk
    rw [vec_axpy_getD M 1 _ _ k hk
        (by simp only [blockgs_apply_D_length]; rw [hvr 0 (by omega)]; exact hk),
      blockgs_apply_D_getD dt dx nu M _ li ai k hk (by rw [hvr 0 (by omega)]; exact hk),
      hcj k hk]
    ring
  · intro i h1 hiN c hc hcj j hj
    rw [hi i h1 hiN]
    apply blockgs_apply_Phi_add dt dx nu M _ c _ li ai (by omega) (hlen (i - 1) (by omega)) hc
      (by simp only [vec_axpy_length, blockgs_apply_D_length]; exact hvr i hiN) _ j hj
    intro k hk
    rw [vec_axpy_getD M 1 _ _ k hk
        (by simp only [blockgs_apply_D_length]; rw [hvr i hiN]; exact hk),
      blockgs_apply_D_getD dt dx nu M _ li ai k hk (by rw [hvr i hiN]; exact hk),
      hcj k hk]
    ring

/-- The adjoint history after the backward sweep: the last row and the recurrence for the
rows `N-2 .. 0`. -/
theorem main_backward_solve_rows (dt dx nu : K) (N M : Nat) (U0 li ai : List K)
    (u w : List (List K)) (hN : 1 ≤ N) (hw : w.length = N)
    (hwr : ∀ i, i < N → (w.getD i []).length = M)
    (hur : ∀ i, i < N → (u.getD i []).length = M) :
    (BlockGS.main_backward_solve dt dx nu N M U0 li ai u w).getD (N - 1) []
      = BlockGS.apply_PhiAdjoint dt dx nu M
          (vec_scale M (dx * dt) (vec_axpy M 1 U0 (vec_scale M (-1) (u.getD (N - 1) [])))) li ai ∧
    (∀ i, i + 1 < N →
      (BlockGS.main_backward_solve dt dx nu N M U0 li ai u w).getD i []
        = BlockGS.apply_PhiAdjoint dt dx nu M
            (vec_axpy M 1 ((BlockGS.main_backward_solve dt dx nu N M U0 li ai u w).getD (i + 1) [])
              (vec_scale M (dx * dt) (vec_axpy M 1 U0 (vec_scale M (-1) (u.getD i [])))))
            li ai) := by
  constructor
  · unfold BlockGS.main_backward_solve
    simp only []
    rw [forDown_set_getD_outside (N - 1) (fun i (acc : List (List K)) => _) _ (N - 1) []
        le_rfl,
      getD_set_eq, if_pos ⟨rfl, by omega⟩,
      vec_copy_full M _ _ (hur (N - 1) (by omega)) (hwr (N - 1) (by omega))]
  · intro i hi
    unfold BlockGS.main_backward_solve
    simp only []
    rw [forDown_rec2_getD (N - 1) (fun i next old => BlockGS.apply_PhiAdjoint dt dx nu M
        (vec_axpy M 1 next (vec_scale M (dx * dt) (vec_axpy M 1 U0 (vec_scale M (-1)
          (vec_copy M (u.getD i []) old))))) li ai) _ [] i (by omega) (by simp; omega),
      getD_set_eq, if_neg (by rintro ⟨h2, -⟩; omega),
      vec_copy_full M _ _ (hur i (by omega)) (hwr i (by omega))]

/-- C18. Backward sweep of the driver of `block_gs.c`: for `N >= 1`, `M >= 3`, after the
backward sweep `w[N-1] = PhiAdjoint(dx dt (U0 - u[N-1]))` and
`w[i] = PhiAdjoint(dx dt (U0 - u[i]) + w[i+1])` for `i < N-1`, where `PhiAdjoint` is
`apply_PhiAdjoint`, `u` is the state history the sweep is run with and `w[i+1]` is the row
just computed in the same sweep (no `w[N]` term enters the last row). -/
theorem backward_sweep (dt dx nu : K) (N M : Nat) (U0 li ai : List K)
    (u w : List (List K)) (hN : 1 ≤ N) (_hM : 3 ≤ M) (hw : w.length = N)
    (hwr : ∀ i, i < N → (w.getD i []).length = M)
    (hur : ∀ i, i < N → (u.getD i []).length = M) :
    (∀ c : List K, c.length = M →
      (∀ j, j < M → c.getD j 0 = dx * dt * (U0.getD j 0 - (u.getD (N - 1) []).getD j 0)) →
      (BlockGS.main_backward_solve dt dx nu N M U0 li ai u w).getD (N - 1) []
        = BlockGS.apply_PhiAdjoint dt dx nu M c li ai) ∧
    (∀ i, i + 1 < N → ∀ c : List K, c.length = M →
      (∀ j, j < M → c.getD j 0 = dx * dt * (U0.getD j 0 - (u.getD i []).getD j 0)
        + ((BlockGS.main_backward_solve dt dx nu N M U0 li ai u w).getD (i + 1) []).getD j 0) →
      (BlockGS.main_backward_solve dt dx nu N M U0 li ai u w).getD i []
        = BlockGS.apply_PhiAdjoint dt dx nu M c li ai) := by
  obtain ⟨hl, hi⟩ := main_backward_solve_rows dt dx nu N M U0 li ai u w hN hw hwr hur
  constructor
  · intro c hc hcj
    rw [hl]
    congr 1
    apply list_eq_of_getD 0 _ _
      (by simp only [vec_scale_length, vec_axpy_length]; rw [hur (N - 1) (by omega), hc])
    intro j hj
    simp only [vec_scale_length, vec_axpy_length] at hj
    rw [hur (N - 1) (by omega)] at hj
    have hju : j < (u.getD (N - 1) []).length := by rw [hur (N - 1) (by omega)]; exact hj
    rw [vec_scale_getD M _ _ j hj (by simpa using hju),
      vec_axpy_getD M 1 _ _ j hj (by simpa using hju), vec_scale_getD M _ _ j hj hju, hcj j hj]
    ring
  · intro i hiN c hc hcj
    rw [hi i hiN]
    congr 1
    apply list_eq_of_getD 0 _ _
      (by simp only [vec_scale_length, vec_axpy_length]; rw [hur i (by omega), hc])
    intro j hj
    simp only [vec_scale_length, vec_axpy_length] at hj
    rw [hur i (by omega)] at hj
    have hju : j < (u.getD i []).length := by rw [hur i (by omega)]; exact hj
    rw [vec_axpy_getD M 1 _ _ j hj (by simpa using hju),
      vec_scale_getD M _ _ j hj (by simpa using hju),
      vec_axpy_getD M 1 _ _ j hj (by simpa using hju), vec_scale_getD M _ _ j hj hju, hcj j hj]
    ring

/-- C19. Control update of the driver of `block_gs.c`: after the update, for every time
index `i < N` and entry `j < M`, `v[i][j] = (dt w[i][j]) / (alpha dx dt)`, and row `i` of
the result depends only on row `i` of the adjoint history `w`. -/
theorem control_sweep (dt dx nu alpha : K) (N M : Nat) (li ai : List K)
    (w v : List (List K)) (hv : v.length = N)
    (hvr : ∀ i, i < N → (v.getD i []).length = M) (i : Nat) (hi : i < N) :
    (∀ j, j < M →
      ((BlockGS.main_control_update dt dx nu alpha N M li ai w v).getD i []).getD j 0
        = dt * (w.getD i []).getD j 0 / (alpha * dx * dt)) ∧
    (∀ w2 v2 : List (List K), v2.length = N → (∀ k, k < N → (v2.getD k []).length = M) →
      w2.getD i [] = w.getD i [] →
      (BlockGS.main_control_update dt dx nu alpha N M li ai w2 v2).getD i []
        = (BlockGS.main_control_update dt dx nu alpha N M li ai w v).getD i []) := by
  have row : ∀ (w v : List (List K)), v.length = N → (v.getD i []).length = M →
      (BlockGS.main_control_update dt dx nu alpha N M li ai w v).getD i []
        = BlockGS.apply_Vinv dt dx alpha M
            (BlockGS.apply_D dt dx nu M (vec_copy M (w.getD i []) (vec_create M)) li ai) := by
    intro w v hv hvi
    unfold BlockGS.main_control_update
    rw [forUp_set_getD_inside 0 N (fun i old => BlockGS.apply_Vinv dt dx alpha M
        (BlockGS.apply_D dt dx nu M (vec_copy M (w.getD i []) old) li ai)) v i []
        (Nat.zero_le _) hi (by omega),
      vec_copy_canon M _ _ hvi]
  constructor
  · intro j hj
    rw [row w v hv (hvr i hi),
      blockgs_apply_Vinv_getD dt dx alpha M _ j hj (by simpa using hj),
      blockgs_apply_D_getD dt dx nu M _ li ai j hj (by simpa using hj),
      vec_copy_getD M _ _ j hj (by simpa using hj)]
    ring
  · intro w2 v2 hv2 hv2r hw2
    rw [row w v hv (hvr i hi), row w2 v2 hv2 (hv2r i hi), hw2]

/-- The residual section on a history of one time step: the state residual is accumulated
once, the adjoint residual twice, and the control residual is never formed. -/
theorem main_residual_one_step (sqrt : K → K)
    (dt dx nu alpha : K) (M : Nat) (U0 u0 v0 w0 r0 s0 : List K) (norm : K) :
    BlockGS.main_residual sqrt dt dx nu alpha 1 M U0 [u0] [v0] [w0] [r0] [s0] norm =
      (let state := vec_axpy M 1 (vec_scale M (-1 * dt) (vec_copy M v0 s0))
          (vec_axpy M (-1) U0 (BlockGS.apply_A dt dx nu M (vec_copy M u0 r0)))
       let s1 := vec_scale M (-1 * dt) (vec_copy M v0 s0)
       let t := BlockGS.apply_Aadjoint dt dx nu M (vec_copy M w0 s1)
       let adj := vec_axpy M (-1) (vec_scale M (dx * dt) (vec_copy M U0 t))
          (vec_axpy M 1 t (vec_scale M (dx * dt) (vec_copy M u0 state)))
       let n1 := BlockGS.main_accumulate 1 M [state] norm
       let n2 := BlockGS.main_accumulate 1 M [adj] n1
       let n3 := BlockGS.main_accumulate 1 M [adj] n2
       ([adj], [vec_scale M (dx * dt) (vec_copy M U0 t)], sqrt n3)) := by
  rfl

/-- The forward sweep on a history of two time steps and three space points. -/
theorem forward_sweep_witness :
    1 ≤ 2 ∧ 3 ≤ 3 ∧ gsU0.length = 3 ∧ gs_state.length = 2 ∧
    (∀ i, i < 2 → (gs_state.getD i []).length = 3) ∧
    (∀ i, i < 2 → (gs_control.getD i []).length = 3) ∧
    ((BlockGS.main_forward_solve (1 / 2) (1 / 4) 1 2 3 gsU0 gs_li gs_ai gs_control
        gs_state).getD 0 []).getD 1 0
      = (BlockGS.apply_Phi (1 / 2) (1 / 4) 1 3 gsU0 gs_li gs_ai).getD 1 0
        + (BlockGS.apply_Phi (1 / 2) (1 / 4) 1 3 [1, 2, 3] gs_li gs_ai).getD 1 0 ∧
    ((BlockGS.main_forward_solve (1 / 2) (1 / 4) 1 2 3 gsU0 gs_li gs_ai gs_control
        gs_state).getD 1 []).getD 1 0
      = (BlockGS.apply_Phi (1 / 2) (1 / 4) 1 3
          ((BlockGS.main_forward_solve (1 / 2) (1 / 4) 1 2 3 gsU0 gs_li gs_ai gs_control
            gs_state).getD (1 - 1) []) gs_li gs_ai).getD 1 0
        + (BlockGS.apply_Phi (1 / 2) (1 / 4) 1 3 [0, 1, 2] gs_li gs_ai).getD 1 0 :=
  have h := forward_sweep (1 / 2 : ℚ) (1 / 4) 1 2 3 gsU0 gs_li gs_ai gs_control gs_state
    (by decide) (by decide) rfl rfl (by decide) (by decide)
  ⟨by decide, by decide, rfl, rfl, by decide, by decide,
    h.1 [1, 2, 3] rfl (by intro j hj; interval_cases j <;> norm_num [gs_control]) 1 (by decide),
    h.2 1 (le_refl 1) (by decide) [0, 1, 2] rfl
      (by intro j hj; interval_cases j <;> norm_num [gs_control]) 1 (by decide)⟩

/-- The backward sweep on a history of two time steps and three space points. -/
theorem backward_sweep_witness :
    1 ≤ 2 ∧ 3 ≤ 3 ∧ gs_adjoint.length = 2 ∧
    (∀ i, i < 2 → (gs_adjoint.getD i []).length = 3) ∧
    (∀ i, i < 2 → (gs_state.getD i []).length = 3) ∧
    (BlockGS.main_backward_solve (1 / 2) (1 / 4) 1 2 3 gsU0 gs_li gs_ai gs_state
        gs_adjoint).getD (2 - 1) []
      = BlockGS.apply_PhiAdjoint (1 / 2) (1 / 4) 1 3 [-3 / 8, -5 / 8, -3 / 4] gs_li gs_ai ∧
    (BlockGS.main_backward_solve (1 / 2) (1 / 4) 1 2 3 gsU0 gs_li gs_ai gs_state
        gs_adjoint).getD 0 []
      = BlockGS.apply_PhiAdjoint (1 / 2) (1 / 4) 1 3
          [-1929 / 22168, -243 / 652, -10411 / 22168] gs_li gs_ai :=
  have h := backward_sweep (1 / 2 : ℚ) (1 / 4) 1 2 3 gsU0 gs_li gs_ai gs_state gs_adjoint
    (by decide) (by decide) rfl (by decide) (by decide)
  have hlu : gs_ai = [17, 226 / 17, 2771 / 226] ∧ gs_li = [-9 / 17, -153 / 226] := by
    norm_num [gs_ai, gs_li, BlockGS.build_LU, forUp, vec_create, List.range', List.replicate]
  have hP : BlockGS.apply_PhiAdjoint (1 / 2 : ℚ) (1 / 4) 1 3 [-3 / 8, -5 / 8, -3 / 4] gs_li gs_ai
      = [-1929 / 22168, -20 / 163, -1049 / 11084] := by
    rw [hlu.1, hlu.2]
    norm_num [BlockGS.apply_PhiAdjoint, forUp, forDown, vec_create, vec_copy, List.range',
      List.range, List.range.loop, List.replicate]
  have hw : (BlockGS.main_backward_solve (1 / 2) (1 / 4) 1 2 3 gsU0 gs_li gs_ai gs_state
      gs_adjoint).getD (0 + 1) [] = [-1929 / 22168, -20 / 163, -1049 / 11084] :=
    (h.1 [-3 / 8, -5 / 8, -3 / 4] rfl
      (by intro j hj; interval_cases j <;> norm_num [gs_state, gsU0])).trans hP
  ⟨by decide, by decide, rfl, by decide, by decide,
    h.1 [-3 / 8, -5 / 8, -3 / 4] rfl
      (by intro j hj; interval_cases j <;> norm_num [gs_state, gsU0]),
    h.2 0 (by decide) [-1929 / 22168, -243 / 652, -10411 / 22168] rfl
      (by rw [hw]; intro j hj; interval_cases j <;> norm_num [gs_state, gsU0])⟩

/-- The control update on a history of two time steps and three space points. -/
theorem control_sweep_witness :
    gs_control.length = 2 ∧ (∀ i, i < 2 → (gs_control.getD i []).length = 3) ∧ 1 < 2 ∧
    ((BlockGS.main_control_update (1 / 2) (1 / 4) 1 1 2 3 gs_li gs_ai gs_adjoint
        gs_control).getD 1 []).getD 1 0
      = 1 / 2 * (gs_adjoint.getD 1 []).getD 1 0 / (1 * (1 / 4) * (1 / 2)) ∧
    (BlockGS.main_control_update (1 / 2) (1 / 4) 1 1 2 3 gs_li gs_ai [[7, 7, 7], [0, 3, 1]]
        gs_state).getD 1 []
      = (BlockGS.main_control_update (1 / 2) (1 / 4) 1 1 2 3 gs_li gs_ai gs_adjoint
          gs_control).getD 1 [] :=
  have h := control_sweep (1 / 2 : ℚ) (1 / 4) 1 1 2 3 gs_li gs_ai gs_adjoint gs_control
    rfl (by decide) 1 (by decide)
  ⟨rfl, by decide, by decide, h.1 1 (by decide),
    h.2 [[7, 7, 7], [0, 3, 1]] gs_state rfl (by decide) rfl⟩

/-- The residual section evaluated on its own, on histories that no pass of the loop produces
(one time step, `u = [1,0,0]`, `v = [2,0,0]`, `w = 0`, `U0 = 0`, `dt = 1`, `dx = 1/4`,
`nu = 0`, `alpha = 1`): it returns `sqrt (41/8)` (state `5`, adjoint `1/16`, and the adjoint
`1/16` a second time), whereas the sum of squares of the three block residuals is `85/16`
(state `5`, adjoint `1/16`, control `1/4`).  The loop that forms the control residual stops
before the last time index and leaves the adjoint residual of that index in `res[ntime-1]`;
on the histories of a pass both rows vanish. -/
theorem main_residual_arbitrary_history (sqrt : ℚ → ℚ) :
    (BlockGS.main_residual sqrt (1 : ℚ) (1 / 4) 0 1 1 3 [0, 0, 0] [[1, 0, 0]] [[2, 0, 0]]
        [[0, 0, 0]] [[9, 9, 9]] [[9, 9, 9]] 0).2.2 = sqrt (41 / 8) ∧
    BlockGS.residual_norm_spec sqrt (1 : ℚ) (1 / 4) 0 1 1 3 [0, 0, 0] [[1, 0, 0]] [[2, 0, 0]]
        [[0, 0, 0]] = sqrt (85 / 16) := by
  constructor
  · rw [main_residual_one_step]
    have hA : BlockGS.apply_A (1 : ℚ) (1 / 4) 0 3 [1, 0, 0] = [1, -2, 0] := by
      norm_num [BlockGS.apply_A, forUp, vec_create, vec_copy, List.range', List.replicate]
    have hT : BlockGS.apply_Aadjoint (1 : ℚ) (1 / 4) 0 3 [0, 0, 0] = [0, 0, 0] := by
      norm_num [BlockGS.apply_Aadjoint, forUp, vec_create, vec_copy, List.range',
        List.replicate]
    have hc1 : vec_copy 3 [(1 : ℚ), 0, 0] [9, 9, 9] = [1, 0, 0] := by
      norm_num [vec_copy, forUp, List.range']
    have hc2 : vec_copy 3 [(2 : ℚ), 0, 0] [9, 9, 9] = [2, 0, 0] := by
      norm_num [vec_copy, forUp, List.range']
    have hs : vec_scale 3 (-1 * 1) [(2 : ℚ), 0, 0] = [-2, 0, 0] := by
      norm_num [vec_scale, forUp, List.range']
    have hc3 : vec_copy 3 [(0 : ℚ), 0, 0] [-2, 0, 0] = [0, 0, 0] := by
      norm_num [vec_copy, forUp, List.range']
    simp only [hc1, hc2, hA, hs, hc3, hT]
    norm_num [BlockGS.main_accumulate, forUp, vec_copy, vec_axpy, vec_scale, List.range']
  · show sqrt _ = sqrt _
    congr 1
    have hA : BlockGS.apply_A (1 : ℚ) (1 / 4) 0 3 [1, 0, 0] = [1, -2, 0] := by
      norm_num [BlockGS.apply_A, forUp, vec_create, vec_copy, List.range', List.replicate]
    have hT : BlockGS.apply_Aadjoint (1 : ℚ) (1 / 4) 0 3 [0, 0, 0] = [0, 0, 0] := by
      norm_num [BlockGS.apply_Aadjoint, forUp, vec_create, vec_copy, List.range',
        List.replicate]
    simp only [Finset.sum_range_succ, Finset.sum_range_zero, List.getD_cons_zero, hA, hT]
    norm_num

end DriverSweeps

/-! ## The loop and the report of the driver of `block_gs.c` -/

section DriverLoop

open BlockGS

theorem pass_state_succ {K S : Type} (body : S → S × c_double K) (s : S) (k : Nat) :
    pass_state body s (k + 1) = pass_state body (body s).1 k := by
  induction k with
  | zero => rfl
  | succ n ih =>
    show (body (pass_state body s (n + 1))).1 = (body (pass_state body (body s).1 n)).1
    rw [ih]

theorem pass_norm_succ {K S : Type} (body : S → S × c_double K) (s : S) (k : Nat) (hk : 1 ≤ k) :
    pass_norm body s (k + 1) = pass_norm body (body s).1 k := by
  unfold pass_norm
  obtain ⟨n, rfl⟩ : ∃ n, k = n + 1 := ⟨k - 1, by omega⟩
  simp only [Nat.add_sub_cancel]
  rw [pass_state_succ]


variable {K : Type} [LinearOrderedField K]

theorem c_double_gt_false_iff (x y : c_double K) :
    c_double.gt x y = false ↔ (c_double.le x y = true ∨ isnan x = true ∨ isnan y = true) := by
  cases x <;> cases y <;> simp [c_double.gt, c_double.le, isnan]

/-- The loop entered with counter `n` stops after the first pass `k ≥ 1` whose test fails. -/
theorem main_do_while_spec {S : Type} (body : S → S × c_double K) (tol : c_double K)
    (maxiter : Int) (m : Nat) :
    ∀ (s : S) (n : Nat), (maxiter - n).toNat ≤ m →
      ∃ k, 1 ≤ k ∧
        main_do_while body tol maxiter s n = (pass_state body s k, pass_norm body s k, n + k) ∧
        (c_double.gt (pass_norm body s k) tol = false ∨ maxiter ≤ ((n + k : Nat) : Int)) ∧
        (∀ j, 1 ≤ j → j < k →
          c_double.gt (pass_norm body s j) tol = true ∧ ((n + j : Nat) : Int) < maxiter) ∧
        ((n + k : Nat) : Int) ≤ max ((n : Int) + 1) maxiter := by
  induction m with
  | zero =>
    intro s n hm
    refine ⟨1, le_refl 1, ?_, Or.inr (by omega), fun j h1 h2 => by omega, ?_⟩
    · rw [main_do_while]
      rw [if_neg (by rintro ⟨-, h⟩; omega)]
      rfl
    · simp
  | succ m ih =>
    intro s n hm
    by_cases hc : c_double.gt (body s).2 tol = true ∧ ((n + 1 : Nat) : Int) < maxiter
    · obtain ⟨k, hk1, hk, hstop, hcont, hbound⟩ := ih (body s).1 (n + 1) (by omega)
      refine ⟨k + 1, by omega, ?_, ?_, ?_, ?_⟩
      · rw [main_do_while]
        rw [if_pos hc, hk, pass_state_succ, pass_norm_succ body s k hk1]
        simp only [Prod.mk.injEq, true_and]
        omega
      · rw [pass_norm_succ body s k hk1]
        rcases hstop with h | h
        · exact Or.inl h
        · exact Or.inr (by push_cast at h ⊢; omega)
      · intro j h1 h2
        by_cases hj : j = 1
        · subst hj
          exact hc
        · obtain ⟨i, rfl⟩ : ∃ i, j = i + 1 := ⟨j - 1, by omega⟩
          rw [pass_norm_succ body s i (by omega)]
          obtain ⟨g1, g2⟩ := hcont i (by omega) (by omega)
          exact ⟨g1, by push_cast at g2 ⊢; omega⟩
      · have h2 := hc.2
        push_cast at hbound h2 ⊢
        rcases le_max_iff.1 hbound with h | h
        · exact le_max_of_le_right (by omega)
        · exact le_max_of_le_right (by omega)
    · refine ⟨1, le_refl 1, ?_, ?_, fun j h1 h2 => by omega, ?_⟩
      · rw [main_do_while]
        rw [if_neg hc]
        rfl
      · have e : pass_norm body s 1 = (body s).2 := rfl
        rw [e]
        by_cases hg : c_double.gt (body s).2 tol = true
        · right
          have : ¬ ((n + 1 : Nat) : Int) < maxiter := fun h => hc ⟨hg, h⟩
          omega
        · left
          simpa using hg
      · simp

/-- C21 (amended). Stopping rule of the driver of `block_gs.c`: for every loop body, `tol`
and `maxiter` the loop terminates after a number `k ≥ 1` of passes and returns the state and
the norm of pass `k`; `k` is the first pass at which the test `norm > tol && niters < maxiter`
fails, that is, at which `norm_k <= tol`, or `norm_k` or `tol` is NaN, or `k >= maxiter`; at
every earlier pass `j` the norm satisfies `norm_j > tol` and `j < maxiter`; and
`k ≤ max(1, maxiter)`. -/
theorem do_while_stopping_rule {S : Type} (body : S → S × c_double K) (tol : c_double K)
    (maxiter : Int) (s : S) :
    ∃ k, 1 ≤ k ∧
      main_do_while body tol maxiter s 0 = (pass_state body s k, pass_norm body s k, k) ∧
      ((c_double.le (pass_norm body s k) tol = true ∨ isnan (pass_norm body s k) = true
          ∨ isnan tol = true) ∨ maxiter ≤ (k : Int)) ∧
      (∀ j, 1 ≤ j → j < k →
        c_double.gt (pass_norm body s j) tol = true ∧ (j : Int) < maxiter) ∧
      (k : Int) ≤ max 1 maxiter := by
  obtain ⟨k, hk1, hk, hstop, hcont, hbound⟩ :=
    main_do_while_spec body tol maxiter (maxiter - 0).toNat s 0 (le_refl _)
  simp only [Nat.zero_add, Nat.cast_zero, zero_add] at hk hstop hcont hbound
  refine ⟨k, hk1, hk, ?_, hcont, hbound⟩
  rcases hstop with h | h
  · exact Or.inl ((c_double_gt_false_iff _ _).1 h)
  · exact Or.inr h

/-- C21 (as stated) fails: with a norm that is NaN, `tol = 1e-6` and `maxiter = 300` the
loop stops after the first pass, although neither `norm_1 <= tol` nor `1 >= maxiter` holds. -/
theorem do_while_stops_on_nan :
    (main_do_while nan_body
        (c_double.finite (1 / 1000000)) 300 () 0).2.2 = 1 ∧
    c_double.le (pass_norm nan_body () 1)
        (c_double.finite (1 / 1000000)) = false ∧
    ¬ ((300 : Int) ≤ 1) := by
  refine ⟨?_, ?_, by decide⟩
  · rw [main_do_while]
    simp [nan_body, c_double.gt]
  · simp [pass_norm, pass_state, nan_body, c_double.le]

/-- The loop on the body with norms `1, 1/2, 1/3, ...`, `tol = 1/4`, `maxiter = 10`: four
passes. -/
theorem do_while_stopping_rule_witness :
    main_do_while countdown_body (c_double.finite (1 / 4)) 10 0 0
      = (4, c_double.finite (1 / 4), 4) ∧
    ∃ k, 1 ≤ k ∧
      main_do_while countdown_body (c_double.finite (1 / 4)) 10 0 0
        = (pass_state countdown_body 0 k, pass_norm countdown_body 0 k, k) ∧
      ((c_double.le (pass_norm countdown_body 0 k) (c_double.finite (1 / 4)) = true
          ∨ isnan (pass_norm countdown_body 0 k) = true
          ∨ isnan (c_double.finite (1 / 4) : c_double ℚ) = true) ∨ (10 : Int) ≤ (k : Int)) ∧
      (∀ j, 1 ≤ j → j < k →
        c_double.gt (pass_norm countdown_body 0 j) (c_double.finite (1 / 4)) = true
          ∧ (j : Int) < 10) ∧
      (k : Int) ≤ max 1 10 := by
  refine ⟨?_, do_while_stopping_rule countdown_body (c_double.finite (1 / 4)) 10 0⟩
  rw [main_do_while, if_pos (by norm_num [countdown_body, c_double.gt])]
  rw [main_do_while, if_pos (by norm_num [countdown_body, c_double.gt])]
  rw [main_do_while, if_pos (by norm_num [countdown_body, c_double.gt])]
  rw [main_do_while, if_neg (by norm_num [countdown_body, c_double.gt])]
  norm_num [countdown_body]

theorem indicator_cases (norm : c_double K) :
    (main_convergence_indicator norm = 0 ↔ (isinf norm = true ∨ isnan norm = true)) ∧
    (main_convergence_indicator norm = 1 ↔ ∃ x, norm = c_double.finite x) := by
  cases norm <;> simp [main_convergence_indicator, isinf, isnan]

/-- C22. Divergence reporting of `block_gs.c`: the number written for the final norm of
the loop is `0` exactly when that norm is infinite or NaN, it is `1` exactly when the norm is
finite, and it is one of the two. -/
theorem divergence_report {S : Type} (body : S → S × c_double K) (tol : c_double K)
    (maxiter : Int) (s : S) :
    (main_convergence_indicator (main_do_while body tol maxiter s 0).2.1 = 0 ↔
      (isinf (main_do_while body tol maxiter s 0).2.1 = true ∨
        isnan (main_do_while body tol maxiter s 0).2.1 = true)) ∧
    (main_convergence_indicator (main_do_while body tol maxiter s 0).2.1 = 1 ↔
      ∃ x, (main_do_while body tol maxiter s 0).2.1 = c_double.finite x) ∧
    (main_convergence_indicator (main_do_while body tol maxiter s 0).2.1 = 0 ∨
      main_convergence_indicator (main_do_while body tol maxiter s 0).2.1 = 1) := by
  refine ⟨(indicator_cases _).1, (indicator_cases _).2, ?_⟩
  cases (main_do_while body tol maxiter s 0).2.1 <;>
    simp [main_convergence_indicator, isinf, isnan]

/-- The report of a run whose norm is NaN is `0`. -/
theorem divergence_report_witness :
    main_convergence_indicator
        (main_do_while nan_body (c_double.finite (1 / 1000000)) 300 () 0).2.1 = 0 ∧
    ((main_convergence_indicator
        (main_do_while nan_body (c_double.finite (1 / 1000000)) 300 () 0).2.1 = 0 ↔
      (isinf (main_do_while nan_body (c_double.finite (1 / 1000000)) 300 () 0).2.1 = true ∨
        isnan (main_do_while nan_body (c_double.finite (1 / 1000000)) 300 () 0).2.1 = true)) ∧
    (main_convergence_indicator
        (main_do_while nan_body (c_double.finite (1 / 1000000)) 300 () 0).2.1 = 1 ↔
      ∃ x, (main_do_while nan_body (c_double.finite (1 / 1000000)) 300 () 0).2.1
        = c_double.finite x) ∧
    (main_convergence_indicator
        (main_do_while nan_body (c_double.finite (1 / 1000000)) 300 () 0).2.1 = 0 ∨
      main_convergence_indicator
        (main_do_while nan_body (c_double.finite (1 / 1000000)) 300 () 0).2.1 = 1)) := by
  refine ⟨?_, divergence_report nan_body (c_double.finite (1 / 1000000)) 300 ()⟩
  rw [main_do_while]
  simp [nan_body, c_double.gt, main_convergence_indicator, isinf, isnan]

/-- In exact arithmetic the norm of every pass of the driver is a finite value, so the
report of a run is `1`. -/
theorem exact_run_reports_one (sqrt : K → K)
    (dt dx nu alpha : K) (ntime mspace : Nat) (U0 li ai : List K) (tol : c_double K)
    (maxiter : Int) (s : main_state K) :
    main_convergence_indicator (main_do_while
      (main_iteration sqrt dt dx nu alpha ntime mspace U0 li ai) tol maxiter s 0).2.1 = 1 := by
  obtain ⟨k, -, hk, -, -, -⟩ := main_do_while_spec
    (main_iteration sqrt dt dx nu alpha ntime mspace U0 li ai) tol maxiter
    (maxiter - 0).toNat s 0 (le_refl _)
  rw [hk]
  simp [pass_norm, main_iteration, main_convergence_indicator, isinf, isnan]

end DriverLoop

/-! ## The factorization build -/

section BuildClaims

variable {K : Type} [LinearOrderedField K]

set_option maxRecDepth 100000

set_option maxHeartbeats 4000000

/-- C23 (amended). The factorization build makes no check of the configuration: for every
`dt`, `dx`, `nu` and every `M ≥ 1`, non-positive step sizes and `M < 3` included, the LU
recurrence of `main` returns `M` pivots and `M - 1` multipliers, in both variants; it agrees
with a build that rejects non-positive step sizes and `M < 3` exactly when `dt > 0`, `dx > 0`
and `M ≥ 3`. -/
theorem build_LU_no_validation (dt dx nu : K) (M : Nat) (hM : 1 ≤ M) :
    ((Upwind.build_LU dt dx nu M).1.length = M ∧ (Upwind.build_LU dt dx nu M).2.length = M - 1) ∧
    ((BlockGS.build_LU dt dx nu M).1.length = M ∧
      (BlockGS.build_LU dt dx nu M).2.length = M - 1) ∧
    (buildFactorization_spec Upwind.build_LU dt dx nu M = some (Upwind.build_LU dt dx nu M) ↔
      (0 < dt ∧ 0 < dx ∧ 3 ≤ M)) ∧
    (buildFactorization_spec BlockGS.build_LU dt dx nu M = some (BlockGS.build_LU dt dx nu M) ↔
      (0 < dt ∧ 0 < dx ∧ 3 ≤ M)) := by
  obtain ⟨u1, u2, -, -⟩ := lu_build_spec (1 + dt / dx + 2 * nu * dt / (dx * dx))
    (-(nu * dt / (dx * dx) + dt / dx)) (nu * dt / (dx * dx)) M hM
  obtain ⟨g1, g2, -, -⟩ := lu_build_spec (1 + 2 * nu * dt / (dx * dx))
    (-(nu * dt / (dx * dx) + dt / (2 * dx))) (nu * dt / (dx * dx) - dt / (2 * dx)) M hM
  have key : ∀ build : K → K → K → Nat → List K × List K,
      (buildFactorization_spec build dt dx nu M = some (build dt dx nu M) ↔
        (0 < dt ∧ 0 < dx ∧ 3 ≤ M)) := by
    intro build
    unfold buildFactorization_spec
    by_cases hc : dt ≤ 0 ∨ dx ≤ 0 ∨ M < 3
    · rw [if_pos hc]
      constructor
      · intro h; cases h
      · rintro ⟨h1, h2, h3⟩
        rcases hc with h | h | h
        · exact absurd h1 (not_lt.2 h)
        · exact absurd h2 (not_lt.2 h)
        · omega
    · rw [if_neg hc]
      push_neg at hc
      exact ⟨fun _ => ⟨hc.1, hc.2.1, hc.2.2⟩, fun _ => rfl⟩
  exact ⟨⟨u1, u2⟩, ⟨g1, g2⟩, key _, key _⟩

/-- The build for `dt = -1` and `M = 2`. -/
theorem build_LU_no_validation_witness :
    1 ≤ 2 ∧
    (((Upwind.build_LU (-1 : ℚ) (1 / 3) 1 2).1.length = 2 ∧
      (Upwind.build_LU (-1 : ℚ) (1 / 3) 1 2).2.length = 2 - 1) ∧
    ((BlockGS.build_LU (-1 : ℚ) (1 / 3) 1 2).1.length = 2 ∧
      (BlockGS.build_LU (-1 : ℚ) (1 / 3) 1 2).2.length = 2 - 1) ∧
    (buildFactorization_spec Upwind.build_LU (-1 : ℚ) (1 / 3) 1 2
        = some (Upwind.build_LU (-1 : ℚ) (1 / 3) 1 2) ↔
      ((0 : ℚ) < -1 ∧ (0 : ℚ) < 1 / 3 ∧ 3 ≤ 2)) ∧
    (buildFactorization_spec BlockGS.build_LU (-1 : ℚ) (1 / 3) 1 2
        = some (BlockGS.build_LU (-1 : ℚ) (1 / 3) 1 2) ↔
      ((0 : ℚ) < -1 ∧ (0 : ℚ) < 1 / 3 ∧ 3 ≤ 2))) :=
  ⟨by decide, build_LU_no_validation (-1 : ℚ) (1 / 3) 1 2 (by decide)⟩

/-- C23 (as stated) fails: for `dt = -1` the recurrence of the upwind variant returns
pivots and multipliers, and so does the recurrence of `block_gs.c` for `M = 2`, where a
build that detects configuration errors returns nothing. -/
theorem build_LU_accepts_bad_configuration :
    Upwind.build_LU (-1 : ℚ) (1 / 4) 1 3 = ([-35, -181 / 7, -4095 / 181], [-4 / 7, -140 / 181]) ∧
    buildFactorization_spec Upwind.build_LU (-1 : ℚ) (1 / 4) 1 3 = none ∧
    BlockGS.build_LU (1 / 2 : ℚ) (1 / 3) 1 2 = ([10, 257 / 32], [-21 / 40]) ∧
    buildFactorization_spec BlockGS.build_LU (1 / 2 : ℚ) (1 / 3) 1 2 = none := by
  refine ⟨?_, ?_, ?_, ?_⟩
  · norm_num [Upwind.build_LU, forUp, vec_create, List.range', List.replicate]
  · norm_num [buildFactorization_spec]
  · norm_num [BlockGS.build_LU, forUp, vec_create, List.range', List.replicate]
  · norm_num [buildFactorization_spec]


/-- C24. Factorization build of the upwind variant: for `M ≥ 3`, `dt > 0`, `dx > 0`,
`nu ≥ 0` the LU recurrence of `main` produces `M` pivots, all strictly greater than `1`
(hence non-zero: no division of the build, of `apply_Phi` or of `apply_PhiAdjoint` is a
division by zero), and `M - 1` multipliers, all strictly between `-1` and `0`. -/
theorem upwind_build_LU_pivots (dt dx nu : K) (M : Nat) (hM : 3 ≤ M) (hdt : 0 < dt)
    (hdx : 0 < dx) (hnu : 0 ≤ nu) :
    (Upwind.build_LU dt dx nu M).1.length = M ∧
    (Upwind.build_LU dt dx nu M).2.length = M - 1 ∧
    (∀ i, i < M → 1 < (Upwind.build_LU dt dx nu M).1.getD i 0) ∧
    (∀ i, i < M → (Upwind.build_LU dt dx nu M).1.getD i 0 ≠ 0) ∧
    (∀ i, i < M - 1 → -1 < (Upwind.build_LU dt dx nu M).2.getD i 0 ∧
      (Upwind.build_LU dt dx nu M).2.getD i 0 < 0) := by
  have hg : 0 < dt / dx := div_pos hdt hdx
  have hb : 0 ≤ nu * dt / (dx * dx) :=
    div_nonneg (mul_nonneg hnu hdt.le) (mul_pos hdx hdx).le
  have e2 : 2 * nu * dt / (dx * dx) = 2 * (nu * dt / (dx * dx)) := by ring
  have hge : ∀ i, i < M → 1 + dt / dx + nu * dt / (dx * dx)
      ≤ (Upwind.build_LU dt dx nu M).1.getD i 0 := by
    intro i hi
    refine lu_build_pivot_ge (1 + dt / dx + 2 * nu * dt / (dx * dx))
      (-(nu * dt / (dx * dx) + dt / dx)) (nu * dt / (dx * dx))
      (1 + dt / dx + nu * dt / (dx * dx)) M (by rw [e2]; linarith) ?_ i hi
    intro x hx
    have hxpos : 0 < x := by linarith
    have h1 : (nu * dt / (dx * dx) + dt / dx) / x ≤ 1 := by
      rw [div_le_one hxpos]; linarith
    have h2 : nu * dt / (dx * dx) * ((nu * dt / (dx * dx) + dt / dx) / x)
        ≤ nu * dt / (dx * dx) * 1 := mul_le_mul_of_nonneg_left h1 hb
    have h3 : nu * dt / (dx * dx) * (-(nu * dt / (dx * dx) + dt / dx) / x)
        = -(nu * dt / (dx * dx) * ((nu * dt / (dx * dx) + dt / dx) / x)) := by ring
    rw [h3, e2]
    linarith
  obtain ⟨l1, l2, -, hrel⟩ := lu_build_spec (1 + dt / dx + 2 * nu * dt / (dx * dx))
    (-(nu * dt / (dx * dx) + dt / dx)) (nu * dt / (dx * dx)) M (by omega)
  refine ⟨l1, l2, ?_, ?_, ?_⟩
  · intro i hi
    have := hge i hi
    linarith
  · intro i hi
    have := hge i hi
    exact ne_of_gt (by linarith)
  · intro i hi
    obtain ⟨r1, -⟩ := hrel (i + 1) (by omega) (by omega)
    simp only [Nat.add_sub_cancel] at r1
    have ha := hge i (by omega)
    have hapos : 0 < (Upwind.build_LU dt dx nu M).1.getD i 0 := by linarith
    have hr : (Upwind.build_LU dt dx nu M).2.getD i 0
        = -(nu * dt / (dx * dx) + dt / dx) / (Upwind.build_LU dt dx nu M).1.getD i 0 := r1
    rw [hr]
    constructor
    · rw [lt_div_iff₀ hapos]; linarith
    · apply div_neg_of_neg_of_pos _ hapos
      linarith

/-- The bounds for `dt = 1/256`, `dx = 1/4`, `nu = 2`, `M = 3`. -/
theorem upwind_build_LU_pivots_witness :
    3 ≤ 3 ∧ (0 : ℚ) < 1 / 256 ∧ (0 : ℚ) < 1 / 4 ∧ (0 : ℚ) ≤ 2 ∧
    ((Upwind.build_LU (1 / 256 : ℚ) (1 / 4) 2 3).1.length = 3 ∧
    (Upwind.build_LU (1 / 256 : ℚ) (1 / 4) 2 3).2.length = 3 - 1 ∧
    (∀ i, i < 3 → 1 < (Upwind.build_LU (1 / 256 : ℚ) (1 / 4) 2 3).1.getD i 0) ∧
    (∀ i, i < 3 → (Upwind.build_LU (1 / 256 : ℚ) (1 / 4) 2 3).1.getD i 0 ≠ 0) ∧
    (∀ i, i < 3 - 1 → -1 < (Upwind.build_LU (1 / 256 : ℚ) (1 / 4) 2 3).2.getD i 0 ∧
      (Upwind.build_LU (1 / 256 : ℚ) (1 / 4) 2 3).2.getD i 0 < 0)) :=
  ⟨le_refl 3, by norm_num, by norm_num, by norm_num,
    upwind_build_LU_pivots (1 / 256 : ℚ) (1 / 4) 2 3 (le_refl 3) (by norm_num) (by norm_num)
      (by norm_num)⟩

/-- C25 fails in the code: an app set up by `main` for `ntime = 4` holds the pivots
`[10, 8, 15/2]` and multipliers `[-1/2, -5/8]` of the operator for `dt = 1/4`; a call on the
first coarse level (`t = 1/4`, `tnext = 3/4`) derives `dt = 1/2 = 2/ntime`, for which the
factors are `[19, 281/19, 3819/281]` and `[-10/19, -190/281]`; with the stored factors
`apply_Phi` applied to `apply_A [1, 0, 0]` for the `dt` of the call returns
`[109/60, -5/48, -1/24]`, not `[1, 0, 0]`. -/
theorem coarse_level_factors_mismatch :
    app_four_steps.ai = (Upwind.build_LU (1 / ((app_four_steps.ntime : Nat) : ℚ))
      (Upwind.space_step app_four_steps.mspace) app_four_steps.nu app_four_steps.mspace).1 ∧
    app_four_steps.li = (Upwind.build_LU (1 / ((app_four_steps.ntime : Nat) : ℚ))
      (Upwind.space_step app_four_steps.mspace) app_four_steps.nu app_four_steps.mspace).2 ∧
    Upwind.time_step status_coarse = 2 * (1 / ((app_four_steps.ntime : Nat) : ℚ)) ∧
    app_four_steps.ai = [10, 8, 15 / 2] ∧ app_four_steps.li = [-1 / 2, -5 / 8] ∧
    Upwind.build_LU (Upwind.time_step status_coarse) (Upwind.space_step app_four_steps.mspace)
        app_four_steps.nu app_four_steps.mspace
      = ([19, 281 / 19, 3819 / 281], [-10 / 19, -190 / 281]) ∧
    Upwind.apply_Phi (Upwind.time_step status_coarse) (Upwind.space_step app_four_steps.mspace)
        app_four_steps.nu app_four_steps.mspace
        (Upwind.apply_A (Upwind.time_step status_coarse)
          (Upwind.space_step app_four_steps.mspace) app_four_steps.nu app_four_steps.mspace
          [1, 0, 0])
        app_four_steps.li app_four_steps.ai
      = [109 / 60, -5 / 48, -1 / 24] := by
  have hai : app_four_steps.ai = [10, 8, 15 / 2] := by
    norm_num [app_four_steps, Upwind.build_LU, forUp, vec_create, List.range', List.replicate]
  have hli : app_four_steps.li = [-1 / 2, -5 / 8] := by
    norm_num [app_four_steps, Upwind.build_LU, forUp, vec_create, List.range', List.replicate]
  have hdt : Upwind.time_step status_coarse = 1 / 2 := by
    norm_num [Upwind.time_step, status_coarse]
  have hdx : Upwind.space_step app_four_steps.mspace = (1 / 4 : ℚ) := by
    norm_num [Upwind.space_step, app_four_steps]
  have hnu : app_four_steps.nu = 1 := rfl
  have hM : app_four_steps.mspace = 3 := rfl
  have hN : ((app_four_steps.ntime : Nat) : ℚ) = 4 := by norm_num [app_four_steps]
  refine ⟨?_, ?_, ?_, hai, hli, ?_, ?_⟩
  · rw [hN, hdx, hnu, hM]; rfl
  · rw [hN, hdx, hnu, hM]; rfl
  · rw [hdt, hN]; norm_num
  · rw [hdt, hdx, hnu, hM]
    norm_num [Upwind.build_LU, forUp, vec_create, List.range', List.replicate]
  · rw [hdt, hdx, hnu, hM, hai, hli]
    norm_num [Upwind.apply_Phi, Upwind.apply_A, forUp, forDown, vec_create, vec_copy,
      List.range', List.range, List.range.loop, List.replicate]

end BuildClaims

/-! ## The operator library: placeholder coupling and linearity -/

section LinearityClaims

variable {K : Type} [LinearOrderedField K]

/-- The loop `v[i] *= dt` over a block of length `M` scales every entry. -/
theorem scale_loop_eq_map (dt : K) (M : Nat) (v : List K) (hv : v.length = M) :
    forUp 0 M (fun i v => v.set i (v.getD i 0 * dt)) v = v.map (fun x => x * dt) := by
  apply list_eq_of_getD 0
  · rw [forUp_set_length 0 M (fun i acc => acc.getD i 0 * dt) v, List.length_map]
  · intro j hj
    rw [forUp_set_length 0 M (fun i acc => acc.getD i 0 * dt) v] at hj
    rw [forUp_set_getD_inside 0 M (fun _ x => x * dt) v j 0 (Nat.zero_le _) (by omega) hj]
    simp [List.getD_eq_getElem?_getD, List.getElem?_eq_getElem hj]

/-- C26. Control-to-state coupling placeholder: for every `dt` and every block `v` of
length `M`, `apply_D` and `apply_DAdjoint` of both files return `v` with every entry
multiplied by `dt`, whatever `dx`, `nu` and, in `block_gs.c`, the multipliers and pivots
are. -/
theorem coupling_placeholder_scales (dt dx nu : K) (M : Nat) (v l a : List K)
    (hv : v.length = M) :
    Upwind.apply_D dt dx nu M v = v.map (fun x => x * dt) ∧
    Upwind.apply_DAdjoint dt dx nu M v = v.map (fun x => x * dt) ∧
    BlockGS.apply_D dt dx nu M v l a = v.map (fun x => x * dt) ∧
    BlockGS.apply_DAdjoint dt dx nu M v l a = v.map (fun x => x * dt) :=
  ⟨scale_loop_eq_map dt M v hv, scale_loop_eq_map dt M v hv, scale_loop_eq_map dt M v hv,
    scale_loop_eq_map dt M v hv⟩

/-- The four routines on `[1, 2, 3]` with `dt = 1/2`. -/
theorem coupling_placeholder_scales_witness :
    ([1, 2, 3] : List ℚ).length = 3 ∧
    (Upwind.apply_D (1 / 2 : ℚ) (1 / 4) 2 3 [1, 2, 3] = [1, 2, 3].map (fun x => x * (1 / 2)) ∧
    Upwind.apply_DAdjoint (1 / 2 : ℚ) (1 / 4) 2 3 [1, 2, 3]
      = [1, 2, 3].map (fun x => x * (1 / 2)) ∧
    BlockGS.apply_D (1 / 2 : ℚ) (1 / 4) 2 3 [1, 2, 3] [7, 8] [9, 10, 11]
      = [1, 2, 3].map (fun x => x * (1 / 2)) ∧
    BlockGS.apply_DAdjoint (1 / 2 : ℚ) (1 / 4) 2 3 [1, 2, 3] [7, 8] [9, 10, 11]
      = [1, 2, 3].map (fun x => x * (1 / 2))) :=
  ⟨rfl, coupling_placeholder_scales (1 / 2 : ℚ) (1 / 4) 2 3 [1, 2, 3] [7, 8] [9, 10, 11] rfl⟩

/-- The transposed routine is linear in its right-hand side. -/
theorem lu_solve_adjoint_linear (b c1 c2 : K) (M : Nat) (x y z l a : List K) (hM : 1 ≤ M)
    (hx : x.length = M) (hy : y.length = M) (hz : z.length = M)
    (h : ∀ j, j < M → z.getD j 0 = c1 * x.getD j 0 + c2 * y.getD j 0) (j : Nat) (hj : j < M) :
    (lu_solve_adjoint b M z l a).getD j 0
      = c1 * (lu_solve_adjoint b M x l a).getD j 0
        + c2 * (lu_solve_adjoint b M y l a).getD j 0 := by
  obtain ⟨wx, wx0, wxi, -, xlast, xrec⟩ := lu_solve_adjoint_spec b M x l a hM hx
  obtain ⟨wy, wy0, wyi, -, ylast, yrec⟩ := lu_solve_adjoint_spec b M y l a hM hy
  obtain ⟨wz, wz0, wzi, -, zlast, zrec⟩ := lu_solve_adjoint_spec b M z l a hM hz
  have hw : ∀ i, i < M → wz.getD i 0 = c1 * wx.getD i 0 + c2 * wy.getD i 0 := by
    intro i
    induction i with
    | zero => intro h0; rw [wz0, wx0, wy0, h 0 h0]; ring
    | succ n ih =>
      intro hn
      have e : n + 1 - 1 = n := rfl
      rw [wzi (n + 1) (by omega) hn, wxi (n + 1) (by omega) hn, wyi (n + 1) (by omega) hn,
        h (n + 1) hn, e, ih (by omega)]
      ring
  have key : ∀ k, k < M → (lu_solve_adjoint b M z l a).getD (M - 1 - k) 0
      = c1 * (lu_solve_adjoint b M x l a).getD (M - 1 - k) 0
        + c2 * (lu_solve_adjoint b M y l a).getD (M - 1 - k) 0 := by
    intro k
    induction k with
    | zero =>
      intro _
      rw [Nat.sub_zero, zlast, xlast, ylast, hw (M - 1) (by omega)]
    | succ n ih =>
      intro hn
      have e : M - 1 - (n + 1) + 1 = M - 1 - n := by omega
      rw [zrec (M - 1 - (n + 1)) (by omega), xrec (M - 1 - (n + 1)) (by omega),
        yrec (M - 1 - (n + 1)) (by omega), e, ih (by omega), hw (M - 1 - (n + 1)) (by omega)]
      ring
  have := key (M - 1 - j) (by omega)
  have e : M - 1 - (M - 1 - j) = j := by omega
  rwa [e] at this

/-- The tridiagonal product is linear. -/
theorem tridiag_apply_linear (A B C c1 c2 : K) (M : Nat) (x y z : List K) (hM : 2 ≤ M)
    (hx : x.length = M) (hy : y.length = M) (hz : z.length = M)
    (h : ∀ j, j < M → z.getD j 0 = c1 * x.getD j 0 + c2 * y.getD j 0) (j : Nat) (hj : j < M) :
    (tridiag_apply A B C M z).getD j 0
      = c1 * (tridiag_apply A B C M x).getD j 0 + c2 * (tridiag_apply A B C M y).getD j 0 := by
  rw [tridiag_apply_getD A B C M z hM hz j hj, tridiag_apply_getD A B C M x hM hx j hj,
    tridiag_apply_getD A B C M y hM hy j hj, h j hj]
  have hnext : z.getD (j + 1) 0 = c1 * x.getD (j + 1) 0 + c2 * y.getD (j + 1) 0 := by
    by_cases hl : j + 1 < M
    · exact h (j + 1) hl
    · rw [getD_of_length_le z _ 0 (by omega), getD_of_length_le x _ 0 (by omega),
        getD_of_length_le y _ 0 (by omega)]
      ring
  rw [hnext]
  by_cases h0 : j = 0
  · simp only [if_pos h0]; ring
  · simp only [if_neg h0]
    rw [h (j - 1) (by omega)]
    ring

theorem upwind_apply_Vinv_getD (dt dx alpha : K) (M : Nat) (v : List K) (j : Nat)
    (hj : j < M) (hv : j < v.length) :
    (Upwind.apply_Vinv dt dx alpha M v).getD j 0 = v.getD j 0 / (alpha * dx * dt) :=
  forUp_set_getD_inside 0 M (fun _ x => x / (alpha * dx * dt)) v j 0 (Nat.zero_le _) hj hv

/-- C27. Linearity of the operator library: for `M ≥ 3`, fixed `dt`, `dx`, `nu`, `alpha`
and fixed multipliers and pivots (zero pivots included), and blocks `x`, `y`, `z` of length
`M` with `z = c1*x + c2*y` entrywise, each of `apply_A`, `apply_Aadjoint`, `apply_Phi`,
`apply_PhiAdjoint`, `apply_D` and `apply_Vinv` maps `z` to `c1*op(x) + c2*op(y)`, entry by
entry. -/
theorem operator_library_linear (dt dx nu alpha c1 c2 : K) (M : Nat) (x y z l a : List K)
    (hM : 3 ≤ M) (hx : x.length = M) (hy : y.length = M) (hz : z.length = M)
    (h : ∀ j, j < M → z.getD j 0 = c1 * x.getD j 0 + c2 * y.getD j 0) (j : Nat) (hj : j < M) :
    (Upwind.apply_A dt dx nu M z).getD j 0
      = c1 * (Upwind.apply_A dt dx nu M x).getD j 0
        + c2 * (Upwind.apply_A dt dx nu M y).getD j 0 ∧
    (Upwind.apply_Aadjoint dt dx nu M z).getD j 0
      = c1 * (Upwind.apply_Aadjoint dt dx nu M x).getD j 0
        + c2 * (Upwind.apply_Aadjoint dt dx nu M y).getD j 0 ∧
    (Upwind.apply_Phi dt dx nu M z l a).getD j 0
      = c1 * (Upwind.apply_Phi dt dx nu M x l a).getD j 0
        + c2 * (Upwind.apply_Phi dt dx nu M y l a).getD j 0 ∧
    (Upwind.apply_PhiAdjoint dt dx nu M z l a).getD j 0
      = c1 * (Upwind.apply_PhiAdjoint dt dx nu M x l a).getD j 0
        + c2 * (Upwind.apply_PhiAdjoint dt dx nu M y l a).getD j 0 ∧
    (Upwind.apply_D dt dx nu M z).getD j 0
      = c1 * (Upwind.apply_D dt dx nu M x).getD j 0
        + c2 * (Upwind.apply_D dt dx nu M y).getD j 0 ∧
    (Upwind.apply_Vinv dt dx alpha M z).getD j 0
      = c1 * (Upwind.apply_Vinv dt dx alpha M x).getD j 0
        + c2 * (Upwind.apply_Vinv dt dx alpha M y).getD j 0 := by
  refine ⟨?_, ?_, ?_, ?_, ?_, ?_⟩
  · exact tridiag_apply_linear _ _ _ c1 c2 M x y z (by omega) hx hy hz h j hj
  · exact tridiag_apply_linear _ _ _ c1 c2 M x y z (by omega) hx hy hz h j hj
  · exact lu_solve_linear _ c1 c2 M x y z l a (by omega) hx hy hz h j hj
  · exact lu_solve_adjoint_linear _ c1 c2 M x y z l a (by omega) hx hy hz h j hj
  · rw [upwind_apply_D_getD dt dx nu M z j hj (by omega),
      upwind_apply_D_getD dt dx nu M x j hj (by omega),
      upwind_apply_D_getD dt dx nu M y j hj (by omega), h j hj]
    ring
  · rw [upwind_apply_Vinv_getD dt dx alpha M z j hj (by omega),
      upwind_apply_Vinv_getD dt dx alpha M x j hj (by omega),
      upwind_apply_Vinv_getD dt dx alpha M y j hj (by omega), h j hj]
    ring

/-- Linearity at entry `1` for `z = 2*[1,2,3] - 3*[0,1,5]`. -/
theorem operator_library_linear_witness :
    3 ≤ 3 ∧ ([1, 2, 3] : List ℚ).length = 3 ∧ ([0, 1, 5] : List ℚ).length = 3 ∧
    ([2, 1, -9] : List ℚ).length = 3 ∧
    (∀ j, j < 3 → ([2, 1, -9] : List ℚ).getD j 0
      = 2 * ([1, 2, 3] : List ℚ).getD j 0 + (-3) * ([0, 1, 5] : List ℚ).getD j 0) ∧ 1 < 3 ∧
    ((Upwind.apply_A (1 / 2 : ℚ) (1 / 4) 2 3 [2, 1, -9]).getD 1 0
      = 2 * (Upwind.apply_A (1 / 2 : ℚ) (1 / 4) 2 3 [1, 2, 3]).getD 1 0
        + (-3) * (Upwind.apply_A (1 / 2 : ℚ) (1 / 4) 2 3 [0, 1, 5]).getD 1 0 ∧
    (Upwind.apply_Aadjoint (1 / 2 : ℚ) (1 / 4) 2 3 [2, 1, -9]).getD 1 0
      = 2 * (Upwind.apply_Aadjoint (1 / 2 : ℚ) (1 / 4) 2 3 [1, 2, 3]).getD 1 0
        + (-3) * (Upwind.apply_Aadjoint (1 / 2 : ℚ) (1 / 4) 2 3 [0, 1, 5]).getD 1 0 ∧
    (Upwind.apply_Phi (1 / 2 : ℚ) (1 / 4) 2 3 [2, 1, -9] [5, 6] [7, 8, 9]).getD 1 0
      = 2 * (Upwind.apply_Phi (1 / 2 : ℚ) (1 / 4) 2 3 [1, 2, 3] [5, 6] [7, 8, 9]).getD 1 0
        + (-3) * (Upwind.apply_Phi (1 / 2 : ℚ) (1 / 4) 2 3 [0, 1, 5] [5, 6] [7, 8, 9]).getD 1 0 ∧
    (Upwind.apply_PhiAdjoint (1 / 2 : ℚ) (1 / 4) 2 3 [2, 1, -9] [5, 6] [7, 8, 9]).getD 1 0
      = 2 * (Upwind.apply_PhiAdjoint (1 / 2 : ℚ) (1 / 4) 2 3 [1, 2, 3] [5, 6]
              [7, 8, 9]).getD 1 0
        + (-3) * (Upwind.apply_PhiAdjoint (1 / 2 : ℚ) (1 / 4) 2 3 [0, 1, 5] [5, 6]
              [7, 8, 9]).getD 1 0 ∧
    (Upwind.apply_D (1 / 2 : ℚ) (1 / 4) 2 3 [2, 1, -9]).getD 1 0
      = 2 * (Upwind.apply_D (1 / 2 : ℚ) (1 / 4) 2 3 [1, 2, 3]).getD 1 0
        + (-3) * (Upwind.apply_D (1 / 2 : ℚ) (1 / 4) 2 3 [0, 1, 5]).getD 1 0 ∧
    (Upwind.apply_Vinv (1 / 2 : ℚ) (1 / 4) 5 3 [2, 1, -9]).getD 1 0
      = 2 * (Upwind.apply_Vinv (1 / 2 : ℚ) (1 / 4) 5 3 [1, 2, 3]).getD 1 0
        + (-3) * (Upwind.apply_Vinv (1 / 2 : ℚ) (1 / 4) 5 3 [0, 1, 5]).getD 1 0) :=
  have hz : ∀ j, j < 3 → ([2, 1, -9] : List ℚ).getD j 0
      = 2 * ([1, 2, 3] : List ℚ).getD j 0 + (-3) * ([0, 1, 5] : List ℚ).getD j 0 := by
    intro j hj
    interval_cases j <;> norm_num
  ⟨le_refl 3, rfl, rfl, rfl, hz, by decide,
    operator_library_linear (1 / 2 : ℚ) (1 / 4) 2 5 2 (-3) 3 [1, 2, 3] [0, 1, 5] [2, 1, -9]
      [5, 6] [7, 8, 9] (le_refl 3) rfl rfl rfl hz 1 (by decide)⟩

end LinearityClaims

/-! ## The operator library: array bounds -/

section BoundsClaims

theorem checked_read_eq {α : Type} (x : List α) (i : Nat) (d : α) (h : i < x.length) :
    checked_read x i = some (x.getD i d) := by
  unfold checked_read
  rw [dif_pos h]
  simp [List.getD_eq_getElem?_getD, List.getElem?_eq_getElem h]

/-- Sequencing after a step that succeeded. -/
@[simp] theorem and_then_some {α β : Type} (a : α) (f : α → Option β) :
    and_then (some a) f = f a := rfl

/-- Sequencing after a step that failed. -/
@[simp] theorem and_then_none {α β : Type} (f : α → Option β) :
    and_then (none : Option α) f = none := rfl

theorem checked_write_eq {α : Type} (x : List α) (i : Nat) (v : α) (h : i < x.length) :
    checked_write x i v = some (x.set i v) := by
  unfold checked_write
  rw [if_pos h]

/-- A fold whose body never fails on the states of an invariant. -/
theorem foldlM_eq_some {σ : Type} (P : σ → Prop) (Q : Nat → Prop) (bodyM : Nat → σ → Option σ)
    (body : Nat → σ → σ)
    (hstep : ∀ i s, Q i → P s → bodyM i s = some (body i s) ∧ P (body i s))
    (xs : List Nat) (hxs : ∀ i ∈ xs, Q i) (s : σ) (hs : P s) :
    xs.foldlM (fun acc i => bodyM i acc) s = some (xs.foldl (fun acc i => body i acc) s) ∧
      P (xs.foldl (fun acc i => body i acc) s) := by
  induction xs generalizing s with
  | nil => exact ⟨rfl, hs⟩
  | cons x xs ih =>
    obtain ⟨e, hp⟩ := hstep x s (hxs x (List.mem_cons_self _ _)) hs
    simp only [List.foldlM_cons, List.foldl_cons, e]
    exact ih (fun i hi => hxs i (List.mem_cons_of_mem _ hi)) _ hp

theorem forUpM_eq_some {σ : Type} (P : σ → Prop) (lo hi : Nat) (bodyM : Nat → σ → Option σ)
    (body : Nat → σ → σ)
    (hstep : ∀ i s, lo ≤ i → i < hi → P s → bodyM i s = some (body i s) ∧ P (body i s))
    (s : σ) (hs : P s) :
    forUpM lo hi bodyM s = some (forUp lo hi body s) ∧ P (forUp lo hi body s) := by
  unfold forUpM forUp
  apply foldlM_eq_some P (fun i => lo ≤ i ∧ i < hi) bodyM body
    (fun i s hq hp => hstep i s hq.1 hq.2 hp) _ _ s hs
  intro i hi
  rw [List.mem_range'] at hi
  obtain ⟨k, hk, rfl⟩ := hi
  constructor <;> omega

theorem forDownM_eq_some {σ : Type} (P : σ → Prop) (n : Nat) (bodyM : Nat → σ → Option σ)
    (body : Nat → σ → σ)
    (hstep : ∀ i s, i < n → P s → bodyM i s = some (body i s) ∧ P (body i s))
    (s : σ) (hs : P s) :
    forDownM n bodyM s = some (forDown n body s) ∧ P (forDown n body s) := by
  unfold forDownM forDown
  apply foldlM_eq_some P (fun i => i < n) bodyM body hstep _ _ s hs
  intro i hi
  simpa using hi

variable {K : Type} [LinearOrderedField K]

theorem checked_vec_copy_eq (n : Nat) (x y : List K) (hx : n ≤ x.length) (hy : n ≤ y.length) :
    Upwind.Checked.vec_copy n x y = some (vec_copy n x y) := by
  unfold Upwind.Checked.vec_copy vec_copy
  refine (forUpM_eq_some (fun acc : List K => acc.length = y.length) 0 n _ _ ?_ y rfl).1
  intro i s _ hi hs
  rw [checked_read_eq x i 0 (by omega)]
  simp only [and_then_some]
  rw [checked_write_eq s i _ (by omega)]
  exact ⟨rfl, by rw [List.length_set]; exact hs⟩

theorem checked_tridiag_loop (A B C : K) (M : Nat) (uold u : List K) (hM : 3 ≤ M)
    (ho : uold.length = M) (hu : u.length = M) :
    forUpM 1 (M - 1)
      (fun i u =>
        and_then (checked_read uold (i - 1)) fun p =>
        and_then (checked_read uold i) fun c =>
        and_then (checked_read uold (i + 1)) fun n =>
        checked_write u i (A * p + B * c + C * n))
      u
    = some (forUp 1 (M - 1)
        (fun i u => u.set i (A * uold.getD (i - 1) 0 + B * uold.getD i 0 + C * uold.getD (i + 1) 0))
        u) := by
  refine (forUpM_eq_some (fun acc : List K => acc.length = M) 1 (M - 1) _ _ ?_ u hu).1
  intro i s h1 hi hs
  rw [checked_read_eq uold (i - 1) 0 (by omega), checked_read_eq uold i 0 (by omega),
    checked_read_eq uold (i + 1) 0 (by omega)]
  simp only [and_then_some]
  rw [checked_write_eq s i _ (by omega)]
  exact ⟨rfl, by rw [List.length_set]; exact hs⟩

theorem checked_apply_A_eq (dt dx nu : K) (M : Nat) (u : List K) (hM : 3 ≤ M)
    (hu : u.length = M) :
    Upwind.Checked.apply_A dt dx nu M u = some (Upwind.apply_A dt dx nu M u) := by
  have hc := checked_vec_copy_eq M u (vec_create M) (by omega) (by simp)
  have hl : (vec_copy M u (vec_create M)).length = M := by simp
  unfold Upwind.Checked.apply_A Upwind.apply_A
  simp only [hc, and_then_some]
  rw [checked_read_eq _ 0 0 (by omega), checked_read_eq _ 1 0 (by omega)]
  simp only [and_then_some]
  rw [checked_write_eq u 0 _ (by omega)]
  simp only [and_then_some]
  rw [checked_read_eq _ (M - 2) 0 (by omega), checked_read_eq _ (M - 1) 0 (by omega)]
  simp only [and_then_some]
  rw [checked_write_eq _ (M - 1) _ (by rw [List.length_set]; omega)]
  simp only [and_then_some]
  exact checked_tridiag_loop _ _ _ M _ _ hM hl (by simp [hu])

theorem checked_apply_Aadjoint_eq (dt dx nu : K) (M : Nat) (u : List K) (hM : 3 ≤ M)
    (hu : u.length = M) :
    Upwind.Checked.apply_Aadjoint dt dx nu M u = some (Upwind.apply_Aadjoint dt dx nu M u) := by
  have hc := checked_vec_copy_eq M u (vec_create M) (by omega) (by simp)
  have hl : (vec_copy M u (vec_create M)).length = M := by simp
  unfold Upwind.Checked.apply_Aadjoint Upwind.apply_Aadjoint
  simp only [hc, and_then_some]
  rw [checked_read_eq _ 0 0 (by omega), checked_read_eq _ 1 0 (by omega)]
  simp only [and_then_some]
  rw [checked_write_eq u 0 _ (by omega)]
  simp only [and_then_some]
  rw [checked_read_eq _ (M - 2) 0 (by omega), checked_read_eq _ (M - 1) 0 (by omega)]
  simp only [and_then_some]
  rw [checked_write_eq _ (M - 1) _ (by rw [List.length_set]; omega)]
  simp only [and_then_some]
  exact checked_tridiag_loop _ _ _ M _ _ hM hl (by simp [hu])

theorem checked_apply_Phi_eq (dt dx nu : K) (M : Nat) (u l a : List K) (hM : 3 ≤ M)
    (hu : u.length = M) (hl : l.length = M - 1) (ha : a.length = M) :
    Upwind.Checked.apply_Phi dt dx nu M u l a = some (Upwind.apply_Phi dt dx nu M u l a) := by
  have hc := checked_vec_copy_eq M u (vec_create M) (by omega) (by simp)
  have hf : (vec_copy M u (vec_create M)).length = M := by simp
  unfold Upwind.Checked.apply_Phi Upwind.apply_Phi
  simp only [hc, and_then_some]
  rw [checked_read_eq _ 0 0 (by omega)]
  simp only [and_then_some]
  rw [checked_write_eq (vec_create M) 0 _ (by simp; omega)]
  simp only [and_then_some]
  obtain ⟨e1, hw⟩ := forUpM_eq_some (fun acc : List K => acc.length = M) 1 M
    (fun i w =>
      and_then (checked_read (vec_copy M u (vec_create M)) i) fun fi =>
      and_then (checked_read l (i - 1)) fun lp =>
      and_then (checked_read w (i - 1)) fun wp =>
      checked_write w i (fi - lp * wp))
    (fun i w => w.set i ((vec_copy M u (vec_create M)).getD i 0
      - l.getD (i - 1) 0 * w.getD (i - 1) 0))
    (by
      intro i s h1 hi hs
      beta_reduce
      rw [checked_read_eq _ i 0 (by omega), checked_read_eq l (i - 1) 0 (by omega),
        checked_read_eq s (i - 1) 0 (by omega)]
      simp only [and_then_some]
      rw [checked_write_eq s i _ (by omega)]
      exact ⟨rfl, by rw [List.length_set]; exact hs⟩)
    ((vec_create M).set 0 ((vec_copy M u (vec_create M)).getD 0 0)) (by simp)
  rw [e1]
  simp only [and_then_some]
  rw [checked_read_eq _ (M - 1) 0 (by rw [hw]; omega), checked_read_eq a (M - 1) 0 (by omega)]
  simp only [and_then_some]
  rw [checked_write_eq u (M - 1) _ (by omega)]
  simp only [and_then_some]
  refine (forDownM_eq_some (fun acc : List K => acc.length = M) (M - 1) _ _ ?_ _
    (by beta_reduce; rw [List.length_set]; exact hu)).1
  intro i s hi hs
  rw [checked_read_eq _ i 0 (by rw [hw]; omega), checked_read_eq s (i + 1) 0 (by omega),
    checked_read_eq a i 0 (by omega)]
  simp only [and_then_some]
  rw [checked_write_eq s i _ (by omega)]
  exact ⟨rfl, by rw [List.length_set]; exact hs⟩

theorem checked_apply_PhiAdjoint_eq (dt dx nu : K) (M : Nat) (u l a : List K) (hM : 3 ≤ M)
    (hu : u.length = M) (hl : l.length = M - 1) (ha : a.length = M) :
    Upwind.Checked.apply_PhiAdjoint dt dx nu M u l a
      = some (Upwind.apply_PhiAdjoint dt dx nu M u l a) := by
  have hc := checked_vec_copy_eq M u (vec_create M) (by omega) (by simp)
  have hf : (vec_copy M u (vec_create M)).length = M := by simp
  unfold Upwind.Checked.apply_PhiAdjoint Upwind.apply_PhiAdjoint
  simp only [hc, and_then_some]
  rw [checked_read_eq _ 0 0 (by omega), checked_read_eq a 0 0 (by omega)]
  simp only [and_then_some]
  rw [checked_write_eq (vec_create M) 0 _ (by simp; omega)]
  simp only [and_then_some]
  obtain ⟨e1, hw⟩ := forUpM_eq_some (fun acc : List K => acc.length = M) 1 M
    (fun i w =>
      and_then (checked_read (vec_copy M u (vec_create M)) i) fun fi =>
      and_then (checked_read w (i - 1)) fun wp =>
      and_then (checked_read a i) fun ai =>
      checked_write w i ((fi - wp * (-nu * dt / (dx * dx))) / ai))
    (fun i w => w.set i (((vec_copy M u (vec_create M)).getD i 0
      - w.getD (i - 1) 0 * (-nu * dt / (dx * dx))) / a.getD i 0))
    (by
      intro i s h1 hi hs
      beta_reduce
      rw [checked_read_eq _ i 0 (by omega), checked_read_eq s (i - 1) 0 (by omega),
        checked_read_eq a i 0 (by omega)]
      simp only [and_then_some]
      rw [checked_write_eq s i _ (by omega)]
      exact ⟨rfl, by rw [List.length_set]; exact hs⟩)
    ((vec_create M).set 0 ((vec_copy M u (vec_create M)).getD 0 0 / a.getD 0 0)) (by simp)
  rw [e1]
  simp only [and_then_some]
  rw [checked_read_eq _ (M - 1) 0 (by rw [hw]; omega)]
  simp only [and_then_some]
  rw [checked_write_eq u (M - 1) _ (by omega)]
  simp only [and_then_some]
  refine (forDownM_eq_some (fun acc : List K => acc.length = M) (M - 1) _ _ ?_ _
    (by beta_reduce; rw [List.length_set]; exact hu)).1
  intro i s hi hs
  rw [checked_read_eq _ i 0 (by rw [hw]; omega), checked_read_eq l i 0 (by omega),
    checked_read_eq s (i + 1) 0 (by omega)]
  simp only [and_then_some]
  rw [checked_write_eq s i _ (by omega)]
  exact ⟨rfl, by rw [List.length_set]; exact hs⟩

/-- C28. In-bounds access of the operator library: for `M ≥ 3`, a block of length `M`,
`M` pivots and `M - 1` multipliers, the routines `apply_A`, `apply_Aadjoint`, `apply_Phi` and
`apply_PhiAdjoint` with checked array accesses never reach the error branch, and return what
the unchecked routines return. -/
theorem operator_library_in_bounds (dt dx nu : K) (M : Nat) (u l a : List K) (hM : 3 ≤ M)
    (hu : u.length = M) (hl : l.length = M - 1) (ha : a.length = M) :
    Upwind.Checked.apply_A dt dx nu M u = some (Upwind.apply_A dt dx nu M u) ∧
    Upwind.Checked.apply_Aadjoint dt dx nu M u = some (Upwind.apply_Aadjoint dt dx nu M u) ∧
    Upwind.Checked.apply_Phi dt dx nu M u l a = some (Upwind.apply_Phi dt dx nu M u l a) ∧
    Upwind.Checked.apply_PhiAdjoint dt dx nu M u l a
      = some (Upwind.apply_PhiAdjoint dt dx nu M u l a) :=
  ⟨checked_apply_A_eq dt dx nu M u hM hu, checked_apply_Aadjoint_eq dt dx nu M u hM hu,
    checked_apply_Phi_eq dt dx nu M u l a hM hu hl ha,
    checked_apply_PhiAdjoint_eq dt dx nu M u l a hM hu hl ha⟩

/-- The four checked routines on three space points. -/
theorem operator_library_in_bounds_witness :
    3 ≤ 3 ∧ ([1, 2, 3] : List ℚ).length = 3 ∧ ([5, 6] : List ℚ).length = 3 - 1 ∧
    ([7, 8, 9] : List ℚ).length = 3 ∧
    (Upwind.Checked.apply_A (1 / 2 : ℚ) (1 / 4) 2 3 [1, 2, 3]
      = some (Upwind.apply_A (1 / 2 : ℚ) (1 / 4) 2 3 [1, 2, 3]) ∧
    Upwind.Checked.apply_Aadjoint (1 / 2 : ℚ) (1 / 4) 2 3 [1, 2, 3]
      = some (Upwind.apply_Aadjoint (1 / 2 : ℚ) (1 / 4) 2 3 [1, 2, 3]) ∧
    Upwind.Checked.apply_Phi (1 / 2 : ℚ) (1 / 4) 2 3 [1, 2, 3] [5, 6] [7, 8, 9]
      = some (Upwind.apply_Phi (1 / 2 : ℚ) (1 / 4) 2 3 [1, 2, 3] [5, 6] [7, 8, 9]) ∧
    Upwind.Checked.apply_PhiAdjoint (1 / 2 : ℚ) (1 / 4) 2 3 [1, 2, 3] [5, 6] [7, 8, 9]
      = some (Upwind.apply_PhiAdjoint (1 / 2 : ℚ) (1 / 4) 2 3 [1, 2, 3] [5, 6] [7, 8, 9])) :=
  ⟨le_refl 3, rfl, rfl, rfl,
    operator_library_in_bounds (1 / 2 : ℚ) (1 / 4) 2 3 [1, 2, 3] [5, 6] [7, 8, 9] (le_refl 3)
      rfl rfl rfl⟩

end BoundsClaims

/-! ## The local kernels on the memory -/

section FrameClaims

open Upwind

set_option maxRecDepth 100000

set_option maxHeartbeats 4000000

theorem unchanged_outside_refl {K : Type} (W : List Nat) (h : List (List K)) :
    Mem.unchanged_outside W h.length h h :=
  ⟨le_refl _, fun _ _ _ => rfl⟩

theorem unchanged_outside_set {K : Type} (W : List Nat) (n : Nat) (h h' : List (List K)) (q : Nat)
    (x : List K) (hag : Mem.unchanged_outside W n h h') (hq : q ∈ W ∨ n ≤ q) :
    Mem.unchanged_outside W n h (h'.set q x) := by
  refine ⟨by rw [List.length_set]; exact hag.1, ?_⟩
  intro p hp hpW
  rw [getD_set_eq, if_neg, hag.2 p hp hpW]
  rintro ⟨rfl, -⟩
  rcases hq with hq | hq
  · exact hpW hq
  · omega

variable {K : Type} [LinearOrderedField K]

theorem unchanged_outside_create (W : List Nat) (n : Nat) (h h' : List (List K)) (size : Nat)
    (hag : Mem.unchanged_outside W n h h') :
    Mem.unchanged_outside W n h (Mem.vec_create size h') := by
  unfold Mem.vec_create
  refine ⟨by rw [List.length_append]; have := hag.1; omega, ?_⟩
  intro p hp hpW
  rw [← hag.2 p hp hpW]
  have hlt : p < h'.length := lt_of_lt_of_le hp hag.1
  simp [List.getD_eq_getElem?_getD, List.getElem?_append_left hlt]

@[simp] theorem mem_vec_create_length (size : Nat) (h : List (List K)) :
    (Mem.vec_create size h).length = h.length + 1 := by
  simp [Mem.vec_create]

@[simp] theorem mem_vec_copy_length (size a b : Nat) (h : List (List K)) :
    (Mem.vec_copy size a b h).length = h.length := by
  simp [Mem.vec_copy]

@[simp] theorem mem_vec_axpy_length (size : Nat) (c : K) (a b : Nat) (h : List (List K)) :
    (Mem.vec_axpy size c a b h).length = h.length := by
  simp [Mem.vec_axpy]

@[simp] theorem mem_vec_scale_length (size : Nat) (c : K) (a : Nat) (h : List (List K)) :
    (Mem.vec_scale size c a h).length = h.length := by
  simp [Mem.vec_scale]

@[simp] theorem mem_apply_A_length (dt dx nu : K) (M a : Nat) (h : List (List K)) :
    (Mem.apply_A dt dx nu M a h).length = h.length := by
  simp [Mem.apply_A]

@[simp] theorem mem_apply_Aadjoint_length (dt dx nu : K) (M a : Nat) (h : List (List K)) :
    (Mem.apply_Aadjoint dt dx nu M a h).length = h.length := by
  simp [Mem.apply_Aadjoint]

@[simp] theorem mem_apply_D_length (dt dx nu : K) (M a : Nat) (h : List (List K)) :
    (Mem.apply_D dt dx nu M a h).length = h.length := by
  simp [Mem.apply_D]

@[simp] theorem mem_apply_Phi_length (dt dx nu : K) (M a l p : Nat) (h : List (List K)) :
    (Mem.apply_Phi dt dx nu M a l p h).length = h.length := by
  simp [Mem.apply_Phi]

@[simp] theorem mem_apply_PhiAdjoint_length (dt dx nu : K) (M a l p : Nat) (h : List (List K)) :
    (Mem.apply_PhiAdjoint dt dx nu M a l p h).length = h.length := by
  simp [Mem.apply_PhiAdjoint]

@[simp] theorem mem_zero_fill_length (M a : Nat) (h : List (List K)) :
    (Mem.zero_fill M a h).length = h.length := by
  simp [Mem.zero_fill]

theorem unchanged_outside_vec_copy (W : List Nat) (n : Nat) (h h' : List (List K))
    (size a b : Nat) (hag : Mem.unchanged_outside W n h h') (hq : b ∈ W ∨ n ≤ b) :
    Mem.unchanged_outside W n h (Mem.vec_copy size a b h') :=
  unchanged_outside_set W n h h' b _ hag hq

theorem unchanged_outside_vec_axpy (W : List Nat) (n : Nat) (h h' : List (List K))
    (size : Nat) (c : K) (a b : Nat) (hag : Mem.unchanged_outside W n h h')
    (hq : b ∈ W ∨ n ≤ b) :
    Mem.unchanged_outside W n h (Mem.vec_axpy size c a b h') :=
  unchanged_outside_set W n h h' b _ hag hq

theorem unchanged_outside_vec_scale (W : List Nat) (n : Nat) (h h' : List (List K))
    (size : Nat) (c : K) (b : Nat) (hag : Mem.unchanged_outside W n h h')
    (hq : b ∈ W ∨ n ≤ b) :
    Mem.unchanged_outside W n h (Mem.vec_scale size c b h') :=
  unchanged_outside_set W n h h' b _ hag hq

theorem unchanged_outside_apply_A (W : List Nat) (n : Nat) (h h' : List (List K))
    (dt dx nu : K) (M b : Nat) (hag : Mem.unchanged_outside W n h h') (hq : b ∈ W ∨ n ≤ b) :
    Mem.unchanged_outside W n h (Mem.apply_A dt dx nu M b h') :=
  unchanged_outside_set W n h h' b _ hag hq

theorem unchanged_outside_apply_Aadjoint (W : List Nat) (n : Nat) (h h' : List (List K))
    (dt dx nu : K) (M b : Nat) (hag : Mem.unchanged_outside W n h h') (hq : b ∈ W ∨ n ≤ b) :
    Mem.unchanged_outside W n h (Mem.apply_Aadjoint dt dx nu M b h') :=
  unchanged_outside_set W n h h' b _ hag hq

theorem unchanged_outside_apply_D (W : List Nat) (n : Nat) (h h' : List (List K))
    (dt dx nu : K) (M b : Nat) (hag : Mem.unchanged_outside W n h h') (hq : b ∈ W ∨ n ≤ b) :
    Mem.unchanged_outside W n h (Mem.apply_D dt dx nu M b h') :=
  unchanged_outside_set W n h h' b _ hag hq

theorem unchanged_outside_apply_Phi (W : List Nat) (n : Nat) (h h' : List (List K))
    (dt dx nu : K) (M b l a : Nat) (hag : Mem.unchanged_outside W n h h')
    (hq : b ∈ W ∨ n ≤ b) :
    Mem.unchanged_outside W n h (Mem.apply_Phi dt dx nu M b l a h') :=
  unchanged_outside_set W n h h' b _ hag hq

theorem unchanged_outside_apply_PhiAdjoint (W : List Nat) (n : Nat) (h h' : List (List K))
    (dt dx nu : K) (M b l a : Nat) (hag : Mem.unchanged_outside W n h h')
    (hq : b ∈ W ∨ n ≤ b) :
    Mem.unchanged_outside W n h (Mem.apply_PhiAdjoint dt dx nu M b l a h') :=
  unchanged_outside_set W n h h' b _ hag hq

theorem unchanged_outside_zero_fill (W : List Nat) (n : Nat) (h h' : List (List K))
    (M b : Nat) (hag : Mem.unchanged_outside W n h h') (hq : b ∈ W ∨ n ≤ b) :
    Mem.unchanged_outside W n h (Mem.zero_fill M b h') :=
  unchanged_outside_set W n h h' b _ hag hq

theorem getD_mem_of_lt (l : List Nat) (k : Nat) (hk : k < l.length) : l.getD k 0 ∈ l := by
  rw [List.getD_eq_getElem?_getD, List.getElem?_eq_getElem hk]
  exact List.getElem_mem hk


/-- `my_TriResidual` writes only blocks of `r` and arrays it has created. -/
theorem mem_my_TriResidual_unchanged (W : List Nat) (n : Nat) (h0 : List (List K))
    (app : Mem.my_App K) (uleft uright f : Option Mem.my_Vector) (r : Mem.my_Vector)
    (hom : Int) (status : braid_TriStatus K) (h : List (List K))
    (hag : Mem.unchanged_outside W n h0 h) (hr : r.values.length = 4)
    (hW : ∀ q, q ∈ r.values → q ∈ W) :
    Mem.unchanged_outside W n h0 (Mem.my_TriResidual app uleft uright f r hom status h) := by
  have hn := hag.1
  unfold Mem.my_TriResidual
  cases uleft <;> cases uright <;> cases f <;> simp only []
  all_goals
    repeat (first
      | with_reducible exact hag
      | with_reducible refine unchanged_outside_create _ _ _ _ _ ?_
      | with_reducible refine unchanged_outside_vec_copy _ _ _ _ _ _ _ ?_ ?_
      | with_reducible refine unchanged_outside_vec_axpy _ _ _ _ _ _ _ _ ?_ ?_
      | with_reducible refine unchanged_outside_vec_scale _ _ _ _ _ _ _ ?_ ?_
      | with_reducible refine unchanged_outside_apply_A _ _ _ _ _ _ _ _ _ ?_ ?_
      | with_reducible refine unchanged_outside_apply_Aadjoint _ _ _ _ _ _ _ _ _ ?_ ?_
      | with_reducible refine unchanged_outside_apply_D _ _ _ _ _ _ _ _ _ ?_ ?_)
  all_goals
    first
      | with_reducible exact Or.inl (hW _ (getD_mem_of_lt _ _ (by omega)))
      | (right; first | omega | (simp only [mem_vec_create_length]; omega))

/-- `my_TriSolve` writes only blocks of `u` and arrays it has created. -/
theorem mem_my_TriSolve_unchanged (W : List Nat) (n : Nat) (h0 : List (List K))
    (app : Mem.my_App K) (uleft uright f : Option Mem.my_Vector) (u : Mem.my_Vector)
    (hom : Int) (status : braid_TriStatus K) (h : List (List K))
    (hag : Mem.unchanged_outside W n h0 h) (hu : u.values.length = 4)
    (hW : ∀ q, q ∈ u.values → q ∈ W) :
    Mem.unchanged_outside W n h0 (Mem.my_TriSolve app uleft uright f u hom status h).1 := by
  have hn := hag.1
  unfold Mem.my_TriSolve
  simp only []
  repeat (first
    | with_reducible exact hag
    | with_reducible refine unchanged_outside_create _ _ _ _ _ ?_
    | with_reducible refine mem_my_TriResidual_unchanged _ _ _ _ _ _ _ _ _ _ _ ?_ hu hW
    | with_reducible refine unchanged_outside_vec_copy _ _ _ _ _ _ _ ?_ ?_
    | with_reducible refine unchanged_outside_vec_axpy _ _ _ _ _ _ _ _ ?_ ?_
    | with_reducible refine unchanged_outside_vec_scale _ _ _ _ _ _ _ ?_ ?_
    | with_reducible refine unchanged_outside_zero_fill _ _ _ _ _ _ ?_ ?_
    | with_reducible refine unchanged_outside_apply_A _ _ _ _ _ _ _ _ _ ?_ ?_
    | with_reducible refine unchanged_outside_apply_Aadjoint _ _ _ _ _ _ _ _ _ ?_ ?_
    | with_reducible refine unchanged_outside_apply_Phi _ _ _ _ _ _ _ _ _ _ _ ?_ ?_
    | with_reducible refine unchanged_outside_apply_PhiAdjoint _ _ _ _ _ _ _ _ _ _ _ ?_ ?_)
  all_goals
    first
      | with_reducible exact Or.inl (hW _ (getD_mem_of_lt _ _ (by omega)))
      | (right; first | omega | (simp only [mem_vec_create_length, mem_vec_copy_length,
          mem_zero_fill_length]; omega))

/-- C29. Frame of the local kernel: for a current vector with four blocks, every array
that exists before the call and is not one of the four blocks of the current vector (the
blocks of the neighbours and of the forcing vector when these are distinct objects, `U0`,
the pivots and the multipliers) has the same content after `my_TriResidual` and after
`my_TriSolve`: the kernels write only blocks of their last vector argument and arrays they
have created themselves. -/
theorem kernel_frame (app : Mem.my_App K) (uleft uright f : Option Mem.my_Vector)
    (r : Mem.my_Vector) (hom : Int) (status : braid_TriStatus K) (h : List (List K))
    (hr : r.values.length = 4) (p : Nat) (hp : p < h.length) (hpr : p ∉ r.values) :
    (Mem.my_TriResidual app uleft uright f r hom status h).getD p [] = h.getD p [] ∧
    (Mem.my_TriSolve app uleft uright f r hom status h).1.getD p [] = h.getD p [] :=
  ⟨(mem_my_TriResidual_unchanged r.values h.length h app uleft uright f r hom status h
      (unchanged_outside_refl _ h) hr (fun _ hq => hq)).2 p hp hpr,
    (mem_my_TriSolve_unchanged r.values h.length h app uleft uright f r hom status h
      (unchanged_outside_refl _ h) hr (fun _ hq => hq)).2 p hp hpr⟩

/-- The adjoint block of the left neighbour in the example memory. -/
theorem kernel_frame_witness :
    mem_current.values.length = 4 ∧ 5 < mem11.length ∧ 5 ∉ mem_current.values ∧
    (Mem.my_TriResidual mem_app (some mem_left) none none mem_current 0 status3 mem11).getD 5 []
      = mem11.getD 5 [] ∧
    (Mem.my_TriSolve mem_app (some mem_left) none none mem_current 0 status3 mem11).1.getD 5 []
      = mem11.getD 5 [] :=
  ⟨rfl, by decide, by decide,
    kernel_frame mem_app (some mem_left) none none mem_current 0 status3 mem11 rfl 5
      (by decide) (by decide)⟩

/-- On the example memory the two embeddings of `my_TriResidual` write the same four
blocks. -/
theorem mem_my_TriResidual_example :
    ((Mem.my_TriResidual mem_app (some mem_left) none none mem_current 0 status3 mem11).drop
        7).take 4
      = (Upwind.my_TriResidual app3 (some neighbour3) none none vector3 0 status3).values := by
  have h1 : (Upwind.my_TriResidual app3 (some neighbour3) none none vector3 0 status3).values
      = [[3, 9 / 2, 183 / 4], [-6, -27 / 4, -15 / 2], [1, 1, 1], [-9 / 4, -8, -9]] := by
    norm_num [Upwind.my_TriResidual, app3, status3, vector3, neighbour3, forUp, vec_create,
      vec_copy, vec_axpy, vec_scale, Upwind.apply_A, Upwind.apply_Aadjoint, Upwind.apply_D,
      List.range', List.replicate]
  rw [h1]
  norm_num [Mem.my_TriResidual, mem_app, mem_left, mem_current, status3, mem11,
    Mem.vec_create, Mem.vec_copy, Mem.vec_axpy, Mem.vec_scale, Mem.apply_A, Mem.apply_Aadjoint,
    Mem.apply_D, Upwind.build_LU, forUp, vec_create, vec_copy, vec_axpy, vec_scale,
    Upwind.apply_A, Upwind.apply_Aadjoint, Upwind.apply_D, List.range', List.replicate]

/-- On the example memory the two embeddings of `my_TriSolve` write the same four blocks. -/
theorem mem_my_TriSolve_example :
    ((Mem.my_TriSolve mem_app (some mem_left) none none mem_current 0 status3 mem11).1.drop
        7).take 4
      = (Upwind.my_TriSolve app3 (some neighbour3) none none vector3 0 status3).1.values := by
  have h1 : (Upwind.my_TriSolve app3 (some neighbour3) none none vector3 0 status3).1.values
      = [[-9 / 5, 34 / 25, -9414 / 125], [155974 / 15625, 36806 / 3125, 9414 / 625],
         [77987 / 31250, 18403 / 6250, 4707 / 1250], [-9 / 4, -8, -9]] := by
    norm_num [Upwind.my_TriResidual, Upwind.my_TriSolve, app3, status3, vector3,
      neighbour3, Upwind.build_LU, forUp, forDown, vec_create, vec_copy, vec_axpy,
      vec_scale, Upwind.apply_A, Upwind.apply_Aadjoint, Upwind.apply_Phi,
      Upwind.apply_PhiAdjoint, Upwind.apply_D, List.range', List.range,
      List.range.loop, List.replicate]
  rw [h1]
  norm_num [Mem.my_TriResidual, Mem.my_TriSolve, mem_app, mem_left, mem_current, status3,
    mem11, Mem.vec_create, Mem.vec_copy, Mem.vec_axpy, Mem.vec_scale, Mem.apply_A,
    Mem.apply_Aadjoint, Mem.apply_D, Mem.apply_Phi, Mem.apply_PhiAdjoint, Mem.zero_fill,
    Upwind.build_LU, forUp, forDown, vec_create, vec_copy, vec_axpy, vec_scale,
    Upwind.apply_A, Upwind.apply_Aadjoint, Upwind.apply_Phi, Upwind.apply_PhiAdjoint,
    Upwind.apply_D, List.range', List.range, List.range.loop, List.replicate]

end FrameClaims

/-! ## The buffer routines of `block_gs.c` -/

section BlockGSBuffers

/-- A fold that succeeds has run its body successfully at every index, each time on a state
of the invariant. -/
theorem foldlM_some_reaches {σ : Type} (P : σ → Prop) (bodyM : Nat → σ → Option σ)
    (hP : ∀ i s s', P s → bodyM i s = some s' → P s')
    (xs : List Nat) (s r : σ) (hs : P s)
    (h : xs.foldlM (fun acc i => bodyM i acc) s = some r) (i : Nat) (hi : i ∈ xs) :
    ∃ s0 s1, P s0 ∧ bodyM i s0 = some s1 := by
  induction xs generalizing s with
  | nil => cases hi
  | cons x xs ih =>
    simp only [List.foldlM_cons, Option.bind_eq_bind] at h
    cases hx : bodyM x s with
    | none => rw [hx] at h; simp at h
    | some s1 =>
      rw [hx] at h
      simp only [Option.some_bind] at h
      rcases List.mem_cons.1 hi with rfl | hi'
      · exact ⟨s, s1, hs, hx⟩
      · exact ih s1 (hP x s s1 hs hx) h hi'

/-- A loop whose body fails at an index it visits, on every state of an invariant, fails. -/
theorem forUpM_eq_none {σ : Type} (P : σ → Prop) (lo hi : Nat) (bodyM : Nat → σ → Option σ)
    (hP : ∀ i s s', P s → bodyM i s = some s' → P s') (s : σ) (hs : P s)
    (i : Nat) (hlo : lo ≤ i) (hhi : i < hi) (hfail : ∀ s0, P s0 → bodyM i s0 = none) :
    forUpM lo hi bodyM s = none := by
  cases hr : forUpM lo hi bodyM s with
  | none => rfl
  | some r =>
    exfalso
    unfold forUpM at hr
    obtain ⟨s0, s1, h0, h1⟩ := foldlM_some_reaches P bodyM hP _ s r hs hr i
      (by rw [List.mem_range']; exact ⟨i - lo, by omega, by omega⟩)
    rw [hfail s0 h0] at h1
    cases h1

theorem checked_write_length {α : Type} (x x' : List α) (i : Nat) (v : α)
    (h : checked_write x i v = some x') : x'.length = x.length := by
  unfold checked_write at h
  split at h
  · cases h; simp
  · cases h

theorem checked_write_eq_none {α : Type} (x : List α) (i : Nat) (v : α) (h : x.length ≤ i) :
    checked_write x i v = none := by
  unfold checked_write
  rw [if_neg (by omega)]

/-- The copy loop of the buffer routines of `block_gs.c` fails as soon as the target has
room for two doubles only and three or more are copied. -/
theorem copy_loop_overflow {K : Type} (M : Nat) (src dst : List K) (hM : 3 ≤ M)
    (hd : dst.length = 2) :
    forUpM 0 M
      (fun i out =>
        and_then (checked_read src i) fun x =>
        checked_write out i x)
      dst = none := by
  apply forUpM_eq_none (fun out : List K => out.length = 2) 0 M _ _ dst hd 2 (by omega)
    (by omega)
  · intro s0 h0
    cases hx : checked_read src 2 with
    | none => simp only [hx, and_then_none]
    | some x =>
      simp only [hx, and_then_some]
      exact checked_write_eq_none s0 2 x (by omega)
  · intro i s s' hs h
    cases hx : checked_read src i with
    | none => simp only [hx, and_then_none] at h; cases h
    | some x =>
      simp only [hx, and_then_some] at h
      rw [checked_write_length s s' i x h]
      exact hs

variable {K : Type} [LinearOrderedField K]

/-- C30 fails in the code: for every `M ≥ 3` the size reported by `my_BufSize` of
`block_gs.c`, `2*sizeof(double)`, is less than the `M*sizeof(double)` bytes that `my_BufPack`
writes, so that packing a vector of `M` reals into a buffer of the reported size leaves the
buffer, and `my_BufUnpack`, which allocates room for two doubles, leaves the array it has
allocated: both checked routines end in the error branch. -/
theorem blockgs_buffer_overflow (app : BlockGS.my_App K) (u : BlockGS.my_Vector K)
    (buffer packed : List K) (hM : 3 ≤ app.mspace) (_hu : u.values.length = app.mspace)
    (hb : buffer.length * BlockGS.sizeof_double = BlockGS.my_BufSize app) :
    BlockGS.my_BufSize app < app.mspace * BlockGS.sizeof_double ∧
    BlockGS.my_BufPack app u buffer = none ∧
    BlockGS.my_BufUnpack app packed = none := by
  have hlen : buffer.length = 2 := by
    simp only [BlockGS.my_BufSize, BlockGS.sizeof_double] at hb
    omega
  refine ⟨?_, ?_, ?_⟩
  · simp only [BlockGS.my_BufSize, BlockGS.sizeof_double]
    omega
  · unfold BlockGS.my_BufPack
    simp only [copy_loop_overflow app.mspace u.values buffer hM hlen, and_then_none]
  · unfold BlockGS.my_BufUnpack
    simp only [copy_loop_overflow app.mspace packed
      (List.replicate (2 * BlockGS.sizeof_double / BlockGS.sizeof_double) (0 : K)) hM
      (by simp [BlockGS.sizeof_double]), and_then_none]

/-- The buffer routines of `block_gs.c` for `M = 3`. -/
theorem blockgs_buffer_overflow_witness :
    3 ≤ gs_app3.mspace ∧ ({ values := [1, 2, 3] } : BlockGS.my_Vector ℚ).values.length
      = gs_app3.mspace ∧
    ([0, 0] : List ℚ).length * BlockGS.sizeof_double = BlockGS.my_BufSize gs_app3 ∧
    (BlockGS.my_BufSize gs_app3 < gs_app3.mspace * BlockGS.sizeof_double ∧
    BlockGS.my_BufPack gs_app3 { values := [1, 2, 3] } [0, 0] = none ∧
    BlockGS.my_BufUnpack gs_app3 [1, 2, 3] = none) :=
  ⟨by decide, rfl, by decide,
    blockgs_buffer_overflow gs_app3 { values := [1, 2, 3] } [0, 0] [1, 2, 3] (by decide) rfl
      (by decide)⟩

end BlockGSBuffers

/-! ## The local kernels: rows left by the solve, fourth block, flag and level -/

section KernelRows

variable {K : Type} [LinearOrderedField K]

set_option maxRecDepth 100000

set_option maxHeartbeats 4000000

/-- C32. For `M ≥ 3`, `dt ≠ 0` (`dx = 1/(M+1)` is never `0`), `alpha ≠ 0`, every `nu`, target,
neighbours, forcing and starting blocks, and every pivots and multipliers (whether or not
they factor `A`; zero pivots included): after `my_TriSolve`, the adjoint-equation block and
the control-equation block of `my_TriResidual`, re-evaluated on the updated blocks with the
same neighbours and forcing, are the zero block. -/
theorem solve_zeroes_adjoint_and_control_rows (app : Upwind.my_App K)
    (uleft uright f : Option (Upwind.my_Vector K)) (u : Upwind.my_Vector K) (hom : Int)
    (status : Upwind.braid_TriStatus K) (hM : 3 ≤ app.mspace)
    (hdt : Upwind.time_step status ≠ 0) (hal : app.alpha ≠ 0)
    (hu : Upwind.well_formed app.mspace u) :
    (Upwind.my_TriResidual app uleft uright f
        (Upwind.my_TriSolve app uleft uright f u hom status).1 hom status).values.getD 0 []
      = List.replicate app.mspace 0 ∧
    (Upwind.my_TriResidual app uleft uright f
        (Upwind.my_TriSolve app uleft uright f u hom status).1 hom status).values.getD 1 []
      = List.replicate app.mspace 0 := by
  obtain ⟨-, R0, R1, R2, R3, hR, l0, l1, z0, z1⟩ :=
    solve_then_residual app uleft uright f u hom status (by omega) hdt hal hu
  rw [hR]
  exact ⟨eq_replicate_zero _ _ l0 z0, eq_replicate_zero _ _ l1 z1⟩

/-- The two rows after a solve with pivots `[1, 2, 3]` and multipliers `[5, 7]`, which
factor no operator of the example, `alpha = -2` and `dt = 1/2`. -/
theorem solve_zeroes_adjoint_and_control_rows_witness :
    3 ≤ app_arbitrary_factors.mspace ∧ Upwind.time_step status_last ≠ 0 ∧
    app_arbitrary_factors.alpha ≠ 0 ∧
    Upwind.well_formed app_arbitrary_factors.mspace vector3 ∧
    (Upwind.my_TriResidual app_arbitrary_factors (some neighbour3) (some zero3) (some vector3)
        (Upwind.my_TriSolve app_arbitrary_factors (some neighbour3) (some zero3) (some vector3)
          vector3 0 status_last).1 0 status_last).values.getD 0 []
      = List.replicate app_arbitrary_factors.mspace 0 ∧
    (Upwind.my_TriResidual app_arbitrary_factors (some neighbour3) (some zero3) (some vector3)
        (Upwind.my_TriSolve app_arbitrary_factors (some neighbour3) (some zero3) (some vector3)
          vector3 0 status_last).1 0 status_last).values.getD 1 []
      = List.replicate app_arbitrary_factors.mspace 0 :=
  have h1 : (3 : Nat) ≤ app_arbitrary_factors.mspace := by decide
  have h2 : Upwind.time_step status_last ≠ 0 := by norm_num [Upwind.time_step, status_last]
  have h3 : app_arbitrary_factors.alpha ≠ 0 := by norm_num [app_arbitrary_factors]
  have h4 : Upwind.well_formed app_arbitrary_factors.mspace vector3 := by
    unfold Upwind.well_formed; decide
  ⟨h1, h2, h3, h4,
    solve_zeroes_adjoint_and_control_rows app_arbitrary_factors (some neighbour3) (some zero3)
      (some vector3) vector3 0 status_last h1 h2 h3 h4⟩

/-- C34. Factorization build of the central-difference variant (`block_gs.c`): for `M ≥ 3`,
`dt > 0`, `dx > 0`, `nu ≥ 0`, whatever the ratio of `dt/(2dx)` and `nu*dt/dx^2` is, the LU
recurrence of `main` produces `M` pivots, all at least `1 + nu*dt/dx^2 ≥ 1`, hence non-zero:
no division of the build, of `apply_Phi` or of `apply_PhiAdjoint` is a division by zero. -/
theorem blockgs_build_LU_pivots (dt dx nu : K) (M : Nat) (hM : 3 ≤ M) (hdt : 0 < dt)
    (hdx : 0 < dx) (hnu : 0 ≤ nu) :
    (BlockGS.build_LU dt dx nu M).1.length = M ∧
    (BlockGS.build_LU dt dx nu M).2.length = M - 1 ∧
    (∀ i, i < M → 1 + nu * dt / (dx * dx) ≤ (BlockGS.build_LU dt dx nu M).1.getD i 0) ∧
    (∀ i, i < M → 1 ≤ (BlockGS.build_LU dt dx nu M).1.getD i 0) ∧
    (∀ i, i < M → (BlockGS.build_LU dt dx nu M).1.getD i 0 ≠ 0) := by
  have hb : 0 ≤ nu * dt / (dx * dx) :=
    div_nonneg (mul_nonneg hnu hdt.le) (mul_pos hdx hdx).le
  have e2 : 2 * nu * dt / (dx * dx) = 2 * (nu * dt / (dx * dx)) := by ring
  have hge : ∀ i, i < M → 1 + nu * dt / (dx * dx)
      ≤ (BlockGS.build_LU dt dx nu M).1.getD i 0 := by
    intro i hi
    refine lu_build_pivot_ge (1 + 2 * nu * dt / (dx * dx))
      (-(nu * dt / (dx * dx) + dt / (2 * dx))) (nu * dt / (dx * dx) - dt / (2 * dx))
      (1 + nu * dt / (dx * dx)) M (by rw [e2]; linarith) ?_ i hi
    intro x hx
    have hxpos : 0 < x := by linarith
    have h3 : (nu * dt / (dx * dx) - dt / (2 * dx))
        * (-(nu * dt / (dx * dx) + dt / (2 * dx)) / x)
        = ((dt / (2 * dx)) ^ 2 - (nu * dt / (dx * dx)) ^ 2) / x := by ring
    have h4 : -(nu * dt / (dx * dx))
        ≤ ((dt / (2 * dx)) ^ 2 - (nu * dt / (dx * dx)) ^ 2) / x := by
      rw [le_div_iff₀ hxpos]
      nlinarith [sq_nonneg (dt / (2 * dx)), mul_nonneg hb hb, mul_nonneg hb (sub_nonneg.2 hx)]
    rw [h3, e2]
    linarith
  obtain ⟨l1, l2, -, -⟩ := lu_build_spec (1 + 2 * nu * dt / (dx * dx))
    (-(nu * dt / (dx * dx) + dt / (2 * dx))) (nu * dt / (dx * dx) - dt / (2 * dx)) M (by omega)
  refine ⟨l1, l2, hge, ?_, ?_⟩
  · intro i hi
    have := hge i hi
    linarith
  · intro i hi
    have := hge i hi
    exact ne_of_gt (by linarith)

/-- The bounds for an advection-dominated step, `dt = 1`, `dx = 1/4`, `nu = 0`, `M = 3`: the
pivots are `1`, `5`, `9/5`. -/
theorem blockgs_build_LU_pivots_witness :
    3 ≤ 3 ∧ (0 : ℚ) < 1 ∧ (0 : ℚ) < 1 / 4 ∧ (0 : ℚ) ≤ 0 ∧
    (BlockGS.build_LU (1 : ℚ) (1 / 4) 0 3).1 = [1, 5, 9 / 5] ∧
    ((BlockGS.build_LU (1 : ℚ) (1 / 4) 0 3).1.length = 3 ∧
    (BlockGS.build_LU (1 : ℚ) (1 / 4) 0 3).2.length = 3 - 1 ∧
    (∀ i, i < 3 → 1 + 0 * 1 / (1 / 4 * (1 / 4))
      ≤ (BlockGS.build_LU (1 : ℚ) (1 / 4) 0 3).1.getD i 0) ∧
    (∀ i, i < 3 → 1 ≤ (BlockGS.build_LU (1 : ℚ) (1 / 4) 0 3).1.getD i 0) ∧
    (∀ i, i < 3 → (BlockGS.build_LU (1 : ℚ) (1 / 4) 0 3).1.getD i 0 ≠ 0)) :=
  ⟨le_refl 3, by norm_num, by norm_num, le_refl 0,
    by norm_num [BlockGS.build_LU, forUp, vec_create, List.range', List.replicate],
    blockgs_build_LU_pivots (1 : ℚ) (1 / 4) 0 3 (le_refl 3) (by norm_num) (by norm_num)
      (le_refl 0)⟩

/-- C35. Fourth residual block of `my_TriResidual`, with no forcing: when a left neighbour
with blocks of length `mspace` is present it is `dx*dt*(u_left - U0) - w + Aᵀ w_left`, entry
by entry (`u_left`, `w_left` the state and adjoint blocks of the left neighbour, `w` the
current adjoint block, `Aᵀ` is `apply_Aadjoint`); when the left neighbour is absent it is the
all-zero block. -/
theorem fourth_block_without_forcing (app : Upwind.my_App K)
    (uright : Option (Upwind.my_Vector K)) (r : Upwind.my_Vector K) (hom : Int)
    (status : Upwind.braid_TriStatus K) (hr : Upwind.well_formed app.mspace r) :
    (∀ ul : Upwind.my_Vector K, Upwind.well_formed app.mspace ul → ∀ j, j < app.mspace →
      ((Upwind.my_TriResidual app (some ul) uright none r hom status).values.getD 3 []).getD j 0
        = Upwind.space_step app.mspace * Upwind.time_step status
            * ((ul.values.getD 0 []).getD j 0 - app.U0.getD j 0)
          - (r.values.getD 2 []).getD j 0
          + (Upwind.apply_Aadjoint (Upwind.time_step status) (Upwind.space_step app.mspace)
              app.nu app.mspace (ul.values.getD 2 [])).getD j 0) ∧
    (Upwind.my_TriResidual app none uright none r hom status).values.getD 3 []
      = List.replicate app.mspace 0 := by
  obtain ⟨b0, b1, b2, b3, hb, h0, h1, h2, h3⟩ := well_formed_cases app.mspace r hr
  constructor
  · intro ul hul j hj
    obtain ⟨R0, R1, R2, R3, hR, -, -, -, -, -, -, -, e3⟩ :=
      my_TriResidual_spec app (some ul) uright none r hom status b0 b1 b2 b3 hb h0 h1 h2 h3
    rw [hR, hb]
    simp only [List.getD_cons_zero, List.getD_cons_succ]
    rw [e3 j hj]
    simp only []
    rw [vec_copy_fresh _ _ (hul.2 2 (by omega))]
    ring
  · obtain ⟨R0, R1, R2, R3, hR, -, -, -, l3, -, -, -, e3⟩ :=
      my_TriResidual_spec app none uright none r hom status b0 b1 b2 b3 hb h0 h1 h2 h3
    rw [hR]
    simp only [List.getD_cons_zero, List.getD_cons_succ]
    apply eq_replicate_zero _ _ l3
    intro j hj
    rw [e3 j hj]
    ring

/-- The fourth residual block on three space points, with and without the left
neighbour. -/
theorem fourth_block_without_forcing_witness :
    Upwind.well_formed app3.mspace vector3 ∧ Upwind.well_formed app3.mspace neighbour3 ∧
    ((Upwind.my_TriResidual app3 (some neighbour3) none none vector3 0 status3).values.getD
        3 []).getD 0 0
      = Upwind.space_step app3.mspace * Upwind.time_step status3
            * ((neighbour3.values.getD 0 []).getD 0 0 - app3.U0.getD 0 0)
          - (vector3.values.getD 2 []).getD 0 0
          + (Upwind.apply_Aadjoint (Upwind.time_step status3) (Upwind.space_step app3.mspace)
              app3.nu app3.mspace (neighbour3.values.getD 2 [])).getD 0 0 ∧
    (Upwind.my_TriResidual app3 none none none vector3 0 status3).values.getD 3 []
      = List.replicate app3.mspace 0 :=
  have h1 : Upwind.well_formed app3.mspace vector3 := by unfold Upwind.well_formed; decide
  have h2 : Upwind.well_formed app3.mspace neighbour3 := by unfold Upwind.well_formed; decide
  have h := fourth_block_without_forcing app3 none vector3 0 status3 h1
  ⟨h1, h2, h.1 neighbour3 h2 0 (by decide), h.2⟩

/-- C37. The flag `homogeneous`, the level and the time index do not influence the local
kernels: two calls of `my_TriResidual`, or of `my_TriSolve`, whose statuses report the same
times `t`, `tprev`, `tnext` write the same blocks, whatever the two values of `homogeneous`,
the levels and the time indices are. -/
theorem kernel_ignores_flag_level_index (app : Upwind.my_App K)
    (uleft uright f : Option (Upwind.my_Vector K)) (u : Upwind.my_Vector K) (hom hom2 : Int)
    (status status2 : Upwind.braid_TriStatus K)
    (ht : status2.t = status.t) (htp : status2.tprev = status.tprev)
    (htn : status2.tnext = status.tnext) :
    Upwind.my_TriResidual app uleft uright f u hom2 status2
      = Upwind.my_TriResidual app uleft uright f u hom status ∧
    (Upwind.my_TriSolve app uleft uright f u hom2 status2).1
      = (Upwind.my_TriSolve app uleft uright f u hom status).1 := by
  have hres : ∀ v : Upwind.my_Vector K, Upwind.my_TriResidual app uleft uright f v hom2 status2
      = Upwind.my_TriResidual app uleft uright f v hom status := by
    intro v
    unfold Upwind.my_TriResidual
    rw [ht, htp, htn]
  refine ⟨hres u, ?_⟩
  unfold Upwind.my_TriSolve
  simp only [hres, ht, htp, htn]

/-- The residual with `homogeneous = 1`, on level `2` and time index `5`: the same blocks as
with `homogeneous = 0` on level `0`; the first entry of the adjoint-equation block is `3`,
and `13/4` for the target `[0, 0, 0]`: the target term `-dx*dt*U0[0] = -1/4` is subtracted
with the flag set. -/
theorem kernel_ignores_flag_level_index_witness :
    status3_coarse.t = status3.t ∧ status3_coarse.tprev = status3.tprev ∧
    status3_coarse.tnext = status3.tnext ∧
    (Upwind.my_TriResidual app3 none none none vector3 1 status3_coarse
      = Upwind.my_TriResidual app3 none none none vector3 0 status3 ∧
    (Upwind.my_TriSolve app3 none none none vector3 1 status3_coarse).1
      = (Upwind.my_TriSolve app3 none none none vector3 0 status3).1) ∧
    ((Upwind.my_TriResidual app3 none none none vector3 1 status3_coarse).values.getD 0 []).getD
      0 0 = 3 ∧
    ((Upwind.my_TriResidual { app3 with U0 := [0, 0, 0] } none none none vector3 1
      status3_coarse).values.getD 0 []).getD 0 0 = 13 / 4 :=
  ⟨rfl, rfl, rfl,
    kernel_ignores_flag_level_index app3 none none none vector3 0 1 status3 status3_coarse
      rfl rfl rfl,
    by norm_num [Upwind.my_TriResidual, app3, status3_coarse, vector3, forUp, vec_create,
      vec_copy, vec_axpy, vec_scale, Upwind.apply_A, Upwind.apply_Aadjoint, Upwind.apply_D,
      List.range', List.replicate],
    by norm_num [Upwind.my_TriResidual, app3, status3_coarse, vector3, forUp, vec_create,
      vec_copy, vec_axpy, vec_scale, Upwind.apply_A, Upwind.apply_Aadjoint, Upwind.apply_D,
      List.range', List.replicate]⟩

/-- C36. `my_TriSolve` does not restore the fourth block: after the call `u->values[3]` is
the fourth residual block that `my_TriResidual` computes for the incoming blocks, for every
input; and for a vector of four blocks of length `mspace`, the blocks `0 .. 2` are the
incoming state, control and adjoint blocks minus the increments formed from the residual
blocks `R0`, `R1` of the incoming vector and the adjoint increment `dW`:
`W - dW`, `V - (R1/(alpha dx dt) + dW/(alpha dx))`, `U - (R0 - Aᵀ dW)/(dx dt)`. -/
theorem solve_keeps_residual_block (app : Upwind.my_App K)
    (uleft uright f : Option (Upwind.my_Vector K)) (u : Upwind.my_Vector K) (hom : Int)
    (status : Upwind.braid_TriStatus K) :
    (Upwind.my_TriSolve app uleft uright f u hom status).1.values.getD 3 []
      = (Upwind.my_TriResidual app uleft uright f u hom status).values.getD 3 [] ∧
    (Upwind.well_formed app.mspace u → ∃ dW : List K, ∀ j, j < app.mspace →
      ((Upwind.my_TriSolve app uleft uright f u hom status).1.values.getD 2 []).getD j 0
        = (u.values.getD 2 []).getD j 0 - dW.getD j 0 ∧
      ((Upwind.my_TriSolve app uleft uright f u hom status).1.values.getD 1 []).getD j 0
        = (u.values.getD 1 []).getD j 0
          - (1 / (app.alpha * Upwind.space_step app.mspace * Upwind.time_step status)
              * ((Upwind.my_TriResidual app uleft uright f u hom status).values.getD 1 []).getD j 0
            + 1 / (app.alpha * Upwind.space_step app.mspace) * dW.getD j 0) ∧
      ((Upwind.my_TriSolve app uleft uright f u hom status).1.values.getD 0 []).getD j 0
        = (u.values.getD 0 []).getD j 0
          - (1 / (Upwind.space_step app.mspace * Upwind.time_step status)
              * ((Upwind.my_TriResidual app uleft uright f u hom status).values.getD 0 []).getD j 0
            + -1 / (Upwind.space_step app.mspace * Upwind.time_step status)
              * (Upwind.apply_Aadjoint (Upwind.time_step status)
                  (Upwind.space_step app.mspace) app.nu app.mspace dW).getD j 0)) := by
  constructor
  · unfold Upwind.my_TriSolve
    simp only [getD_set_eq]
    rw [if_neg (by rintro ⟨h, -⟩; omega), if_neg (by rintro ⟨h, -⟩; omega),
      if_neg (by rintro ⟨h, -⟩; omega)]
  · intro hu
    obtain ⟨b0, b1, b2, b3, hb, h0, h1, h2, h3⟩ := well_formed_cases app.mspace u hu
    obtain ⟨R0, R1, R2, R3, hR, l0, l1, l2, l3, -⟩ :=
      my_TriResidual_spec app uleft uright f u hom status b0 b1 b2 b3 hb h0 h1 h2 h3
    obtain ⟨dW0, U, V, W, -, -, hS, -, -, -, eW, eV, eU⟩ :=
      my_TriSolve_spec app uleft uright f u hom status b0 b1 b2 b3 R0 R1 R2 R3 hb h0 h1 h2 hR
        l0 l1 l2 l3
    refine ⟨Upwind.apply_PhiAdjoint (Upwind.time_step status) (Upwind.space_step app.mspace)
      app.nu app.mspace (Upwind.apply_Phi (Upwind.time_step status)
        (Upwind.space_step app.mspace) app.nu app.mspace dW0 app.li app.ai) app.li app.ai,
      fun j hj => ?_⟩
    rw [hS, hR, hb]
    simp only [List.getD_cons_zero, List.getD_cons_succ]
    exact ⟨eW j hj, eV j hj, eU j hj⟩

/-- The solve on three space points with a left neighbour: the fourth block, `[10, 11, 12]`
before the call, is `[-9/4, -8, -9]` after it. -/
theorem solve_keeps_residual_block_witness :
    Upwind.well_formed app3.mspace vector3 ∧
    vector3.values.getD 3 [] = [10, 11, 12] ∧
    (Upwind.my_TriSolve app3 (some neighbour3) none none vector3 0 status3).1.values.getD 3 []
      = [-9 / 4, -8, -9] ∧
    ∃ dW : List ℚ, ∀ j, j < app3.mspace →
      ((Upwind.my_TriSolve app3 (some neighbour3) none none vector3 0 status3).1.values.getD
          2 []).getD j 0
        = (vector3.values.getD 2 []).getD j 0 - dW.getD j 0 ∧
      ((Upwind.my_TriSolve app3 (some neighbour3) none none vector3 0 status3).1.values.getD
          1 []).getD j 0
        = (vector3.values.getD 1 []).getD j 0
          - (1 / (app3.alpha * Upwind.space_step app3.mspace * Upwind.time_step status3)
              * ((Upwind.my_TriResidual app3 (some neighbour3) none none vector3 0
                  status3).values.getD 1 []).getD j 0
            + 1 / (app3.alpha * Upwind.space_step app3.mspace) * dW.getD j 0) ∧
      ((Upwind.my_TriSolve app3 (some neighbour3) none none vector3 0 status3).1.values.getD
          0 []).getD j 0
        = (vector3.values.getD 0 []).getD j 0
          - (1 / (Upwind.space_step app3.mspace * Upwind.time_step status3)
              * ((Upwind.my_TriResidual app3 (some neighbour3) none none vector3 0
                  status3).values.getD 0 []).getD j 0
            + -1 / (Upwind.space_step app3.mspace * Upwind.time_step status3)
              * (Upwind.apply_Aadjoint (Upwind.time_step status3)
                  (Upwind.space_step app3.mspace) app3.nu app3.mspace dW).getD j 0) := by
  have hw : Upwind.well_formed app3.mspace vector3 := by unfold Upwind.well_formed; decide
  have h := solve_keeps_residual_block app3 (some neighbour3) none none vector3 0 status3
  refine ⟨hw, rfl, ?_, h.2 hw⟩
  rw [h.1]
  norm_num [Upwind.my_TriResidual, app3, status3, vector3, neighbour3, forUp, vec_create,
    vec_copy, vec_axpy, vec_scale, Upwind.apply_A, Upwind.apply_Aadjoint, Upwind.apply_D,
    List.range', List.replicate]

end KernelRows

/-! ## `my_SpatialNorm` and `my_Sum` -/

section VectorRoutineClaims

open Upwind

variable {K : Type} [LinearOrderedField K]

/-- A loop `acc = acc + g i` over `i < n` adds the sum of the `g i`. -/
theorem forUp_add_sum (n : Nat) (g : Nat → K) (a : K) :
    forUp 0 n (fun i acc => acc + g i) a = a + ∑ i in Finset.range n, g i := by
  induction n with
  | zero => simp [forUp_of_le]
  | succ n ih =>
    rw [forUp_succ _ _ _ _ (Nat.zero_le n), ih, Finset.sum_range_succ]
    ring

/-- C38. `my_SpatialNorm` of the upwind variant returns `sqrt` of the sum of the squares of
the first `mspace` entries of the adjoint block `u->values[2]`; two vectors with the same
adjoint block have the same norm, whatever their state, control and fourth blocks are; and,
for a `sqrt` that vanishes at `0` only, the result is `0` exactly when the `mspace` entries
of the adjoint block are all `0`. -/
theorem spatial_norm_adjoint_only (sqrt : K → K) (app : Upwind.my_App K)
    (u : Upwind.my_Vector K) (hsqrt : ∀ x, 0 ≤ x → (sqrt x = 0 ↔ x = 0)) :
    Upwind.my_SpatialNorm sqrt app u
      = sqrt (∑ i in Finset.range app.mspace, (u.values.getD 2 []).getD i 0 ^ 2) ∧
    (∀ u2 : Upwind.my_Vector K, u2.values.getD 2 [] = u.values.getD 2 [] →
      Upwind.my_SpatialNorm sqrt app u2 = Upwind.my_SpatialNorm sqrt app u) ∧
    (Upwind.my_SpatialNorm sqrt app u = 0 ↔
      ∀ i, i < app.mspace → (u.values.getD 2 []).getD i 0 = 0) := by
  have key : ∀ v : Upwind.my_Vector K, Upwind.my_SpatialNorm sqrt app v
      = sqrt (∑ i in Finset.range app.mspace, (v.values.getD 2 []).getD i 0 ^ 2) := by
    intro v
    unfold Upwind.my_SpatialNorm
    simp only []
    rw [forUp_add_sum app.mspace
      (fun i => (v.values.getD 2 []).getD i 0 * (v.values.getD 2 []).getD i 0) 0, zero_add]
    congr 1
    apply Finset.sum_congr rfl
    intro i _
    ring
  refine ⟨key u, ?_, ?_⟩
  · intro u2 h2
    rw [key u2, key u, h2]
  · rw [key u, hsqrt _ (Finset.sum_nonneg (fun i _ => sq_nonneg _)),
      Finset.sum_eq_zero_iff_of_nonneg (fun i _ => sq_nonneg _)]
    constructor
    · intro h i hi
      exact pow_eq_zero_iff (two_ne_zero) |>.1 (h i (Finset.mem_range.2 hi))
    · intro h i hi
      rw [h i (Finset.mem_range.1 hi)]
      ring

/-- The spatial norm with the real square root: a vector with the adjoint block
`[3, 0, 4]` has norm `5`. -/
theorem spatial_norm_adjoint_only_witness :
    (∀ x : ℝ, 0 ≤ x → (Real.sqrt x = 0 ↔ x = 0)) ∧
    Upwind.my_SpatialNorm Real.sqrt
      { myid := 0, alpha := 1, nu := 0, ntime := 1, mspace := 3, U0 := [1, 0, 0],
        ai := [1, 1, 1], li := [0, 0] }
      { values := [[1, 2, 3], [4, 5, 6], [3, 0, 4], [10, 11, 12]] } = 5 ∧
    (Upwind.my_SpatialNorm Real.sqrt
      { myid := 0, alpha := 1, nu := 0, ntime := 1, mspace := 3, U0 := [1, 0, 0],
        ai := [1, 1, 1], li := [0, 0] }
      { values := [[1, 2, 3], [4, 5, 6], [3, 0, 4], [10, 11, 12]] } = 0 ↔
      ∀ i, i < 3 → ([3, 0, 4] : List ℝ).getD i 0 = 0) := by
  have hs : ∀ x : ℝ, 0 ≤ x → (Real.sqrt x = 0 ↔ x = 0) := fun x hx => Real.sqrt_eq_zero hx
  have h := spatial_norm_adjoint_only Real.sqrt
    ({ myid := 0, alpha := 1, nu := 0, ntime := 1, mspace := 3, U0 := [1, 0, 0],
        ai := [1, 1, 1], li := [0, 0] } : Upwind.my_App ℝ)
    { values := [[1, 2, 3], [4, 5, 6], [3, 0, 4], [10, 11, 12]] } hs
  refine ⟨hs, ?_, h.2.2⟩
  rw [h.1]
  have e : (∑ i in Finset.range 3, ([3, 0, 4] : List ℝ).getD i 0 ^ 2) = 5 ^ 2 := by
    simp [Finset.sum_range_succ]
    norm_num
  show Real.sqrt (∑ i in Finset.range 3, ([3, 0, 4] : List ℝ).getD i 0 ^ 2) = 5
  rw [e]
  exact Real.sqrt_sq (by norm_num)

/-- One step of the loop of `my_Sum` on three target arrays `y0`, `y1`, `y2` that are
pairwise distinct and distinct from the source arrays `x0`, `x1`, `x2`. -/
theorem mem_sum_step (alpha beta : K) (x0 x1 x2 y0 y1 y2 : Nat) (H : List (List K)) (i : Nat)
    (h01 : y0 ≠ y1) (h02 : y0 ≠ y2) (h12 : y1 ≠ y2)
    (hx1 : x1 ≠ y0) (hx2 : x2 ≠ y0 ∧ x2 ≠ y1)
    (hy0 : y0 < H.length) (hy1 : y1 < H.length) (hy2 : y2 < H.length) :
    ((fun (h : List (List K)) =>
        let h := h.set y0 ((h.getD y0 []).set i
          (alpha * (h.getD x0 []).getD i 0 + beta * (h.getD y0 []).getD i 0))
        let h := h.set y1 ((h.getD y1 []).set i
          (alpha * (h.getD x1 []).getD i 0 + beta * (h.getD y1 []).getD i 0))
        let h := h.set y2 ((h.getD y2 []).set i
          (alpha * (h.getD x2 []).getD i 0 + beta * (h.getD y2 []).getD i 0))
        h) H).length = H.length ∧
    ∀ p, ((fun (h : List (List K)) =>
        let h := h.set y0 ((h.getD y0 []).set i
          (alpha * (h.getD x0 []).getD i 0 + beta * (h.getD y0 []).getD i 0))
        let h := h.set y1 ((h.getD y1 []).set i
          (alpha * (h.getD x1 []).getD i 0 + beta * (h.getD y1 []).getD i 0))
        let h := h.set y2 ((h.getD y2 []).set i
          (alpha * (h.getD x2 []).getD i 0 + beta * (h.getD y2 []).getD i 0))
        h) H).getD p []
      = if p = y0 then (H.getD y0 []).set i
          (alpha * (H.getD x0 []).getD i 0 + beta * (H.getD y0 []).getD i 0)
        else if p = y1 then (H.getD y1 []).set i
          (alpha * (H.getD x1 []).getD i 0 + beta * (H.getD y1 []).getD i 0)
        else if p = y2 then (H.getD y2 []).set i
          (alpha * (H.getD x2 []).getD i 0 + beta * (H.getD y2 []).getD i 0)
        else H.getD p [] := by
  refine ⟨by simp only [List.length_set], ?_⟩
  intro p
  have a1 : ¬ (y0 = x1 ∧ y0 < H.length) := fun e => hx1 e.1.symm
  have a2 : ¬ (y0 = x2 ∧ y0 < H.length) := fun e => hx2.1 e.1.symm
  have a3 : ¬ (y1 = x2 ∧ y1 < H.length) := fun e => hx2.2 e.1.symm
  have a4 : ¬ (y0 = y1 ∧ y0 < H.length) := fun e => h01 e.1
  have a5 : ¬ (y0 = y2 ∧ y0 < H.length) := fun e => h02 e.1
  have a6 : ¬ (y1 = y2 ∧ y1 < H.length) := fun e => h12 e.1
  simp only [getD_set_eq, List.length_set, if_neg a1, if_neg a2, if_neg a3, if_neg a4,
    if_neg a5, if_neg a6]
  by_cases e0 : p = y0
  · subst e0
    rw [if_neg (fun e => h02 e.1.symm), if_neg (fun e => h01 e.1.symm),
      if_pos ⟨rfl, hy0⟩, if_pos rfl]
  · by_cases e1 : p = y1
    · subst e1
      rw [if_neg (fun e => h12 e.1.symm), if_pos ⟨rfl, hy1⟩, if_neg e0, if_pos rfl]
    · by_cases e2 : p = y2
      · subst e2
        rw [if_pos ⟨rfl, hy2⟩, if_neg e0, if_neg e1, if_pos rfl]
      · rw [if_neg (fun e => e2 e.1.symm), if_neg (fun e => e1 e.1.symm),
          if_neg (fun e => e0 e.1.symm), if_neg e0, if_neg e1, if_neg e2]

/-- The loop of `my_Sum`: the memory after `n` steps. -/
theorem mem_sum_loop (alpha beta : K) (x0 x1 x2 y0 y1 y2 : Nat) (h : List (List K)) (n : Nat)
    (h01 : y0 ≠ y1) (h02 : y0 ≠ y2) (h12 : y1 ≠ y2)
    (hx0 : x0 ≠ y0 ∧ x0 ≠ y1 ∧ x0 ≠ y2) (hx1 : x1 ≠ y0 ∧ x1 ≠ y1 ∧ x1 ≠ y2)
    (hx2 : x2 ≠ y0 ∧ x2 ≠ y1 ∧ x2 ≠ y2)
    (hy0 : y0 < h.length) (hy1 : y1 < h.length) (hy2 : y2 < h.length) :
    (forUp 0 n
      (fun i (h : List (List K)) =>
        let h := h.set y0 ((h.getD y0 []).set i
          (alpha * (h.getD x0 []).getD i 0 + beta * (h.getD y0 []).getD i 0))
        let h := h.set y1 ((h.getD y1 []).set i
          (alpha * (h.getD x1 []).getD i 0 + beta * (h.getD y1 []).getD i 0))
        let h := h.set y2 ((h.getD y2 []).set i
          (alpha * (h.getD x2 []).getD i 0 + beta * (h.getD y2 []).getD i 0))
        h) h).length = h.length ∧
    ∀ p, (forUp 0 n
      (fun i (h : List (List K)) =>
        let h := h.set y0 ((h.getD y0 []).set i
          (alpha * (h.getD x0 []).getD i 0 + beta * (h.getD y0 []).getD i 0))
        let h := h.set y1 ((h.getD y1 []).set i
          (alpha * (h.getD x1 []).getD i 0 + beta * (h.getD y1 []).getD i 0))
        let h := h.set y2 ((h.getD y2 []).set i
          (alpha * (h.getD x2 []).getD i 0 + beta * (h.getD y2 []).getD i 0))
        h) h).getD p []
      = if p = y0 then
          forUp 0 n (fun i r => r.set i (alpha * (h.getD x0 []).getD i 0 + beta * r.getD i 0))
            (h.getD y0 [])
        else if p = y1 then
          forUp 0 n (fun i r => r.set i (alpha * (h.getD x1 []).getD i 0 + beta * r.getD i 0))
            (h.getD y1 [])
        else if p = y2 then
          forUp 0 n (fun i r => r.set i (alpha * (h.getD x2 []).getD i 0 + beta * r.getD i 0))
            (h.getD y2 [])
        else h.getD p [] := by
  induction n with
  | zero =>
    simp only [forUp_of_le _ _ _ _ (le_refl 0)]
    refine ⟨trivial, ?_⟩
    intro p
    split_ifs with e0 e1 e2
    · rw [e0]
    · rw [e1]
    · rw [e2]
    · rfl
  | succ n ih =>
    obtain ⟨ihl, ihp⟩ := ih
    obtain ⟨sl, sp⟩ := mem_sum_step alpha beta x0 x1 x2 y0 y1 y2 _ n h01 h02 h12 hx1.1
      ⟨hx2.1, hx2.2.1⟩ (by rw [ihl]; exact hy0) (by rw [ihl]; exact hy1) (by rw [ihl]; exact hy2)
    rw [forUp_succ _ _ _ _ (Nat.zero_le n)]
    refine ⟨sl.trans ihl, ?_⟩
    intro p
    rw [forUp_succ _ _ _ _ (Nat.zero_le n), forUp_succ _ _ _ _ (Nat.zero_le n),
      forUp_succ _ _ _ _ (Nat.zero_le n)]
    refine (sp p).trans ?_
    rw [ihp y0, ihp y1, ihp y2, ihp x0, ihp x1, ihp x2, ihp p]
    simp only [if_pos, if_neg hx0.1, if_neg hx0.2.1, if_neg hx0.2.2, if_neg hx1.1,
      if_neg hx1.2.1, if_neg hx1.2.2, if_neg hx2.1, if_neg hx2.2.1, if_neg hx2.2.2,
      if_neg h01.symm, if_neg h02.symm, if_neg h12.symm, if_true]
    split_ifs <;> rfl

/-- C39. `my_Sum` of the upwind variant on the memory, for vectors `x`, `y` of four blocks
that are eight different arrays: after the call the first `mspace` entries of the state,
control and adjoint blocks of `y` are `alpha*x + beta*y` of the blocks before the call,
entry by entry; the fourth block of `y`, the four blocks of `x` and every other array but
the three blocks written are as before the call. -/
theorem vector_sum_frame (app : Mem.my_App K) (alpha beta : K) (x y : Mem.my_Vector)
    (h : List (List K)) (hx : x.values.length = 4) (hy : y.values.length = 4)
    (hd : (x.values ++ y.values).Nodup) (hyp : ∀ p, p ∈ y.values → p < h.length)
    (hyl : ∀ k, k < 3 → (h.getD (y.values.getD k 0) []).length = app.mspace) :
    (∀ k, k < 3 → ∀ j, j < app.mspace →
      ((Mem.my_Sum app alpha x beta y h).getD (y.values.getD k 0) []).getD j 0
        = alpha * (h.getD (x.values.getD k 0) []).getD j 0
          + beta * (h.getD (y.values.getD k 0) []).getD j 0) ∧
    (Mem.my_Sum app alpha x beta y h).getD (y.values.getD 3 0) []
      = h.getD (y.values.getD 3 0) [] ∧
    (∀ k, k < 4 → (Mem.my_Sum app alpha x beta y h).getD (x.values.getD k 0) []
      = h.getD (x.values.getD k 0) []) ∧
    (∀ p, p ≠ y.values.getD 0 0 → p ≠ y.values.getD 1 0 → p ≠ y.values.getD 2 0 →
      (Mem.my_Sum app alpha x beta y h).getD p [] = h.getD p []) ∧
    (Mem.my_Sum app alpha x beta y h).length = h.length := by
  obtain ⟨xv⟩ := x
  obtain ⟨yv⟩ := y
  simp only at hx hy hd hyp hyl ⊢
  obtain ⟨x0, x1, x2, x3, rfl⟩ : ∃ a b c d, xv = [a, b, c, d] := by
    match xv, hx with
    | [a, b, c, d], _ => exact ⟨a, b, c, d, rfl⟩
  obtain ⟨y0, y1, y2, y3, rfl⟩ : ∃ a b c d, yv = [a, b, c, d] := by
    match yv, hy with
    | [a, b, c, d], _ => exact ⟨a, b, c, d, rfl⟩
  simp only [List.cons_append, List.nil_append, List.nodup_cons, List.mem_cons,
    List.mem_singleton, not_or, List.not_mem_nil, not_false_eq_true, List.nodup_nil,
    and_true] at hd
  obtain ⟨⟨-, -, -, n04, n05, n06, n07⟩, ⟨-, -, n14, n15, n16, n17⟩, ⟨-, n24, n25, n26, n27⟩,
    ⟨n34, n35, n36, n37⟩, ⟨m01, m02, m03⟩, ⟨m12, m13⟩, m23⟩ := hd
  have hy0 : y0 < h.length := hyp y0 (by simp)
  have hy1 : y1 < h.length := hyp y1 (by simp)
  have hy2 : y2 < h.length := hyp y2 (by simp)
  obtain ⟨ll, lp⟩ := mem_sum_loop alpha beta x0 x1 x2 y0 y1 y2 h app.mspace m01 m02 m12
    ⟨n04, n05, n06⟩ ⟨n14, n15, n16⟩ ⟨n24, n25, n26⟩ hy0 hy1 hy2
  have l0 := hyl 0 (by omega)
  have l1 := hyl 1 (by omega)
  have l2 := hyl 2 (by omega)
  simp only [List.getD_cons_zero, List.getD_cons_succ] at l0 l1 l2 ⊢
  have eq : Mem.my_Sum app alpha ⟨[x0, x1, x2, x3]⟩ beta ⟨[y0, y1, y2, y3]⟩ h
      = forUp 0 app.mspace
      (fun i (h : List (List K)) =>
        let h := h.set y0 ((h.getD y0 []).set i
          (alpha * (h.getD x0 []).getD i 0 + beta * (h.getD y0 []).getD i 0))
        let h := h.set y1 ((h.getD y1 []).set i
          (alpha * (h.getD x1 []).getD i 0 + beta * (h.getD y1 []).getD i 0))
        let h := h.set y2 ((h.getD y2 []).set i
          (alpha * (h.getD x2 []).getD i 0 + beta * (h.getD y2 []).getD i 0))
        h) h := rfl
  rw [eq]
  refine ⟨?_, ?_, ?_, ?_, ll⟩
  · intro k hk j hj
    interval_cases k
    · simp only [List.getD_cons_zero, List.getD_cons_succ]
      rw [lp y0, if_pos rfl]
      exact forUp_set_getD_inside 0 app.mspace
        (fun i v => alpha * (h.getD x0 []).getD i 0 + beta * v) _ j 0 (Nat.zero_le _) hj
        (by rw [l0]; exact hj)
    · simp only [List.getD_cons_zero, List.getD_cons_succ]
      rw [lp y1, if_neg (Ne.symm m01), if_pos rfl]
      exact forUp_set_getD_inside 0 app.mspace
        (fun i v => alpha * (h.getD x1 []).getD i 0 + beta * v) _ j 0 (Nat.zero_le _) hj
        (by rw [l1]; exact hj)
    · simp only [List.getD_cons_zero, List.getD_cons_succ]
      rw [lp y2, if_neg (Ne.symm m02), if_neg (Ne.symm m12), if_pos rfl]
      exact forUp_set_getD_inside 0 app.mspace
        (fun i v => alpha * (h.getD x2 []).getD i 0 + beta * v) _ j 0 (Nat.zero_le _) hj
        (by rw [l2]; exact hj)
  · rw [lp y3, if_neg (Ne.symm m03), if_neg (Ne.symm m13), if_neg (Ne.symm m23)]
  · intro k hk
    interval_cases k
    · simp only [List.getD_cons_zero, List.getD_cons_succ]
      rw [lp x0, if_neg n04, if_neg n05, if_neg n06]
    · simp only [List.getD_cons_zero, List.getD_cons_succ]
      rw [lp x1, if_neg n14, if_neg n15, if_neg n16]
    · simp only [List.getD_cons_zero, List.getD_cons_succ]
      rw [lp x2, if_neg n24, if_neg n25, if_neg n26]
    · simp only [List.getD_cons_zero, List.getD_cons_succ]
      rw [lp x3, if_neg n34, if_neg n35, if_neg n36]
  · intro p p0 p1 p2
    rw [lp p, if_neg p0, if_neg p1, if_neg p2]

/-- The sum `2*x + 3*y` of the two vectors stored in the example memory. -/
theorem vector_sum_frame_witness :
    mem_left.values.length = 4 ∧ mem_current.values.length = 4 ∧
    (mem_left.values ++ mem_current.values).Nodup ∧
    (∀ p, p ∈ mem_current.values → p < mem11.length) ∧
    (∀ k, k < 3 → (mem11.getD (mem_current.values.getD k 0) []).length = mem_app.mspace) ∧
    ((Mem.my_Sum mem_app 2 mem_left 3 mem_current mem11).getD 9 []).getD 0 0 = 23 ∧
    (Mem.my_Sum mem_app 2 mem_left 3 mem_current mem11).getD 10 [] = [10, 11, 12] ∧
    (Mem.my_Sum mem_app 2 mem_left 3 mem_current mem11).getD 5 [] = [1, 0, 0] := by
  have hx : mem_left.values.length = 4 := rfl
  have hy : mem_current.values.length = 4 := rfl
  have hd : (mem_left.values ++ mem_current.values).Nodup := by decide
  have hyp : ∀ p, p ∈ mem_current.values → p < mem11.length := by
    intro p hp
    simp only [mem_current, List.mem_cons, List.mem_singleton, List.not_mem_nil, or_false] at hp
    rcases hp with rfl | rfl | rfl | rfl <;> decide
  have hyl : ∀ k, k < 3 →
      (mem11.getD (mem_current.values.getD k 0) []).length = mem_app.mspace := by
    intro k hk
    interval_cases k <;> rfl
  have h := vector_sum_frame mem_app (2 : ℚ) 3 mem_left mem_current mem11 hx hy hd hyp hyl
  refine ⟨hx, hy, hd, hyp, hyl, ?_, ?_, ?_⟩
  · have e : ((Mem.my_Sum mem_app 2 mem_left 3 mem_current mem11).getD 9 []).getD 0 0
        = 2 * (mem11.getD 5 []).getD 0 0 + 3 * (mem11.getD 9 []).getD 0 0 :=
      h.1 2 (by decide) 0 (by decide)
    rw [e]
    norm_num [mem11]
  · have e : (Mem.my_Sum mem_app 2 mem_left 3 mem_current mem11).getD 10 [] = mem11.getD 10 [] :=
      h.2.1
    rw [e]
    rfl
  · have e : (Mem.my_Sum mem_app 2 mem_left 3 mem_current mem11).getD 5 [] = mem11.getD 5 [] :=
      h.2.2.1 2 (by decide)
    rw [e]
    rfl

end VectorRoutineClaims

/-! ## One pass over the loop body of `main` of `block_gs.c` -/

section DriverPass

variable {K : Type} [LinearOrderedField K]

set_option maxRecDepth 100000

set_option maxHeartbeats 4000000

/-- A loop over two arrays that, at step `i`, replaces entry `i` of both by functions of
the two entries `i`: the visited entries are computed from the initial entries, the other
entries are not touched. -/
theorem forUp_pair_rows {α : Type} (lo hi : Nat) (F G : Nat → α → α → α) (r s : List α) (d : α)
    (p : List α × List α)
    (hp : p = forUp lo hi (fun i (st : List α × List α) =>
        (st.1.set i (F i (st.1.getD i d) (st.2.getD i d)),
         st.2.set i (G i (st.1.getD i d) (st.2.getD i d)))) (r, s)) :
    p.1.length = r.length ∧ p.2.length = s.length ∧
    (∀ j, lo ≤ j → j < hi → j < r.length → p.1.getD j d = F j (r.getD j d) (s.getD j d)) ∧
    (∀ j, lo ≤ j → j < hi → j < s.length → p.2.getD j d = G j (r.getD j d) (s.getD j d)) ∧
    (∀ j, j < lo ∨ hi ≤ j → p.1.getD j d = r.getD j d) ∧
    (∀ j, j < lo ∨ hi ≤ j → p.2.getD j d = s.getD j d) := by
  subst hp
  by_cases hle : lo ≤ hi
  · induction hi, hle using Nat.le_induction with
    | base =>
      rw [forUp_of_le _ _ _ _ le_rfl]
      exact ⟨rfl, rfl, fun j h1 h2 _ => by omega, fun j h1 h2 _ => by omega,
        fun _ _ => rfl, fun _ _ => rfl⟩
    | succ n hn ih =>
      obtain ⟨l1, l2, i1, i2, o1, o2⟩ := ih
      rw [forUp_succ _ _ _ _ hn]
      refine ⟨by simp only [List.length_set]; exact l1, by simp only [List.length_set]; exact l2,
        ?_, ?_, ?_, ?_⟩
      · intro j h1 h2 h3
        simp only [getD_set_eq]
        by_cases hjn : n = j
        · subst hjn
          rw [if_pos ⟨rfl, by rw [l1]; exact h3⟩, o1 n (Or.inr le_rfl), o2 n (Or.inr le_rfl)]
        · rw [if_neg (fun e => hjn e.1)]
          exact i1 j h1 (by omega) h3
      · intro j h1 h2 h3
        simp only [getD_set_eq]
        by_cases hjn : n = j
        · subst hjn
          rw [if_pos ⟨rfl, by rw [l2]; exact h3⟩, o1 n (Or.inr le_rfl), o2 n (Or.inr le_rfl)]
        · rw [if_neg (fun e => hjn e.1)]
          exact i2 j h1 (by omega) h3
      · intro j hj
        simp only [getD_set_eq]
        rw [if_neg (fun e => by omega)]
        exact o1 j (by omega)
      · intro j hj
        simp only [getD_set_eq]
        rw [if_neg (fun e => by omega)]
        exact o2 j (by omega)
  · rw [forUp_of_le _ _ _ _ (by omega)]
    exact ⟨rfl, rfl, fun j h1 h2 _ => by omega, fun j h1 h2 _ => by omega,
      fun _ _ => rfl, fun _ _ => rfl⟩

/-- The accumulation of `main` adds the sum of the squares of the entries. -/
theorem main_accumulate_eq_sum (N M : Nat) (res : List (List K)) (norm : K) :
    BlockGS.main_accumulate N M res norm
      = norm + ∑ i in Finset.range N, ∑ j in Finset.range M,
          (res.getD i []).getD j 0 * (res.getD i []).getD j 0 := by
  unfold BlockGS.main_accumulate
  have hb : (fun i (norm : K) => forUp 0 M
      (fun j norm => norm + (res.getD i []).getD j 0 * (res.getD i []).getD j 0) norm)
      = (fun i norm => norm + ∑ j in Finset.range M,
          (res.getD i []).getD j 0 * (res.getD i []).getD j 0) := by
    funext i norm
    exact forUp_add_sum M _ norm
  rw [hb]
  exact forUp_add_sum N _ norm

/-- The residual section of `main` in three stages: the state residual (`p1`), the adjoint
residual (`p2` and the last row), the control residual (`p3`). -/
theorem main_residual_staged (sqrt : K → K) (dt dx nu alpha : K) (N M : Nat) (U0 : List K)
    (u v w res res1 : List (List K)) (norm : K) (p1 p2 p3 : List (List K) × List (List K))
    (h1 : p1 = forUp 1 N (fun i (st : List (List K) × List (List K)) =>
        (st.1.set i (vec_axpy M 1 (vec_scale M (-1 * dt) (vec_copy M (v.getD i []) (st.2.getD i [])))
            (vec_axpy M (-1) (u.getD (i - 1) [])
              (BlockGS.apply_A dt dx nu M (vec_copy M (u.getD i []) (st.1.getD i []))))),
         st.2.set i (vec_scale M (-1 * dt) (vec_copy M (v.getD i []) (st.2.getD i [])))))
      (res.set 0 (vec_axpy M 1 (vec_scale M (-1 * dt) (vec_copy M (v.getD 0 []) (res1.getD 0 [])))
          (vec_axpy M (-1) U0
            (BlockGS.apply_A dt dx nu M (vec_copy M (u.getD 0 []) (res.getD 0 []))))),
       res1.set 0 (vec_scale M (-1 * dt) (vec_copy M (v.getD 0 []) (res1.getD 0 [])))))
    (h2 : p2 = forUp 0 (N - 1) (fun i (st : List (List K) × List (List K)) =>
        (st.1.set i (vec_axpy M (-1)
            (vec_scale M (dx * dt) (vec_copy M U0 (vec_copy M (w.getD (i + 1) [])
              (BlockGS.apply_Aadjoint dt dx nu M (vec_copy M (w.getD i []) (st.2.getD i []))))))
            (vec_axpy M (-1)
              (vec_copy M (w.getD (i + 1) [])
                (BlockGS.apply_Aadjoint dt dx nu M (vec_copy M (w.getD i []) (st.2.getD i []))))
              (vec_axpy M 1
                (BlockGS.apply_Aadjoint dt dx nu M (vec_copy M (w.getD i []) (st.2.getD i [])))
                (vec_scale M (dx * dt) (vec_copy M (u.getD i []) (st.1.getD i [])))))),
         st.2.set i (vec_scale M (dx * dt) (vec_copy M U0 (vec_copy M (w.getD (i + 1) [])
              (BlockGS.apply_Aadjoint dt dx nu M (vec_copy M (w.getD i []) (st.2.getD i []))))))))
      p1)
    (h3 : p3 = forUp 0 (N - 1) (fun i (st : List (List K) × List (List K)) =>
        (st.1.set i (vec_axpy M 1 (vec_scale M (-1 * dt) (vec_copy M (w.getD i []) (st.2.getD i [])))
            (vec_scale M (alpha * dx * dt) (vec_copy M (v.getD i []) (st.1.getD i [])))),
         st.2.set i (vec_scale M (-1 * dt) (vec_copy M (w.getD i []) (st.2.getD i [])))))
      (p2.1.set (N - 1) (vec_axpy M (-1)
          (vec_scale M (dx * dt) (vec_copy M U0
            (BlockGS.apply_Aadjoint dt dx nu M
              (vec_copy M (w.getD (N - 1) []) (p2.2.getD (N - 1) [])))))
          (vec_axpy M 1
            (BlockGS.apply_Aadjoint dt dx nu M
              (vec_copy M (w.getD (N - 1) []) (p2.2.getD (N - 1) [])))
            (vec_scale M (dx * dt) (vec_copy M (u.getD (N - 1) []) (p2.1.getD (N - 1) []))))),
       p2.2.set (N - 1) (vec_scale M (dx * dt) (vec_copy M U0
            (BlockGS.apply_Aadjoint dt dx nu M
              (vec_copy M (w.getD (N - 1) []) (p2.2.getD (N - 1) []))))))) :
    BlockGS.main_residual sqrt dt dx nu alpha N M U0 u v w res res1 norm
      = (p3.1, p3.2, sqrt (BlockGS.main_accumulate N M p3.1
          (BlockGS.main_accumulate N M
            (p2.1.set (N - 1) (vec_axpy M (-1)
              (vec_scale M (dx * dt) (vec_copy M U0
                (BlockGS.apply_Aadjoint dt dx nu M
                  (vec_copy M (w.getD (N - 1) []) (p2.2.getD (N - 1) [])))))
              (vec_axpy M 1
                (BlockGS.apply_Aadjoint dt dx nu M
                  (vec_copy M (w.getD (N - 1) []) (p2.2.getD (N - 1) [])))
                (vec_scale M (dx * dt) (vec_copy M (u.getD (N - 1) []) (p2.1.getD (N - 1) []))))))
            (BlockGS.main_accumulate N M p1.1 norm)))) := by
  subst h1 h2 h3
  rfl

@[simp] theorem blockgs_apply_A_length (dt dx nu : K) (M : Nat) (u : List K) :
    (BlockGS.apply_A dt dx nu M u).length = u.length :=
  tridiag_apply_length _ _ _ M u

@[simp] theorem blockgs_apply_Aadjoint_length (dt dx nu : K) (M : Nat) (u : List K) :
    (BlockGS.apply_Aadjoint dt dx nu M u).length = u.length :=
  tridiag_apply_length _ _ _ M u

/-- A row of the state residual formed by `main`, entry by entry. -/
theorem state_residual_row (dt dx nu : K) (M : Nat) (ui vi prev ri si : List K)
    (hui : ui.length = M) (hri : ri.length = M) (hsi : si.length = M) (j : Nat) (hj : j < M) :
    (vec_axpy M 1 (vec_scale M (-1 * dt) (vec_copy M vi si))
      (vec_axpy M (-1) prev (BlockGS.apply_A dt dx nu M (vec_copy M ui ri)))).getD j 0
      = (BlockGS.apply_A dt dx nu M ui).getD j 0 - prev.getD j 0 - dt * vi.getD j 0 := by
  rw [vec_axpy_getD M _ _ _ j hj (by simp [hri, hj]),
    vec_axpy_getD M _ _ _ j hj (by simp [hri, hj]),
    vec_scale_getD M _ _ j hj (by simp [hsi, hj]),
    vec_copy_getD M _ _ j hj (by simp [hsi, hj]), vec_copy_full M ui ri hui hri]
  ring

/-- A row of the adjoint residual formed by `main` for a time index that has a successor,
entry by entry. -/
theorem adjoint_residual_row (dt dx nu : K) (M : Nat) (U0 ui wi wn ri si : List K)
    (hwi : wi.length = M) (hri : ri.length = M) (hsi : si.length = M) (j : Nat) (hj : j < M) :
    (vec_axpy M (-1)
      (vec_scale M (dx * dt) (vec_copy M U0 (vec_copy M wn
        (BlockGS.apply_Aadjoint dt dx nu M (vec_copy M wi si)))))
      (vec_axpy M (-1)
        (vec_copy M wn (BlockGS.apply_Aadjoint dt dx nu M (vec_copy M wi si)))
        (vec_axpy M 1 (BlockGS.apply_Aadjoint dt dx nu M (vec_copy M wi si))
          (vec_scale M (dx * dt) (vec_copy M ui ri))))).getD j 0
      = dx * dt * (ui.getD j 0 - U0.getD j 0) + (BlockGS.apply_Aadjoint dt dx nu M wi).getD j 0
        - wn.getD j 0 := by
  rw [vec_axpy_getD M _ _ _ j hj (by simp [hri, hj]),
    vec_axpy_getD M _ _ _ j hj (by simp [hri, hj]),
    vec_axpy_getD M _ _ _ j hj (by simp [hri, hj]),
    vec_scale_getD M _ _ j hj (by simp [hri, hj]),
    vec_copy_getD M _ _ j hj (by simp [hri, hj]),
    vec_scale_getD M _ _ j hj (by simp [hsi, hj]),
    vec_copy_getD M _ _ j hj (by simp [hsi, hj]),
    vec_copy_getD M _ _ j hj (by simp [hsi, hj]), vec_copy_full M wi si hwi hsi]
  ring

/-- The last row of the adjoint residual formed by `main`, entry by entry. -/
theorem adjoint_residual_last_row (dt dx nu : K) (M : Nat) (U0 ui wi ri si : List K)
    (hwi : wi.length = M) (hri : ri.length = M) (hsi : si.length = M) (j : Nat) (hj : j < M) :
    (vec_axpy M (-1)
      (vec_scale M (dx * dt) (vec_copy M U0
        (BlockGS.apply_Aadjoint dt dx nu M (vec_copy M wi si))))
      (vec_axpy M 1 (BlockGS.apply_Aadjoint dt dx nu M (vec_copy M wi si))
        (vec_scale M (dx * dt) (vec_copy M ui ri)))).getD j 0
      = dx * dt * (ui.getD j 0 - U0.getD j 0)
        + (BlockGS.apply_Aadjoint dt dx nu M wi).getD j 0 := by
  rw [vec_axpy_getD M _ _ _ j hj (by simp [hri, hj]),
    vec_axpy_getD M _ _ _ j hj (by simp [hri, hj]),
    vec_scale_getD M _ _ j hj (by simp [hri, hj]),
    vec_copy_getD M _ _ j hj (by simp [hri, hj]),
    vec_scale_getD M _ _ j hj (by simp [hsi, hj]),
    vec_copy_getD M _ _ j hj (by simp [hsi, hj]), vec_copy_full M wi si hwi hsi]
  ring

/-- A row of the control residual formed by `main`, entry by entry. -/
theorem control_residual_row (dt dx alpha : K) (M : Nat) (vi wi ri si : List K)
    (hri : ri.length = M) (hsi : si.length = M) (j : Nat) (hj : j < M) :
    (vec_axpy M 1 (vec_scale M (-1 * dt) (vec_copy M wi si))
      (vec_scale M (alpha * dx * dt) (vec_copy M vi ri))).getD j 0
      = alpha * dx * dt * vi.getD j 0 - dt * wi.getD j 0 := by
  rw [vec_axpy_getD M _ _ _ j hj (by simp [hri, hj]),
    vec_scale_getD M _ _ j hj (by simp [hri, hj]),
    vec_copy_getD M _ _ j hj (by simp [hri, hj]),
    vec_scale_getD M _ _ j hj (by simp [hsi, hj]),
    vec_copy_getD M _ _ j hj (by simp [hsi, hj])]
  ring

/-- The sums accumulated by the residual section of `main` on histories of `N` rows of
length `M`, in terms of the three stages of the section. -/
theorem main_residual_sums (dt dx nu alpha : K) (N M : Nat) (U0 : List K)
    (u v w res res1 : List (List K)) (norm : K) (hN : 1 ≤ N)
    (hu : BlockGS.history_shape N M u) (hw : BlockGS.history_shape N M w)
    (hres : BlockGS.history_shape N M res) (hres1 : BlockGS.history_shape N M res1)
    (p1 p2 p3 : List (List K) × List (List K))
    (h1 : p1 = forUp 1 N (fun i (st : List (List K) × List (List K)) =>
        (st.1.set i (vec_axpy M 1 (vec_scale M (-1 * dt) (vec_copy M (v.getD i []) (st.2.getD i [])))
            (vec_axpy M (-1) (u.getD (i - 1) [])
              (BlockGS.apply_A dt dx nu M (vec_copy M (u.getD i []) (st.1.getD i []))))),
         st.2.set i (vec_scale M (-1 * dt) (vec_copy M (v.getD i []) (st.2.getD i [])))))
      (res.set 0 (vec_axpy M 1 (vec_scale M (-1 * dt) (vec_copy M (v.getD 0 []) (res1.getD 0 [])))
          (vec_axpy M (-1) U0
            (BlockGS.apply_A dt dx nu M (vec_copy M (u.getD 0 []) (res.getD 0 []))))),
       res1.set 0 (vec_scale M (-1 * dt) (vec_copy M (v.getD 0 []) (res1.getD 0 [])))))
    (h2 : p2 = forUp 0 (N - 1) (fun i (st : List (List K) × List (List K)) =>
        (st.1.set i (vec_axpy M (-1)
            (vec_scale M (dx * dt) (vec_copy M U0 (vec_copy M (w.getD (i + 1) [])
              (BlockGS.apply_Aadjoint dt dx nu M (vec_copy M (w.getD i []) (st.2.getD i []))))))
            (vec_axpy M (-1)
              (vec_copy M (w.getD (i + 1) [])
                (BlockGS.apply_Aadjoint dt dx nu M (vec_copy M (w.getD i []) (st.2.getD i []))))
              (vec_axpy M 1
                (BlockGS.apply_Aadjoint dt dx nu M (vec_copy M (w.getD i []) (st.2.getD i [])))
                (vec_scale M (dx * dt) (vec_copy M (u.getD i []) (st.1.getD i [])))))),
         st.2.set i (vec_scale M (dx * dt) (vec_copy M U0 (vec_copy M (w.getD (i + 1) [])
              (BlockGS.apply_Aadjoint dt dx nu M (vec_copy M (w.getD i []) (st.2.getD i []))))))))
      p1)
    (h3 : p3 = forUp 0 (N - 1) (fun i (st : List (List K) × List (List K)) =>
        (st.1.set i (vec_axpy M 1 (vec_scale M (-1 * dt) (vec_copy M (w.getD i []) (st.2.getD i [])))
            (vec_scale M (alpha * dx * dt) (vec_copy M (v.getD i []) (st.1.getD i [])))),
         st.2.set i (vec_scale M (-1 * dt) (vec_copy M (w.getD i []) (st.2.getD i [])))))
      (p2.1.set (N - 1) (vec_axpy M (-1)
          (vec_scale M (dx * dt) (vec_copy M U0
            (BlockGS.apply_Aadjoint dt dx nu M
              (vec_copy M (w.getD (N - 1) []) (p2.2.getD (N - 1) [])))))
          (vec_axpy M 1
            (BlockGS.apply_Aadjoint dt dx nu M
              (vec_copy M (w.getD (N - 1) []) (p2.2.getD (N - 1) [])))
            (vec_scale M (dx * dt) (vec_copy M (u.getD (N - 1) []) (p2.1.getD (N - 1) []))))),
       p2.2.set (N - 1) (vec_scale M (dx * dt) (vec_copy M U0
            (BlockGS.apply_Aadjoint dt dx nu M
              (vec_copy M (w.getD (N - 1) []) (p2.2.getD (N - 1) []))))))) :
    BlockGS.main_accumulate N M p3.1
      (BlockGS.main_accumulate N M
        (p2.1.set (N - 1) (vec_axpy M (-1)
          (vec_scale M (dx * dt) (vec_copy M U0
            (BlockGS.apply_Aadjoint dt dx nu M
              (vec_copy M (w.getD (N - 1) []) (p2.2.getD (N - 1) [])))))
          (vec_axpy M 1
            (BlockGS.apply_Aadjoint dt dx nu M
              (vec_copy M (w.getD (N - 1) []) (p2.2.getD (N - 1) [])))
            (vec_scale M (dx * dt) (vec_copy M (u.getD (N - 1) []) (p2.1.getD (N - 1) []))))))
        (BlockGS.main_accumulate N M p1.1 norm))
      = norm
        + ∑ i in Finset.range N, ∑ j in Finset.range M,
            ((BlockGS.apply_A dt dx nu M (u.getD i [])).getD j 0
              - (if i = 0 then U0.getD j 0 else (u.getD (i - 1) []).getD j 0)
              - dt * (v.getD i []).getD j 0) ^ 2
        + ∑ i in Finset.range N, ∑ j in Finset.range M,
            (dx * dt * ((u.getD i []).getD j 0 - U0.getD j 0)
              + (BlockGS.apply_Aadjoint dt dx nu M (w.getD i [])).getD j 0
              - (if i + 1 < N then (w.getD (i + 1) []).getD j 0 else 0)) ^ 2
        + ∑ i in Finset.range N, ∑ j in Finset.range M,
            (if i + 1 < N then
              alpha * dx * dt * (v.getD i []).getD j 0 - dt * (w.getD i []).getD j 0
            else
              dx * dt * ((u.getD i []).getD j 0 - U0.getD j 0)
                + (BlockGS.apply_Aadjoint dt dx nu M (w.getD i [])).getD j 0) ^ 2 := by
  obtain ⟨hul, hur⟩ := hu
  obtain ⟨hwl, hwr⟩ := hw
  obtain ⟨hrl, hrr⟩ := hres
  obtain ⟨hsl, hsr⟩ := hres1
  -- stage 1
  obtain ⟨a1, a2, a3, a4, a5, a6⟩ := forUp_pair_rows 1 N
    (fun i a b => vec_axpy M 1 (vec_scale M (-1 * dt) (vec_copy M (v.getD i []) b))
      (vec_axpy M (-1) (u.getD (i - 1) []) (BlockGS.apply_A dt dx nu M (vec_copy M (u.getD i []) a))))
    (fun i _ b => vec_scale M (-1 * dt) (vec_copy M (v.getD i []) b)) _ _ [] p1 h1
  simp only [List.length_set] at a1 a2 a3 a4
  have r1 : ∀ i, i < N → (p1.1.getD i []).length = M ∧ (p1.2.getD i []).length = M ∧
      ∀ j, j < M → (p1.1.getD i []).getD j 0
        = (BlockGS.apply_A dt dx nu M (u.getD i [])).getD j 0
          - (if i = 0 then U0.getD j 0 else (u.getD (i - 1) []).getD j 0)
          - dt * (v.getD i []).getD j 0 := by
    intro i hi
    by_cases h0 : i = 0
    · subst h0
      rw [a5 0 (Or.inl Nat.one_pos), a6 0 (Or.inl Nat.one_pos), getD_set_eq, getD_set_eq,
        if_pos ⟨rfl, by omega⟩, if_pos ⟨rfl, by omega⟩]
      refine ⟨by
        simp only [vec_axpy_length, vec_scale_length, vec_copy_length, blockgs_apply_A_length,
        blockgs_apply_Aadjoint_length]
        exact hrr 0 hi, by
        simp only [vec_axpy_length, vec_scale_length, vec_copy_length, blockgs_apply_A_length,
        blockgs_apply_Aadjoint_length]
        exact hsr 0 hi, ?_⟩
      intro j hj
      rw [if_pos rfl]
      exact state_residual_row dt dx nu M _ _ _ _ _ (hur 0 hi) (hrr 0 hi) (hsr 0 hi) j hj
    · rw [a3 i (by omega) hi (by omega), a4 i (by omega) hi (by omega), getD_set_eq, getD_set_eq,
        if_neg (fun e => h0 e.1.symm), if_neg (fun e => h0 e.1.symm)]
      refine ⟨by
        simp only [vec_axpy_length, vec_scale_length, vec_copy_length, blockgs_apply_A_length,
        blockgs_apply_Aadjoint_length]
        exact hrr i hi, by
        simp only [vec_axpy_length, vec_scale_length, vec_copy_length, blockgs_apply_A_length,
        blockgs_apply_Aadjoint_length]
        exact hsr i hi, ?_⟩
      intro j hj
      rw [if_neg h0]
      exact state_residual_row dt dx nu M _ _ _ _ _ (hur i hi) (hrr i hi) (hsr i hi) j hj
  -- stage 2
  obtain ⟨b1, b2, b3, b4, b5, b6⟩ := forUp_pair_rows 0 (N - 1)
    (fun i a b => vec_axpy M (-1)
      (vec_scale M (dx * dt) (vec_copy M U0 (vec_copy M (w.getD (i + 1) [])
        (BlockGS.apply_Aadjoint dt dx nu M (vec_copy M (w.getD i []) b)))))
      (vec_axpy M (-1)
        (vec_copy M (w.getD (i + 1) [])
          (BlockGS.apply_Aadjoint dt dx nu M (vec_copy M (w.getD i []) b)))
        (vec_axpy M 1 (BlockGS.apply_Aadjoint dt dx nu M (vec_copy M (w.getD i []) b))
          (vec_scale M (dx * dt) (vec_copy M (u.getD i []) a)))))
    (fun i _ b => vec_scale M (dx * dt) (vec_copy M U0 (vec_copy M (w.getD (i + 1) [])
      (BlockGS.apply_Aadjoint dt dx nu M (vec_copy M (w.getD i []) b)))))
    p1.1 p1.2 [] p2 (by rw [h2])
  have r2 : ∀ i, i + 1 < N → (p2.1.getD i []).length = M ∧ (p2.2.getD i []).length = M ∧
      ∀ j, j < M → (p2.1.getD i []).getD j 0
        = dx * dt * ((u.getD i []).getD j 0 - U0.getD j 0)
          + (BlockGS.apply_Aadjoint dt dx nu M (w.getD i [])).getD j 0
          - (w.getD (i + 1) []).getD j 0 := by
    intro i hi
    obtain ⟨l1, l2, -⟩ := r1 i (by omega)
    rw [b3 i (Nat.zero_le _) (by omega) (by omega), b4 i (Nat.zero_le _) (by omega) (by omega)]
    refine ⟨by
        simp only [vec_axpy_length, vec_scale_length, vec_copy_length, blockgs_apply_A_length,
        blockgs_apply_Aadjoint_length]
        exact l1, by
        simp only [vec_axpy_length, vec_scale_length, vec_copy_length, blockgs_apply_A_length,
        blockgs_apply_Aadjoint_length]
        exact l2, ?_⟩
    intro j hj
    exact adjoint_residual_row dt dx nu M U0 _ _ _ _ _ (hwr i (by omega)) l1 l2 j hj
  have r2l : (∀ j, j < M →
      (vec_axpy M (-1)
          (vec_scale M (dx * dt) (vec_copy M U0
            (BlockGS.apply_Aadjoint dt dx nu M
              (vec_copy M (w.getD (N - 1) []) (p2.2.getD (N - 1) [])))))
          (vec_axpy M 1
            (BlockGS.apply_Aadjoint dt dx nu M
              (vec_copy M (w.getD (N - 1) []) (p2.2.getD (N - 1) [])))
            (vec_scale M (dx * dt) (vec_copy M (u.getD (N - 1) []) (p2.1.getD (N - 1) []))))).getD
        j 0
        = dx * dt * ((u.getD (N - 1) []).getD j 0 - U0.getD j 0)
          + (BlockGS.apply_Aadjoint dt dx nu M (w.getD (N - 1) [])).getD j 0) := by
    obtain ⟨l1, l2, -⟩ := r1 (N - 1) (by omega)
    intro j hj
    exact adjoint_residual_last_row dt dx nu M U0 _ _ _ _ (hwr (N - 1) (by omega))
      (by rw [b5 (N - 1) (Or.inr le_rfl)]; exact l1)
      (by rw [b6 (N - 1) (Or.inr le_rfl)]; exact l2) j hj
  -- stage 3
  obtain ⟨c1, c2, c3, c4, c5, c6⟩ := forUp_pair_rows 0 (N - 1)
    (fun i a b => vec_axpy M 1 (vec_scale M (-1 * dt) (vec_copy M (w.getD i []) b))
      (vec_scale M (alpha * dx * dt) (vec_copy M (v.getD i []) a)))
    (fun i _ b => vec_scale M (-1 * dt) (vec_copy M (w.getD i []) b)) _ _ [] p3 h3
  simp only [List.length_set] at c1 c2 c3 c4
  have r3 : ∀ i, i + 1 < N → ∀ j, j < M → (p3.1.getD i []).getD j 0
      = alpha * dx * dt * (v.getD i []).getD j 0 - dt * (w.getD i []).getD j 0 := by
    intro i hi j hj
    obtain ⟨l1, l2, -⟩ := r2 i hi
    rw [c3 i (Nat.zero_le _) (by omega) (by omega), getD_set_eq, getD_set_eq,
      if_neg (fun e => by omega), if_neg (fun e => by omega)]
    exact control_residual_row dt dx alpha M _ _ _ _ l1 l2 j hj
  rw [main_accumulate_eq_sum, main_accumulate_eq_sum, main_accumulate_eq_sum]
  congr 1
  · congr 1
    · congr 1
      apply Finset.sum_congr rfl
      intro i hi
      apply Finset.sum_congr rfl
      intro j hj
      rw [(r1 i (Finset.mem_range.1 hi)).2.2 j (Finset.mem_range.1 hj)]
      ring
    · apply Finset.sum_congr rfl
      intro i hi
      apply Finset.sum_congr rfl
      intro j hj
      have hi' := Finset.mem_range.1 hi
      have hj' := Finset.mem_range.1 hj
      rw [getD_set_eq]
      by_cases hl : i + 1 < N
      · rw [if_neg (fun e => by omega), if_pos hl, (r2 i hl).2.2 j hj']
        ring
      · have e : i = N - 1 := by omega
        subst e
        rw [if_pos ⟨rfl, by omega⟩, if_neg hl, r2l j hj']
        ring
  · apply Finset.sum_congr rfl
    intro i hi
    apply Finset.sum_congr rfl
    intro j hj
    have hi' := Finset.mem_range.1 hi
    have hj' := Finset.mem_range.1 hj
    by_cases hl : i + 1 < N
    · rw [if_pos hl, r3 i hl j hj']
      ring
    · have e : i = N - 1 := by omega
      subst e
      rw [if_neg hl, c5 (N - 1) (Or.inr le_rfl), getD_set_eq, if_pos ⟨rfl, by omega⟩, r2l j hj']
      ring

/-- The norm computed by the residual section of `main` on histories of `N ≥ 1` rows of length
`M`: the square root of the sum of the squares of the state residual, of the adjoint
residual, and of the control residual of the rows `0 .. N-2` followed by the adjoint residual
of the last row. -/
theorem main_residual_norm (sqrt : K → K) (dt dx nu alpha : K) (N M : Nat) (U0 : List K)
    (u v w res res1 : List (List K)) (norm : K) (hN : 1 ≤ N)
    (hu : BlockGS.history_shape N M u) (hw : BlockGS.history_shape N M w)
    (hres : BlockGS.history_shape N M res) (hres1 : BlockGS.history_shape N M res1) :
    (BlockGS.main_residual sqrt dt dx nu alpha N M U0 u v w res res1 norm).2.2
      = sqrt (norm
        + ∑ i in Finset.range N, ∑ j in Finset.range M,
            ((BlockGS.apply_A dt dx nu M (u.getD i [])).getD j 0
              - (if i = 0 then U0.getD j 0 else (u.getD (i - 1) []).getD j 0)
              - dt * (v.getD i []).getD j 0) ^ 2
        + ∑ i in Finset.range N, ∑ j in Finset.range M,
            (dx * dt * ((u.getD i []).getD j 0 - U0.getD j 0)
              + (BlockGS.apply_Aadjoint dt dx nu M (w.getD i [])).getD j 0
              - (if i + 1 < N then (w.getD (i + 1) []).getD j 0 else 0)) ^ 2
        + ∑ i in Finset.range N, ∑ j in Finset.range M,
            (if i + 1 < N then
              alpha * dx * dt * (v.getD i []).getD j 0 - dt * (w.getD i []).getD j 0
            else
              dx * dt * ((u.getD i []).getD j 0 - U0.getD j 0)
                + (BlockGS.apply_Aadjoint dt dx nu M (w.getD i [])).getD j 0) ^ 2) := by
  rw [main_residual_staged sqrt dt dx nu alpha N M U0 u v w res res1 norm _ _ _ rfl rfl rfl]
  exact congrArg sqrt
    (main_residual_sums dt dx nu alpha N M U0 u v w res res1 norm hN hu hw hres hres1
      _ _ _ rfl rfl rfl)

/-- The forward sweep keeps the number of rows. -/
theorem main_forward_solve_length (dt dx nu : K) (N M : Nat) (U0 li ai : List K)
    (v u : List (List K)) :
    (BlockGS.main_forward_solve dt dx nu N M U0 li ai v u).length = u.length := by
  unfold BlockGS.main_forward_solve
  simp only []
  rw [forUp_set_length 1 N (fun i (acc : List (List K)) => _)]
  simp only [List.length_set]

/-- The backward sweep keeps the number of rows. -/
theorem main_backward_solve_length (dt dx nu : K) (N M : Nat) (U0 li ai : List K)
    (u w : List (List K)) :
    (BlockGS.main_backward_solve dt dx nu N M U0 li ai u w).length = w.length := by
  unfold BlockGS.main_backward_solve
  simp only []
  rw [forDown_set_length (N - 1) (fun i (acc : List (List K)) => _)]
  simp only [List.length_set]

/-- The control update keeps the number of rows. -/
theorem main_control_update_length (dt dx nu alpha : K) (N M : Nat) (li ai : List K)
    (w v : List (List K)) :
    (BlockGS.main_control_update dt dx nu alpha N M li ai w v).length = v.length := by
  unfold BlockGS.main_control_update
  rw [forUp_set_length 0 N (fun i (acc : List (List K)) => _)]

/-- The rows of the control history after the update. -/
theorem main_control_update_rows (dt dx nu alpha : K) (N M : Nat) (li ai : List K)
    (w v : List (List K)) (hv : BlockGS.history_shape N M v) (i : Nat) (hi : i < N) :
    (BlockGS.main_control_update dt dx nu alpha N M li ai w v).getD i []
      = BlockGS.apply_Vinv dt dx alpha M
          (BlockGS.apply_D dt dx nu M (vec_copy M (w.getD i []) (vec_create M)) li ai) := by
  unfold BlockGS.main_control_update
  rw [forUp_set_getD_inside 0 N (fun i old => BlockGS.apply_Vinv dt dx alpha M
      (BlockGS.apply_D dt dx nu M (vec_copy M (w.getD i []) old) li ai)) v i []
      (Nat.zero_le _) hi (by rw [hv.1]; exact hi),
    vec_copy_canon M _ _ (hv.2 i hi)]

/-- The control history after the update has the shape of the history it overwrites, and
its entries are `dt*w/(alpha*dx*dt)`. -/
theorem main_control_update_spec (dt dx nu alpha : K) (N M : Nat) (li ai : List K)
    (w v : List (List K)) (hv : BlockGS.history_shape N M v) :
    BlockGS.history_shape N M (BlockGS.main_control_update dt dx nu alpha N M li ai w v) ∧
    ∀ i, i < N → ∀ j, j < M →
      ((BlockGS.main_control_update dt dx nu alpha N M li ai w v).getD i []).getD j 0
        = dt * (w.getD i []).getD j 0 / (alpha * dx * dt) := by
  refine ⟨⟨by rw [main_control_update_length, hv.1], ?_⟩, ?_⟩
  · intro i hi
    rw [main_control_update_rows dt dx nu alpha N M li ai w v hv i hi]
    simp
  · intro i hi j hj
    rw [main_control_update_rows dt dx nu alpha N M li ai w v hv i hi,
      blockgs_apply_Vinv_getD dt dx alpha M _ j hj (by simpa using hj),
      blockgs_apply_D_getD dt dx nu M _ li ai j hj (by simpa using hj),
      vec_copy_getD M _ _ j hj (by simpa using hj)]
    ring

/-- The state history after the forward sweep has the shape of the history it overwrites
and does not depend on the content of that history. -/
theorem main_forward_solve_spec (dt dx nu : K) (N M : Nat) (U0 li ai : List K)
    (v u : List (List K)) (hN : 1 ≤ N) (hu : BlockGS.history_shape N M u)
    (hv : BlockGS.history_shape N M v) :
    BlockGS.history_shape N M (BlockGS.main_forward_solve dt dx nu N M U0 li ai v u) ∧
    ∀ u2, BlockGS.history_shape N M u2 →
      BlockGS.main_forward_solve dt dx nu N M U0 li ai v u2
        = BlockGS.main_forward_solve dt dx nu N M U0 li ai v u := by
  obtain ⟨h0, hi, hlen⟩ := main_forward_solve_rows dt dx nu N M U0 li ai v u hN hu.1 hu.2 hv.2
  refine ⟨⟨by rw [main_forward_solve_length, hu.1], hlen⟩, ?_⟩
  intro u2 hu2
  obtain ⟨k0, ki, -⟩ := main_forward_solve_rows dt dx nu N M U0 li ai v u2 hN hu2.1 hu2.2 hv.2
  apply list_eq_of_getD [] _ _ (by rw [main_forward_solve_length, main_forward_solve_length,
    hu.1, hu2.1])
  intro i hiN
  rw [main_forward_solve_length, hu2.1] at hiN
  induction i with
  | zero => rw [k0, h0]
  | succ n ih =>
    rw [ki (n + 1) (by omega) hiN, hi (n + 1) (by omega) hiN]
    simp only [Nat.add_sub_cancel]
    rw [ih (by omega)]

/-- The rows of the adjoint history after the backward sweep have the length of the rows of
the state history, and the history does not depend on the content of the history it
overwrites. -/
theorem main_backward_solve_spec (dt dx nu : K) (N M : Nat) (U0 li ai : List K)
    (u w : List (List K)) (hN : 1 ≤ N) (hw : BlockGS.history_shape N M w)
    (hu : BlockGS.history_shape N M u) :
    BlockGS.history_shape N M (BlockGS.main_backward_solve dt dx nu N M U0 li ai u w) ∧
    ∀ w2, BlockGS.history_shape N M w2 →
      BlockGS.main_backward_solve dt dx nu N M U0 li ai u w2
        = BlockGS.main_backward_solve dt dx nu N M U0 li ai u w := by
  obtain ⟨hl, hi⟩ := main_backward_solve_rows dt dx nu N M U0 li ai u w hN hw.1 hw.2 hu.2
  refine ⟨⟨by rw [main_backward_solve_length, hw.1], ?_⟩, ?_⟩
  · intro i hiN
    by_cases hlast : i + 1 < N
    · rw [hi i hlast]
      simp only [blockgs_apply_PhiAdjoint_length, vec_axpy_length, vec_scale_length]
      exact hu.2 i hiN
    · have e : i = N - 1 := by omega
      subst e
      rw [hl]
      simp only [blockgs_apply_PhiAdjoint_length, vec_axpy_length, vec_scale_length]
      exact hu.2 _ hiN
  · intro w2 hw2
    obtain ⟨kl, ki⟩ := main_backward_solve_rows dt dx nu N M U0 li ai u w2 hN hw2.1 hw2.2 hu.2
    apply list_eq_of_getD [] _ _ (by rw [main_backward_solve_length, main_backward_solve_length,
      hw.1, hw2.1])
    intro i hiN
    rw [main_backward_solve_length, hw2.1] at hiN
    have key : ∀ k, k < N →
        (BlockGS.main_backward_solve dt dx nu N M U0 li ai u w2).getD (N - 1 - k) []
          = (BlockGS.main_backward_solve dt dx nu N M U0 li ai u w).getD (N - 1 - k) [] := by
      intro k
      induction k with
      | zero => intro _; rw [Nat.sub_zero, kl, hl]
      | succ n ih =>
        intro hn
        have e : N - 1 - (n + 1) + 1 = N - 1 - n := by omega
        rw [ki (N - 1 - (n + 1)) (by omega), hi (N - 1 - (n + 1)) (by omega), e, ih (by omega)]
    have := key (N - 1 - i) (by omega)
    have e : N - 1 - (N - 1 - i) = i := by omega
    rwa [e] at this

/-- C31. One pass over the loop body of `main` of `block_gs.c` on histories of `N ≥ 1` rows
of length `M`: the state, control and adjoint histories and the norm it produces are those
of any other pass that starts with the same control history `v`, whatever the contents of
`u`, `w`, `res` and `res1` at the start of the two passes are. -/
theorem iteration_depends_on_control_only (sqrt : K → K) (dt dx nu alpha : K) (N M : Nat)
    (U0 li ai : List K) (s s2 : BlockGS.main_state K) (hN : 1 ≤ N)
    (hs : BlockGS.main_state_shape N M s) (hs2 : BlockGS.main_state_shape N M s2)
    (hv : s2.v = s.v) :
    (BlockGS.main_iteration sqrt dt dx nu alpha N M U0 li ai s2).1.u
      = (BlockGS.main_iteration sqrt dt dx nu alpha N M U0 li ai s).1.u ∧
    (BlockGS.main_iteration sqrt dt dx nu alpha N M U0 li ai s2).1.v
      = (BlockGS.main_iteration sqrt dt dx nu alpha N M U0 li ai s).1.v ∧
    (BlockGS.main_iteration sqrt dt dx nu alpha N M U0 li ai s2).1.w
      = (BlockGS.main_iteration sqrt dt dx nu alpha N M U0 li ai s).1.w ∧
    (BlockGS.main_iteration sqrt dt dx nu alpha N M U0 li ai s2).2
      = (BlockGS.main_iteration sqrt dt dx nu alpha N M U0 li ai s).2 := by
  obtain ⟨hu, hvs, hw, hres, hres1⟩ := hs
  obtain ⟨hu2, -, hw2, hres2, hres12⟩ := hs2
  obtain ⟨fshape, findep⟩ := main_forward_solve_spec dt dx nu N M U0 li ai s.v s.u hN hu hvs
  have eU : BlockGS.main_forward_solve dt dx nu N M U0 li ai s2.v s2.u
      = BlockGS.main_forward_solve dt dx nu N M U0 li ai s.v s.u := by
    rw [hv]; exact findep s2.u hu2
  obtain ⟨bshape, bindep⟩ := main_backward_solve_spec dt dx nu N M U0 li ai
    (BlockGS.main_forward_solve dt dx nu N M U0 li ai s.v s.u) s.w hN hw fshape
  have eW : BlockGS.main_backward_solve dt dx nu N M U0 li ai
        (BlockGS.main_forward_solve dt dx nu N M U0 li ai s2.v s2.u) s2.w
      = BlockGS.main_backward_solve dt dx nu N M U0 li ai
        (BlockGS.main_forward_solve dt dx nu N M U0 li ai s.v s.u) s.w := by
    rw [eU]; exact bindep s2.w hw2
  have eV : BlockGS.main_control_update dt dx nu alpha N M li ai
        (BlockGS.main_backward_solve dt dx nu N M U0 li ai
          (BlockGS.main_forward_solve dt dx nu N M U0 li ai s2.v s2.u) s2.w) s2.v
      = BlockGS.main_control_update dt dx nu alpha N M li ai
        (BlockGS.main_backward_solve dt dx nu N M U0 li ai
          (BlockGS.main_forward_solve dt dx nu N M U0 li ai s.v s.u) s.w) s.v := by
    rw [eW, hv]
  refine ⟨eU, eV, eW, ?_⟩
  have en : (BlockGS.main_residual sqrt dt dx nu alpha N M U0
        (BlockGS.main_forward_solve dt dx nu N M U0 li ai s2.v s2.u)
        (BlockGS.main_control_update dt dx nu alpha N M li ai
          (BlockGS.main_backward_solve dt dx nu N M U0 li ai
            (BlockGS.main_forward_solve dt dx nu N M U0 li ai s2.v s2.u) s2.w) s2.v)
        (BlockGS.main_backward_solve dt dx nu N M U0 li ai
          (BlockGS.main_forward_solve dt dx nu N M U0 li ai s2.v s2.u) s2.w)
        s2.res s2.res1 0).2.2
      = (BlockGS.main_residual sqrt dt dx nu alpha N M U0
        (BlockGS.main_forward_solve dt dx nu N M U0 li ai s.v s.u)
        (BlockGS.main_control_update dt dx nu alpha N M li ai
          (BlockGS.main_backward_solve dt dx nu N M U0 li ai
            (BlockGS.main_forward_solve dt dx nu N M U0 li ai s.v s.u) s.w) s.v)
        (BlockGS.main_backward_solve dt dx nu N M U0 li ai
          (BlockGS.main_forward_solve dt dx nu N M U0 li ai s.v s.u) s.w)
        s.res s.res1 0).2.2 := ?_
  · exact congrArg BlockGS.c_double.finite en
  rw [eV, eW, eU,
    main_residual_norm sqrt dt dx nu alpha N M U0 _ _ _ s2.res s2.res1 0 hN fshape bshape
      hres2 hres12,
    main_residual_norm sqrt dt dx nu alpha N M U0 _ _ _ s.res s.res1 0 hN fshape bshape
      hres hres1]

/-- Two passes that start with the same control history and different state, adjoint and
scratch histories. -/
theorem iteration_depends_on_control_only_witness :
    1 ≤ 2 ∧ BlockGS.main_state_shape 2 3 gs_pass_a ∧ BlockGS.main_state_shape 2 3 gs_pass_b ∧
    gs_pass_b.v = gs_pass_a.v ∧ gs_pass_b.u ≠ gs_pass_a.u ∧
    ((BlockGS.main_iteration id (1 / 2) (1 / 4) 1 1 2 3 gsU0 gs_li gs_ai gs_pass_b).1.u
      = (BlockGS.main_iteration id (1 / 2) (1 / 4) 1 1 2 3 gsU0 gs_li gs_ai gs_pass_a).1.u ∧
    (BlockGS.main_iteration id (1 / 2) (1 / 4) 1 1 2 3 gsU0 gs_li gs_ai gs_pass_b).1.v
      = (BlockGS.main_iteration id (1 / 2) (1 / 4) 1 1 2 3 gsU0 gs_li gs_ai gs_pass_a).1.v ∧
    (BlockGS.main_iteration id (1 / 2) (1 / 4) 1 1 2 3 gsU0 gs_li gs_ai gs_pass_b).1.w
      = (BlockGS.main_iteration id (1 / 2) (1 / 4) 1 1 2 3 gsU0 gs_li gs_ai gs_pass_a).1.w ∧
    (BlockGS.main_iteration id (1 / 2) (1 / 4) 1 1 2 3 gsU0 gs_li gs_ai gs_pass_b).2
      = (BlockGS.main_iteration id (1 / 2) (1 / 4) 1 1 2 3 gsU0 gs_li gs_ai gs_pass_a).2) :=
  have ha : BlockGS.main_state_shape 2 3 gs_pass_a := by
    unfold BlockGS.main_state_shape BlockGS.history_shape; decide
  have hb : BlockGS.main_state_shape 2 3 gs_pass_b := by
    unfold BlockGS.main_state_shape BlockGS.history_shape; decide
  ⟨by decide, ha, hb, rfl, by decide,
    iteration_depends_on_control_only id (1 / 2 : ℚ) (1 / 4) 1 1 2 3 gsU0 gs_li gs_ai
      gs_pass_a gs_pass_b (by decide) ha hb rfl⟩

/-- With pivots and multipliers that factor the matrix of `apply_A`, the rows of the state
history computed by the forward sweep solve the state equation with the control history
the sweep is run with. -/
theorem forward_sweep_solves_of_isLU (dt dx nu : K) (N M : Nat) (U0 li ai : List K)
    (v u : List (List K)) (hN : 1 ≤ N) (hM : 3 ≤ M)
    (hLU : IsLU (-dt / (2 * dx) - nu * dt / (dx * dx)) (1 + 2 * nu * dt / (dx * dx))
      (dt / (2 * dx) - nu * dt / (dx * dx)) M li ai)
    (hu : BlockGS.history_shape N M u) (hv : BlockGS.history_shape N M v)
    (i : Nat) (hi : i < N) (j : Nat) (hj : j < M) :
    (BlockGS.apply_A dt dx nu M
        ((BlockGS.main_forward_solve dt dx nu N M U0 li ai v u).getD i [])).getD j 0
      - (if i = 0 then U0.getD j 0
          else ((BlockGS.main_forward_solve dt dx nu N M U0 li ai v u).getD (i - 1) []).getD j 0)
      = dt * (v.getD i []).getD j 0 := by
  obtain ⟨h0, hr, hlen⟩ := main_forward_solve_rows dt dx nu N M U0 li ai v u hN hu.1 hu.2 hv.2
  have inv : ∀ f : List K, f.length = M →
      BlockGS.apply_A dt dx nu M (BlockGS.apply_Phi dt dx nu M f li ai) = f :=
    fun f hf => tridiag_apply_lu_solve _ _ _ M _ _ f hLU (by omega) hf
  by_cases hz : i = 0
  · subst hz
    rw [if_pos rfl, h0, inv _ (by
        simp only [vec_axpy_length, blockgs_apply_D_length]; exact hv.2 0 hi),
      vec_axpy_getD M 1 _ _ j hj (by
        simp only [blockgs_apply_D_length]; rw [hv.2 0 hi]; exact hj),
      blockgs_apply_D_getD dt dx nu M _ _ _ j hj (by rw [hv.2 0 hi]; exact hj)]
    ring
  · rw [if_neg hz, hr i (by omega) hi, inv _ (by
        simp only [vec_axpy_length, blockgs_apply_D_length]; exact hv.2 i hi),
      vec_axpy_getD M 1 _ _ j hj (by
        simp only [blockgs_apply_D_length]; rw [hv.2 i hi]; exact hj),
      blockgs_apply_D_getD dt dx nu M _ _ _ j hj (by rw [hv.2 i hi]; exact hj)]
    ring

/-- With pivots and multipliers that factor the matrix of `apply_A`, the rows of the adjoint
history computed by the backward sweep solve the adjoint equation with the state history
the sweep is run with. -/
theorem backward_sweep_solves_of_isLU (dt dx nu : K) (N M : Nat) (U0 li ai : List K)
    (u w : List (List K)) (hN : 1 ≤ N) (hM : 3 ≤ M)
    (hLU : IsLU (-dt / (2 * dx) - nu * dt / (dx * dx)) (1 + 2 * nu * dt / (dx * dx))
      (dt / (2 * dx) - nu * dt / (dx * dx)) M li ai)
    (hw : BlockGS.history_shape N M w) (hu : BlockGS.history_shape N M u)
    (i : Nat) (hi : i < N) (j : Nat) (hj : j < M) :
    dx * dt * ((u.getD i []).getD j 0 - U0.getD j 0)
      + (BlockGS.apply_Aadjoint dt dx nu M
          ((BlockGS.main_backward_solve dt dx nu N M U0 li ai u w).getD i [])).getD j 0
      - (if i + 1 < N then
          ((BlockGS.main_backward_solve dt dx nu N M U0 li ai u w).getD (i + 1) []).getD j 0
        else 0) = 0 := by
  obtain ⟨hl, hr⟩ := main_backward_solve_rows dt dx nu N M U0 li ai u w hN hw.1 hw.2 hu.2
  have inv : ∀ f : List K, f.length = M →
      BlockGS.apply_Aadjoint dt dx nu M (BlockGS.apply_PhiAdjoint dt dx nu M f li ai) = f :=
    fun f hf => tridiag_apply_lu_solve_adjoint _ _ _ M _ _ f hLU (by omega) hf
  have hju : j < (u.getD i []).length := by rw [hu.2 i hi]; exact hj
  by_cases hlast : i + 1 < N
  · rw [if_pos hlast, hr i hlast, inv _ (by
        simp only [vec_axpy_length, vec_scale_length]; exact hu.2 i hi),
      vec_axpy_getD M 1 _ _ j hj (by simpa using hju),
      vec_scale_getD M _ _ j hj (by simpa using hju),
      vec_axpy_getD M 1 _ _ j hj (by simpa using hju), vec_scale_getD M _ _ j hj hju]
    ring
  · have e : i = N - 1 := by omega
    subst e
    rw [if_neg hlast, hl, inv _ (by
        simp only [vec_axpy_length, vec_scale_length]; exact hu.2 _ hi),
      vec_scale_getD M _ _ j hj (by simpa using hju),
      vec_axpy_getD M 1 _ _ j hj (by simpa using hju), vec_scale_getD M _ _ j hj hju]
    ring

/-- With the factorization built by `main`, the rows of the state history computed by the
forward sweep solve the state equation with the control history the sweep is run with. -/
theorem forward_sweep_solves (dt dx nu : K) (N M : Nat) (U0 : List K)
    (v u : List (List K)) (hN : 1 ≤ N) (hM : 3 ≤ M) (hdt : 0 < dt) (hdx : 0 < dx)
    (hnu : 0 ≤ nu) (hu : BlockGS.history_shape N M u) (hv : BlockGS.history_shape N M v)
    (i : Nat) (hi : i < N) (j : Nat) (hj : j < M) :
    (BlockGS.apply_A dt dx nu M
        ((BlockGS.main_forward_solve dt dx nu N M U0 (BlockGS.build_LU dt dx nu M).2
          (BlockGS.build_LU dt dx nu M).1 v u).getD i [])).getD j 0
      - (if i = 0 then U0.getD j 0
          else ((BlockGS.main_forward_solve dt dx nu N M U0 (BlockGS.build_LU dt dx nu M).2
            (BlockGS.build_LU dt dx nu M).1 v u).getD (i - 1) []).getD j 0)
      = dt * (v.getD i []).getD j 0 :=
  forward_sweep_solves_of_isLU dt dx nu N M U0 _ _ v u hN hM
    (blockgs_isLU dt dx nu M (by omega) hdt hdx hnu) hu hv i hi j hj

/-- With the factorization built by `main`, the rows of the adjoint history computed by
the backward sweep solve the adjoint equation with the state history the sweep is run
with. -/
theorem backward_sweep_solves (dt dx nu : K) (N M : Nat) (U0 : List K)
    (u w : List (List K)) (hN : 1 ≤ N) (hM : 3 ≤ M) (hdt : 0 < dt) (hdx : 0 < dx)
    (hnu : 0 ≤ nu) (hw : BlockGS.history_shape N M w) (hu : BlockGS.history_shape N M u)
    (i : Nat) (hi : i < N) (j : Nat) (hj : j < M) :
    dx * dt * ((u.getD i []).getD j 0 - U0.getD j 0)
      + (BlockGS.apply_Aadjoint dt dx nu M
          ((BlockGS.main_backward_solve dt dx nu N M U0 (BlockGS.build_LU dt dx nu M).2
            (BlockGS.build_LU dt dx nu M).1 u w).getD i [])).getD j 0
      - (if i + 1 < N then
          ((BlockGS.main_backward_solve dt dx nu N M U0 (BlockGS.build_LU dt dx nu M).2
            (BlockGS.build_LU dt dx nu M).1 u w).getD (i + 1) []).getD j 0
        else 0) = 0 :=
  backward_sweep_solves_of_isLU dt dx nu N M U0 _ _ u w hN hM
    (blockgs_isLU dt dx nu M (by omega) hdt hdx hnu) hw hu i hi j hj

/-- Two histories of the same shape with the same entries are equal. -/
theorem history_eq_of_entries (N M : Nat) (x y : List (List K))
    (hx : BlockGS.history_shape N M x) (hy : BlockGS.history_shape N M y)
    (h : ∀ i, i < N → ∀ j, j < M → (x.getD i []).getD j 0 = (y.getD i []).getD j 0) :
    x = y := by
  apply list_eq_of_getD [] x y (by rw [hx.1, hy.1])
  intro i hi
  rw [hx.1] at hi
  apply list_eq_of_getD 0 _ _ (by rw [hx.2 i hi, hy.2 i hi])
  intro j hj
  rw [hx.2 i hi] at hj
  exact h i hi j hj

/-- C33. One pass over the loop body of `main` of `block_gs.c`, in exact arithmetic, for
`N ≥ 1`, `M ≥ 3`, `dt > 0`, `dx > 0`, `nu ≥ 0`, `alpha ≠ 0`, with the factorization built by
`main`, on histories of `N` rows of length `M`: the adjoint residual and the control residual
of the histories the pass produces vanish, entry by entry; for a `sqrt` with
`sqrt (a^2 x) = a sqrt x` (`a, x ≥ 0`) that vanishes at `0` only, the norm computed at the end
of the pass is `dt` times the Euclidean norm, over the whole history, of `v_old - v_new`;
and it is `0` exactly when the control history the pass produces is the one it started
with. -/
theorem iteration_residual_norm (sqrt : K → K) (dt dx nu alpha : K) (N M : Nat) (U0 : List K)
    (s : BlockGS.main_state K) (hN : 1 ≤ N) (hM : 3 ≤ M) (hdt : 0 < dt) (hdx : 0 < dx)
    (hnu : 0 ≤ nu) (hal : alpha ≠ 0) (hs : BlockGS.main_state_shape N M s)
    (hsq0 : ∀ x, 0 ≤ x → (sqrt x = 0 ↔ x = 0))
    (hsqm : ∀ a x, 0 ≤ a → 0 ≤ x → sqrt (a ^ 2 * x) = a * sqrt x) :
    (∀ i, i < N → ∀ j, j < M →
      dx * dt * (((BlockGS.main_iteration sqrt dt dx nu alpha N M U0
            (BlockGS.build_LU dt dx nu M).2 (BlockGS.build_LU dt dx nu M).1 s).1.u.getD i []).getD
              j 0 - U0.getD j 0)
        + (BlockGS.apply_Aadjoint dt dx nu M
            ((BlockGS.main_iteration sqrt dt dx nu alpha N M U0
              (BlockGS.build_LU dt dx nu M).2 (BlockGS.build_LU dt dx nu M).1 s).1.w.getD
                i [])).getD j 0
        - (if i + 1 < N then
            ((BlockGS.main_iteration sqrt dt dx nu alpha N M U0
              (BlockGS.build_LU dt dx nu M).2 (BlockGS.build_LU dt dx nu M).1 s).1.w.getD
                (i + 1) []).getD j 0
          else 0) = 0) ∧
    (∀ i, i < N → ∀ j, j < M →
      alpha * dx * dt * ((BlockGS.main_iteration sqrt dt dx nu alpha N M U0
            (BlockGS.build_LU dt dx nu M).2 (BlockGS.build_LU dt dx nu M).1 s).1.v.getD i []).getD
              j 0
        - dt * ((BlockGS.main_iteration sqrt dt dx nu alpha N M U0
            (BlockGS.build_LU dt dx nu M).2 (BlockGS.build_LU dt dx nu M).1 s).1.w.getD i []).getD
              j 0 = 0) ∧
    (BlockGS.main_iteration sqrt dt dx nu alpha N M U0
        (BlockGS.build_LU dt dx nu M).2 (BlockGS.build_LU dt dx nu M).1 s).2
      = BlockGS.c_double.finite (dt * sqrt (∑ i in Finset.range N, ∑ j in Finset.range M,
          ((s.v.getD i []).getD j 0
            - ((BlockGS.main_iteration sqrt dt dx nu alpha N M U0
                (BlockGS.build_LU dt dx nu M).2 (BlockGS.build_LU dt dx nu M).1 s).1.v.getD
                  i []).getD j 0) ^ 2)) ∧
    ((BlockGS.main_iteration sqrt dt dx nu alpha N M U0
        (BlockGS.build_LU dt dx nu M).2 (BlockGS.build_LU dt dx nu M).1 s).2
      = BlockGS.c_double.finite 0 ↔
      (BlockGS.main_iteration sqrt dt dx nu alpha N M U0
        (BlockGS.build_LU dt dx nu M).2 (BlockGS.build_LU dt dx nu M).1 s).1.v = s.v) := by
  obtain ⟨hu, hv, hw, hres, hres1⟩ := hs
  obtain ⟨U, hU⟩ : ∃ U, U = BlockGS.main_forward_solve dt dx nu N M U0
    (BlockGS.build_LU dt dx nu M).2 (BlockGS.build_LU dt dx nu M).1 s.v s.u := ⟨_, rfl⟩
  obtain ⟨W, hW⟩ : ∃ W, W = BlockGS.main_backward_solve dt dx nu N M U0
    (BlockGS.build_LU dt dx nu M).2 (BlockGS.build_LU dt dx nu M).1 U s.w := ⟨_, rfl⟩
  obtain ⟨V, hV⟩ : ∃ V, V = BlockGS.main_control_update dt dx nu alpha N M
    (BlockGS.build_LU dt dx nu M).2 (BlockGS.build_LU dt dx nu M).1 W s.v := ⟨_, rfl⟩
  have hOUT : BlockGS.main_iteration sqrt dt dx nu alpha N M U0
      (BlockGS.build_LU dt dx nu M).2 (BlockGS.build_LU dt dx nu M).1 s
      = ({ u := U, v := V, w := W,
           res := (BlockGS.main_residual sqrt dt dx nu alpha N M U0 U V W s.res s.res1 0).1,
           res1 := (BlockGS.main_residual sqrt dt dx nu alpha N M U0 U V W s.res s.res1 0).2.1 },
         BlockGS.c_double.finite
          (BlockGS.main_residual sqrt dt dx nu alpha N M U0 U V W s.res s.res1 0).2.2) := by
    subst hV hW hU
    rfl
  have fshape : BlockGS.history_shape N M U := by
    rw [hU]
    exact (main_forward_solve_spec dt dx nu N M U0 _ _ s.v s.u hN hu hv).1
  have fsolve := forward_sweep_solves dt dx nu N M U0 s.v s.u hN hM hdt hdx hnu hu hv
  rw [← hU] at fsolve
  have bshape : BlockGS.history_shape N M W := by
    rw [hW]
    exact (main_backward_solve_spec dt dx nu N M U0 _ _ U s.w hN hw fshape).1
  have bsolve := backward_sweep_solves dt dx nu N M U0 U s.w hN hM hdt hdx hnu hw fshape
  rw [← hW] at bsolve
  obtain ⟨cshape, centry⟩ := main_control_update_spec dt dx nu alpha N M
    (BlockGS.build_LU dt dx nu M).2 (BlockGS.build_LU dt dx nu M).1 W s.v hv
  rw [← hV] at cshape centry
  have hne : alpha * dx * dt ≠ 0 := mul_ne_zero (mul_ne_zero hal (ne_of_gt hdx)) (ne_of_gt hdt)
  have czero : ∀ i, i < N → ∀ j, j < M →
      alpha * dx * dt * (V.getD i []).getD j 0 - dt * (W.getD i []).getD j 0 = 0 := by
    intro i hi j hj
    rw [centry i hi j hj, mul_div_cancel₀ _ hne]
    ring
  have hnorm : (BlockGS.main_residual sqrt dt dx nu alpha N M U0 U V W s.res s.res1 0).2.2
      = dt * sqrt (∑ i in Finset.range N, ∑ j in Finset.range M,
          ((s.v.getD i []).getD j 0 - (V.getD i []).getD j 0) ^ 2) := by
    rw [main_residual_norm sqrt dt dx nu alpha N M U0 U V W s.res s.res1 0 hN fshape bshape
      hres hres1]
    have e1 : (∑ i in Finset.range N, ∑ j in Finset.range M,
        ((BlockGS.apply_A dt dx nu M (U.getD i [])).getD j 0
          - (if i = 0 then U0.getD j 0 else (U.getD (i - 1) []).getD j 0)
          - dt * (V.getD i []).getD j 0) ^ 2)
        = dt ^ 2 * ∑ i in Finset.range N, ∑ j in Finset.range M,
          ((s.v.getD i []).getD j 0 - (V.getD i []).getD j 0) ^ 2 := by
      rw [Finset.mul_sum]
      apply Finset.sum_congr rfl
      intro i hi
      rw [Finset.mul_sum]
      apply Finset.sum_congr rfl
      intro j hj
      rw [fsolve i (Finset.mem_range.1 hi) j (Finset.mem_range.1 hj)]
      ring
    have e2 : (∑ i in Finset.range N, ∑ j in Finset.range M,
        (dx * dt * ((U.getD i []).getD j 0 - U0.getD j 0)
          + (BlockGS.apply_Aadjoint dt dx nu M (W.getD i [])).getD j 0
          - (if i + 1 < N then (W.getD (i + 1) []).getD j 0 else 0)) ^ 2) = 0 := by
      apply Finset.sum_eq_zero
      intro i hi
      apply Finset.sum_eq_zero
      intro j hj
      rw [bsolve i (Finset.mem_range.1 hi) j (Finset.mem_range.1 hj)]
      ring
    have e3 : (∑ i in Finset.range N, ∑ j in Finset.range M,
        (if i + 1 < N then
          alpha * dx * dt * (V.getD i []).getD j 0 - dt * (W.getD i []).getD j 0
        else
          dx * dt * ((U.getD i []).getD j 0 - U0.getD j 0)
            + (BlockGS.apply_Aadjoint dt dx nu M (W.getD i [])).getD j 0) ^ 2) = 0 := by
      apply Finset.sum_eq_zero
      intro i hi
      apply Finset.sum_eq_zero
      intro j hj
      have hi' := Finset.mem_range.1 hi
      have hj' := Finset.mem_range.1 hj
      by_cases hl : i + 1 < N
      · rw [if_pos hl, czero i hi' j hj']
        ring
      · have hb := bsolve i hi' j hj'
        rw [if_neg hl, sub_zero] at hb
        rw [if_neg hl, hb]
        ring
    rw [e1, e2, e3, zero_add, add_zero, add_zero]
    exact hsqm dt _ hdt.le
      (Finset.sum_nonneg (fun i _ => Finset.sum_nonneg (fun j _ => sq_nonneg _)))
  rw [hOUT]
  simp only []
  refine ⟨bsolve, czero, congrArg BlockGS.c_double.finite hnorm, ?_⟩
  rw [hnorm]
  constructor
  · intro h
    have h0 : dt * sqrt (∑ i in Finset.range N, ∑ j in Finset.range M,
        ((s.v.getD i []).getD j 0 - (V.getD i []).getD j 0) ^ 2) = 0 := by
      injection h
    have h1 : sqrt (∑ i in Finset.range N, ∑ j in Finset.range M,
        ((s.v.getD i []).getD j 0 - (V.getD i []).getD j 0) ^ 2) = 0 := by
      rcases mul_eq_zero.1 h0 with h | h
      · exact absurd h (ne_of_gt hdt)
      · exact h
    rw [hsq0 _ (Finset.sum_nonneg (fun i _ => Finset.sum_nonneg (fun j _ => sq_nonneg _))),
      Finset.sum_eq_zero_iff_of_nonneg (fun i _ => Finset.sum_nonneg (fun j _ => sq_nonneg _))]
      at h1
    apply history_eq_of_entries N M V s.v cshape hv
    intro i hi j hj
    have h2 := h1 i (Finset.mem_range.2 hi)
    rw [Finset.sum_eq_zero_iff_of_nonneg (fun j _ => sq_nonneg _)] at h2
    have h3 := pow_eq_zero_iff (two_ne_zero) |>.1 (h2 j (Finset.mem_range.2 hj))
    exact (sub_eq_zero.1 h3).symm
  · intro h
    rw [h]
    have e : (∑ i in Finset.range N, ∑ j in Finset.range M,
        ((s.v.getD i []).getD j 0 - (s.v.getD i []).getD j 0) ^ 2) = 0 := by
      apply Finset.sum_eq_zero
      intro i _
      apply Finset.sum_eq_zero
      intro j _
      ring
    rw [e, (hsq0 0 le_rfl).2 rfl, mul_zero]

/-- One pass with the real square root on a history of two time steps and three space
points. -/
theorem iteration_residual_norm_witness :
    1 ≤ 2 ∧ 3 ≤ 3 ∧ (0 : ℝ) < 1 / 2 ∧ (0 : ℝ) < 1 / 4 ∧ (0 : ℝ) ≤ 1 ∧ (1 : ℝ) ≠ 0 ∧
    BlockGS.main_state_shape 2 3
      ({ u := [[1, 2, 3], [4, 5, 6]], v := [[2, 4, 6], [0, 2, 4]],
         w := [[1, 0, 2], [0, 3, 1]], res := [[0, 0, 0], [0, 0, 0]],
         res1 := [[0, 0, 0], [0, 0, 0]] } : BlockGS.main_state ℝ) ∧
    (∀ x : ℝ, 0 ≤ x → (Real.sqrt x = 0 ↔ x = 0)) ∧
    (∀ a x : ℝ, 0 ≤ a → 0 ≤ x → Real.sqrt (a ^ 2 * x) = a * Real.sqrt x) ∧
    (BlockGS.main_iteration Real.sqrt (1 / 2) (1 / 4) 1 1 2 3 [1, 0, 0]
      (BlockGS.build_LU (1 / 2 : ℝ) (1 / 4) 1 3).2
      (BlockGS.build_LU (1 / 2 : ℝ) (1 / 4) 1 3).1
      ({ u := [[1, 2, 3], [4, 5, 6]], v := [[2, 4, 6], [0, 2, 4]],
         w := [[1, 0, 2], [0, 3, 1]], res := [[0, 0, 0], [0, 0, 0]],
         res1 := [[0, 0, 0], [0, 0, 0]] } : BlockGS.main_state ℝ)).2
      = BlockGS.c_double.finite
        (1 / 2 * Real.sqrt (∑ i in Finset.range 2, ∑ j in Finset.range 3,
          ((([[2, 4, 6], [0, 2, 4]] : List (List ℝ)).getD i []).getD j 0
            - ((
              (BlockGS.main_iteration Real.sqrt (1 / 2) (1 / 4) 1 1 2 3 [1, 0, 0]
                (BlockGS.build_LU (1 / 2 : ℝ) (1 / 4) 1 3).2
                (BlockGS.build_LU (1 / 2 : ℝ) (1 / 4) 1 3).1
                ({ u := [[1, 2, 3], [4, 5, 6]], v := [[2, 4, 6], [0, 2, 4]],
                   w := [[1, 0, 2], [0, 3, 1]], res := [[0, 0, 0], [0, 0, 0]],
                   res1 := [[0, 0, 0], [0, 0, 0]] } : BlockGS.main_state ℝ)).1.v.getD i []).getD j 0)) ^ 2)) ∧
    (
      (BlockGS.main_iteration Real.sqrt (1 / 2) (1 / 4) 1 1 2 3 [1, 0, 0]
        (BlockGS.build_LU (1 / 2 : ℝ) (1 / 4) 1 3).2
        (BlockGS.build_LU (1 / 2 : ℝ) (1 / 4) 1 3).1
        ({ u := [[1, 2, 3], [4, 5, 6]], v := [[2, 4, 6], [0, 2, 4]],
           w := [[1, 0, 2], [0, 3, 1]], res := [[0, 0, 0], [0, 0, 0]],
           res1 := [[0, 0, 0], [0, 0, 0]] } : BlockGS.main_state ℝ)).2
      = BlockGS.c_double.finite 0 ↔
      (BlockGS.main_iteration Real.sqrt (1 / 2) (1 / 4) 1 1 2 3 [1, 0, 0]
        (BlockGS.build_LU (1 / 2 : ℝ) (1 / 4) 1 3).2
        (BlockGS.build_LU (1 / 2 : ℝ) (1 / 4) 1 3).1
        ({ u := [[1, 2, 3], [4, 5, 6]], v := [[2, 4, 6], [0, 2, 4]],
           w := [[1, 0, 2], [0, 3, 1]], res := [[0, 0, 0], [0, 0, 0]],
           res1 := [[0, 0, 0], [0, 0, 0]] } : BlockGS.main_state ℝ)).1.v
      = [[2, 4, 6], [0, 2, 4]]) := by
  have hs : BlockGS.main_state_shape 2 3
      ({ u := [[1, 2, 3], [4, 5, 6]], v := [[2, 4, 6], [0, 2, 4]],
         w := [[1, 0, 2], [0, 3, 1]], res := [[0, 0, 0], [0, 0, 0]],
         res1 := [[0, 0, 0], [0, 0, 0]] } : BlockGS.main_state ℝ) := by
    unfold BlockGS.main_state_shape BlockGS.history_shape
    decide
  have h0 : ∀ x : ℝ, 0 ≤ x → (Real.sqrt x = 0 ↔ x = 0) := fun x hx => Real.sqrt_eq_zero hx
  have hm : ∀ a x : ℝ, 0 ≤ a → 0 ≤ x → Real.sqrt (a ^ 2 * x) = a * Real.sqrt x :=
    fun a x ha _ => by rw [Real.sqrt_mul (sq_nonneg a), Real.sqrt_sq ha]
  have h := iteration_residual_norm Real.sqrt (1 / 2 : ℝ) (1 / 4) 1 1 2 3 [1, 0, 0]
    ({ u := [[1, 2, 3], [4, 5, 6]], v := [[2, 4, 6], [0, 2, 4]],
       w := [[1, 0, 2], [0, 3, 1]], res := [[0, 0, 0], [0, 0, 0]],
       res1 := [[0, 0, 0], [0, 0, 0]] } : BlockGS.main_state ℝ)
    (by decide) (by decide) (by norm_num) (by norm_num) (by norm_num) (by norm_num) hs h0 hm
  exact ⟨by decide, by decide, by norm_num, by norm_num, by norm_num, by norm_num, hs, h0, hm,
    h.2.2.1, h.2.2.2⟩

end DriverPass

/-! ## The serial Burgers simulation -/

section BurgersClaims

variable {K : Type} [LinearOrderedField K]

/-- A loop that writes entry `i` of row `0` at step `i` is a loop on row `0`. -/
theorem forUp_row_zero {α : Type} (n : Nat) (c : Nat → α) (w : List (List α)) :
    forUp 0 n (fun i w => w.set 0 ((w.getD 0 []).set i (c i))) w
      = w.set 0 (forUp 0 n (fun i r => r.set i (c i)) (w.getD 0 [])) := by
  induction n with
  | zero =>
    rw [forUp_of_le _ _ _ _ le_rfl, forUp_of_le _ _ _ _ le_rfl]
    apply list_eq_of_getD [] _ _ (by simp)
    intro j _
    rw [getD_set_eq]
    split_ifs with h
    · rw [h.1]
    · rfl
  | succ n ih =>
    rw [forUp_succ _ _ _ _ (Nat.zero_le n), forUp_succ _ _ _ _ (Nat.zero_le n), ih]
    apply list_eq_of_getD [] _ _ (by simp)
    intro j _
    simp only [getD_set_eq, List.length_set]
    by_cases h0 : 0 < w.length
    · by_cases hj : j = 0
      · subst hj
        simp [h0]
      · have hj2 : ¬ (0 = j) := fun e => hj e.symm
        simp [hj2]
    · simp [h0]

/-- The initial condition written by `main`: entry `0` is `0`, the entries `1 .. mspace/2-1`
are `1`, the other entries are `0`; the rows `1 ..` are as allocated. -/
theorem burgers_initial_row (ntime mspace : Nat) (hN : 1 ≤ ntime) :
    (forUp 0 mspace
      (fun i (w : List (List K)) =>
        if i = 0 then w.set 0 ((w.getD 0 []).set i 0)
        else if (i : Int) ≤ (mspace : Int) / 2 - 1 then w.set 0 ((w.getD 0 []).set i 1)
        else w.set 0 ((w.getD 0 []).set i 0))
      (List.replicate ntime (vec_create mspace))).length = ntime ∧
    ((forUp 0 mspace
      (fun i (w : List (List K)) =>
        if i = 0 then w.set 0 ((w.getD 0 []).set i 0)
        else if (i : Int) ≤ (mspace : Int) / 2 - 1 then w.set 0 ((w.getD 0 []).set i 1)
        else w.set 0 ((w.getD 0 []).set i 0))
      (List.replicate ntime (vec_create mspace))).getD 0 []).length = mspace ∧
    ∀ j, j < mspace →
      ((forUp 0 mspace
        (fun i (w : List (List K)) =>
          if i = 0 then w.set 0 ((w.getD 0 []).set i 0)
          else if (i : Int) ≤ (mspace : Int) / 2 - 1 then w.set 0 ((w.getD 0 []).set i 1)
          else w.set 0 ((w.getD 0 []).set i 0))
        (List.replicate ntime (vec_create mspace))).getD 0 []).getD j 0
        = if j = 0 then 0 else if (j : Int) ≤ (mspace : Int) / 2 - 1 then 1 else 0 := by
  have hbody : (fun i (w : List (List K)) =>
        if i = 0 then w.set 0 ((w.getD 0 []).set i 0)
        else if (i : Int) ≤ (mspace : Int) / 2 - 1 then w.set 0 ((w.getD 0 []).set i 1)
        else w.set 0 ((w.getD 0 []).set i 0))
      = (fun i (w : List (List K)) => w.set 0 ((w.getD 0 []).set i
          (if i = 0 then (0 : K) else if (i : Int) ≤ (mspace : Int) / 2 - 1 then 1 else 0))) := by
    funext i w
    split_ifs <;> rfl
  rw [hbody, forUp_row_zero]
  have hrow : (List.replicate ntime (vec_create mspace : List K)).getD 0 [] = vec_create mspace := by
    obtain ⟨n, rfl⟩ : ∃ n, ntime = n + 1 := ⟨ntime - 1, by omega⟩
    rfl
  have hlen : (List.replicate ntime (vec_create mspace : List K)).length = ntime := by simp
  refine ⟨by simp, ?_, ?_⟩
  · rw [getD_set_eq, if_pos ⟨rfl, by omega⟩, hrow]
    rw [forUp_set_length 0 mspace (fun i _ =>
      (if i = 0 then (0 : K) else if (i : Int) ≤ (mspace : Int) / 2 - 1 then 1 else 0))]
    simp
  · intro j hj
    rw [getD_set_eq, if_pos ⟨rfl, by omega⟩, hrow]
    exact forUp_set_getD_inside 0 mspace (fun i _ =>
      (if i = 0 then (0 : K) else if (i : Int) ≤ (mspace : Int) / 2 - 1 then 1 else 0))
      (vec_create mspace) j 0 (Nat.zero_le _) hj (by simpa using hj)

/-- One call of `my_Step` on a block of length `mspace ≥ 2`: the block returned has length
`mspace`, its last entry is the last entry of the argument, and its first entry is computed
from the first two entries of the argument. -/
theorem burgers_my_Step_spec (ntime mspace : Nat) (nu : K) (u : List K) (hM : 2 ≤ mspace) :
    (Burgers.my_Step ntime mspace nu u).length = mspace ∧
    (Burgers.my_Step ntime mspace nu u).getD (mspace - 1) 0 = u.getD (mspace - 1) 0 ∧
    (Burgers.my_Step ntime mspace nu u).getD 0 0
      = (1 - 2 * nu * (1 / (ntime : K)) / (1 / ((mspace : K) - 1) * (1 / ((mspace : K) - 1))))
          * u.getD 0 0
        + nu * (1 / (ntime : K)) / (1 / ((mspace : K) - 1) * (1 / ((mspace : K) - 1)))
          * u.getD 1 0
        - 1 / (ntime : K) * (u.getD 1 0 * u.getD 1 0 / (4 * (1 / ((mspace : K) - 1)))) := by
  have hcast : ((((mspace : Int) - 1 : Int)) : K) = (mspace : K) - 1 := by push_cast; ring
  unfold Burgers.my_Step
  simp only [hcast]
  refine ⟨?_, ?_, ?_⟩
  · rw [forUp_set_length 1 (mspace - 1) (fun i _ => _)]
    simp
  · rw [forUp_set_getD_outside 1 (mspace - 1) (fun i _ => _) _ (mspace - 1) 0 (Or.inr le_rfl),
      getD_set_eq, if_neg (by rintro ⟨h, -⟩; omega),
      vec_copy_getD mspace u _ (mspace - 1) (by omega) (by simp; omega)]
  · rw [forUp_set_getD_outside 1 (mspace - 1) (fun i _ => _) _ 0 0 (Or.inl Nat.one_pos),
      getD_set_eq, if_pos ⟨rfl, by simp; omega⟩]

/-- The rows of the history: row `0` is the initial condition and row `i + 1` is `my_Step`
of row `i`. -/
theorem burgers_history_rows (ntime mspace : Nat) (nu : K) (hN : 1 ≤ ntime) :
    (∀ j, j < mspace → ((Burgers.main_history ntime mspace nu).getD 0 []).getD j 0
      = if j = 0 then 0 else if (j : Int) ≤ (mspace : Int) / 2 - 1 then 1 else 0) ∧
    ((Burgers.main_history ntime mspace nu).getD 0 []).length = mspace ∧
    ∀ i, i + 1 < ntime → (Burgers.main_history ntime mspace nu).getD (i + 1) []
      = Burgers.my_Step ntime mspace nu ((Burgers.main_history ntime mspace nu).getD i []) := by
  obtain ⟨hl, hr, he⟩ := burgers_initial_row (K := K) ntime mspace hN
  refine ⟨?_, ?_, ?_⟩
  · intro j hj
    unfold Burgers.main_history
    simp only []
    rw [forUp_rec_getD_zero ntime (fun i (acc : List (List K)) => _)]
    exact he j hj
  · unfold Burgers.main_history
    simp only []
    rw [forUp_rec_getD_zero ntime (fun i (acc : List (List K)) => _)]
    exact hr
  · intro i hi
    unfold Burgers.main_history
    simp only []
    rw [forUp_rec_getD ntime (fun _ prev => Burgers.my_Step ntime mspace nu prev) _ [] (i + 1)
      (by omega) hi (by rw [hl]; exact hi)]
    rfl

/-- C40 fails in the code: for `ntime ≥ 1`, `mspace ≥ 4` and every `nu`, every stored time
level of `visc-burgers-serial.c` has the value `0` at the last spatial entry and the initial
level has the value `0` at the first spatial entry, but `my_Step` overwrites the first entry:
as soon as `ntime ≥ 2` the level `w[1]` has the value `nu*dt/dx^2 - dt/(4*dx)` at the first
entry (`dt = 1/ntime`, `dx = 1/(mspace-1)`), which is not `0` in general. -/
theorem burgers_boundary_values (ntime mspace : Nat) (nu : K) (hN : 1 ≤ ntime)
    (hM : 4 ≤ mspace) :
    (∀ i, i < ntime →
      ((Burgers.main_history ntime mspace nu).getD i []).getD (mspace - 1) 0 = 0) ∧
    ((Burgers.main_history ntime mspace nu).getD 0 []).getD 0 0 = 0 ∧
    (2 ≤ ntime →
      ((Burgers.main_history ntime mspace nu).getD 1 []).getD 0 0
        = nu * (1 / (ntime : K)) / (1 / ((mspace : K) - 1) * (1 / ((mspace : K) - 1)))
          - 1 / (ntime : K) / (4 * (1 / ((mspace : K) - 1)))) := by
  obtain ⟨h0, hlen0, hstep⟩ := burgers_history_rows (K := K) ntime mspace nu hN
  refine ⟨?_, ?_, ?_⟩
  · intro i
    induction i with
    | zero =>
      intro _
      rw [h0 (mspace - 1) (by omega), if_neg (by omega), if_neg (by omega)]
    | succ n ih =>
      intro hn
      rw [hstep n hn, (burgers_my_Step_spec ntime mspace nu _ (by omega)).2.1]
      exact ih (by omega)
  · rw [h0 0 (by omega), if_pos rfl]
  · intro h2
    rw [hstep 0 (by omega), (burgers_my_Step_spec ntime mspace nu _ (by omega)).2.2,
      h0 0 (by omega), h0 1 (by omega), if_pos rfl, if_neg (by omega), if_pos (by omega)]
    ring

/-- The history for the default configuration of the program, `ntime = 512`, `mspace = 16`,
`nu = 0.1`: the level `w[1]` has the value `75/2048` at `x = 0`. -/
theorem burgers_boundary_values_witness :
    1 ≤ 512 ∧ 4 ≤ 16 ∧
    ((Burgers.main_history 512 16 (1 / 10 : ℚ)).getD 1 []).getD 0 0 = 75 / 2048 ∧
    ((Burgers.main_history 512 16 (1 / 10 : ℚ)).getD 1 []).getD 0 0 ≠ 0 := by
  have h := (burgers_boundary_values 512 16 (1 / 10 : ℚ) (by decide) (by decide)).2.2
    (by decide)
  have e : ((Burgers.main_history 512 16 (1 / 10 : ℚ)).getD 1 []).getD 0 0 = 75 / 2048 := by
    rw [h]; norm_num
  exact ⟨by decide, by decide, e, by rw [e]; norm_num⟩

end BurgersClaims

end OMGrit
